import Mathlib

/-!
# Snipper rule engine: a shallow embedding and its verified properties

The development follows the C++ sources under `src/runtime`:

* `Json`            : the value type `nlohmann::json` (`using Value = json`, core/context.h),
                      with the library operators the engine calls (`==`, `<`, `dump`, `value`, ...)
* `Context`         : core/context.cpp
* `Eval`            : condition/operators.cpp
* `ExprNode`, `ExpressionParser` : expression/expression.cpp
* `Condition`       : condition/condition_evaluator.cpp
* `Rule`            : core/rule.cpp
* `PriorityManager`, `RuleGroupManager` : priority/priority_manager.cpp
* `Engine`          : core/engine.cpp

Conventions of the embedding.

* C++ exceptions are explicit: a function that can throw returns `Except Raised _`;
  a function that mutates state and can throw returns the state reached together with
  `Option Raised`.
* `uint64_t` values are natural numbers with explicit `% 2 ^ 64`; `int` values are integers,
  conversions to `int` wrap explicitly (`wrapInt32`).
* Doubles (`number_float`) are given by their exact rational value; the rounding of
  floating-point arithmetic, infinities and NaN are outside the embedding.
* `std::unordered_map` / `std::map` are association lists (first binding wins).
-/

namespace Snipper

/-! ## The JSON value type (`nlohmann::json`) -/

/-- A JSON value: `json` of the nlohmann library. Objects list their fields in key order
(the library keeps them in a `std::map`). -/
inductive Json where
  | null
  | bool (b : Bool)
  | int (i : Int)
  | float (q : ℚ)
  | str (s : String)
  | arr (xs : List Json)
  | obj (kvs : List (String × Json))

/-- Exceptions that leave the engine code. The first three are met while parsing or
evaluating and derive from `std::exception` in the library; the last stands for an
exception of a type outside `std::exception` that an action function of the caller
throws. -/
inductive Raised where
  /-- Library `type_error` 302: a conversion (`get<T>`, implicit conversion) met the wrong type. -/
  | type_error_302
  /-- Library `type_error` 306: `value()` used on something that is not an object. -/
  | type_error_306
  /-- Read-only `operator[]` with a key the object does not have (an assertion failure of the
  library, undefined behaviour without assertions). -/
  | missing_key
  /-- An exception of a type that does not derive from `std::exception`, thrown by caller
  code. -/
  | thrown_by_action
  deriving DecidableEq, Repr

/-- The order `operator<` of `std::string`: lexicographic on the characters. -/
def strLt (a b : String) : Bool := decide (a.data < b.data)

namespace Json

def is_null : Json → Bool
  | .null => true
  | _ => false

def is_boolean : Json → Bool
  | .bool _ => true
  | _ => false

def is_number : Json → Bool
  | .int _ => true
  | .float _ => true
  | _ => false

def is_string : Json → Bool
  | .str _ => true
  | _ => false

def is_array : Json → Bool
  | .arr _ => true
  | _ => false

def is_object : Json → Bool
  | .obj _ => true
  | _ => false

/-- The rank of a value's type in the library's ordering of types
(`operator<(value_t, value_t)`): null, boolean, number, object, array, string. -/
def typeOrder : Json → Nat
  | .null => 0
  | .bool _ => 1
  | .int _ => 2
  | .float _ => 2
  | .obj _ => 3
  | .arr _ => 4
  | .str _ => 5

/-- Two values have the same JSON type; the three number kinds count as one type. -/
def sameType (a b : Json) : Bool := a.typeOrder == b.typeOrder

mutual
/-- Library `operator==`: values of the same type are compared by value, an integer and a
double numerically, values of different types are unequal. -/
def beq : Json → Json → Bool
  | .null, .null => true
  | .bool a, .bool b => a == b
  | .int a, .int b => decide (a = b)
  | .int a, .float b => decide ((a : ℚ) = b)
  | .float a, .int b => decide (a = (b : ℚ))
  | .float a, .float b => decide (a = b)
  | .str a, .str b => decide (a = b)
  | .arr xs, .arr ys => beqList xs ys
  | .obj xs, .obj ys => beqFields xs ys
  | _, _ => false
/-- Equality of arrays (`std::vector::operator==`): same length and equal elements. -/
def beqList : List Json → List Json → Bool
  | [], ys => ys.isEmpty
  | _ :: _, [] => false
  | x :: xs, y :: ys => if beq x y then beqList xs ys else false
/-- Equality of objects (`std::map::operator==`): same length and equal fields. -/
def beqFields : List (String × Json) → List (String × Json) → Bool
  | [], ys => ys.isEmpty
  | _ :: _, [] => false
  | (k, x) :: xs, (l, y) :: ys =>
      if k = l then (if beq x y then beqFields xs ys else false) else false
end

mutual
/-- Library `operator<`, computed in both directions at once: `ltBoth a b` is the pair
`(a < b, b < a)`. Values of the same type are compared by value (arrays and objects
lexicographically), an integer and a double numerically; for values of different types the
values are ignored and the order of the types decides (`typeOrder`). -/
def ltBoth : Json → Json → Bool × Bool
  | .null, .null => (false, false)
  | .bool a, .bool b => (!a && b, !b && a)
  | .int a, .int b => (decide (a < b), decide (b < a))
  | .int a, .float b => (decide ((a : ℚ) < b), decide (b < (a : ℚ)))
  | .float a, .int b => (decide (a < (b : ℚ)), decide ((b : ℚ) < a))
  | .float a, .float b => (decide (a < b), decide (b < a))
  | .str a, .str b => (strLt a b, strLt b a)
  | .arr xs, .arr ys => ltListBoth xs ys
  | .obj xs, .obj ys => ltFieldsBoth xs ys
  | .null, b => (decide (0 < b.typeOrder), decide (b.typeOrder < 0))
  | .bool _, b => (decide (1 < b.typeOrder), decide (b.typeOrder < 1))
  | .int _, b => (decide (2 < b.typeOrder), decide (b.typeOrder < 2))
  | .float _, b => (decide (2 < b.typeOrder), decide (b.typeOrder < 2))
  | .obj _, b => (decide (3 < b.typeOrder), decide (b.typeOrder < 3))
  | .arr _, b => (decide (4 < b.typeOrder), decide (b.typeOrder < 4))
  | .str _, b => (decide (5 < b.typeOrder), decide (b.typeOrder < 5))
/-- Lexicographic comparison of arrays (`std::lexicographical_compare`), both directions. -/
def ltListBoth : List Json → List Json → Bool × Bool
  | [], [] => (false, false)
  | [], _ :: _ => (true, false)
  | _ :: _, [] => (false, true)
  | x :: xs, y :: ys =>
      let p := ltBoth x y
      let r := ltListBoth xs ys
      (if p.1 then true else if p.2 then false else r.1,
       if p.2 then true else if p.1 then false else r.2)
/-- Lexicographic comparison of objects, field by field, a field being a key and its value
(`std::pair::operator<`), both directions. -/
def ltFieldsBoth : List (String × Json) → List (String × Json) → Bool × Bool
  | [], [] => (false, false)
  | [], _ :: _ => (true, false)
  | _ :: _, [] => (false, true)
  | (k, x) :: xs, (l, y) :: ys =>
      let p := ltBoth x y
      let r := ltFieldsBoth xs ys
      let fwd := strLt k l || (!strLt l k && p.1)
      let bwd := strLt l k || (!strLt k l && p.2)
      (if fwd then true else if bwd then false else r.1,
       if bwd then true else if fwd then false else r.2)
end

/-- Library `operator<`. -/
def lt (a b : Json) : Bool := (ltBoth a b).1

/-- Library `operator!=`. -/
def ne (a b : Json) : Bool := !beq a b

/-- Library `operator<=`: `!(rhs < lhs)`. -/
def le (a b : Json) : Bool := !lt b a

/-- Library `operator>`: `!(lhs <= rhs)`. -/
def gt (a b : Json) : Bool := !le a b

/-- Library `operator>=`: `!(lhs < rhs)`. -/
def ge (a b : Json) : Bool := !lt a b

/-- The field list of an object; any other value has none. -/
def fields : Json → List (String × Json)
  | .obj kvs => kvs
  | _ => []

/-- Library `find` on the field list of an object. -/
def lookup (key : String) : List (String × Json) → Option Json
  | [] => none
  | (k, v) :: rest => if k = key then some v else lookup key rest

/-- Library `contains(key)`: true iff the value is an object that has the key. -/
def contains (j : Json) (key : String) : Bool := (lookup key j.fields).isSome

/-- Read-only `operator[](key)`: the element under the key; the key must be present. -/
def atKey (j : Json) (key : String) : Except Raised Json :=
  match lookup key j.fields with
  | some v => .ok v
  | none => .error .missing_key

/-- Conversion `static_cast<int>` of an integer value: reduction to 32 bits, two-complement. -/
def wrapInt32 (i : Int) : Int := (i + 2 ^ 31) % 2 ^ 32 - 2 ^ 31

/-- Conversion of an `int` to `uint64_t`: reduction modulo `2 ^ 64`. -/
def toUInt64 (i : Int) : Nat := (i % 2 ^ 64).toNat

/-- Rounding of a double toward zero, as `static_cast<int>` does. -/
def truncRat (q : ℚ) : Int := Int.tdiv q.num q.den

/-- Library `get<std::string>()`: only a string converts. -/
def getString : Json → Except Raised String
  | .str s => .ok s
  | _ => .error .type_error_302

/-- Library `get<int>()`: numbers and booleans convert by `static_cast<int>`, every other
type raises. -/
def getInt : Json → Except Raised Int
  | .int i => .ok (wrapInt32 i)
  | .float q => .ok (wrapInt32 (truncRat q))
  | .bool b => .ok (if b then 1 else 0)
  | _ => .error .type_error_302

/-- Library `get<double>()` on a number (the callers test `is_number` first). -/
def getDouble : Json → ℚ
  | .int i => (i : ℚ)
  | .float q => q
  | _ => 0

/-- Library `get<bool>()` on a boolean (the callers test `is_boolean` first). -/
def getBool : Json → Bool
  | .bool b => b
  | _ => false

/-- Library `value(key, default)` with a string default: the member converted to a string
when present, the default when absent; not applicable to a value that is not an object. -/
def valueString (j : Json) (key : String) (dflt : String) : Except Raised String :=
  match j with
  | .obj kvs =>
      match lookup key kvs with
      | some v => getString v
      | none => .ok dflt
  | _ => .error .type_error_306

/-- Library `value(key, default)` with an `int` default. -/
def valueInt (j : Json) (key : String) (dflt : Int) : Except Raised Int :=
  match j with
  | .obj kvs =>
      match lookup key kvs with
      | some v => getInt v
      | none => .ok dflt
  | _ => .error .type_error_306

/-- Library `value(key, default)` with a `json` default: the member itself when present. -/
def valueJson (j : Json) (key : String) (dflt : Json) : Except Raised Json :=
  match j with
  | .obj kvs =>
      match lookup key kvs with
      | some v => .ok v
      | none => .ok dflt
  | _ => .error .type_error_306

/-! ### Serialisation (`dump()`, compact form) -/

/-- Four hexadecimal digits of a code unit below `0x20`, for the escape `u00XX`. -/
def hex4 (n : Nat) : String :=
  String.mk [Char.ofNat 48, Char.ofNat 48, Nat.digitChar (n / 16), Nat.digitChar (n % 16)]

/-- The escaped form of one character in a dumped string: quotation mark, reverse solidus
and the control characters below `0x20` are escaped, everything else is copied. -/
def escapeChar (c : Char) : String :=
  let bs := String.singleton (Char.ofNat 92)
  if c.toNat = 34 then bs ++ String.singleton (Char.ofNat 34)
  else if c.toNat = 92 then bs ++ bs
  else if c.toNat = 8 then bs ++ "b"
  else if c.toNat = 12 then bs ++ "f"
  else if c.toNat = 10 then bs ++ "n"
  else if c.toNat = 13 then bs ++ "r"
  else if c.toNat = 9 then bs ++ "t"
  else if c.toNat < 32 then bs ++ "u" ++ hex4 c.toNat
  else String.singleton c

/-- A string between quotation marks, escaped. -/
def dumpString (s : String) : String :=
  let q := String.singleton (Char.ofNat 34)
  q ++ String.join (s.data.map escapeChar) ++ q

/-- Decimal digits of the fraction `r / d` (with `r < d`), at most `fuel` of them. -/
def fracDigits : Nat → Nat → Nat → String
  | 0, _, _ => ""
  | fuel + 1, r, d =>
      if r = 0 then "" else toString (r * 10 / d) ++ fracDigits fuel (r * 10 % d) d

/-- The text of a double: integer part, a point and the decimal digits (`.0` for a whole
number). The library prints the shortest digits that read back to the same double and
switches to exponent form for very large and very small magnitudes; that agrees with this
text for whole numbers and short decimals of ordinary magnitude only. -/
def dumpFloat (q : ℚ) : String :=
  let n := q.num.natAbs
  (if q.num < 0 then "-" else "") ++ toString (n / q.den) ++ "." ++
    (if n % q.den = 0 then "0" else fracDigits 17 (n % q.den) q.den)

mutual
/-- Library `dump()`: the compact JSON text of a value. -/
def dump : Json → String
  | .null => "null"
  | .bool b => if b then "true" else "false"
  | .int i => toString i
  | .float q => dumpFloat q
  | .str s => dumpString s
  | .arr xs => "[" ++ dumpList xs ++ "]"
  | .obj kvs => String.singleton (Char.ofNat 123) ++ dumpFields kvs ++ String.singleton (Char.ofNat 125)
/-- Elements of an array, separated by commas. -/
def dumpList : List Json → String
  | [] => ""
  | [x] => dump x
  | x :: y :: rest => dump x ++ "," ++ dumpList (y :: rest)
/-- Fields of an object, separated by commas. -/
def dumpFields : List (String × Json) → String
  | [] => ""
  | [(k, x)] => dumpString k ++ ":" ++ dump x
  | (k, x) :: y :: rest => dumpString k ++ ":" ++ dump x ++ "," ++ dumpFields (y :: rest)
end

end Json

/-! ## Context (core/context.cpp) -/

/-- The sensor data of a tick: the map `data_` of class `Context`. -/
abbrev Context := List (String × Json)

namespace Context

/-- Method `Context::set`: `data_[key] = value`. -/
def set : Context → String → Json → Context
  | [], key, value => [(key, value)]
  | (k, v) :: rest, key, value =>
      if k = key then (k, value) :: rest else (k, v) :: set rest key value

/-- Method `Context::get`: the stored value, `null` for a missing key. -/
def get (ctx : Context) (key : String) : Json :=
  match Json.lookup key ctx with
  | some v => v
  | none => .null

/-- Method `Context::has`. -/
def has (ctx : Context) (key : String) : Bool := (Json.lookup key ctx).isSome

end Context

/-! ## Operators (condition/operators.cpp) -/

namespace Eval

/-- Function `Eval::cmp`: dispatch on the operator text to the library comparison. -/
def cmp (a : Json) (op : String) (b : Json) : Bool :=
  if op = "==" then Json.beq a b
  else if op = "!=" then Json.ne a b
  else if op = ">" then Json.gt a b
  else if op = "<" then Json.lt a b
  else if op = ">=" then Json.ge a b
  else if op = "<=" then Json.le a b
  else false

/-- Function `Eval::add`: sum of two numbers as a double, concatenation of two strings,
otherwise null. -/
def add (a b : Json) : Json :=
  if a.is_number && b.is_number then .float (a.getDouble + b.getDouble)
  else match a, b with
    | .str x, .str y => .str (x ++ y)
    | _, _ => .null

/-- Function `Eval::subtract`. -/
def subtract (a b : Json) : Json :=
  if a.is_number && b.is_number then .float (a.getDouble - b.getDouble) else .null

/-- Function `Eval::multiply`. -/
def multiply (a b : Json) : Json :=
  if a.is_number && b.is_number then .float (a.getDouble * b.getDouble) else .null

/-- Function `Eval::divide`: null for a zero divisor. -/
def divide (a b : Json) : Json :=
  if a.is_number && b.is_number then
    if b.getDouble ≠ 0 then .float (a.getDouble / b.getDouble) else .null
  else .null

/-- Function `Eval::modulo`: `fmod`, the remainder with the sign of the dividend; null for a
zero divisor. -/
def modulo (a b : Json) : Json :=
  if a.is_number && b.is_number then
    if b.getDouble ≠ 0 then
      .float (a.getDouble - b.getDouble * (Json.truncRat (a.getDouble / b.getDouble) : ℚ))
    else .null
  else .null

/-- The coercion to bool shared by `logical_and`, `logical_or` and `logical_not`: a boolean
is itself, a number is true iff it is not zero, any other value is true iff it is not null. -/
def toBool (a : Json) : Bool :=
  if a.is_boolean then a.getBool
  else if a.is_number then decide (a.getDouble ≠ 0)
  else !a.is_null

/-- Function `Eval::logical_and`. -/
def logical_and (a b : Json) : Json := .bool (toBool a && toBool b)

/-- Function `Eval::logical_or`. -/
def logical_or (a b : Json) : Json := .bool (toBool a || toBool b)

/-- Function `Eval::logical_not`. -/
def logical_not (a : Json) : Json := .bool (!toBool a)

/-- Substring test on character lists (`std::string::find(...) != npos`). -/
def hasSubstring (s sub : String) : Bool :=
  s.data.tails.any (fun t => sub.data.isPrefixOf t)

/-- Function `Eval::string_contains`. -/
def string_contains (str substr : Json) : Json :=
  match str, substr with
  | .str s, .str sub => .bool (hasSubstring s sub)
  | _, _ => .bool false

/-- Function `Eval::string_starts_with`. -/
def string_starts_with (str pfx : Json) : Json :=
  match str, pfx with
  | .str s, .str p => .bool (p.data.isPrefixOf s.data)
  | _, _ => .bool false

/-- Function `Eval::string_ends_with`. -/
def string_ends_with (str suffix : Json) : Json :=
  match str, suffix with
  | .str s, .str suf => .bool (suf.data.isSuffixOf s.data)
  | _, _ => .bool false

/-- Function `Eval::time_between`: a placeholder in the source, false on every input. -/
def time_between (_time _start _stop : Json) : Json := .bool false

/-- Function `Eval::day_of_week`: for a string argument the weekday of the current local
time (`tm_wday`, read from the system and passed in here), otherwise -1. -/
def day_of_week (tm_wday : Int) (time : Json) : Json :=
  if time.is_string then .int tm_wday else .int (-1)

/-- Function `Eval::avg_last_n`: a placeholder in the source, the current value. -/
def avg_last_n (ctx : Context) (var : String) (_n : Int) : Json := ctx.get var

/-- Function `Eval::max_last_n`: a placeholder in the source, the current value. -/
def max_last_n (ctx : Context) (var : String) (_n : Int) : Json := ctx.get var

/-- Function `Eval::trend`: a placeholder in the source, the integer 0. -/
def trend (_ctx : Context) (_var : String) (_n : Int) : Json := .int 0

end Eval

/-! ## Expressions (expression/expression.cpp) -/

/-- The enumeration `ExprType`. -/
inductive ExprType where
  | EXPR_VALUE
  | EXPR_VAR
  | EXPR_OP
  | EXPR_FUNC
  deriving DecidableEq, Repr

/-- A node of class `ExprNode`: its five data members. -/
inductive ExprNode where
  | mk (type : ExprType) (value : String) (op : String) (func_name : String)
      (children : List ExprNode)

namespace ExprNode

/-- The binary operators of the `EXPR_OP` case, applied to the two evaluated operands. -/
def applyOp (op : String) (left right : Json) : Json :=
  if op = "+" then Eval.add left right
  else if op = "-" then Eval.subtract left right
  else if op = "*" then Eval.multiply left right
  else if op = "/" then Eval.divide left right
  else if op = "%" then Eval.modulo left right
  else if op = "&&" then Eval.logical_and left right
  else if op = "||" then Eval.logical_or left right
  else if op = "==" then .bool (Json.beq left right)
  else if op = "!=" then .bool (Json.ne left right)
  else if op = ">" then .bool (Json.gt left right)
  else if op = "<" then .bool (Json.lt left right)
  else if op = ">=" then .bool (Json.ge left right)
  else if op = "<=" then .bool (Json.le left right)
  else .null

/-- Method `ExprNode::evaluate`. The source has no handler for the exceptions of the
library conversions, so they leave the function (`Except.error`). Arguments of a call are
evaluated from left to right. -/
def evaluate (tm_wday : Int) (ctx : Context) : ExprNode → Except Raised Json
  | .mk .EXPR_VALUE value _ _ _ => .ok (.str value)
  | .mk .EXPR_VAR value _ _ _ => .ok (ctx.get value)
  | .mk .EXPR_OP _ op _ (l :: r :: _) => do
      let left ← evaluate tm_wday ctx l
      let right ← evaluate tm_wday ctx r
      pure (applyOp op left right)
  | .mk .EXPR_OP _ _ _ _ => .ok .null
  | .mk .EXPR_FUNC _ _ _ [] => .ok .null
  | .mk .EXPR_FUNC _ _ func_name (a :: rest) =>
      if func_name = "contains" then
        match rest with
        | b :: _ => do
            let x ← evaluate tm_wday ctx a
            let y ← evaluate tm_wday ctx b
            pure (Eval.string_contains x y)
        | [] => .ok .null
      else if func_name = "starts_with" then
        match rest with
        | b :: _ => do
            let x ← evaluate tm_wday ctx a
            let y ← evaluate tm_wday ctx b
            pure (Eval.string_starts_with x y)
        | [] => .ok .null
      else if func_name = "ends_with" then
        match rest with
        | b :: _ => do
            let x ← evaluate tm_wday ctx a
            let y ← evaluate tm_wday ctx b
            pure (Eval.string_ends_with x y)
        | [] => .ok .null
      else if func_name = "time_between" then
        match rest with
        | b :: c :: _ => do
            let x ← evaluate tm_wday ctx a
            let y ← evaluate tm_wday ctx b
            let z ← evaluate tm_wday ctx c
            pure (Eval.time_between x y z)
        | _ => .ok .null
      else if func_name = "day_of_week" then do
        let x ← evaluate tm_wday ctx a
        pure (Eval.day_of_week tm_wday x)
      else if func_name = "avg_last_n" then
        match rest with
        | b :: _ => do
            let x ← evaluate tm_wday ctx a
            let var ← x.getString
            let y ← evaluate tm_wday ctx b
            let n ← y.getInt
            pure (Eval.avg_last_n ctx var n)
        | [] => .ok .null
      else if func_name = "max_last_n" then
        match rest with
        | b :: _ => do
            let x ← evaluate tm_wday ctx a
            let var ← x.getString
            let y ← evaluate tm_wday ctx b
            let n ← y.getInt
            pure (Eval.max_last_n ctx var n)
        | [] => .ok .null
      else if func_name = "trend" then
        match rest with
        | b :: _ => do
            let x ← evaluate tm_wday ctx a
            let var ← x.getString
            let y ← evaluate tm_wday ctx b
            let n ← y.getInt
            pure (Eval.trend ctx var n)
        | [] => .ok .null
      else .ok .null

end ExprNode

namespace ExpressionParser

/-- A node as the constructor `ExprNode()` leaves it: type `EXPR_VALUE`, empty members. -/
def emptyNode : ExprNode := .mk .EXPR_VALUE "" "" "" []

mutual
/-- Function `ExpressionParser::parseRecursive`. A string is a variable reference; a number
or boolean is a value node that stores the text `expr.dump()`; an object with `op` or `func`
is an operator or function node; any other object is a value node storing its text; null
and arrays leave the node as constructed. The implicit conversions of `expr["op"]` and
`expr["func"]` to `std::string` raise when the member is not a string. -/
def parseRecursive : Json → Except Raised ExprNode
  | .str s => .ok (.mk .EXPR_VAR s "" "" [])
  | .int i => .ok (.mk .EXPR_VALUE (Json.dump (.int i)) "" "" [])
  | .float q => .ok (.mk .EXPR_VALUE (Json.dump (.float q)) "" "" [])
  | .bool b => .ok (.mk .EXPR_VALUE (Json.dump (.bool b)) "" "" [])
  | .obj kvs =>
      match Json.lookup "op" kvs with
      | some opJson => do
          let op ← opJson.getString
          let l ← parseMember "left" kvs
          let r ← parseMember "right" kvs
          pure (.mk .EXPR_OP "" op "" (l.toList ++ r.toList))
      | none =>
          match Json.lookup "func" kvs with
          | some funcJson => do
              let func_name ← funcJson.getString
              let args ← parseArgs kvs
              pure (.mk .EXPR_FUNC "" "" func_name args)
          | none => .ok (.mk .EXPR_VALUE (Json.dump (.obj kvs)) "" "" [])
  | .null => .ok emptyNode
  | .arr _ => .ok emptyNode
/-- The step `if (expr.contains(key)) children.push_back(parseRecursive(expr[key]))`. -/
def parseMember (key : String) : List (String × Json) → Except Raised (Option ExprNode)
  | [] => .ok none
  | (k, v) :: rest =>
      if k = key then do
        let n ← parseRecursive v
        pure (some n)
      else parseMember key rest
/-- The step `if (expr.contains("args") && expr["args"].is_array())` with its loop. -/
def parseArgs : List (String × Json) → Except Raised (List ExprNode)
  | [] => .ok []
  | (k, v) :: rest =>
      if k = "args" then
        match v with
        | .arr xs => parseList xs
        | _ => .ok []
      else parseArgs rest
/-- The loop over the elements of `args`. -/
def parseList : List Json → Except Raised (List ExprNode)
  | [] => .ok []
  | x :: xs => do
      let n ← parseRecursive x
      let ns ← parseList xs
      pure (n :: ns)
end

/-- Function `ExpressionParser::parse`. -/
def parse (expr : Json) : Except Raised ExprNode := parseRecursive expr

end ExpressionParser

/-! ## Conditions (condition/condition_evaluator.cpp) -/

/-- An object of class `Condition`: its seven data members. The sub-conditions are held by
non-null pointers (`Engine::parseCondition`, the only producer, uses `make_shared`). -/
inductive Condition where
  | mk (left : String) (op : String) (right : Json) (all : List Condition)
      (any : List Condition) (expression : Option ExprNode) (use_expression : Bool)

namespace Condition

/-- A condition as the constructor `Condition()` leaves it. -/
def empty : Condition := .mk "" "" .null [] [] none false

mutual
/-- Method `Condition::eval`: an expression condition is true iff the expression evaluates
to the boolean true; otherwise a non-empty `all` list, then a non-empty `any` list, then
the simple comparison of `ctx.get(left)` with `right`. -/
def eval (tm_wday : Int) (ctx : Context) : Condition → Except Raised Bool
  | .mk _ _ _ _ _ (some expression) true => do
      let result ← expression.evaluate tm_wday ctx
      pure (if result.is_boolean then result.getBool else false)
  | .mk _ _ _ (c :: cs) _ _ _ => evalAll tm_wday ctx (c :: cs)
  | .mk _ _ _ [] (c :: cs) _ _ => evalAny tm_wday ctx (c :: cs)
  | .mk left op right [] [] _ _ => .ok (Eval.cmp (ctx.get left) op right)
/-- The loop over `all`: false at the first sub-condition that is false, else true. -/
def evalAll (tm_wday : Int) (ctx : Context) : List Condition → Except Raised Bool
  | [] => .ok true
  | c :: cs => do
      let b ← eval tm_wday ctx c
      if b then evalAll tm_wday ctx cs else pure false
/-- The loop over `any`: true at the first sub-condition that is true, else false. -/
def evalAny (tm_wday : Int) (ctx : Context) : List Condition → Except Raised Bool
  | [] => .ok false
  | c :: cs => do
      let b ← eval tm_wday ctx c
      if b then pure true else evalAny tm_wday ctx cs
end

end Condition

/-! ## Rules (core/rule.h, core/rule.cpp) -/

/-- The struct `ActionStep`. -/
structure ActionStep where
  name : String
  params : Json

/-- The enumeration `RuleMode`. -/
inductive RuleMode where
  | ONCE
  | REPEAT
  deriving DecidableEq, Repr

/-- An object of class `Rule`. A missing condition is the null pointer of the source. -/
structure Rule where
  id : String
  condition : Option Condition
  actions : List ActionStep
  mode : RuleMode
  throttle_ms : Nat
  last_fire : Nat
  disabled : Bool
  priority : Int
  group : String

namespace Rule

/-- Method `Rule::operator<`: by priority, then by id. -/
def lt (a b : Rule) : Bool :=
  if a.priority ≠ b.priority then decide (a.priority < b.priority) else strLt a.id b.id

/-- The difference `current_time - last_fire` in `uint64_t`. -/
def elapsed (r : Rule) (current_time : Nat) : Nat :=
  (current_time + 2 ^ 64 - r.last_fire % 2 ^ 64) % 2 ^ 64

/-- Method `Rule::shouldExecute`. -/
def shouldExecute (r : Rule) (current_time : Nat) : Bool :=
  if r.disabled then false
  else if r.elapsed current_time < r.throttle_ms then false
  else true

/-- Method `Rule::updateLastFire`. -/
def updateLastFire (r : Rule) (current_time : Nat) : Rule :=
  { r with last_fire := current_time
           disabled := if r.mode = .ONCE then true else r.disabled }

/-- Method `Rule::disable`. -/
def disable (r : Rule) : Rule := { r with disabled := true }

/-- Method `Rule::enable`. -/
def enable (r : Rule) : Rule := { r with disabled := false }

end Rule

/-- The loops of the form `for (auto& rule : rules) if (rule.id == rule_id) { ...; return; }`:
the first rule with the id is changed. -/
def updateFirst (rule_id : String) (f : Rule → Rule) : List Rule → List Rule
  | [] => []
  | r :: rs => if r.id = rule_id then f r :: rs else r :: updateFirst rule_id f rs

/-! ## Priorities and groups (priority/priority_manager.cpp) -/

namespace PriorityManager

/-- The order `std::sort` establishes with `Rule::operator<`: `a` may stand before `b` when
`b` is not less than `a`. -/
def notAfter (a b : Rule) : Prop := Rule.lt b a = false

instance : DecidableRel notAfter := fun a b => inferInstanceAs (Decidable (Rule.lt b a = false))

/-- Function `PriorityManager::sortRules`, that is `std::sort(rules.begin(), rules.end())`.
The standard fixes the result up to the order of elements that `operator<` does not
separate; the embedding takes insertion sort. -/
def sortRules (rules : List Rule) : List Rule := rules.insertionSort notAfter

/-- Function `PriorityManager::normalizePriority`. -/
def normalizePriority (priority : Int) : Int :=
  if priority < 0 then 0 else if priority > 1000 then 1000 else priority

/-- Function `PriorityManager::isValidPriority`. -/
def isValidPriority (priority : Int) : Bool := decide (priority ≥ 0) && decide (priority ≤ 1000)

/-- Function `PriorityManager::setRulePriority`: the first rule with the id gets the
normalised priority and the list is sorted again; without such a rule nothing happens. -/
def setRulePriority (rules : List Rule) (rule_id : String) (priority : Int) : List Rule :=
  if rules.any (fun r => decide (r.id = rule_id)) then
    sortRules (updateFirst rule_id (fun r => { r with priority := normalizePriority priority }) rules)
  else rules

/-- Function `PriorityManager::getRulePriority`. -/
def getRulePriority (rules : List Rule) (rule_id : String) : Int :=
  match rules.find? (fun r => decide (r.id = rule_id)) with
  | some r => r.priority
  | none => 500

end PriorityManager

/-- An object of class `RuleGroupManager`: the map `group_states_`. -/
structure RuleGroupManager where
  group_states_ : List (String × Bool) := []

namespace RuleGroupManager

/-- Assignment `group_states_[group_name] = state`. -/
def assign : List (String × Bool) → String → Bool → List (String × Bool)
  | [], name, state => [(name, state)]
  | (k, v) :: rest, name, state =>
      if k = name then (k, state) :: rest else (k, v) :: assign rest name state

/-- Method `RuleGroupManager::enableGroup`. -/
def enableGroup (m : RuleGroupManager) (group_name : String) : RuleGroupManager :=
  { group_states_ := assign m.group_states_ group_name true }

/-- Method `RuleGroupManager::disableGroup`. -/
def disableGroup (m : RuleGroupManager) (group_name : String) : RuleGroupManager :=
  { group_states_ := assign m.group_states_ group_name false }

/-- Lookup `group_states_.find(group_name)`. -/
def find (key : String) : List (String × Bool) → Option Bool
  | [] => none
  | (k, v) :: rest => if k = key then some v else find key rest

/-- Method `RuleGroupManager::isGroupEnabled`: the recorded state, enabled by default. -/
def isGroupEnabled (m : RuleGroupManager) (group_name : String) : Bool :=
  match find group_name m.group_states_ with
  | some state => state
  | none => true

/-- Method `RuleGroupManager::shouldExecuteRule`: a rule without group always runs. -/
def shouldExecuteRule (m : RuleGroupManager) (rule : Rule) : Bool :=
  if rule.group = "" then true else m.isGroupEnabled rule.group

/-- Method `RuleGroupManager::getRulesByGroup`. -/
def getRulesByGroup (_m : RuleGroupManager) (rules : List Rule) (group_name : String) :
    List Rule :=
  rules.filter (fun r => decide (r.group = group_name))

end RuleGroupManager

/-! ## The engine (core/engine.h, core/engine.cpp) -/

/-- How a call of an action function ends when it does not return: it is left by a
`std::exception` with the message `what`, or by an exception of another type. -/
inductive Thrown where
  | exception (what : String)
  | other
  deriving DecidableEq, Repr

/-- The type `ActionFn` of caller code `void(const json& params, Context& ctx)`: the context
it leaves behind, and the exception that the call was left by, if it did not return. -/
abbrev ActionFn := Json → Context → Context × Option Thrown

/-- An object of class `Engine`: its three data members. -/
structure Engine where
  rules_ : List Rule := []
  actions_ : List (String × ActionFn) := []
  group_manager_ : RuleGroupManager := {}

/-- What a tick does that is visible outside the engine. The number is the position of the
rule in `rules_` during the tick. -/
inductive Event where
  /-- The call `it->second(step.params, ctx)`, with the exception it was left by, if any. -/
  | invoked (rule : Nat) (name : String) (params : Json) (thrown : Option Thrown)
  /-- The message `Unknown action` for a step whose name is not registered. -/
  | unknown_action (rule : Nat) (name : String)

namespace Event

/-- The position of the rule an event belongs to. -/
def rule : Event → Nat
  | .invoked r _ _ _ => r
  | .unknown_action r _ => r

/-- The event is the call of an action function. -/
def isInvoked : Event → Bool
  | .invoked _ _ _ _ => true
  | .unknown_action _ _ => false

end Event

/-- The state a tick leaves and what it did: the rules, the context, the events in order and
the exception that ended the tick early, if one did. -/
structure TickResult where
  rules : List Rule
  ctx : Context
  log : List Event
  raised : Option Raised

namespace Engine

/-- Lookup `actions_.find(name)`. -/
def findAction (name : String) : List (String × ActionFn) → Option ActionFn
  | [] => none
  | (k, fn) :: rest => if k = name then some fn else findAction name rest

/-- Assignment `actions_[name] = fn`. -/
def assignAction : List (String × ActionFn) → String → ActionFn → List (String × ActionFn)
  | [], name, fn => [(name, fn)]
  | (k, v) :: rest, name, fn =>
      if k = name then (k, fn) :: rest else (k, v) :: assignAction rest name fn

/-- Method `Engine::register_action`. -/
def register_action (e : Engine) (name : String) (fn : ActionFn) : Engine :=
  { e with actions_ := assignAction e.actions_ name fn }

/-- The loop over `rule.actions` in `Engine::tick`. A registered step is called inside
`try`/`catch (const exception&)`: when the call returns or is left by a `std::exception`
the loop goes on with the next step; an exception of another type is not caught and leaves
the loop. An unregistered step is reported and the loop goes on. The result is the context,
the events, and whether the loop was left by an exception. -/
def runActions (actions_ : List (String × ActionFn)) (idx : Nat) :
    List ActionStep → Context → Context × List Event × Bool
  | [], ctx => (ctx, [], false)
  | step :: rest, ctx =>
      match findAction step.name actions_ with
      | some fn =>
          let out := fn step.params ctx
          match out.2 with
          | some .other => (out.1, [Event.invoked idx step.name step.params out.2], true)
          | _ =>
              let r := runActions actions_ idx rest out.1
              (r.1, Event.invoked idx step.name step.params out.2 :: r.2.1, r.2.2)
      | none =>
          let r := runActions actions_ idx rest ctx
          (r.1, Event.unknown_action idx step.name :: r.2.1, r.2.2)

/-- The loop over `rules_` in `Engine::tick`, from the rule at position `idx` on. The
evaluation of a condition is not inside any `try`: an exception it raises leaves the tick
with the rules from that one on untouched. So does an exception that leaves the loop over
the action steps: `updateLastFire` is not reached. -/
def tickFrom (now : Nat) (tm_wday : Int) (actions_ : List (String × ActionFn))
    (gm : RuleGroupManager) : Nat → List Rule → Context → TickResult
  | _, [], ctx => { rules := [], ctx := ctx, log := [], raised := none }
  | idx, rule :: rest, ctx =>
      let skip : TickResult :=
        let r := tickFrom now tm_wday actions_ gm (idx + 1) rest ctx
        { r with rules := rule :: r.rules }
      if !rule.shouldExecute now then skip
      else if !gm.shouldExecuteRule rule then skip
      else
        match rule.condition with
        | none => skip
        | some condition =>
            match condition.eval tm_wday ctx with
            | .error ex => { rules := rule :: rest, ctx := ctx, log := [], raised := some ex }
            | .ok false => skip
            | .ok true =>
                let ran := runActions actions_ idx rule.actions ctx
                if ran.2.2 then
                  { rules := rule :: rest, ctx := ran.1, log := ran.2.1,
                    raised := some .thrown_by_action }
                else
                  let r := tickFrom now tm_wday actions_ gm (idx + 1) rest ran.1
                  { rules := rule.updateLastFire now :: r.rules, ctx := r.ctx,
                    log := ran.2.1 ++ r.log, raised := r.raised }

/-- Method `Engine::tick`, with the reading `now` of the monotonic clock (`now_ms()`, a
`uint64_t`) and the weekday of the wall clock made explicit. -/
def tickResult (e : Engine) (now : Nat) (tm_wday : Int) (ctx : Context) : TickResult :=
  tickFrom now tm_wday e.actions_ e.group_manager_ 0 e.rules_ ctx

/-- The engine after `Engine::tick`. -/
def tick (e : Engine) (now : Nat) (tm_wday : Int) (ctx : Context) : Engine :=
  { e with rules_ := (e.tickResult now tm_wday ctx).rules }

/-- Method `Engine::sort_rules_by_priority`. -/
def sort_rules_by_priority (e : Engine) : Engine :=
  { e with rules_ := PriorityManager.sortRules e.rules_ }

/-- Method `Engine::set_rule_priority`. -/
def set_rule_priority (e : Engine) (rule_id : String) (priority : Int) : Engine :=
  { e with rules_ := PriorityManager.setRulePriority e.rules_ rule_id priority }

/-- Method `Engine::enable_rule_group`. -/
def enable_rule_group (e : Engine) (group_name : String) : Engine :=
  { e with group_manager_ := e.group_manager_.enableGroup group_name }

/-- Method `Engine::disable_rule_group`. -/
def disable_rule_group (e : Engine) (group_name : String) : Engine :=
  { e with group_manager_ := e.group_manager_.disableGroup group_name }

/-- Method `Engine::enable_rule`. -/
def enable_rule (e : Engine) (rule_id : String) : Engine :=
  { e with rules_ := updateFirst rule_id Rule.enable e.rules_ }

/-- Method `Engine::disable_rule`. -/
def disable_rule (e : Engine) (rule_id : String) : Engine :=
  { e with rules_ := updateFirst rule_id Rule.disable e.rules_ }

/-- Method `Engine::get_rule_by_id`. -/
def get_rule_by_id (e : Engine) (rule_id : String) : Option Rule :=
  e.rules_.find? (fun r => decide (r.id = rule_id))

/-- Method `Engine::get_all_rules`. -/
def get_all_rules (e : Engine) : List Rule := e.rules_

/-- Method `Engine::get_rule_count`. -/
def get_rule_count (e : Engine) : Nat := e.rules_.length

/-- Method `Engine::clear_rules`. -/
def clear_rules (e : Engine) : Engine := { e with rules_ := [] }

mutual
/-- Method `Engine::parseCondition`. -/
def parseCondition : Json → Except Raised Condition
  | .obj kvs =>
      match Json.lookup "expression" kvs with
      | some expr => do
          let node ← ExpressionParser.parse expr
          pure (.mk "" "" .null [] [] (some node) true)
      | none =>
          if (Json.lookup "all" kvs).any Json.is_array then do
            let subs ← parseSubs "all" kvs
            pure (.mk "" "" .null subs [] none false)
          else if (Json.lookup "any" kvs).any Json.is_array then do
            let subs ← parseSubs "any" kvs
            pure (.mk "" "" .null [] subs none false)
          else
            match Json.lookup "left" kvs with
            | some leftJson => do
                let left ← leftJson.getString
                let op ← (Json.obj kvs).valueString "op" ""
                let right ← (Json.obj kvs).atKey "right"
                pure (.mk left op right [] [] none false)
            | none => .ok Condition.empty
  | _ => .ok Condition.empty
/-- The loop `for (const auto& condJson : whenJson[key])` of `parseCondition`, entered when
the member under `key` is an array. -/
def parseSubs (key : String) : List (String × Json) → Except Raised (List Condition)
  | [] => .ok []
  | (k, v) :: rest =>
      if k = key then
        match v with
        | .arr xs => parseConditions xs
        | _ => .ok []
      else parseSubs key rest
/-- The sub-conditions of an array, in order. -/
def parseConditions : List Json → Except Raised (List Condition)
  | [] => .ok []
  | x :: xs => do
      let c ← parseCondition x
      let cs ← parseConditions xs
      pure (c :: cs)
end

/-- The loop over `ruleJson["do"]` in `Engine::parseRule`. -/
def parseActions : List Json → Except Raised (List ActionStep)
  | [] => .ok []
  | actionJson :: rest => do
      let name ← actionJson.valueString "action" ""
      let params ← actionJson.valueJson "params" (.obj [])
      let steps ← parseActions rest
      pure ({ name := name, params := params } :: steps)

/-- Method `Engine::parseRule`, applied to a rule as the constructor `Rule()` leaves it
(`last_fire = 0`, `disabled = false`). -/
def parseRule (ruleJson : Json) : Except Raised Rule := do
  let id ← ruleJson.valueString "id" ""
  let condition ←
    match Json.lookup "when" ruleJson.fields with
    | some whenJson => do
        let c ← parseCondition whenJson
        pure (some c)
    | none => pure none
  let actions ←
    match Json.lookup "do" ruleJson.fields with
    | some (.arr steps) => parseActions steps
    | _ => pure []
  let modeStr ← ruleJson.valueString "mode" "repeat"
  let throttle ← ruleJson.valueInt "throttle_ms" 0
  let priority ← ruleJson.valueInt "priority" 500
  let group ← ruleJson.valueString "group" ""
  pure { id := id, condition := condition, actions := actions,
         mode := if modeStr = "once" then .ONCE else .REPEAT,
         throttle_ms := Json.toUInt64 throttle, last_fire := 0, disabled := false,
         priority := PriorityManager.normalizePriority priority, group := group }

/-- The loop `for (const auto& ruleJson : cfg["rules"])` of `Engine::load`: the rules pushed
so far, and the exception that ended the loop, if one did. -/
def loadRules : List Json → List Rule → List Rule × Option Raised
  | [], acc => (acc, none)
  | ruleJson :: rest, acc =>
      match parseRule ruleJson with
      | .ok rule => loadRules rest (acc ++ [rule])
      | .error ex => (acc, some ex)

/-- Method `Engine::load`: the engine it leaves and the exception it raised, if any. The
rule list and the group manager are reset first; the rules are sorted only when every rule
was parsed. -/
def load (e : Engine) (cfg : Json) : Engine × Option Raised :=
  let e0 : Engine := { e with rules_ := [], group_manager_ := {} }
  match Json.lookup "rules" cfg.fields with
  | some (.arr rules) =>
      match loadRules rules [] with
      | (parsed, none) => ({ e0 with rules_ := PriorityManager.sortRules parsed }, none)
      | (parsed, some ex) => ({ e0 with rules_ := parsed }, some ex)
  | _ => (e0, none)

/-- The rules `Engine::load` parses from a configuration, in the order of the configuration
(before sorting). -/
def parsedRules (cfg : Json) : List Rule :=
  match Json.lookup "rules" cfg.fields with
  | some (.arr rules) => (loadRules rules []).1
  | _ => []

/-- The context the loop of `Engine::tick` has in hand when it comes to the rule at
position `i`: the one the rules before it have left. -/
def ctxAt (e : Engine) (now : Nat) (tm_wday : Int) (ctx : Context) (i : Nat) : Context :=
  (tickFrom now tm_wday e.actions_ e.group_manager_ 0 (e.rules_.take i) ctx).ctx

/-- The loop of `Engine::tick` comes to the rule at position `i`: no exception has ended the
tick at an earlier rule. -/
def reaches (e : Engine) (now : Nat) (tm_wday : Int) (ctx : Context) (i : Nat) : Prop :=
  (tickFrom now tm_wday e.actions_ e.group_manager_ 0 (e.rules_.take i) ctx).raised = none

instance (e : Engine) (now : Nat) (tm_wday : Int) (ctx : Context) (i : Nat) :
    Decidable (e.reaches now tm_wday ctx i) :=
  inferInstanceAs (Decidable (_ = none))

/-- The events of successive calls of `Engine::tick`, one list for each tick; a tick is given
by the clock reading, the weekday and the context the caller passes. -/
def tickLogs (e : Engine) : List (Nat × Int × Context) → List (List Event)
  | [] => []
  | (now, tm_wday, ctx) :: rest =>
      (e.tickResult now tm_wday ctx).log :: tickLogs (e.tick now tm_wday ctx) rest

end Engine

/-- The part of a rule that comes from its configuration entry and that no method of the
engine changes: everything but priority, last fire time and disabled flag. -/
def Rule.config (r : Rule) :
    String × Option Condition × List ActionStep × RuleMode × Nat × String :=
  (r.id, r.condition, r.actions, r.mode, r.throttle_ms, r.group)

/-- The order the specification asks of the rule list, in its words: `a` stands before `b`
when its priority is smaller, or the priorities are equal and its id is not greater. -/
def Rule.inOrder (a b : Rule) : Prop :=
  a.priority < b.priority ∨ (a.priority = b.priority ∧ a.id ≤ b.id)

instance (a b : Rule) : Decidable (a.inOrder b) :=
  inferInstanceAs (Decidable (_ ∨ _))

/-- A call of the engine interface on a loaded engine. -/
inductive Call where
  | set_rule_priority (rule_id : String) (priority : Int)
  | enable_rule (rule_id : String)
  | disable_rule (rule_id : String)
  | enable_rule_group (group_name : String)
  | disable_rule_group (group_name : String)
  | tick (now : Nat) (tm_wday : Int) (ctx : Context)

namespace Call

/-- What the most recent group call naming `g` asked for: `some true` for
`enable_rule_group`, `some false` for `disable_rule_group`, `none` when no call named `g`.
This follows the words of the specification, not the code. -/
def lastGroupState (g : String) : List Call → Option Bool
  | [] => none
  | c :: rest =>
      match lastGroupState g rest with
      | some s => some s
      | none =>
          match c with
          | .enable_rule_group n => if n = g then some true else none
          | .disable_rule_group n => if n = g then some false else none
          | _ => none

end Call

namespace Engine

/-- The engine after one call. -/
def call (e : Engine) : Call → Engine
  | .set_rule_priority rule_id priority => e.set_rule_priority rule_id priority
  | .enable_rule rule_id => e.enable_rule rule_id
  | .disable_rule rule_id => e.disable_rule rule_id
  | .enable_rule_group group_name => e.enable_rule_group group_name
  | .disable_rule_group group_name => e.disable_rule_group group_name
  | .tick now tm_wday ctx => e.tick now tm_wday ctx

/-- The engine after a sequence of calls. -/
def calls (e : Engine) : List Call → Engine
  | [] => e
  | c :: rest => (e.call c).calls rest

end Engine

/-! ## Truthiness in the words of the specification -/

/-- The coercion to bool as the specification words it: null, false, the number 0, the empty
string, the empty array and the empty object are false, every other value is true. This
follows the specification, not the code. -/
def truthySpec : Json → Bool
  | .null => false
  | .bool b => b
  | .int i => decide (i ≠ 0)
  | .float q => decide (q ≠ 0)
  | .str s => decide (s ≠ "")
  | .arr xs => !xs.isEmpty
  | .obj kvs => !kvs.isEmpty

/-- The number of arguments the specification lists for a recognised function, `none` for
any other name. This follows the specification, not the code. -/
def aritySpec (func_name : String) : Option Nat :=
  if func_name = "contains" then some 2
  else if func_name = "starts_with" then some 2
  else if func_name = "ends_with" then some 2
  else if func_name = "time_between" then some 3
  else if func_name = "day_of_week" then some 1
  else if func_name = "avg_last_n" then some 2
  else if func_name = "max_last_n" then some 2
  else if func_name = "trend" then some 2
  else none

/-! ## Behaviour trees (behavior_tree/bt_node.h, bt_node.cpp) -/

/-- The enumeration `BTStatus`. -/
inductive BTStatus where
  | SUCCESS
  | FAILURE
  | RUNNING
  deriving DecidableEq, Repr

namespace BTParallel

/-- The enumeration `BTParallel::Policy`. -/
inductive Policy where
  | SUCCEED_ON_ONE
  | SUCCEED_ON_ALL
  | FAIL_ON_ONE
  | FAIL_ON_ALL
  deriving DecidableEq, Repr

end BTParallel

/-- The type `BTAction::ActionFunction`, a `function<BTStatus(Context&)>`: the context it
leaves and the status it returns, `none` when it is left by a `std::exception`. -/
abbrev ActionFunction := Context → Context × Option BTStatus

/-- The type `BTCondition::ConditionFunction`, a `function<bool(Context&)>`: the context it
leaves and the boolean it returns, `none` when it is left by a `std::exception`. -/
abbrev ConditionFunction := Context → Context × Option Bool

/-- The node classes of `bt_node.h`, one constructor per concrete class, with the data
members that `execute` and `reset` read: the function of a leaf (`none` is the empty
`std::function`), the vector `children` of a composite, the member `child` of a decorator
(`none` is the null pointer) and the two counters of a repeater. `addChild` and `setChild`
store non-null pointers only, so `children` holds no null entry. A decorator keeps its
child in `child`; its inherited vector `children` stays empty, as that of a leaf does,
and is left out. -/
inductive BTNode where
  | action (name : String) (action_func : Option ActionFunction) (params : Json)
  | condition (name : String) (condition_func : Option ConditionFunction) (params : Json)
  | sequence (name : String) (children : List BTNode)
  | selector (name : String) (children : List BTNode)
  | parallel (name : String) (policy : BTParallel.Policy) (children : List BTNode)
  | inverter (name : String) (child : Option BTNode)
  | repeater (name : String) (repeat_count : Int) (current_count : Int)
      (child : Option BTNode)
  | until_fail (name : String) (child : Option BTNode)
  | until_success (name : String) (child : Option BTNode)

/-- One returned call of `execute`: the path of child indices from the node on which the
outer call was made down to the node that returned (the child of a decorator has index
`0`), and the status returned. -/
abbrev BTTick := List Nat × BTStatus

namespace BTNode

mutual
/-- Method `reset`. `BTNode::reset` calls `reset` on every entry of `children`; the
composites inherit it. `BTRepeater::reset` calls `BTDecorator::reset`, which is
`BTNode::reset` over the empty `children` of a decorator, and sets `current_count` to
zero. The other decorators and the leaves inherit `BTNode::reset` over an empty
`children`. -/
def reset : BTNode → BTNode
  | .sequence name children => .sequence name (resetAll children)
  | .selector name children => .selector name (resetAll children)
  | .parallel name policy children => .parallel name policy (resetAll children)
  | .repeater name repeat_count _ child => .repeater name repeat_count 0 child
  | .action name action_func params => .action name action_func params
  | .condition name condition_func params => .condition name condition_func params
  | .inverter name child => .inverter name child
  | .until_fail name child => .until_fail name child
  | .until_success name child => .until_success name child
/-- The loop of `BTNode::reset` over `children`. -/
def resetAll : List BTNode → List BTNode
  | [] => []
  | child :: rest => reset child :: resetAll rest
end

end BTNode

/-- The outcome of a call of `execute` on a node: the status returned (`none` when the
call has not returned within the steps allowed), the node and the context as the call
leaves them, and the calls of `execute` that returned during it, in order of return. -/
structure BTRun where
  status : Option BTStatus
  node : BTNode
  ctx : Context
  ticks : List BTTick

/-- The outcome of a loop over the children of a composite. -/
structure BTLoop where
  status : Option BTStatus
  children : List BTNode
  ctx : Context
  ticks : List BTTick

/-- The outcome of the loop of `BTParallel::execute`: the vector `results`, whether the
loop came to its end, the children, the context and the ticks. -/
structure BTResults where
  complete : Bool
  results : List BTStatus
  children : List BTNode
  ctx : Context
  ticks : List BTTick

/-- The outcome of a loop of a decorator over its child; `count` is `current_count`. -/
structure BTRepeat where
  status : Option BTStatus
  count : Int
  child : BTNode
  ctx : Context
  ticks : List BTTick

namespace BTRun

/-- The ticks of the child at index `i`, as its parent records them. -/
def under (i : Nat) (ticks : List BTTick) : List BTTick :=
  ticks.map (fun t => (i :: t.1, t.2))

/-- A call that returns `st`: its own tick closes the record. -/
def returned (st : BTStatus) (node : BTNode) (ctx : Context) (ticks : List BTTick) :
    BTRun :=
  ⟨some st, node, ctx, ticks ++ [([], st)]⟩

/-- A call that returns the status of its loop, if the loop has one. -/
def finish (status : Option BTStatus) (node : BTNode) (ctx : Context)
    (ticks : List BTTick) : BTRun :=
  match status with
  | some st => returned st node ctx ticks
  | none => ⟨none, node, ctx, ticks⟩

/-- The statuses that the node at `path` returned, in order; the empty path is the node
of the call itself and `[0]` the child of a decorator. -/
def ticksAt (path : List Nat) (ticks : List BTTick) : List BTStatus :=
  ticks.filterMap (fun t => if t.1 = path then some t.2 else none)

/-- The direct children ticked, in order, each with the status it returned. -/
def childTicks (ticks : List BTTick) : List (Nat × BTStatus) :=
  ticks.filterMap (fun t => match t.1 with
    | [i] => some (i, t.2)
    | _ => none)

end BTRun

namespace BTParallel

/-- The `switch (policy)` that closes `BTParallel::execute`, on the three counters. -/
def policyStatus (policy : Policy) (success_count failure_count running_count : Nat) :
    BTStatus :=
  match policy with
  | .SUCCEED_ON_ONE =>
      if success_count > 0 then .SUCCESS
      else if running_count > 0 then .RUNNING else .FAILURE
  | .SUCCEED_ON_ALL =>
      if failure_count > 0 then .FAILURE
      else if running_count > 0 then .RUNNING else .SUCCESS
  | .FAIL_ON_ONE =>
      if failure_count > 0 then .FAILURE
      else if running_count > 0 then .RUNNING else .SUCCESS
  | .FAIL_ON_ALL =>
      if success_count > 0 then .SUCCESS
      else if running_count > 0 then .RUNNING else .FAILURE

end BTParallel

namespace BTNode

/-- The loop of `BTSequence::execute` from the child at index `i` on; `exec` is the call
`child->execute(ctx)`. -/
def sequenceLoop (exec : BTNode → Context → BTRun) :
    List BTNode → Context → Nat → BTLoop
  | [], ctx, _ => ⟨some .SUCCESS, [], ctx, []⟩
  | child :: rest, ctx, i =>
      let r := exec child ctx
      match r.status with
      | some .SUCCESS =>
          let l := sequenceLoop exec rest r.ctx (i + 1)
          ⟨l.status, r.node :: l.children, l.ctx, BTRun.under i r.ticks ++ l.ticks⟩
      | some .FAILURE => ⟨some .FAILURE, r.node :: rest, r.ctx, BTRun.under i r.ticks⟩
      | some .RUNNING => ⟨some .RUNNING, r.node :: rest, r.ctx, BTRun.under i r.ticks⟩
      | none => ⟨none, r.node :: rest, r.ctx, BTRun.under i r.ticks⟩

/-- The loop of `BTSelector::execute` from the child at index `i` on. -/
def selectorLoop (exec : BTNode → Context → BTRun) :
    List BTNode → Context → Nat → BTLoop
  | [], ctx, _ => ⟨some .FAILURE, [], ctx, []⟩
  | child :: rest, ctx, i =>
      let r := exec child ctx
      match r.status with
      | some .SUCCESS => ⟨some .SUCCESS, r.node :: rest, r.ctx, BTRun.under i r.ticks⟩
      | some .RUNNING => ⟨some .RUNNING, r.node :: rest, r.ctx, BTRun.under i r.ticks⟩
      | some .FAILURE =>
          let l := selectorLoop exec rest r.ctx (i + 1)
          ⟨l.status, r.node :: l.children, l.ctx, BTRun.under i r.ticks ++ l.ticks⟩
      | none => ⟨none, r.node :: rest, r.ctx, BTRun.under i r.ticks⟩

/-- The loop of `BTParallel::execute` from the child at index `i` on: every child is
executed and its status pushed on `results`. -/
def parallelLoop (exec : BTNode → Context → BTRun) :
    List BTNode → Context → Nat → BTResults
  | [], ctx, _ => ⟨true, [], [], ctx, []⟩
  | child :: rest, ctx, i =>
      let r := exec child ctx
      match r.status with
      | some st =>
          let l := parallelLoop exec rest r.ctx (i + 1)
          ⟨l.complete, st :: l.results, r.node :: l.children, l.ctx,
            BTRun.under i r.ticks ++ l.ticks⟩
      | none => ⟨false, [], r.node :: rest, r.ctx, BTRun.under i r.ticks⟩

/-- The loop `while (current_count < repeat_count)` of `BTRepeater::execute`; `steps`
bounds the iterations that are followed. -/
def repeaterLoop (exec : BTNode → Context → BTRun) (repeat_count : Int) :
    Nat → Int → BTNode → Context → BTRepeat
  | 0, current_count, child, ctx =>
      if current_count < repeat_count then ⟨none, current_count, child, ctx, []⟩
      else ⟨some .SUCCESS, current_count, child, ctx, []⟩
  | steps + 1, current_count, child, ctx =>
      if current_count < repeat_count then
        let r := exec child ctx
        match r.status with
        | some .SUCCESS =>
            let l := repeaterLoop exec repeat_count steps (current_count + 1)
              r.node.reset r.ctx
            ⟨l.status, l.count, l.child, l.ctx, BTRun.under 0 r.ticks ++ l.ticks⟩
        | some .FAILURE =>
            ⟨some .FAILURE, current_count, r.node, r.ctx, BTRun.under 0 r.ticks⟩
        | some .RUNNING =>
            ⟨some .RUNNING, current_count, r.node, r.ctx, BTRun.under 0 r.ticks⟩
        | none => ⟨none, current_count, r.node, r.ctx, BTRun.under 0 r.ticks⟩
      else ⟨some .SUCCESS, current_count, child, ctx, []⟩

/-- The loop `while (true)` of `BTUntilFail::execute`; `steps` bounds the iterations that
are followed. -/
def untilFailLoop (exec : BTNode → Context → BTRun) :
    Nat → BTNode → Context → BTRepeat
  | 0, child, ctx => ⟨none, 0, child, ctx, []⟩
  | steps + 1, child, ctx =>
      let r := exec child ctx
      match r.status with
      | some .FAILURE => ⟨some .SUCCESS, 0, r.node, r.ctx, BTRun.under 0 r.ticks⟩
      | some .RUNNING => ⟨some .RUNNING, 0, r.node, r.ctx, BTRun.under 0 r.ticks⟩
      | some .SUCCESS =>
          let l := untilFailLoop exec steps r.node.reset r.ctx
          ⟨l.status, 0, l.child, l.ctx, BTRun.under 0 r.ticks ++ l.ticks⟩
      | none => ⟨none, 0, r.node, r.ctx, BTRun.under 0 r.ticks⟩

/-- The loop `while (true)` of `BTUntilSuccess::execute`; `steps` bounds the iterations
that are followed. -/
def untilSuccessLoop (exec : BTNode → Context → BTRun) :
    Nat → BTNode → Context → BTRepeat
  | 0, child, ctx => ⟨none, 0, child, ctx, []⟩
  | steps + 1, child, ctx =>
      let r := exec child ctx
      match r.status with
      | some .SUCCESS => ⟨some .SUCCESS, 0, r.node, r.ctx, BTRun.under 0 r.ticks⟩
      | some .RUNNING => ⟨some .RUNNING, 0, r.node, r.ctx, BTRun.under 0 r.ticks⟩
      | some .FAILURE =>
          let l := untilSuccessLoop exec steps r.node.reset r.ctx
          ⟨l.status, 0, l.child, l.ctx, BTRun.under 0 r.ticks ++ l.ticks⟩
      | none => ⟨none, 0, r.node, r.ctx, BTRun.under 0 r.ticks⟩

/-- The `switch` of `BTInverter::execute`. -/
def invert : BTStatus → BTStatus
  | .SUCCESS => .FAILURE
  | .FAILURE => .SUCCESS
  | .RUNNING => .RUNNING

/-- The virtual method `execute` of the nine node classes. The source loops of
`BTRepeater`, `BTUntilFail` and `BTUntilSuccess` have no bound of their own, so the call is
followed for `fuel` levels of nesting and `fuel` iterations of each such loop; a call that
is still under way then has status `none`. A leaf function that is left by a
`std::exception` gives `FAILURE` (the `catch` of `BTAction::execute` and
`BTCondition::execute`). -/
def execute : Nat → BTNode → Context → BTRun
  | 0, node, ctx => ⟨none, node, ctx, []⟩
  | fuel + 1, node, ctx =>
      match node with
      | .action _ none _ => BTRun.returned .FAILURE node ctx []
      | .action _ (some action_func) _ =>
          match action_func ctx with
          | (ctx1, some st) => BTRun.returned st node ctx1 []
          | (ctx1, none) => BTRun.returned .FAILURE node ctx1 []
      | .condition _ none _ => BTRun.returned .FAILURE node ctx []
      | .condition _ (some condition_func) _ =>
          match condition_func ctx with
          | (ctx1, some result) =>
              BTRun.returned (if result then .SUCCESS else .FAILURE) node ctx1 []
          | (ctx1, none) => BTRun.returned .FAILURE node ctx1 []
      | .sequence name children =>
          let l := sequenceLoop (execute fuel) children ctx 0
          BTRun.finish l.status (.sequence name l.children) l.ctx l.ticks
      | .selector name children =>
          let l := selectorLoop (execute fuel) children ctx 0
          BTRun.finish l.status (.selector name l.children) l.ctx l.ticks
      | .parallel name policy children =>
          if children.isEmpty then BTRun.returned .SUCCESS node ctx []
          else
            let l := parallelLoop (execute fuel) children ctx 0
            BTRun.finish
              (if l.complete then
                some (BTParallel.policyStatus policy (l.results.count .SUCCESS)
                  (l.results.count .FAILURE) (l.results.count .RUNNING))
              else none)
              (.parallel name policy l.children) l.ctx l.ticks
      | .inverter _ none => BTRun.returned .FAILURE node ctx []
      | .inverter name (some child) =>
          let r := execute fuel child ctx
          BTRun.finish (r.status.map invert) (.inverter name (some r.node)) r.ctx
            (BTRun.under 0 r.ticks)
      | .repeater _ _ _ none => BTRun.returned .FAILURE node ctx []
      | .repeater name repeat_count current_count (some child) =>
          if repeat_count = -1 then
            let r := execute fuel child ctx
            match r.status with
            | some .SUCCESS =>
                BTRun.returned .RUNNING
                  (.repeater name repeat_count current_count (some r.node.reset)) r.ctx
                  (BTRun.under 0 r.ticks)
            | some _ =>
                BTRun.returned .RUNNING
                  (.repeater name repeat_count current_count (some r.node)) r.ctx
                  (BTRun.under 0 r.ticks)
            | none =>
                ⟨none, .repeater name repeat_count current_count (some r.node), r.ctx,
                  BTRun.under 0 r.ticks⟩
          else
            let l := repeaterLoop (execute fuel) repeat_count fuel current_count child ctx
            BTRun.finish l.status (.repeater name repeat_count l.count (some l.child))
              l.ctx l.ticks
      | .until_fail _ none => BTRun.returned .FAILURE node ctx []
      | .until_fail name (some child) =>
          let l := untilFailLoop (execute fuel) fuel child ctx
          BTRun.finish l.status (.until_fail name (some l.child)) l.ctx l.ticks
      | .until_success _ none => BTRun.returned .FAILURE node ctx []
      | .until_success name (some child) =>
          let l := untilSuccessLoop (execute fuel) fuel child ctx
          BTRun.finish l.status (.until_success name (some l.child)) l.ctx l.ticks

/-- Consecutive calls of `execute` on one node, each on the context that the caller
passes: the node that a call leaves is the node of the next call. -/
def executeAll (fuel : Nat) : BTNode → List Context → List BTRun
  | _, [] => []
  | node, ctx :: rest =>
      let r := execute fuel node ctx
      r :: executeAll fuel r.node rest

end BTNode

/-! ## The behaviour-tree parser (behavior_tree/bt_parser.cpp) -/

namespace Json

/-- Library `get<double>()` with no type test before it: numbers and booleans convert,
every other type raises. -/
def toDouble : Json → Except Raised ℚ
  | .int i => .ok (i : ℚ)
  | .float q => .ok q
  | .bool b => .ok (if b then 1 else 0)
  | _ => .error .type_error_302

/-- Library `value(key, default)` with a `double` default. -/
def valueDouble (j : Json) (key : String) (dflt : ℚ) : Except Raised ℚ :=
  match j with
  | .obj kvs =>
      match lookup key kvs with
      | some v => toDouble v
      | none => .ok dflt
  | _ => .error .type_error_306

end Json

namespace BTParser

/-- The function that `BTParser::createDefaultAction` returns. It leaves the context as
it is; the pause of `wait` and the printed lines are not part of the model. The library
calls `params.value(...)` raise on a `params` that is not an object or on a member of the
wrong type. -/
def createDefaultAction (actionName : String) (params : Json) : ActionFunction :=
  fun ctx =>
    if actionName = "wait" then
      match params.valueInt "duration" 1000 with
      | .ok _ => (ctx, some .SUCCESS)
      | .error _ => (ctx, none)
    else if actionName = "print" then
      match params.valueString "message" "Hello from behavior tree!" with
      | .ok _ => (ctx, some .SUCCESS)
      | .error _ => (ctx, none)
    else if actionName = "fail" then (ctx, some .FAILURE)
    else if actionName = "running" then (ctx, some .RUNNING)
    else (ctx, some .SUCCESS)

/-- The comparison of `check_number`; an operator outside the five falls through to the
closing `return true`. -/
def checkNumber (op : String) (value threshold : ℚ) : Bool :=
  if op = ">" then decide (value > threshold)
  else if op = "<" then decide (value < threshold)
  else if op = "==" then decide (value = threshold)
  else if op = ">=" then decide (value ≥ threshold)
  else if op = "<=" then decide (value ≤ threshold)
  else true

/-- The function that `BTParser::createDefaultCondition` returns. -/
def createDefaultCondition (conditionName : String) (params : Json) : ConditionFunction :=
  fun ctx =>
    if conditionName = "check_value" then
      match (do
          let key ← params.valueString "key" ""
          let expected ← params.valueString "expected" ""
          let found ← (ctx.get key).getString
          pure (decide (found = expected)) : Except Raised Bool) with
      | .ok b => (ctx, some b)
      | .error _ => (ctx, none)
    else if conditionName = "check_number" then
      match (do
          let key ← params.valueString "key" ""
          let threshold ← params.valueDouble "threshold" 0
          let op ← params.valueString "operator" ">"
          let value ← (ctx.get key).toDouble
          pure (checkNumber op value threshold) : Except Raised Bool) with
      | .ok b => (ctx, some b)
      | .error _ => (ctx, none)
    else if conditionName = "always_true" then (ctx, some true)
    else if conditionName = "always_false" then (ctx, some false)
    else (ctx, some true)

/-- Function `BTParser::parseAction`. -/
def parseAction (nodeJson : Json) : Except Raised BTNode := do
  let name ← nodeJson.valueString "name" "Action"
  let params ← nodeJson.valueJson "params" (.obj [])
  let action_name ← nodeJson.valueString "action" ""
  pure (.action name (some (createDefaultAction action_name params)) params)

/-- Function `BTParser::parseCondition`. -/
def parseCondition (nodeJson : Json) : Except Raised BTNode := do
  let name ← nodeJson.valueString "name" "Condition"
  let params ← nodeJson.valueJson "params" (.obj [])
  let condition_name ← nodeJson.valueString "condition" ""
  pure (.condition name (some (createDefaultCondition condition_name params)) params)

/-- The policy that `BTParser::parseComposite` reads for a parallel node. -/
def parsePolicy (policy_str : String) : BTParallel.Policy :=
  if policy_str = "succeed_on_all" then .SUCCEED_ON_ALL
  else if policy_str = "fail_on_one" then .FAIL_ON_ONE
  else if policy_str = "fail_on_all" then .FAIL_ON_ALL
  else .SUCCEED_ON_ONE

mutual
/-- Function `BTParser::parseNode`, with `parseComposite` and `parseDecorator` in place.
The result `none` is the null pointer: no member `type`, or a type outside the nine. -/
def parseNode : Json → Except Raised (Option BTNode)
  | .obj kvs =>
      match Json.lookup "type" kvs with
      | none => .ok none
      | some typeJson => do
          let type ← typeJson.getString
          let _ ← Json.valueString (.obj kvs) "name" ""
          let _ ← Json.valueString (.obj kvs) "description" ""
          if type = "action" then do
            let n ← parseAction (.obj kvs)
            pure (some n)
          else if type = "condition" then do
            let n ← parseCondition (.obj kvs)
            pure (some n)
          else if type = "sequence" then do
            let name ← Json.valueString (.obj kvs) "name" type
            let children ← parseChildren kvs
            pure (some (.sequence name children))
          else if type = "selector" then do
            let name ← Json.valueString (.obj kvs) "name" type
            let children ← parseChildren kvs
            pure (some (.selector name children))
          else if type = "parallel" then do
            let name ← Json.valueString (.obj kvs) "name" type
            let policy_str ← Json.valueString (.obj kvs) "policy" "succeed_on_one"
            let children ← parseChildren kvs
            pure (some (.parallel name (parsePolicy policy_str) children))
          else if type = "inverter" then do
            let name ← Json.valueString (.obj kvs) "name" type
            let child ← parseChild kvs
            pure (some (.inverter name child))
          else if type = "repeater" then do
            let name ← Json.valueString (.obj kvs) "name" type
            let repeat_count ← Json.valueInt (.obj kvs) "repeat_count" (-1)
            let child ← parseChild kvs
            pure (some (.repeater name repeat_count 0 child))
          else if type = "until_fail" then do
            let name ← Json.valueString (.obj kvs) "name" type
            let child ← parseChild kvs
            pure (some (.until_fail name child))
          else if type = "until_success" then do
            let name ← Json.valueString (.obj kvs) "name" type
            let child ← parseChild kvs
            pure (some (.until_success name child))
          else pure none
  | _ => .ok none
/-- The step `if (nodeJson.contains("children") && nodeJson["children"].is_array())` of
`parseComposite`, with its loop. -/
def parseChildren : List (String × Json) → Except Raised (List BTNode)
  | [] => .ok []
  | (k, v) :: rest =>
      if k = "children" then
        match v with
        | .arr xs => parseEach xs
        | _ => .ok []
      else parseChildren rest
/-- The loop over the elements of `children`: a child that parses to the null pointer is
not added. -/
def parseEach : List Json → Except Raised (List BTNode)
  | [] => .ok []
  | x :: xs => do
      let child ← parseNode x
      let others ← parseEach xs
      pure (child.toList ++ others)
/-- The step `if (nodeJson.contains("child"))` of `parseDecorator`: the child is set when
it parses to a node. -/
def parseChild : List (String × Json) → Except Raised (Option BTNode)
  | [] => .ok none
  | (k, v) :: rest =>
      if k = "child" then parseNode v
      else parseChild rest
end

/-- Function `BTParser::parse`. -/
def parse (treeJson : Json) : Except Raised (Option BTNode) :=
  if treeJson.is_null || !treeJson.contains "root" then .ok none
  else do
    let root ← treeJson.atKey "root"
    parseNode root

end BTParser

namespace BTParallel

/-- The status of a parallel node as the specification words it, from the statuses that
the children returned: under `SUCCEED_ON_ONE` and `FAIL_ON_ALL`, Success if any child
returned Success, else Running if any returned Running, else Failure; under
`SUCCEED_ON_ALL` and `FAIL_ON_ONE`, Failure if any child returned Failure, else Running if
any returned Running, else Success. -/
def statusSpec (policy : Policy) (results : List BTStatus) : BTStatus :=
  if policy = .SUCCEED_ON_ONE ∨ policy = .FAIL_ON_ALL then
    if BTStatus.SUCCESS ∈ results then .SUCCESS
    else if BTStatus.RUNNING ∈ results then .RUNNING else .FAILURE
  else
    if BTStatus.FAILURE ∈ results then .FAILURE
    else if BTStatus.RUNNING ∈ results then .RUNNING else .SUCCESS

end BTParallel

namespace BTNode

mutual
/-- The member `current_count` of every repeater of a tree, the root first and then the
nodes below it from left to right; it is what a reset of the tree is observed on. -/
def counts : BTNode → List Int
  | .action _ _ _ => []
  | .condition _ _ _ => []
  | .sequence _ children => countsAll children
  | .selector _ children => countsAll children
  | .parallel _ _ children => countsAll children
  | .inverter _ child => countsChild child
  | .repeater _ _ current_count child => current_count :: countsChild child
  | .until_fail _ child => countsChild child
  | .until_success _ child => countsChild child
/-- The counts in the vector `children` of a composite. -/
def countsAll : List BTNode → List Int
  | [] => []
  | child :: rest => counts child ++ countsAll rest
/-- The counts below the member `child` of a decorator. -/
def countsChild : Option BTNode → List Int
  | none => []
  | some child => counts child
end

end BTNode

/-! ## The executor and the manager of behaviour trees (bt_executor.cpp, bt_manager.cpp) -/

/-- Assignment `m[key] = value` on a map with string keys, kept as a list of entries with
distinct keys: the entry of the key is replaced, or a new entry is added. -/
def mapAssign {α : Type} (key : String) (value : α) :
    List (String × α) → List (String × α)
  | [] => [(key, value)]
  | (k, v) :: rest =>
      if k = key then (k, value) :: rest else (k, v) :: mapAssign key value rest

/-- Lookup `m.find(key)` on such a map. -/
def mapFind {α : Type} (key : String) : List (String × α) → Option α
  | [] => none
  | (k, v) :: rest => if k = key then some v else mapFind key rest

/-- Removal `m.erase(key)` on such a map. -/
def mapErase {α : Type} (key : String) : List (String × α) → List (String × α)
  | [] => []
  | (k, v) :: rest => if k = key then rest else (k, v) :: mapErase key rest

/-- An object of class `BTExecutor`: its data members. The four counters are `int`; they
are followed below `2 ^ 31`, where `++` is defined. -/
structure BTExecutor where
  root_ : Option BTNode
  current_status_ : BTStatus
  is_running_ : Bool
  is_paused_ : Bool
  action_functions_ : List (String × ActionFunction)
  condition_functions_ : List (String × ConditionFunction)
  execution_count_ : Int
  success_count_ : Int
  failure_count_ : Int
  running_count_ : Int

/-- The outcome of a call of `BTExecutor::execute` or `BTManager::executeTree` on `α`: the
status returned (`none` when the call of the root has not returned), the object and the
context as the call leaves them, and the ticks of the root during the call. -/
structure BTCall (α : Type) where
  status : Option BTStatus
  self : α
  ctx : Context
  ticks : List BTTick

namespace BTExecutor

/-- The constructor `BTExecutor()`. -/
def new : BTExecutor :=
  { root_ := none, current_status_ := .FAILURE, is_running_ := false, is_paused_ := false,
    action_functions_ := [], condition_functions_ := [],
    execution_count_ := 0, success_count_ := 0, failure_count_ := 0, running_count_ := 0 }

/-- Method `BTExecutor::reset`. -/
def reset (e : BTExecutor) : BTExecutor :=
  { e with root_ := e.root_.map BTNode.reset, current_status_ := .FAILURE,
           is_running_ := false, is_paused_ := false }

/-- Method `BTExecutor::setRoot`. -/
def setRoot (e : BTExecutor) (root : Option BTNode) : BTExecutor :=
  reset { e with root_ := root }

/-- Method `BTExecutor::updateStats`. -/
def updateStats (e : BTExecutor) (status : BTStatus) : BTExecutor :=
  match status with
  | .SUCCESS =>
      { e with execution_count_ := e.execution_count_ + 1,
               success_count_ := e.success_count_ + 1 }
  | .FAILURE =>
      { e with execution_count_ := e.execution_count_ + 1,
               failure_count_ := e.failure_count_ + 1 }
  | .RUNNING =>
      { e with execution_count_ := e.execution_count_ + 1,
               running_count_ := e.running_count_ + 1 }

/-- Method `BTExecutor::execute`; `fuel` is the bound of `BTNode.execute` on the root. A
call of the root that has not returned leaves the executor after `is_running_ = true`. -/
def execute (fuel : Nat) (e : BTExecutor) (ctx : Context) : BTCall BTExecutor :=
  match e.root_ with
  | none => ⟨some .FAILURE, e, ctx, []⟩
  | some root =>
      if e.is_paused_ then ⟨some e.current_status_, e, ctx, []⟩
      else
        let r := BTNode.execute fuel root ctx
        match r.status with
        | none => ⟨none, { e with root_ := some r.node, is_running_ := true }, r.ctx, r.ticks⟩
        | some st =>
            let e1 := updateStats
              { e with root_ := some r.node, is_running_ := true, current_status_ := st } st
            ⟨some st, { e1 with is_running_ := decide (st = .RUNNING) }, r.ctx, r.ticks⟩

/-- Method `BTExecutor::pause`. -/
def pause (e : BTExecutor) : BTExecutor := { e with is_paused_ := true }

/-- Method `BTExecutor::resume`. -/
def resume (e : BTExecutor) : BTExecutor := { e with is_paused_ := false }

/-- Method `BTExecutor::stop`. -/
def stop (e : BTExecutor) : BTExecutor :=
  { e with is_running_ := false, is_paused_ := false, current_status_ := .FAILURE }

/-- Method `BTExecutor::isRunning`. -/
def isRunning (e : BTExecutor) : Bool := e.is_running_ && !e.is_paused_

/-- Method `BTExecutor::getStatus`. -/
def getStatus (e : BTExecutor) : BTStatus := e.current_status_

/-- Method `BTExecutor::registerAction`. -/
def registerAction (e : BTExecutor) (name : String) (func : ActionFunction) : BTExecutor :=
  { e with action_functions_ := mapAssign name func e.action_functions_ }

/-- Method `BTExecutor::registerCondition`. -/
def registerCondition (e : BTExecutor) (name : String) (func : ConditionFunction) :
    BTExecutor :=
  { e with condition_functions_ := mapAssign name func e.condition_functions_ }

end BTExecutor

/-- An object of class `BTManager`: the map `trees_` from names to executors. -/
structure BTManager where
  trees_ : List (String × BTExecutor)

namespace BTManager

/-- The constructor `BTManager()`. -/
def new : BTManager := ⟨[]⟩

/-- Method `BTManager::getExecutor`. -/
def getExecutor (m : BTManager) (name : String) : Option BTExecutor :=
  mapFind name m.trees_

/-- Method `BTManager::loadTree(name, treeJson)`. It has no handler: an exception of the
parser leaves the call. -/
def loadTree (m : BTManager) (name : String) (treeJson : Json) :
    Except Raised (BTManager × Bool) :=
  match BTParser.parse treeJson with
  | .error e => .error e
  | .ok none => .ok (m, false)
  | .ok (some root) =>
      .ok (⟨mapAssign name (BTExecutor.new.setRoot (some root)) m.trees_⟩, true)

/-- Method `BTManager::executeTree`. -/
def executeTree (fuel : Nat) (m : BTManager) (name : String) (ctx : Context) :
    BTCall BTManager :=
  match m.getExecutor name with
  | none => ⟨some .FAILURE, m, ctx, []⟩
  | some executor =>
      let c := executor.execute fuel ctx
      ⟨c.status, ⟨mapAssign name c.self m.trees_⟩, c.ctx, c.ticks⟩

/-- The pattern of `stopTree`, `resetTree`, `pauseTree` and `resumeTree`: the method of the
executor is called when the tree exists. -/
def onTree (f : BTExecutor → BTExecutor) (m : BTManager) (name : String) : BTManager :=
  match m.getExecutor name with
  | none => m
  | some executor => ⟨mapAssign name (f executor) m.trees_⟩

/-- Method `BTManager::stopTree`. -/
def stopTree (m : BTManager) (name : String) : BTManager := onTree BTExecutor.stop m name

/-- Method `BTManager::resetTree`. -/
def resetTree (m : BTManager) (name : String) : BTManager := onTree BTExecutor.reset m name

/-- Method `BTManager::pauseTree`. -/
def pauseTree (m : BTManager) (name : String) : BTManager := onTree BTExecutor.pause m name

/-- Method `BTManager::resumeTree`. -/
def resumeTree (m : BTManager) (name : String) : BTManager :=
  onTree BTExecutor.resume m name

/-- Method `BTManager::getTreeStatus`. -/
def getTreeStatus (m : BTManager) (name : String) : BTStatus :=
  match m.getExecutor name with
  | none => .FAILURE
  | some executor => executor.getStatus

/-- Method `BTManager::hasTree`. -/
def hasTree (m : BTManager) (name : String) : Bool := (mapFind name m.trees_).isSome

/-- Method `BTManager::removeTree`. -/
def removeTree (m : BTManager) (name : String) : BTManager := ⟨mapErase name m.trees_⟩

/-- Method `BTManager::clear`. -/
def clear (_m : BTManager) : BTManager := ⟨[]⟩

/-- Method `BTManager::registerAction`: the function is registered on every executor that
the manager holds at the time of the call. -/
def registerAction (m : BTManager) (name : String) (func : ActionFunction) : BTManager :=
  ⟨m.trees_.map (fun p => (p.1, p.2.registerAction name func))⟩

/-- Method `BTManager::registerCondition`. -/
def registerCondition (m : BTManager) (name : String) (func : ConditionFunction) :
    BTManager :=
  ⟨m.trees_.map (fun p => (p.1, p.2.registerCondition name func))⟩

end BTManager

namespace BTParser

/-- The nine node types that `BTParser::parseNode` recognises. -/
def nodeTypes : List String :=
  ["action", "condition", "sequence", "selector", "parallel", "inverter", "repeater",
    "until_fail", "until_success"]

end BTParser

namespace BTExecutor

/-- A call of a public method of `BTExecutor` that changes the object. -/
inductive Op where
  | execute (ctx : Context)
  | pause
  | resume
  | stop
  | reset
  | setRoot (root : Option BTNode)
  | registerAction (name : String) (func : ActionFunction)
  | registerCondition (name : String) (func : ConditionFunction)

/-- The executor after one call. -/
def step (fuel : Nat) (e : BTExecutor) : Op → BTExecutor
  | .execute ctx => (e.execute fuel ctx).self
  | .pause => e.pause
  | .resume => e.resume
  | .stop => e.stop
  | .reset => e.reset
  | .setRoot root => e.setRoot root
  | .registerAction name func => e.registerAction name func
  | .registerCondition name func => e.registerCondition name func

/-- The executor after a series of calls. -/
def steps (fuel : Nat) (e : BTExecutor) (ops : List Op) : BTExecutor :=
  ops.foldl (step fuel) e

end BTExecutor

/-! ## The scheduler: time (scheduler/*.cpp, `std::chrono`, `std::tm`) -/

/-- A `std::chrono::system_clock::time_point`: the count of ticks of the system clock
since its epoch. -/
abbrev TimePoint := Int

/-- The members of `std::tm` that the scheduler reads. -/
structure Tm where
  tm_sec : Int
  tm_min : Int
  tm_hour : Int
  tm_mday : Int
  tm_mon : Int
  tm_year : Int
  tm_wday : Int
  deriving DecidableEq, Repr

/-- What the platform fixes for the scheduler code: the number of ticks of
`std::chrono::system_clock` in a millisecond, and `std::localtime` as a function of the
seconds since the epoch (it depends on the time zone of the process). -/
structure Clock where
  ticksPerMs : Int
  localtime : Int → Tm

namespace Clock

/-- The duration `std::chrono::milliseconds(n)` in ticks. -/
def milliseconds (clock : Clock) (n : Int) : Int := n * clock.ticksPerMs

/-- The duration `std::chrono::minutes(n)` in ticks. -/
def minutes (clock : Clock) (n : Int) : Int := n * (60000 * clock.ticksPerMs)

/-- The duration `std::chrono::hours(n)` in ticks. -/
def hours (clock : Clock) (n : Int) : Int := n * (3600000 * clock.ticksPerMs)

/-- The conversion `std::chrono::system_clock::to_time_t`: whole seconds, rounded toward
zero. -/
def to_time_t (clock : Clock) (time : TimePoint) : Int :=
  Int.tdiv time (1000 * clock.ticksPerMs)

/-- The conversion `duration_cast<std::chrono::milliseconds>(d).count()` of a duration in
ticks: rounded toward zero. -/
def toMilliseconds (clock : Clock) (d : Int) : Int := Int.tdiv d clock.ticksPerMs

end Clock

/-! ## The scheduler: cron expressions (scheduler/cron_parser.cpp) -/

namespace CronParser

/-- The struct `CronParser::CronField`. -/
structure CronField where
  values : List Int := []
  isWildcard : Bool := false
  isRange : Bool := false
  step : Int := 1
  deriving DecidableEq, Repr

/-- The struct `CronParser::CronExpression`. -/
structure CronExpression where
  minute : CronField := {}
  hour : CronField := {}
  day : CronField := {}
  month : CronField := {}
  weekday : CronField := {}
  original : String := ""
  valid : Bool := false
  deriving DecidableEq, Repr

/-- The fields that repeated `std::getline(ss, field, delim)` reads from a text: each call
takes the characters up to the next delimiter or the end, and fails on an exhausted
stream. -/
def getlines (delim : Char) : List Char → List (List Char)
  | [] => []
  | c :: cs =>
      if c = delim then [] :: getlines delim cs
      else
        match getlines delim cs with
        | [] => [[c]]
        | field :: rest => (c :: field) :: rest

/-- The class of `isspace` in the C locale: space, tab, line feed, vertical tab, form feed
and carriage return. -/
def isSpace (c : Char) : Bool :=
  c.toNat = 32 || (9 ≤ c.toNat && c.toNat ≤ 13)

/-- The value of a run of decimal digits. -/
def digitsValue (ds : List Char) : Nat :=
  ds.foldl (fun acc c => acc * 10 + (c.toNat - 48)) 0

/-- The digits at the head of a text with their value as `strtol` signs it. -/
def signedValue (negative : Bool) (s : List Char) : Option Int :=
  if (s.takeWhile Char.isDigit).isEmpty then none
  else if negative then some (-(digitsValue (s.takeWhile Char.isDigit) : Int))
  else some (digitsValue (s.takeWhile Char.isDigit) : Int)

/-- Library `std::stoi(str)`: white space is skipped, an optional sign and the longest run
of decimal digits are read and what follows is ignored. The result `none` is an exception:
`std::invalid_argument` when there is no digit, `std::out_of_range` when the value is not
an `int`. -/
def stoi (str : List Char) : Option Int :=
  let parsed :=
    match str.dropWhile isSpace with
    | '-' :: rest => signedValue true rest
    | '+' :: rest => signedValue false rest
    | s => signedValue false s
  match parsed with
  | none => none
  | some v => if v < -(2 ^ 31) ∨ v > 2 ^ 31 - 1 then none else some v

/-- Function `CronParser::isInRange`. -/
def isInRange (value min max : Int) : Bool := decide (value ≥ min) && decide (value ≤ max)

/-- The loop `for (int i = start; i <= max; i += step) result.push_back(i)` with
`step > 0`, followed for `count` values. -/
def upFrom (step max : Int) : Nat → Int → List Int
  | 0, _ => []
  | count + 1, i => if i ≤ max then i :: upFrom step max count (i + step) else []

/-- Function `CronParser::parseRange`. The position of the first `-` splits the text. -/
def parseRange (range : List Char) (min max : Int) : List Int :=
  if '-' ∈ range then
    match stoi (range.takeWhile (fun c => c ≠ '-')),
      stoi ((range.dropWhile (fun c => c ≠ '-')).drop 1) with
    | some start, some end_ =>
        if isInRange start min max && isInRange end_ min max && decide (start ≤ end_) then
          upFrom 1 end_ (end_ - start + 1).toNat start
        else []
    | _, _ => []
  else []

/-- Function `CronParser::parseStep`. -/
def parseStep (step : List Char) (min max : Int) : List Int :=
  if step.take 2 ≠ ['*', '/'] then []
  else
    match stoi (step.drop 2) with
    | some stepValue =>
        if stepValue > 0 then upFrom stepValue max (max - min + 1).toNat min else []
    | none => []

/-- Function `CronParser::parseList`: an item that does not convert or is out of range is
skipped. -/
def parseList (list : List Char) (min max : Int) : List Int :=
  (getlines ',' list).filterMap (fun item =>
    match stoi item with
    | some value => if isInRange value min max then some value else none
    | none => none)

/-- Function `CronParser::parseField`. Every conversion error is caught inside, so the
function returns in all cases. -/
def parseField (field : List Char) (min max : Int) : CronField :=
  if field = ['*'] then { isWildcard := true }
  else if field.take 2 = ['*', '/'] then { values := parseStep field min max }
  else if '-' ∈ field then { values := parseRange field min max, isRange := true }
  else if ',' ∈ field then { values := parseList field min max }
  else
    match stoi field with
    | some value => if isInRange value min max then { values := [value] } else {}
    | none => {}

/-- The non-empty fields that `CronParser::parse` splits the expression into. -/
def fields (expression : String) : List (List Char) :=
  (getlines ' ' expression.toList).filter (fun field => !field.isEmpty)

/-- Function `CronParser::parse`. No call inside the `try` block throws, so five fields
always give `valid = true`. -/
def parse (expression : String) : CronExpression :=
  match fields expression with
  | [f0, f1, f2, f3, f4] =>
      { minute := parseField f0 0 59, hour := parseField f1 0 23,
        day := parseField f2 1 31, month := parseField f3 1 12,
        weekday := parseField f4 0 7, original := expression, valid := true }
  | _ => { original := expression }

/-- Function `CronParser::isValid`. -/
def isValid (expression : String) : Bool := (parse expression).valid

/-- Function `CronParser::toTm`. -/
def toTm (clock : Clock) (time : TimePoint) : Tm := clock.localtime (clock.to_time_t time)

/-- The test `isWildcard || std::find(values...) != values.end()` of `matches`. -/
def fieldMatches (field : CronField) (value : Int) : Bool :=
  field.isWildcard || decide (value ∈ field.values)

/-- Function `CronParser::matches`. Sunday, `tm_wday = 0`, is looked up as 7. -/
def «matches» (clock : Clock) (cron : CronExpression) (time : TimePoint) : Bool :=
  if !cron.valid then false
  else
    let tm := toTm clock time
    let weekday := if tm.tm_wday = 0 then 7 else tm.tm_wday
    fieldMatches cron.minute tm.tm_min && fieldMatches cron.hour tm.tm_hour &&
      fieldMatches cron.day tm.tm_mday && fieldMatches cron.month (tm.tm_mon + 1) &&
      fieldMatches cron.weekday weekday

/-- The loop `while (current < end)` of `CronParser::nextMatch`, followed for `count`
iterations; with a clock that ticks, `current` is `end` after `24 * 365 * 60`. -/
def nextMatchLoop (clock : Clock) (cron : CronExpression) (start end_ : TimePoint) :
    Nat → TimePoint → TimePoint
  | 0, _ => start
  | count + 1, current =>
      if current < end_ then
        if «matches» clock cron current then current
        else nextMatchLoop clock cron start end_ count (current + clock.minutes 1)
      else start

/-- Function `CronParser::nextMatch`. -/
def nextMatch (clock : Clock) (cron : CronExpression) (start : TimePoint) : TimePoint :=
  if !cron.valid then start
  else nextMatchLoop clock cron start (start + clock.hours (24 * 365)) (24 * 365 * 60) start

end CronParser

/-! ## Values of type `double` (IEEE 754 binary64), as the scheduler computes with them -/

/-- A value of type `double`: `finite negative mantissa exponent` stands for the number
(-1)^negative * mantissa * 2^exponent (zero with either sign included), the others for the
two infinities and for "not a number". The results of the operations below have a mantissa
of at most 53 binary digits (2^53 itself included) and an exponent of at least -1074. -/
inductive Double where
  | finite (negative : Bool) (mantissa : Nat) (exponent : Int)
  | infinity (negative : Bool)
  | nan
  deriving DecidableEq, Repr

namespace Double

/-- The whole part of the binary logarithm of `n` (0 for `n = 0`), by halving; `fuel`
bounds the number of halvings. -/
def log2Loop : Nat → Nat → Nat
  | 0, _ => 0
  | fuel + 1, n => if n < 2 then 0 else log2Loop fuel (n / 2) + 1

/-- The whole part of the binary logarithm of `n`. -/
def log2 (n : Nat) : Nat := log2Loop n n

/-- The `double` nearest to the quotient `n / d` (`d > 0`), with the sign `negative`: the
rounding of the arithmetic in its default mode, to the nearest value and at a tie to the
even mantissa, with 53 binary digits, the least exponent -1074 (the subnormal numbers) and
infinity from 2^1024 on. `whole` is the whole part of the binary logarithm of `n / d`. -/
def round (negative : Bool) (n d : Nat) : Double :=
  if n = 0 then finite negative 0 0
  else
    let k : Int := (log2 n : Int) - (log2 d : Int)
    let whole : Int := if n * 2 ^ (-k).toNat < d * 2 ^ k.toNat then k - 1 else k
    let e : Int := max (whole - 52) (-1074)
    let num := n * 2 ^ (-e).toNat
    let den := d * 2 ^ e.toNat
    let q := num / den
    let r := num % den
    let m := if den < 2 * r ∨ (2 * r = den ∧ q % 2 = 1) then q + 1 else q
    if 1024 ≤ (log2 m : Int) + e then infinity negative else finite negative m e

/-- The conversion of an unsigned integer to `double` (`static_cast<double>` and the
conversion of the integer operand of a mixed operation). -/
def ofNat (n : Nat) : Double := round false n 1

/-- The conversion of a signed integer to `double`. -/
def ofInt (i : Int) : Double := round (decide (i < 0)) i.natAbs 1

/-- The value of a decimal literal without sign and exponent: the digits `n` read as a
whole number, `places` of them after the point (`0.2` is `ofDecimal 2 1`). -/
def ofDecimal (n places : Nat) : Double := round false n (10 ^ places)

/-- The value `0.0`. -/
def zero : Double := finite false 0 0

/-- Operator `/` of `double`. -/
def div : Double → Double → Double
  | nan, _ => nan
  | _, nan => nan
  | infinity _, infinity _ => nan
  | infinity s, finite t _ _ => infinity (s != t)
  | finite s _ _, infinity t => finite (s != t) 0 0
  | finite s m e, finite t n f =>
      if n = 0 then (if m = 0 then nan else infinity (s != t))
      else round (s != t) (m * 2 ^ (e - min e f).toNat) (n * 2 ^ (f - min e f).toNat)

/-- Operator `*` of `double`. -/
def mul : Double → Double → Double
  | nan, _ => nan
  | _, nan => nan
  | infinity s, infinity t => infinity (s != t)
  | infinity s, finite t n _ => if n = 0 then nan else infinity (s != t)
  | finite s m _, infinity t => if m = 0 then nan else infinity (s != t)
  | finite s m e, finite t n f =>
      round (s != t) (m * n * 2 ^ (e + f).toNat) (2 ^ (-(e + f)).toNat)

/-- Operator `<` of `double`: false when either side is not a number; the two zeros are
equal. -/
def lt : Double → Double → Bool
  | nan, _ => false
  | _, nan => false
  | infinity s, infinity t => s && !t
  | infinity s, finite _ _ _ => s
  | finite _ _ _, infinity t => !t
  | finite s m e, finite t n f =>
      let a := m * 2 ^ (e - min e f).toNat
      let b := n * 2 ^ (f - min e f).toNat
      match s, t with
      | false, false => decide (a < b)
      | false, true => false
      | true, false => decide (0 < a ∨ 0 < b)
      | true, true => decide (b < a)

/-- Operator `>` of `double`. -/
def gt (a b : Double) : Bool := lt b a

/-- The number a finite `double` stands for (0 for the others). -/
def toRat : Double → ℚ
  | finite s m e => (if s then -1 else 1) * (m : ℚ) * (2 : ℚ) ^ e
  | _ => 0

/-- The whole part of a finite `double`, toward zero, as the conversion to an integer type
takes it (0 for the others, for which the conversion is undefined). -/
def truncate : Double → Int
  | finite s m e =>
      let whole : Nat := m * 2 ^ e.toNat / 2 ^ (-e).toNat
      if s then -(whole : Int) else (whole : Int)
  | _ => 0

/-- The `double` is one of the two zeros. -/
def isZero : Double → Bool
  | finite _ m _ => m == 0
  | _ => false

/-- The number `q` is greater than the `double`, both taken as exact numbers: no number is
greater than plus infinity or compares with "not a number". -/
def belowRat : Double → ℚ → Prop
  | finite s m e, q => toRat (finite s m e) < q
  | infinity s, _ => s = true
  | nan, _ => False

/-- The function `std::min` on `double`s: the second argument if it is less than the first,
else the first. -/
def min (a b : Double) : Double := if lt b a then b else a

end Double

/-! ## The scheduler: the frequency limiter (scheduler/frequency_limiter.cpp) -/

namespace FrequencyLimiter

/-- The enumeration `FrequencyLimiter::Strategy`. -/
inductive Strategy where
  | FIXED_WINDOW
  | SLIDING_WINDOW
  | TOKEN_BUCKET
  deriving DecidableEq, Repr

/-- The struct `LimitConfig`; `windowMs` is a count of milliseconds. -/
structure LimitConfig where
  maxRequests : Int := 100
  windowMs : Int := 60000
  strategy : Strategy := .SLIDING_WINDOW
  deriving DecidableEq, Repr

/-- The struct `RequestRecord`; the constructor reads the clock for `timestamp`. -/
structure RequestRecord where
  timestamp : TimePoint
  identifier : String
  deriving DecidableEq, Repr

/-- The struct `LimitResult`; `resetAfter` is a count of milliseconds. -/
structure LimitResult where
  allowed : Bool := false
  remainingRequests : Int := 0
  resetAfter : Int := 0
  nextReset : TimePoint := 0
  deriving DecidableEq, Repr

/-- The struct `Stats`. -/
structure Stats where
  totalIdentifiers : Int := 0
  totalRequests : Int := 0
  blockedRequests : Int := 0
  blockRate : Double := Double.zero
  deriving DecidableEq

/-- The struct `IdentifierData`; the constructor reads the clock for `lastCleanup`. -/
structure IdentifierData where
  config : LimitConfig := {}
  requests : List RequestRecord := []
  lastCleanup : TimePoint
  deriving DecidableEq

end FrequencyLimiter

/-- An object of class `FrequencyLimiter`: the map `identifierData_` and `stats_`. The
mutex is left out: the calls are followed one at a time. -/
structure FrequencyLimiter where
  identifierData_ : List (String × FrequencyLimiter.IdentifierData) := []
  stats_ : FrequencyLimiter.Stats := {}

namespace FrequencyLimiter

/-- Method `setLimit`; `now` is the reading of the clock if `identifierData_[identifier]`
has to construct the entry. -/
def setLimit (lim : FrequencyLimiter) (now : TimePoint) (identifier : String)
    (config : LimitConfig) : FrequencyLimiter :=
  match mapFind identifier lim.identifierData_ with
  | some data =>
      { lim with identifierData_ :=
          mapAssign identifier { data with config := config } lim.identifierData_ }
  | none =>
      { lim with identifierData_ :=
          mapAssign identifier { config := config, lastCleanup := now } lim.identifierData_ }

/-- Method `cleanupExpiredRequests`. -/
def cleanupExpiredRequests (clock : Clock) (data : IdentifierData) (now : TimePoint) :
    IdentifierData :=
  { data with requests := data.requests.filter (fun request =>
      !decide (request.timestamp < now - clock.milliseconds data.config.windowMs)) }

/-- The count `currentRequests` of `checkFixedWindow` and `checkSlidingWindow`. -/
def currentRequests (clock : Clock) (data : IdentifierData) (now : TimePoint) : Int :=
  ((data.requests.filter (fun request =>
    decide (request.timestamp ≥ now - clock.milliseconds data.config.windowMs))).length : Int)

/-- Method `checkFixedWindow`. -/
def checkFixedWindow (clock : Clock) (data : IdentifierData) (now : TimePoint) :
    LimitResult :=
  { allowed := decide (currentRequests clock data now < data.config.maxRequests),
    remainingRequests := max 0 (data.config.maxRequests - currentRequests clock data now),
    nextReset := now + clock.milliseconds data.config.windowMs,
    resetAfter := clock.toMilliseconds
      (now + clock.milliseconds data.config.windowMs - now) }

/-- Method `checkSlidingWindow`. -/
def checkSlidingWindow (clock : Clock) (data : IdentifierData) (now : TimePoint) :
    LimitResult :=
  match data.requests with
  | earliest :: _ =>
      { allowed := decide (currentRequests clock data now < data.config.maxRequests),
        remainingRequests := max 0 (data.config.maxRequests - currentRequests clock data now),
        nextReset := earliest.timestamp + clock.milliseconds data.config.windowMs,
        resetAfter := clock.toMilliseconds
          (earliest.timestamp + clock.milliseconds data.config.windowMs - now) }
  | [] =>
      { allowed := decide (currentRequests clock data now < data.config.maxRequests),
        remainingRequests := max 0 (data.config.maxRequests - currentRequests clock data now),
        nextReset := now, resetAfter := 0 }

/-- The value `tokensToAdd` of `checkTokenBucket`: the milliseconds since `lastCleanup`
times `maxRequests`, divided by the window, in 64-bit integer arithmetic (quotient rounded
toward zero; a window of 0 is a division by zero in the source). -/
def tokensToAdd (clock : Clock) (data : IdentifierData) (now : TimePoint) : Int :=
  Int.tdiv (clock.toMilliseconds (now - data.lastCleanup) * data.config.maxRequests)
    data.config.windowMs

/-- The value `currentTokens` of `checkTokenBucket`, with the conversion
`static_cast<int>(tokensToAdd)`. -/
def currentTokens (clock : Clock) (data : IdentifierData) (now : TimePoint) : Int :=
  min data.config.maxRequests (Json.wrapInt32 (tokensToAdd clock data now))

/-- The value `tokensPerMs` of `checkTokenBucket`, a quotient of `double`s. -/
def tokensPerMs (config : LimitConfig) : Double :=
  Double.div (Double.ofInt config.maxRequests) (Double.ofInt config.windowMs)

/-- The value `timeToNextToken` of `checkTokenBucket`, in milliseconds, with the conversion
`static_cast<int>(1000 / tokensPerMs)`. -/
def timeToNextToken (config : LimitConfig) : Int :=
  if Double.gt (tokensPerMs config) (Double.ofNat 0) then
    Json.wrapInt32 (Double.truncate (Double.div (Double.ofNat 1000) (tokensPerMs config)))
  else config.windowMs

/-- Method `checkTokenBucket`: the result and the data with `lastCleanup = now`. -/
def checkTokenBucket (clock : Clock) (data : IdentifierData) (now : TimePoint) :
    IdentifierData × LimitResult :=
  ({ data with lastCleanup := now },
    { allowed := decide (currentTokens clock data now > 0),
      remainingRequests := currentTokens clock data now,
      nextReset := now + clock.milliseconds (timeToNextToken data.config),
      resetAfter := timeToNextToken data.config })

/-- Method `updateStats`. -/
def updateStats (stats : Stats) (allowed : Bool) : Stats :=
  { stats with
    totalRequests := stats.totalRequests + 1,
    blockedRequests := if allowed then stats.blockedRequests else stats.blockedRequests + 1,
    blockRate :=
      if stats.totalRequests + 1 > 0 then
        Double.div
          (Double.ofInt (if allowed then stats.blockedRequests else stats.blockedRequests + 1))
          (Double.ofInt (stats.totalRequests + 1))
      else Double.zero }

/-- Method `checkLimit`. The clock is read twice: `now` at the start of the call, and
`stamp` by the constructor of the record of an allowed request. -/
def checkLimit (clock : Clock) (lim : FrequencyLimiter) (now stamp : TimePoint)
    (identifier : String) : FrequencyLimiter × LimitResult :=
  match mapFind identifier lim.identifierData_ with
  | none => (lim, { allowed := true, remainingRequests := -1 })
  | some data0 =>
      let data := cleanupExpiredRequests clock data0 now
      let checked : IdentifierData × LimitResult :=
        match data.config.strategy with
        | .FIXED_WINDOW => (data, checkFixedWindow clock data now)
        | .SLIDING_WINDOW => (data, checkSlidingWindow clock data now)
        | .TOKEN_BUCKET => checkTokenBucket clock data now
      let data1 : IdentifierData :=
        if checked.2.allowed then
          { checked.1 with requests := checked.1.requests ++ [⟨stamp, identifier⟩] }
        else checked.1
      ({ identifierData_ := mapAssign identifier data1 lim.identifierData_,
         stats_ := updateStats lim.stats_ checked.2.allowed }, checked.2)

/-- Method `tryAcquire`. -/
def tryAcquire (clock : Clock) (lim : FrequencyLimiter) (now stamp : TimePoint)
    (identifier : String) : FrequencyLimiter × Bool :=
  ((checkLimit clock lim now stamp identifier).1,
    (checkLimit clock lim now stamp identifier).2.allowed)

/-- Consecutive calls of `checkLimit` for one identifier, each with its two readings of
the clock: the results, in order. -/
def checkAll (clock : Clock) (identifier : String) :
    FrequencyLimiter → List (TimePoint × TimePoint) → List LimitResult
  | _, [] => []
  | lim, (now, stamp) :: rest =>
      (checkLimit clock lim now stamp identifier).2 ::
        checkAll clock identifier (checkLimit clock lim now stamp identifier).1 rest

/-- Method `getStatus`, whose body is `return checkLimit(identifier);`. -/
def getStatus (clock : Clock) (lim : FrequencyLimiter) (now stamp : TimePoint)
    (identifier : String) : FrequencyLimiter × LimitResult :=
  checkLimit clock lim now stamp identifier

/-- Consecutive calls of `getStatus` for one identifier, each with its two readings of the
clock: the limiter they leave and the results, in order. -/
def getStatusAll (clock : Clock) (identifier : String) :
    FrequencyLimiter → List (TimePoint × TimePoint) → FrequencyLimiter × List LimitResult
  | lim, [] => (lim, [])
  | lim, (now, stamp) :: rest =>
      ((getStatusAll clock identifier (getStatus clock lim now stamp identifier).1 rest).1,
        (getStatus clock lim now stamp identifier).2 ::
          (getStatusAll clock identifier (getStatus clock lim now stamp identifier).1 rest).2)

/-- The rule of the sliding window in the words of the specification: a call at time `now`
is allowed iff fewer than `m` earlier allowed calls have timestamps in
`[now - window, now]`; `allowedSoFar` holds the timestamps of the earlier allowed
calls. -/
def slidingSpec (m : Int) (window : Int) :
    List TimePoint → List (TimePoint × TimePoint) → List Bool
  | _, [] => []
  | allowedSoFar, (now, stamp) :: rest =>
      if ((allowedSoFar.filter (fun s => decide (now - window ≤ s ∧ s ≤ now))).length : Int)
          < m then
        true :: slidingSpec m window (allowedSoFar ++ [stamp]) rest
      else false :: slidingSpec m window allowedSoFar rest

/-- The timestamps of the allowed calls of a series, given the results. -/
def allowedStamps : List Bool → List (TimePoint × TimePoint) → List TimePoint
  | true :: results, (_, stamp) :: rest => stamp :: allowedStamps results rest
  | false :: results, _ :: rest => allowedStamps results rest
  | _, _ => []

/-- The readings of the clock of a series of calls, in the order in which they are
taken. -/
def readings (calls : List (TimePoint × TimePoint)) : List TimePoint :=
  calls.flatMap (fun c => [c.1, c.2])

end FrequencyLimiter

/-! ## The scheduler: the resource monitor (scheduler/resource_monitor.cpp) -/

/-- The struct `ResourceUsage`; the counters are `size_t`, taken as 64 bits wide. -/
structure ResourceUsage where
  memoryUsage : Nat := 0
  cpuTimeMs : Nat := 0
  executionCount : Nat := 0
  errorCount : Nat := 0
  totalExecutionTimeMs : Nat := 0
  lastUpdate : TimePoint
  startTime : TimePoint
  deriving DecidableEq

/-- The struct `ResourceLimit`. -/
structure ResourceLimit where
  maxMemoryUsage : Nat := 0
  maxCpuTimeMs : Nat := 0
  maxExecutionCount : Nat := 0
  maxErrorRate : Double := Double.zero
  maxExecutionTimeMs : Nat := 0
  deriving DecidableEq

namespace ResourceMonitor

/-- The struct `ResourceMonitor::MonitoringData`. -/
structure MonitoringData where
  usage : ResourceUsage
  limits : ResourceLimit := {}
  createdTime : TimePoint
  deriving DecidableEq

/-- Method `checkViolations`: the reason of the first limit found exceeded, or the empty
text. The error rate is a quotient of `double`s, the two counters converted and the
quotient rounded, and it is compared with the limit as a `double`; the average execution
time is a quotient of `size_t`s, an integer division. -/
def checkViolations (data : MonitoringData) : String :=
  if data.limits.maxMemoryUsage > 0 ∧ data.usage.memoryUsage > data.limits.maxMemoryUsage then
    "Memory usage exceeds limit"
  else if data.limits.maxCpuTimeMs > 0 ∧ data.usage.cpuTimeMs > data.limits.maxCpuTimeMs then
    "CPU time exceeds limit"
  else if data.limits.maxExecutionCount > 0 ∧
      data.usage.executionCount > data.limits.maxExecutionCount then
    "Execution count exceeds limit"
  else if Double.gt data.limits.maxErrorRate (Double.ofNat 0) = true ∧
      data.usage.executionCount > 0 ∧
      Double.gt
          (Double.div (Double.ofNat data.usage.errorCount)
            (Double.ofNat data.usage.executionCount))
          data.limits.maxErrorRate = true then
    "Error rate exceeds limit"
  else if data.limits.maxExecutionTimeMs > 0 ∧ data.usage.executionCount > 0 ∧
      data.usage.totalExecutionTimeMs / data.usage.executionCount >
        data.limits.maxExecutionTimeMs then
    "Average execution time exceeds limit"
  else ""

end ResourceMonitor

/-- An object of class `ResourceMonitor`: the map `monitoringData_`. The mutex is left out:
the calls are followed one at a time. -/
structure ResourceMonitor where
  monitoringData_ : List (String × ResourceMonitor.MonitoringData) := []

namespace ResourceMonitor

/-- Method `startMonitoring`; `now` is the reading of the clock by the constructors. -/
def startMonitoring (m : ResourceMonitor) (now : TimePoint) (identifier : String)
    (limits : ResourceLimit) : ResourceMonitor :=
  ⟨mapAssign identifier
    { usage := { lastUpdate := now, startTime := now }, limits := limits, createdTime := now }
    m.monitoringData_⟩

/-- Method `stopMonitoring`. -/
def stopMonitoring (m : ResourceMonitor) (identifier : String) : ResourceMonitor :=
  ⟨mapErase identifier m.monitoringData_⟩

/-- Method `recordUsage`; the additions are those of `size_t`. -/
def recordUsage (m : ResourceMonitor) (now : TimePoint) (identifier : String)
    (memoryDelta executionTimeMs : Nat) (success : Bool) : ResourceMonitor :=
  match mapFind identifier m.monitoringData_ with
  | none => m
  | some data =>
      ⟨mapAssign identifier
        { data with usage :=
          { memoryUsage := (data.usage.memoryUsage + memoryDelta) % 2 ^ 64,
            cpuTimeMs := (data.usage.cpuTimeMs + executionTimeMs) % 2 ^ 64,
            executionCount := (data.usage.executionCount + 1) % 2 ^ 64,
            errorCount :=
              if success then data.usage.errorCount
              else (data.usage.errorCount + 1) % 2 ^ 64,
            totalExecutionTimeMs :=
              (data.usage.totalExecutionTimeMs + executionTimeMs) % 2 ^ 64,
            lastUpdate := now, startTime := data.usage.startTime } }
        m.monitoringData_⟩

/-- Method `checkLimits`. -/
def checkLimits (m : ResourceMonitor) (identifier : String) : Bool :=
  match mapFind identifier m.monitoringData_ with
  | none => false
  | some data => (checkViolations data).isEmpty

/-- Method `setLimits`. -/
def setLimits (m : ResourceMonitor) (identifier : String) (limits : ResourceLimit) :
    ResourceMonitor :=
  match mapFind identifier m.monitoringData_ with
  | none => m
  | some data => ⟨mapAssign identifier { data with limits := limits } m.monitoringData_⟩

/-- The struct `ResourceStatus`. -/
structure Status where
  withinLimits : Bool := true
  violationReason : String := ""
  memoryUsagePercent : Double := Double.zero
  cpuUsagePercent : Double := Double.zero
  errorRate : Double := Double.zero
  averageExecutionTimeMs : Nat := 0
  currentUsage : ResourceUsage
  limits : ResourceLimit := {}
  deriving DecidableEq

/-- Method `calculateUsagePercent`. -/
def calculateUsagePercent (current limit : Nat) : Double :=
  if limit = 0 then Double.zero
  else
    Double.min (Double.ofDecimal 1000 1)
      (Double.mul (Double.div (Double.ofNat current) (Double.ofNat limit))
        (Double.ofDecimal 1000 1))

/-- The constructor of `std::lock_guard<std::mutex>` on `mutex_`, in a thread that owns
`mutex_` already (`owned`) or not. A `std::mutex` is not recursive: `lock()` called by the
thread that owns the mutex does not return (the standard leaves the behaviour undefined;
the implementations in use block the thread for ever). `none` is the call that does not
return. -/
def lockGuard (owned : Bool) : Option Unit := if owned then none else some ()

/-- Method `checkLimits` with the `lock_guard` of its first line, as a thread calls it
that owns `mutex_` already or not. -/
def checkLimitsLocking (owned : Bool) (m : ResourceMonitor) (identifier : String) :
    Option Bool :=
  match lockGuard owned with
  | none => none
  | some _ => some (checkLimits m identifier)

/-- Method `getResourceStatus` with the `lock_guard` of its first line, as a thread calls
it that owns `mutex_` already or not; the guard is held to the end of the body, so the call
of `checkLimits` in the body is made by a thread that owns `mutex_`. `now` is the reading
of the clock by the constructor of `status.currentUsage`. `none` is the call that does not
return. -/
def getResourceStatus (owned : Bool) (m : ResourceMonitor) (now : TimePoint)
    (identifier : String) : Option Status :=
  match lockGuard owned with
  | none => none
  | some _ =>
      match mapFind identifier m.monitoringData_ with
      | none =>
          some { withinLimits := false, violationReason := "Not monitored",
                 currentUsage := { lastUpdate := now, startTime := now } }
      | some data =>
          match checkLimitsLocking true m identifier with
          | none => none
          | some withinLimits =>
              some { withinLimits := withinLimits,
                     violationReason := if withinLimits then "" else checkViolations data,
                     memoryUsagePercent :=
                       if data.limits.maxMemoryUsage > 0 then
                         calculateUsagePercent data.usage.memoryUsage
                           data.limits.maxMemoryUsage
                       else Double.zero,
                     cpuUsagePercent :=
                       if data.limits.maxCpuTimeMs > 0 then
                         calculateUsagePercent data.usage.cpuTimeMs data.limits.maxCpuTimeMs
                       else Double.zero,
                     errorRate :=
                       if data.usage.executionCount > 0 then
                         Double.div (Double.ofNat data.usage.errorCount)
                           (Double.ofNat data.usage.executionCount)
                       else Double.zero,
                     averageExecutionTimeMs :=
                       if data.usage.executionCount > 0 then
                         data.usage.totalExecutionTimeMs / data.usage.executionCount
                       else 0,
                     currentUsage := data.usage, limits := data.limits }

/-- The rule of `check_limits` in the words of the specification: some configured
non-zero limit is exceeded, the average execution time and the error rate being the exact
quotients, and the limit of the error rate the exact number its `double` stands for. -/
def exceededSpec (limits : ResourceLimit) (usage : ResourceUsage) : Prop :=
  (limits.maxMemoryUsage ≠ 0 ∧ usage.memoryUsage > limits.maxMemoryUsage) ∨
    (limits.maxCpuTimeMs ≠ 0 ∧ usage.cpuTimeMs > limits.maxCpuTimeMs) ∨
    (limits.maxExecutionCount ≠ 0 ∧ usage.executionCount > limits.maxExecutionCount) ∨
    (limits.maxExecutionTimeMs ≠ 0 ∧ usage.executionCount > 0 ∧
      (usage.totalExecutionTimeMs : ℚ) / (usage.executionCount : ℚ) >
        (limits.maxExecutionTimeMs : ℚ)) ∨
    (limits.maxErrorRate.isZero = false ∧ usage.executionCount > 0 ∧
      limits.maxErrorRate.belowRat ((usage.errorCount : ℚ) / (usage.executionCount : ℚ)))

end ResourceMonitor

/-! ## The scheduler: timers (scheduler/timer.h, scheduler/timer.cpp) -/

/-- The enumeration `TimerType`. -/
inductive TimerType where
  | ONCE
  | REPEAT
  | CRON
  deriving DecidableEq, Repr

/-- The enumeration `TimerStatus`. -/
inductive TimerStatus where
  | PENDING
  | RUNNING
  | COMPLETED
  | CANCELLED
  | ERROR
  deriving DecidableEq, Repr

/-- The struct `TimerInfo`. The member `callback`, a `std::function<void()>`, is kept as a
value of a type `C` that stands for the closure (`none` is the empty function); the code
that calls it is given the function that runs such a value. `interval` is a count of
milliseconds. The two counters are `int`; they are followed below `2 ^ 31`, where `++` is
defined. -/
structure TimerInfo (C : Type) where
  id : String
  type : TimerType := .ONCE
  status : TimerStatus := .PENDING
  nextExecution : TimePoint := 0
  interval : Int := 0
  cronExpression : String := ""
  callback : Option C := none
  repeatCount : Int := 0
  executedCount : Int := 0
  createdAt : TimePoint := 0
  lastExecuted : TimePoint := 0
  deriving DecidableEq

/-- An object of class `TimerManager`: the vector `timers_`. The worker thread, its flag,
the mutex and the condition variable are left out: the calls of the methods and the passes
of the worker are followed one at a time. -/
structure TimerManager (C : Type) where
  timers_ : List (TimerInfo C) := []

/-- What one pass of the worker leaves: the manager, the world outside it on which the
callbacks act, and the ids of the timers on which `executeTimer` was called, in the order
of the calls. -/
structure WorkerPass (C W : Type) where
  manager : TimerManager C
  world : W
  executed : List String

namespace TimerManager

/-- Method `getTimerInfo`: the first timer of `timers_` with the id, `none` for the null
pointer. -/
def getTimerInfo {C : Type} (m : TimerManager C) (id : String) : Option (TimerInfo C) :=
  m.timers_.find? (fun timer => decide (timer.id = id))

/-- Method `hasTimer`. -/
def hasTimer {C : Type} (m : TimerManager C) (id : String) : Bool :=
  (m.getTimerInfo id).isSome

/-- Method `calculateNextExecution`; `now` is its reading of the clock. -/
def calculateNextExecution {C : Type} (clock : Clock) (timer : TimerInfo C)
    (now : TimePoint) : TimePoint :=
  match timer.type with
  | .ONCE => now + clock.milliseconds timer.interval
  | .REPEAT => now + clock.milliseconds timer.interval
  | .CRON => CronParser.nextMatch clock (CronParser.parse timer.cronExpression) now

/-- Method `createOnceTimer`; `now` is the reading of the clock for `createdAt`. -/
def createOnceTimer {C : Type} (clock : Clock) (m : TimerManager C) (now : TimePoint)
    (id : String) (delay : Int) (callback : Option C) : TimerManager C × Bool :=
  if m.hasTimer id then (m, false)
  else
    (⟨m.timers_ ++ [
      { id := id, type := .ONCE, status := .PENDING, interval := delay,
        callback := callback, repeatCount := 1, executedCount := 0, createdAt := now,
        nextExecution := now + clock.milliseconds delay }]⟩, true)

/-- Method `createRepeatTimer`; `now` is the reading of the clock for `createdAt`. -/
def createRepeatTimer {C : Type} (clock : Clock) (m : TimerManager C) (now : TimePoint)
    (id : String) (interval : Int) (callback : Option C) (repeatCount : Int) :
    TimerManager C × Bool :=
  if m.hasTimer id then (m, false)
  else
    (⟨m.timers_ ++ [
      { id := id, type := .REPEAT, status := .PENDING, interval := interval,
        callback := callback, repeatCount := repeatCount, executedCount := 0,
        createdAt := now, nextExecution := now + clock.milliseconds interval }]⟩, true)

/-- Method `createCronTimer`; `created` is the reading of the clock for `createdAt` and
`now` the reading of `calculateNextExecution`. The source leaves `interval` unset; it is
not read for a timer of this type. -/
def createCronTimer {C : Type} (clock : Clock) (m : TimerManager C)
    (created now : TimePoint) (id : String) (cronExpression : String)
    (callback : Option C) : TimerManager C × Bool :=
  if m.hasTimer id then (m, false)
  else if !CronParser.isValid cronExpression then (m, false)
  else
    (⟨m.timers_ ++ [
      { id := id, type := .CRON, status := .PENDING, cronExpression := cronExpression,
        callback := callback, repeatCount := -1, executedCount := 0, createdAt := created,
        nextExecution :=
          CronParser.nextMatch clock (CronParser.parse cronExpression) now }]⟩, true)

/-- The assignment `(*it)->status = TimerStatus::CANCELLED` of `cancelTimer`, on the first
timer with the id. -/
def cancelFirst {C : Type} (id : String) : List (TimerInfo C) → List (TimerInfo C)
  | [] => []
  | timer :: rest =>
      if timer.id = id then { timer with status := .CANCELLED } :: rest
      else timer :: cancelFirst id rest

/-- Method `cancelTimer`. -/
def cancelTimer {C : Type} (m : TimerManager C) (id : String) : TimerManager C × Bool :=
  match m.timers_.find? (fun timer => decide (timer.id = id)) with
  | some _ => (⟨cancelFirst id m.timers_⟩, true)
  | none => (m, false)

/-- Method `executeTimer`: the timer and the world as the call leaves them. `call` runs a
callback on the world and tells whether the callback was left by an exception; `started`
is the reading of the clock for `lastExecuted` and `finished` the reading of
`calculateNextExecution`. -/
def executeTimer {C W : Type} (call : C → W → W × Bool) (clock : Clock)
    (timer : TimerInfo C) (world : W) (started finished : TimePoint) : TimerInfo C × W :=
  let running : TimerInfo C := { timer with status := .RUNNING, lastExecuted := started }
  let outcome : W × Bool :=
    match timer.callback with
    | some callback => call callback world
    | none => (world, false)
  if outcome.2 then ({ running with status := .ERROR }, outcome.1)
  else
    let counted : TimerInfo C := { running with executedCount := running.executedCount + 1 }
    match timer.type with
    | .ONCE => ({ counted with status := .COMPLETED }, outcome.1)
    | .REPEAT =>
        if counted.repeatCount = -1 ∨ counted.executedCount < counted.repeatCount then
          ({ counted with status := .PENDING,
                          nextExecution := calculateNextExecution clock counted finished },
            outcome.1)
        else ({ counted with status := .COMPLETED }, outcome.1)
    | .CRON =>
        ({ counted with status := .PENDING,
                        nextExecution := calculateNextExecution clock counted finished },
          outcome.1)

/-- The test of the first loop of `workerLoop`; `now` is the reading of the pass. -/
def isDue {C : Type} (now : TimePoint) (timer : TimerInfo C) : Bool :=
  decide (timer.status = .PENDING) && decide (timer.nextExecution ≤ now)

/-- The first two loops of `workerLoop` on the timers of `timers_` from some position on.
The source collects the due timers and calls `executeTimer` on them in a second loop, in
the order collected; a call writes to its own timer only, so the timers are tested and
executed here one after the other. `count` is the number of calls made before in the pass
and `readings count` are the two readings of the clock of the next call. -/
def executeDue {C W : Type} (call : C → W → W × Bool) (clock : Clock) (now : TimePoint)
    (readings : Nat → TimePoint × TimePoint) :
    Nat → List (TimerInfo C) → W → List (TimerInfo C) × W × List String
  | _, [], world => ([], world, [])
  | count, timer :: rest, world =>
      if isDue now timer then
        let r := executeTimer call clock timer world (readings count).1 (readings count).2
        let p := executeDue call clock now readings (count + 1) rest r.2
        (r.1 :: p.1, p.2.1, timer.id :: p.2.2)
      else
        let p := executeDue call clock now readings count rest world
        (timer :: p.1, p.2.1, p.2.2)

/-- The sweep that closes a pass of `workerLoop`: the timers that are `COMPLETED` or
`CANCELLED` are erased. -/
def sweep {C : Type} (timers : List (TimerInfo C)) : List (TimerInfo C) :=
  timers.filter (fun timer =>
    !(decide (timer.status = .COMPLETED) || decide (timer.status = .CANCELLED)))

/-- One pass of the loop of `workerLoop`, without the wait that ends it. -/
def workerPass {C W : Type} (call : C → W → W × Bool) (clock : Clock) (m : TimerManager C)
    (world : W) (now : TimePoint) (readings : Nat → TimePoint × TimePoint) :
    WorkerPass C W :=
  let p := executeDue call clock now readings 0 m.timers_ world
  ⟨⟨sweep p.1⟩, p.2.1, p.2.2⟩

/-- Consecutive passes of the worker, each with its reading `now` and the readings of its
calls of `executeTimer`: what the last pass leaves, and the timers executed in all the
passes, in order. -/
def workerPasses {C W : Type} (call : C → W → W × Bool) (clock : Clock) :
    TimerManager C → W → List (TimePoint × (Nat → TimePoint × TimePoint)) → WorkerPass C W
  | m, world, [] => ⟨m, world, []⟩
  | m, world, (now, readings) :: rest =>
      let r := workerPass call clock m world now readings
      let rs := workerPasses call clock r.manager r.world rest
      ⟨rs.manager, rs.world, r.executed ++ rs.executed⟩

/-- The timer `id` stands once in `timers_`, as a pending repeat timer with the callback
`callback`, the cap `n` and `k` executions so far. -/
def repeating {C : Type} (m : TimerManager C) (id : String) (callback : C) (n k : Int) :
    Prop :=
  ∃ pre timer post, m.timers_ = pre ++ timer :: post ∧
    id ∉ pre.map (fun x => x.id) ∧ id ∉ post.map (fun x => x.id) ∧
    timer.id = id ∧ timer.type = .REPEAT ∧ timer.status = .PENDING ∧
    timer.callback = some callback ∧ timer.repeatCount = n ∧ timer.executedCount = k

/-- The timer `id` stands once in `timers_`, as a pending repeat timer with the callback
`callback`, the cap `n`, `k` executions so far, the interval `interval` and the due time
`next`. -/
def repeatingDue {C : Type} (m : TimerManager C) (id : String) (callback : C) (n k : Int)
    (interval : Int) (next : TimePoint) : Prop :=
  ∃ pre timer post, m.timers_ = pre ++ timer :: post ∧
    id ∉ pre.map (fun x => x.id) ∧ id ∉ post.map (fun x => x.id) ∧
    timer.id = id ∧ timer.type = .REPEAT ∧ timer.status = .PENDING ∧
    timer.callback = some callback ∧ timer.repeatCount = n ∧ timer.executedCount = k ∧
    timer.interval = interval ∧ timer.nextExecution = next

/-- A series of passes of the worker, read against a repeat timer with the interval
`interval` that is due at `next`: `d` of the passes come when the timer is due. A pass
whose reading `now` is before `next` leaves the due time as it is; a pass at or after `next`
is counted, and the timer is due again at the interval after the second reading of the
clock of its call of `executeTimer`, whichever call of the pass that is. -/
def duePasses (clock : Clock) (interval : Int) :
    TimePoint → List (TimePoint × (Nat → TimePoint × TimePoint)) → Nat → Prop
  | _, [], d => d = 0
  | next, (now, readings) :: rest, d =>
      if next ≤ now then
        ∃ e, d = e + 1 ∧
          ∀ c, duePasses clock interval ((readings c).2 + clock.milliseconds interval) rest e
      else duePasses clock interval next rest d

end TimerManager

/-! ## The scheduler: tasks (scheduler/scheduler.h, scheduler/scheduler.cpp) -/

/-- The enumeration `TaskType`. -/
inductive TaskType where
  | RULE_EXECUTION
  | BEHAVIOR_TREE
  | CUSTOM_ACTION
  deriving DecidableEq, Repr

/-- The struct `TaskConfig`; `interval` is a count of milliseconds. -/
structure TaskConfig where
  id : String := ""
  type : TaskType
  targetId : String := ""
  cronExpression : String := ""
  interval : Int
  repeatCount : Int := -1
  enabled : Bool := true
  frequencyLimit : FrequencyLimiter.LimitConfig := {}
  resourceLimit : ResourceLimit := {}
  deriving DecidableEq

/-- The enumeration `TaskStatus`. -/
inductive TaskStatus where
  | PENDING
  | RUNNING
  | COMPLETED
  | FAILED
  | CANCELLED
  | DISABLED
  deriving DecidableEq, Repr

/-- The struct `TaskInfo`. The three counters are `int`; they are followed below `2 ^ 31`,
where `++` is defined. -/
structure TaskInfo where
  config : TaskConfig
  status : TaskStatus := .PENDING
  nextExecution : TimePoint := 0
  lastExecution : TimePoint := 0
  executionCount : Int := 0
  successCount : Int := 0
  failureCount : Int := 0
  lastError : String := ""
  deriving DecidableEq

/-- How a call of a `TaskCallback` ends: it returns a boolean, or it is left by a
`std::exception` with the message `what`, or by an exception of another type. -/
inductive TaskOutcome where
  | returned (success : Bool)
  | raised (what : String)
  | raisedOther
  deriving DecidableEq, Repr

/-- The type `TaskCallback`, a `std::function<bool(const std::string& taskId, const
std::string& targetId)>`: the world outside the scheduler as the call leaves it, and how
the call ends. -/
abbrev TaskCallback (U : Type) := String → String → U → U × TaskOutcome

/-- The struct `Scheduler::SchedulerStats`, without the members `resourceStats` and
`frequencyStats`, which are copied from the monitor and the limiter. -/
structure SchedulerStats where
  totalTasks : Int := 0
  activeTasks : Int := 0
  completedTasks : Int := 0
  failedTasks : Int := 0
  cancelledTasks : Int := 0
  disabledTasks : Int := 0
  totalExecutions : Int := 0
  successfulExecutions : Int := 0
  failedExecutions : Int := 0
  successRate : Double := Double.zero
  deriving DecidableEq

/-- An object of class `Scheduler`: the timer manager, the limiter, the monitor and the
maps `callbacks_` and `tasks_`. A callback of a timer of the scheduler is the closure
`[this, taskId]() { executeTask(taskId); }` of `createTaskWrapper`; it is kept as the
`taskId` it captures. The mutex and the flag `running_` are left out: the calls are
followed one at a time. -/
structure Scheduler (U : Type) where
  timerManager_ : TimerManager String := {}
  frequencyLimiter_ : FrequencyLimiter := {}
  resourceMonitor_ : ResourceMonitor := {}
  callbacks_ : List (TaskType × TaskCallback U) := []
  tasks_ : List (String × TaskInfo) := []

/-- What a call of `Scheduler::executeTask` leaves: the scheduler, the world on which the
user callbacks act, and whether the user callback was called. -/
structure TaskRun (U : Type) where
  scheduler : Scheduler U
  world : U
  invoked : Bool

namespace Scheduler

/-- The readings of the clock during a call of `createTask`: by `setLimit` when it
constructs the entry of the identifier, by `startMonitoring`, for `createdAt` of the timer
and by `calculateNextExecution` for a cron timer. -/
structure CreateClock where
  limiter : TimePoint
  monitor : TimePoint
  created : TimePoint
  next : TimePoint

/-- The readings of the clocks during a call of `executeTask`: the two of `tryAcquire`,
the one for `lastExecution`, the duration of the user callback in milliseconds as passed
to `recordTaskExecution`, and the reading of `recordUsage`. -/
structure RunClock where
  acquire : TimePoint
  stamp : TimePoint
  lastExecution : TimePoint
  executionTimeMs : Nat
  recorded : TimePoint

/-- Lookup `callbacks_.find(taskType)`. -/
def findCallback {U : Type} (taskType : TaskType) :
    List (TaskType × TaskCallback U) → Option (TaskCallback U)
  | [] => none
  | (k, v) :: rest => if k = taskType then some v else findCallback taskType rest

/-- Assignment `callbacks_[taskType] = callback`. -/
def assignCallback {U : Type} (taskType : TaskType) (callback : TaskCallback U) :
    List (TaskType × TaskCallback U) → List (TaskType × TaskCallback U)
  | [] => [(taskType, callback)]
  | (k, v) :: rest =>
      if k = taskType then (k, callback) :: rest
      else (k, v) :: assignCallback taskType callback rest

/-- Method `registerCallback`. -/
def registerCallback {U : Type} (s : Scheduler U) (taskType : TaskType)
    (callback : TaskCallback U) : Scheduler U :=
  { s with callbacks_ := assignCallback taskType callback s.callbacks_ }

/-- Method `createTaskWrapper`: the closure, kept as the id it captures. -/
def createTaskWrapper (taskId : String) : String := taskId

/-- Method `getTaskInfo`; `none` is the null pointer. -/
def getTaskInfo {U : Type} (s : Scheduler U) (taskId : String) : Option TaskInfo :=
  mapFind taskId s.tasks_

/-- Method `getAllTasks`. The source returns the tasks in the order of their ids; the
entries are kept here in the order in which they were added. -/
def getAllTasks {U : Type} (s : Scheduler U) : List TaskInfo :=
  s.tasks_.map (fun pair => pair.2)

/-- Method `createTask`. -/
def createTask {U : Type} (clock : Clock) (s : Scheduler U) (r : CreateClock)
    (config : TaskConfig) : Scheduler U × Bool :=
  if config.id.isEmpty || config.targetId.isEmpty then (s, false)
  else if (mapFind config.id s.tasks_).isSome then (s, false)
  else
    let taskInfo : TaskInfo :=
      { config := config, status := if config.enabled then .PENDING else .DISABLED }
    let s1 : Scheduler U :=
      { s with
        frequencyLimiter_ :=
          s.frequencyLimiter_.setLimit r.limiter config.id config.frequencyLimit
        resourceMonitor_ :=
          s.resourceMonitor_.startMonitoring r.monitor config.id config.resourceLimit }
    let timer : TimerManager String × Bool :=
      if !config.cronExpression.isEmpty then
        TimerManager.createCronTimer clock s.timerManager_ r.created r.next config.id
          config.cronExpression (some (createTaskWrapper config.id))
      else if config.interval > 0 then
        TimerManager.createRepeatTimer clock s.timerManager_ r.created config.id
          config.interval (some (createTaskWrapper config.id)) config.repeatCount
      else (s.timerManager_, false)
    if timer.2 then
      ({ s1 with timerManager_ := timer.1, tasks_ := mapAssign config.id taskInfo s1.tasks_ },
        true)
    else ({ s1 with timerManager_ := timer.1 }, false)

/-- Method `updateTaskStatus`. -/
def updateTaskStatus {U : Type} (s : Scheduler U) (taskId : String) (status : TaskStatus) :
    Scheduler U :=
  match mapFind taskId s.tasks_ with
  | some task => { s with tasks_ := mapAssign taskId { task with status := status } s.tasks_ }
  | none => s

/-- Method `cancelTask`. -/
def cancelTask {U : Type} (s : Scheduler U) (taskId : String) : Scheduler U × Bool :=
  if (s.timerManager_.cancelTimer taskId).2 then
    (({ s with timerManager_ := (s.timerManager_.cancelTimer taskId).1 }).updateTaskStatus
      taskId .CANCELLED, true)
  else ({ s with timerManager_ := (s.timerManager_.cancelTimer taskId).1 }, false)

/-- Method `setTaskEnabled`. -/
def setTaskEnabled {U : Type} (s : Scheduler U) (taskId : String) (enabled : Bool) :
    Scheduler U × Bool :=
  match mapFind taskId s.tasks_ with
  | none => (s, false)
  | some task =>
      let updated : TaskInfo :=
        { task with config := { task.config with enabled := enabled },
                    status := if enabled then .PENDING else .DISABLED }
      ({ s with tasks_ := mapAssign taskId updated s.tasks_ }, true)

/-- The body of the loop of `getStats` for one task. -/
def countTask (stats : SchedulerStats) (task : TaskInfo) : SchedulerStats :=
  let counted : SchedulerStats :=
    match task.status with
    | .PENDING => { stats with activeTasks := stats.activeTasks + 1 }
    | .RUNNING => { stats with activeTasks := stats.activeTasks + 1 }
    | .COMPLETED => { stats with completedTasks := stats.completedTasks + 1 }
    | .FAILED => { stats with failedTasks := stats.failedTasks + 1 }
    | .CANCELLED => { stats with cancelledTasks := stats.cancelledTasks + 1 }
    | .DISABLED => { stats with disabledTasks := stats.disabledTasks + 1 }
  { counted with
    totalExecutions := counted.totalExecutions + task.executionCount
    successfulExecutions := counted.successfulExecutions + task.successCount
    failedExecutions := counted.failedExecutions + task.failureCount }

/-- Method `getStats`, without the statistics of the monitor and of the limiter. -/
def getStats {U : Type} (s : Scheduler U) : SchedulerStats :=
  let stats : SchedulerStats :=
    s.tasks_.foldl (fun acc pair => countTask acc pair.2)
      { totalTasks := (s.tasks_.length : Int) }
  if stats.totalExecutions > 0 then
    { stats with
      successRate :=
        Double.div (Double.ofInt stats.successfulExecutions) (Double.ofInt stats.totalExecutions) }
  else stats

/-- Method `recordTaskExecution`; `now` is the reading of the clock by `recordUsage`. -/
def recordTaskExecution {U : Type} (s : Scheduler U) (now : TimePoint) (taskId : String)
    (success : Bool) (executionTimeMs : Nat) (error : String) : Scheduler U :=
  { s with
    tasks_ :=
      match mapFind taskId s.tasks_ with
      | some task =>
          mapAssign taskId
            (if success then
              { task with executionCount := task.executionCount + 1,
                          successCount := task.successCount + 1 }
            else
              { task with executionCount := task.executionCount + 1,
                          failureCount := task.failureCount + 1, lastError := error })
            s.tasks_
      | none => s.tasks_
    resourceMonitor_ := s.resourceMonitor_.recordUsage now taskId 0 executionTimeMs success }

/-- The assignment `taskInfo->lastExecution = ...` of `executeTask`, on the task that the
pointer `taskInfo` shares with `tasks_`. -/
def setLastExecution {U : Type} (s : Scheduler U) (taskId : String) (now : TimePoint) :
    Scheduler U :=
  match mapFind taskId s.tasks_ with
  | some task =>
      { s with tasks_ := mapAssign taskId { task with lastExecution := now } s.tasks_ }
  | none => s

/-- The `try` block of `executeTask`: the world as the user callback leaves it, `success`,
`error`, and whether the callback was called. -/
def runCallback {U : Type} (s : Scheduler U) (taskId : String) (taskInfo : TaskInfo)
    (world : U) : U × Bool × String × Bool :=
  match findCallback taskInfo.config.type s.callbacks_ with
  | some callback =>
      match callback taskId taskInfo.config.targetId world with
      | (world1, .returned success) => (world1, success, "", true)
      | (world1, .raised what) => (world1, false, what, true)
      | (world1, .raisedOther) => (world1, false, "Unknown error occurred", true)
  | none => (world, false, "No callback registered for task type", false)

/-- Method `executeTask`. The pointer `taskInfo` is to the task in `tasks_`: what is read
through it after `recordTaskExecution` is read from `tasks_`. -/
def executeTask {U : Type} (clock : Clock) (s : Scheduler U) (r : RunClock)
    (taskId : String) (world : U) : TaskRun U :=
  match s.getTaskInfo taskId with
  | none => ⟨s, world, false⟩
  | some taskInfo =>
      if !taskInfo.config.enabled then ⟨s, world, false⟩
      else
        let s1 : Scheduler U :=
          { s with frequencyLimiter_ :=
              (FrequencyLimiter.tryAcquire clock s.frequencyLimiter_ r.acquire r.stamp
                taskId).1 }
        if !(FrequencyLimiter.tryAcquire clock s.frequencyLimiter_ r.acquire r.stamp
            taskId).2 then
          ⟨s1, world, false⟩
        else if !s1.resourceMonitor_.checkLimits taskId then
          ⟨(s1.updateTaskStatus taskId .FAILED).recordTaskExecution r.recorded taskId false 0
            "Resource limit exceeded", world, false⟩
        else
          let s2 : Scheduler U :=
            (s1.updateTaskStatus taskId .RUNNING).setLastExecution taskId r.lastExecution
          let ran := runCallback s2 taskId taskInfo world
          let s3 : Scheduler U :=
            s2.recordTaskExecution r.recorded taskId ran.2.1 r.executionTimeMs ran.2.2.1
          let counted : TaskInfo := (mapFind taskId s3.tasks_).getD taskInfo
          if ran.2.1 then
            if counted.config.repeatCount = -1 ∨
                counted.executionCount < counted.config.repeatCount then
              ⟨s3.updateTaskStatus taskId .PENDING, ran.1, ran.2.2.2⟩
            else ⟨s3.updateTaskStatus taskId .COMPLETED, ran.1, ran.2.2.2⟩
          else ⟨s3.updateTaskStatus taskId .FAILED, ran.1, ran.2.2.2⟩

end Scheduler

/-! ## Scenarios of the specification and of the tests -/

namespace Demo

/-- An action that returns normally and leaves the context as it is. -/
def quiet : ActionFn := fun _ ctx => (ctx, none)

/-- An action that raises a `std::exception`. -/
def failing : ActionFn := fun _ ctx => (ctx, some (.exception "failure"))

/-- An action that throws a value of a type outside `std::exception` (as `throw 42;`
does). -/
def aborting : ActionFn := fun _ ctx => (ctx, some .other)

/-- An engine with the actions of the scenarios registered. -/
def engine0 : Engine :=
  ((({} : Engine).register_action "test_action" quiet).register_action "broken" failing)

/-- The condition `test == "true"` of the tests. -/
def whenTest : Json := .obj [("left", .str "test"), ("op", .str "=="), ("right", .str "true")]

/-- One action step with a message. -/
def step (action message : String) : Json :=
  .obj [("action", .str action), ("params", .obj [("message", .str message)])]

/-- The context `test = "true"` that satisfies `whenTest`. -/
def ctxTest : Context := Context.set [] "test" (.str "true")

/-- Scenario S2: one repeat rule with `throttle_ms = 1000`. -/
def throttleCfg : Json :=
  .obj [("rules", .arr [
    .obj [("do", .arr [step "test_action" "throttled rule"]), ("id", .str "r1"),
          ("mode", .str "repeat"), ("throttle_ms", .int 1000), ("when", whenTest)]])]

/-- Scenario S3: three rules with the same condition and priorities 300, 100, 200. -/
def priorityCfg : Json :=
  .obj [("rules", .arr [
    .obj [("do", .arr [step "test_action" "p300"]), ("id", .str "a"),
          ("priority", .int 300), ("when", whenTest)],
    .obj [("do", .arr [step "test_action" "p100"]), ("id", .str "b"),
          ("priority", .int 100), ("when", whenTest)],
    .obj [("do", .arr [step "test_action" "p200"]), ("id", .str "c"),
          ("priority", .int 200), ("when", whenTest)]])]

/-- Scenario S4: two satisfied rules in the group `safety`. -/
def groupCfg : Json :=
  .obj [("rules", .arr [
    .obj [("do", .arr [step "test_action" "first"]), ("group", .str "safety"),
          ("id", .str "g1"), ("when", whenTest)],
    .obj [("do", .arr [step "test_action" "second"]), ("group", .str "safety"),
          ("id", .str "g2"), ("when", whenTest)]])]

/-- The expression `(temp + 10) > 50` of test_expression_simple.cpp (rule `math_test`). -/
def mathExpr : Json :=
  .obj [("left", .obj [("left", .str "temp"), ("op", .str "+"), ("right", .int 10)]),
        ("op", .str ">"), ("right", .int 50)]

/-- The configuration of rule `math_test` in test_expression_simple.cpp. -/
def mathCfg : Json :=
  .obj [("rules", .arr [
    .obj [("do", .arr [step "test_action" "math"]), ("id", .str "math_test"),
          ("priority", .int 100), ("when", .obj [("expression", mathExpr)])]])]

/-- The call `avg_last_n(temp, 5)` as an expression. -/
def avgExpr : Json := .obj [("args", .arr [.str "temp", .int 5]), ("func", .str "avg_last_n")]

/-- A rule whose condition is the expression `avg_last_n(temp, 5)`, followed by a rule with
the condition `test == "true"`. -/
def avgCfg : Json :=
  .obj [("rules", .arr [
    .obj [("do", .arr [step "test_action" "average"]), ("id", .str "avg"),
          ("priority", .int 1), ("when", .obj [("expression", avgExpr)])],
    .obj [("do", .arr [step "test_action" "after"]), ("id", .str "later"),
          ("priority", .int 2), ("when", whenTest)]])]

/-- The context of the main program: `temp = 45`, and `test = "true"`. -/
def ctxTemp : Context := Context.set ctxTest "temp" (.int 45)

/-- The engine after loading scenario S2. -/
def throttleEngine : Engine := (engine0.load throttleCfg).1

/-- The engine after loading scenario S3. -/
def priorityEngine : Engine := (engine0.load priorityCfg).1

/-- The engine after loading scenario S4. -/
def groupEngine : Engine := (engine0.load groupCfg).1

/-- The engine after loading `mathCfg`. -/
def mathEngine : Engine := (engine0.load mathCfg).1

/-- The engine after loading `avgCfg`. -/
def avgEngine : Engine := (engine0.load avgCfg).1

/-- The condition parsed from `whenTest`. -/
def condTest : Condition := .mk "test" "==" (.str "true") [] [] none false

/-- The parameters of a step built by `step`. -/
def message (text : String) : Json := .obj [("message", .str text)]

/-- The rule of scenario S2 as `load` leaves it. -/
def throttleRule : Rule :=
  { id := "r1", condition := some condTest,
    actions := [{ name := "test_action", params := message "throttled rule" }],
    mode := .REPEAT, throttle_ms := 1000, last_fire := 0, disabled := false,
    priority := 500, group := "" }

/-- The node `ExpressionParser::parse` builds from `avgExpr`. -/
def avgNode : ExprNode :=
  .mk .EXPR_FUNC "" "" "avg_last_n"
    [.mk .EXPR_VAR "temp" "" "" [], .mk .EXPR_VALUE "5" "" "" []]

/-- The node `ExpressionParser::parse` builds from `mathExpr`. -/
def mathNode : ExprNode :=
  .mk .EXPR_OP "" ">" ""
    [.mk .EXPR_OP "" "+" "" [.mk .EXPR_VAR "temp" "" "" [], .mk .EXPR_VALUE "10" "" "" []],
     .mk .EXPR_VALUE "50" "" "" []]

/-- A rule of the group `safety`. -/
def safetyRule : Rule :=
  { id := "g1", condition := some condTest,
    actions := [{ name := "test_action", params := message "first" }],
    mode := .REPEAT, throttle_ms := 0, last_fire := 0, disabled := false,
    priority := 500, group := "safety" }

/-- An action node as the parser builds it from `{"type": "action", "action": a}`. -/
def leaf (a : String) : Json := .obj [("action", .str a), ("type", .str "action")]

/-- A tree document whose root is a sequence of four actions returning Success, Success,
Failure, Success. -/
def sequenceDoc : Json :=
  .obj [("root", .obj [("children", .arr [leaf "print", leaf "print", leaf "fail",
    leaf "print"]), ("type", .str "sequence")])]

/-- A tree document whose root is a selector of four actions returning Failure, Failure,
Success, Failure. -/
def selectorDoc : Json :=
  .obj [("root", .obj [("children", .arr [leaf "fail", leaf "fail", leaf "print",
    leaf "fail"]), ("type", .str "selector")])]

/-- The node that the parser builds for the action `a` with no parameters. -/
def act (a : String) : BTNode :=
  .action "Action" (some (BTParser.createDefaultAction a (.obj []))) (.obj [])

/-- The tree of `sequenceDoc`. -/
def sequenceTree : BTNode :=
  .sequence "sequence" [act "print", act "print", act "fail", act "print"]

/-- The tree of `selectorDoc`. -/
def selectorTree : BTNode :=
  .selector "selector" [act "fail", act "fail", act "print", act "fail"]

/-- A tree document whose root is a parallel node with the default policy and an empty
list of children. -/
def parallelDoc : Json :=
  .obj [("root", .obj [("children", .arr []), ("type", .str "parallel")])]

/-- The tree of `parallelDoc`. -/
def parallelTree : BTNode := .parallel "parallel" .SUCCEED_ON_ONE []

/-- A tree document whose root repeats, until it fails, an action that returns Success. -/
def untilFailDoc : Json :=
  .obj [("root", .obj [("child", leaf "print"), ("type", .str "until_fail")])]

/-- The tree of `untilFailDoc`. -/
def untilFailTree : BTNode := .until_fail "until_fail" (some (act "print"))

/-- A tree document whose root repeats, until it succeeds, an action that returns
Failure. -/
def untilSuccessDoc : Json :=
  .obj [("root", .obj [("child", leaf "fail"), ("type", .str "until_success")])]

/-- The tree of `untilSuccessDoc`. -/
def untilSuccessTree : BTNode := .until_success "until_success" (some (act "fail"))

/-- The tree `repeater(n = 3, sequence(action_a, action_b))` of scenario S5, for two action
functions. -/
def repeatTree (action_a action_b : ActionFunction) : BTNode :=
  .repeater "repeater" 3 0 (some (.sequence "sequence"
    [.action "action_a" (some action_a) (.obj []),
     .action "action_b" (some action_b) (.obj [])]))

/-- A tree document whose root is an inverter over a repeater (two repetitions) of the
`print` action. -/
def resetDoc : Json :=
  .obj [("root", .obj [("child", .obj [("child", leaf "print"),
      ("repeat_count", .int 2), ("type", .str "repeater")]),
    ("type", .str "inverter")])]

/-- The tree of `resetDoc`. -/
def resetTree : BTNode :=
  .inverter "inverter" (some (.repeater "repeater" 2 0 (some (act "print"))))

/-- A tree document whose root is an action node with `"action": "custom"`. -/
def customDoc : Json := .obj [("root", leaf "custom")]

/-- An action function as a caller registers it: it writes `moved = true` to the context
and returns Failure. -/
def customAction : ActionFunction :=
  fun ctx => (ctx.set "moved" (.bool true), some .FAILURE)

/-- A tree document whose root is a condition node with `"condition": "blocked"`. -/
def blockedDoc : Json :=
  .obj [("root", .obj [("condition", .str "blocked"), ("type", .str "condition")])]

/-- A predicate as a caller registers it: always false. -/
def blocked : ConditionFunction := fun ctx => (ctx, some false)

/-- The calls of the test `test_behavior_tree.cpp` on a new manager: registrations
(`before`), `loadTree` of a document under the name `robot_behavior`, further calls
(`after`), then `executeTree` on a context. The result is what `loadTree` returned, the
status that `executeTree` returned and the context it left. -/
def loadAndExecute (before after : BTManager → BTManager) (doc : Json) (ctx : Context) :
    Except Raised (Bool × Option BTStatus × Context) :=
  match (before BTManager.new).loadTree "robot_behavior" doc with
  | .error e => .error e
  | .ok (m, loaded) =>
      .ok (loaded, ((after m).executeTree 4 "robot_behavior" ctx).status,
        ((after m).executeTree 4 "robot_behavior" ctx).ctx)

/-- A tree document whose root is a sequence with one child of the unknown type
`teleport`. -/
def nestedUnknownDoc : Json :=
  .obj [("root", .obj [("children", .arr [.obj [("type", .str "teleport")]]),
    ("type", .str "sequence")])]

/-- A tree document whose root is an inverter over a child of the unknown type
`teleport`. -/
def unknownChildDoc : Json :=
  .obj [("root", .obj [("child", .obj [("type", .str "teleport")]),
    ("type", .str "inverter")])]

/-- A manager that holds the tree of `sequenceDoc` under the name `t`, after one call of
`executeTree` on it. -/
def executedOnce : BTManager :=
  (BTManager.executeTree 4 ⟨[("t", BTExecutor.new.setRoot (some sequenceTree))]⟩ "t" []).self

/-- An executor over the `print` action, after one call of `execute` (which returns
Success), then `stop()` and `pause()`. -/
def stoppedThenPaused : BTExecutor :=
  BTExecutor.steps 2 (BTExecutor.new.setRoot (some (act "print")))
    [.execute [], .stop, .pause]

/-- The function `std::localtime` of a process whose time zone is UTC: the civil date and
time of a count of seconds since 1970-01-01 00:00, a Thursday, in the Gregorian
calendar. -/
def utcTime (t : Int) : Tm :=
  let days := t / 86400
  let secs := t % 86400
  let doe := (days + 719468) % 146097
  let yoe := (doe - doe / 1460 + doe / 36524 - doe / 146096) / 365
  let doy := doe - (365 * yoe + yoe / 4 - yoe / 100)
  let mp := (5 * doy + 2) / 153
  let m := if mp < 10 then mp + 3 else mp - 9
  { tm_sec := secs % 60, tm_min := secs / 60 % 60, tm_hour := secs / 3600,
    tm_mday := doy - (153 * mp + 2) / 5 + 1, tm_mon := m - 1,
    tm_year := yoe + (days + 719468) / 146097 * 400 + (if m ≤ 2 then 1 else 0) - 1900,
    tm_wday := (days + 4) % 7 }

/-- A platform whose system clock ticks in nanoseconds and whose time zone is UTC. -/
def clock : Clock := { ticksPerMs := 1000000, localtime := utcTime }

/-- The time point of a count of seconds since the epoch on `clock`. -/
def atSecond (t : Int) : TimePoint := t * 1000000000

/-- Saturday 2024-01-06 10:00, in seconds since the epoch. -/
def saturday10 : Int := 1704535200

/-- Monday 2024-01-08 09:00, in seconds since the epoch. -/
def monday9 : Int := 1704704400

/-- Sunday 2024-01-07 14:30, in seconds since the epoch. -/
def sunday1430 : Int := 1704637800

/-- The expression `0 9 * * 1-5` as `CronParser::parse` returns it. -/
def weekdays9 : CronParser.CronExpression :=
  { minute := { values := [0] }, hour := { values := [9] }, day := { isWildcard := true },
    month := { isWildcard := true }, weekday := { values := [1, 2, 3, 4, 5], isRange := true },
    original := "0 9 * * 1-5", valid := true }

/-- The time point of a count of milliseconds since the epoch on `clock`. -/
def atMs (t : Int) : TimePoint := t * 1000000

/-- The calls of scenario S7: at 0, 100, 200, 300, 400 and 1100 ms, each with the two
readings of the clock equal. -/
def rapidCalls : List (TimePoint × TimePoint) :=
  [(atMs 0, atMs 0), (atMs 100, atMs 100), (atMs 200, atMs 200), (atMs 300, atMs 300),
   (atMs 400, atMs 400), (atMs 1100, atMs 1100)]

/-- A monitor with the limit `maxExecutionTimeMs = 5` on `task` and two recorded
executions, of 5 ms and of 6 ms. -/
def slowTask : ResourceMonitor :=
  ((({} : ResourceMonitor).startMonitoring 0 "task" { maxExecutionTimeMs := 5 }).recordUsage
    1 "task" 0 5 true).recordUsage 2 "task" 0 6 true

/-- The monitor after `n` further executions of `task` without memory, of 1 ms each, with
the given outcome. -/
def recordRuns (m : ResourceMonitor) (success : Bool) : Nat → ResourceMonitor
  | 0 => m
  | n + 1 => (recordRuns m success n).recordUsage 1 "task" 0 1 success

/-- A monitor with the limit `maxErrorRate = 0.3` on `task` and ten recorded executions,
three of them failed. -/
def flakyTask : ResourceMonitor :=
  recordRuns
    (recordRuns
      (({} : ResourceMonitor).startMonitoring 0 "task" { maxErrorRate := Double.ofDecimal 3 1 })
      true 7)
    false 3

/-- A configuration whose first rule parses and whose second rule has a number as `id`. -/
def badIdCfg : Json :=
  .obj [("rules", .arr [
    .obj [("do", .arr [step "test_action" "kept"]), ("id", .str "z"), ("when", whenTest)],
    .obj [("id", .int 5)]])]

/-- The engine of scenario S4 after `disable_rule_group("safety")`. -/
def safetyOffEngine : Engine := groupEngine.disable_rule_group "safety"

/-- Three calls for one identifier, 100 ms apart from 1 s on. -/
def threeCalls : List (TimePoint × TimePoint) :=
  [(atMs 1000, atMs 1000), (atMs 1100, atMs 1100), (atMs 1200, atMs 1200)]

/-- A callback of the timer scenarios: a name, and whether the call is left by an
exception. -/
abbrev Noted := String × Bool

/-- Running such a callback: the name is written to the world, a list of names. -/
def note : Noted → List String → List String × Bool :=
  fun callback world => (world ++ [callback.1], callback.2)

/-- Two one-shot timers created at time 0: first `a`, due after 200 ms, then `b`, due
after 100 ms. -/
def twoTimers : TimerManager Noted :=
  ((TimerManager.createOnceTimer clock
    ((TimerManager.createOnceTimer clock {} 0 "a" 200 (some ("a", false))).1)
    0 "b" 100 (some ("b", false))).1)

/-- The readings of the clock of the calls of `executeTimer` in a pass at `t` ms: both
readings of every call are `t` ms. -/
def readingsAt (t : Int) : Nat → TimePoint × TimePoint := fun _ => (atMs t, atMs t)

/-- A cron timer for `0 9 * * 1-5` that was created on Saturday 2024-01-06 10:00 and is
due on Monday 09:00. -/
def cronTimer : TimerInfo Noted :=
  { id := "job", type := .CRON, status := .PENDING, cronExpression := "0 9 * * 1-5",
    callback := some ("job", false), repeatCount := -1, executedCount := 0,
    createdAt := atSecond saturday10, nextExecution := atSecond monday9 }

/-- A one-shot timer `bad` whose callback is left by an exception and, created after it, a
repeat timer `tick` with cap 2; both are created at time 0 with 100 ms. -/
def repeatTimers : TimerManager Noted :=
  (TimerManager.createRepeatTimer clock
    ((TimerManager.createOnceTimer clock {} 0 "bad" 100 (some ("bad", true))).1)
    0 "tick" 100 (some ("tick", false)) 2).1

/-- Three passes of the worker, at 100 ms, 200 ms and 300 ms. -/
def threePasses : List (TimePoint × (Nat → TimePoint × TimePoint)) :=
  [(atMs 100, readingsAt 100), (atMs 200, readingsAt 200), (atMs 300, readingsAt 300)]

/-- Four passes of the worker, at 50 ms, 100 ms, 150 ms and 200 ms. -/
def idlePasses : List (TimePoint × (Nat → TimePoint × TimePoint)) :=
  [(atMs 50, readingsAt 50), (atMs 100, readingsAt 100), (atMs 150, readingsAt 150),
   (atMs 200, readingsAt 200)]

/-- A user callback that writes the id of the task to the world, a list of ids, and
returns `success`. -/
def answer (success : Bool) : TaskCallback (List String) :=
  fun taskId _ world => (world ++ [taskId], .returned success)

/-- A task repeated every second without a cap, limited to one execution in a minute. -/
def repeatTask : TaskConfig :=
  { id := "t", type := .CUSTOM_ACTION, targetId := "target", interval := 1000,
    frequencyLimit := { maxRequests := 1, windowMs := 60000 } }

/-- A scheduler with `answer success` registered for custom actions and with the task
`repeatTask`, created at time 0. -/
def taskScheduler (success : Bool) : Scheduler (List String) :=
  (Scheduler.createTask clock
    (({} : Scheduler (List String)).registerCallback .CUSTOM_ACTION (answer success))
    ⟨0, 0, 0, 0⟩ repeatTask).1

/-- The readings of a call of `executeTask` at `t` ms whose callback takes 5 ms. -/
def runAt (t : Int) : Scheduler.RunClock := ⟨atMs t, atMs t, atMs t, 5, atMs (t + 5)⟩

/-- The scheduler `taskScheduler true` after a call of `executeTask` for `t` at 1 s. -/
def afterFirstRun : Scheduler (List String) :=
  (Scheduler.executeTask clock (taskScheduler true) (runAt 1000) "t" []).scheduler

/-- The monitor of `testResourceMonitor` after `startMonitoring("test_task", limits)` and
the first `recordUsage("test_task", 100 * 1024, 500, true)`. -/
def testMonitor : ResourceMonitor :=
  (({} : ResourceMonitor).startMonitoring 0 "test_task"
    { maxMemoryUsage := 1024 * 1024, maxCpuTimeMs := 5000, maxExecutionCount := 10,
      maxErrorRate := Double.ofDecimal 2 1 }).recordUsage (atMs 1) "test_task" (100 * 1024) 500 true

/-- Scenario S2 with an action step that throws a value outside `std::exception`. -/
def abortThrottleCfg : Json :=
  .obj [("rules", .arr [
    .obj [("do", .arr [step "abort" "throttled rule"]), ("id", .str "r1"),
          ("mode", .str "repeat"), ("throttle_ms", .int 1000), ("when", whenTest)]])]

/-- The engine of the scenarios with `aborting` registered as `abort`, after loading
`abortThrottleCfg`. -/
def abortThrottleEngine : Engine :=
  ((engine0.register_action "abort" aborting).load abortThrottleCfg).1

end Demo

/-! ## Properties -/

namespace Engine

/-! ### The loop of `tick`, rule by rule -/

theorem tickFrom_nil (now : Nat) (wd : Int) (acts : List (String × ActionFn))
    (gm : RuleGroupManager) (idx : Nat) (ctx : Context) :
    tickFrom now wd acts gm idx [] ctx = { rules := [], ctx := ctx, log := [], raised := none } := by
  simp [tickFrom]

theorem tickFrom_cons_skip (now : Nat) (wd : Int) (acts : List (String × ActionFn))
    (gm : RuleGroupManager) (idx : Nat) (r : Rule) (rest : List Rule) (ctx : Context)
    (h : r.shouldExecute now = false ∨ gm.shouldExecuteRule r = false ∨ r.condition = none ∨
      ∃ c, r.condition = some c ∧ c.eval wd ctx = .ok false) :
    tickFrom now wd acts gm idx (r :: rest) ctx =
      { rules := r :: (tickFrom now wd acts gm (idx + 1) rest ctx).rules,
        ctx := (tickFrom now wd acts gm (idx + 1) rest ctx).ctx,
        log := (tickFrom now wd acts gm (idx + 1) rest ctx).log,
        raised := (tickFrom now wd acts gm (idx + 1) rest ctx).raised } := by
  rw [tickFrom]
  rcases h with h | h | h | ⟨c, hc, he⟩
  · simp [h]
  · by_cases h1 : r.shouldExecute now = true <;> simp [h, h1]
  · by_cases h1 : r.shouldExecute now = true <;>
      by_cases h2 : gm.shouldExecuteRule r = true <;> simp [h, h1, h2]
  · by_cases h1 : r.shouldExecute now = true <;>
      by_cases h2 : gm.shouldExecuteRule r = true <;> simp [hc, he, h1, h2]

theorem tickFrom_cons_raise (now : Nat) (wd : Int) (acts : List (String × ActionFn))
    (gm : RuleGroupManager) (idx : Nat) (r : Rule) (rest : List Rule) (ctx : Context)
    (c : Condition) (ex : Raised)
    (h1 : r.shouldExecute now = true) (h2 : gm.shouldExecuteRule r = true)
    (hc : r.condition = some c) (he : c.eval wd ctx = .error ex) :
    tickFrom now wd acts gm idx (r :: rest) ctx =
      { rules := r :: rest, ctx := ctx, log := [], raised := some ex } := by
  rw [tickFrom]
  simp [h1, h2, hc, he]

theorem tickFrom_cons_fire (now : Nat) (wd : Int) (acts : List (String × ActionFn))
    (gm : RuleGroupManager) (idx : Nat) (r : Rule) (rest : List Rule) (ctx : Context)
    (c : Condition)
    (h1 : r.shouldExecute now = true) (h2 : gm.shouldExecuteRule r = true)
    (hc : r.condition = some c) (he : c.eval wd ctx = .ok true)
    (hret : (runActions acts idx r.actions ctx).2.2 = false) :
    tickFrom now wd acts gm idx (r :: rest) ctx =
      { rules := r.updateLastFire now ::
          (tickFrom now wd acts gm (idx + 1) rest (runActions acts idx r.actions ctx).1).rules,
        ctx := (tickFrom now wd acts gm (idx + 1) rest (runActions acts idx r.actions ctx).1).ctx,
        log := (runActions acts idx r.actions ctx).2.1 ++
          (tickFrom now wd acts gm (idx + 1) rest (runActions acts idx r.actions ctx).1).log,
        raised :=
          (tickFrom now wd acts gm (idx + 1) rest (runActions acts idx r.actions ctx).1).raised } := by
  rw [tickFrom]
  simp [h1, h2, hc, he, hret]

theorem tickFrom_cons_thrown (now : Nat) (wd : Int) (acts : List (String × ActionFn))
    (gm : RuleGroupManager) (idx : Nat) (r : Rule) (rest : List Rule) (ctx : Context)
    (c : Condition)
    (h1 : r.shouldExecute now = true) (h2 : gm.shouldExecuteRule r = true)
    (hc : r.condition = some c) (he : c.eval wd ctx = .ok true)
    (hthrown : (runActions acts idx r.actions ctx).2.2 = true) :
    tickFrom now wd acts gm idx (r :: rest) ctx =
      { rules := r :: rest, ctx := (runActions acts idx r.actions ctx).1,
        log := (runActions acts idx r.actions ctx).2.1, raised := some .thrown_by_action } := by
  rw [tickFrom]
  simp [h1, h2, hc, he, hthrown]

theorem guard_cases (now : Nat) (wd : Int) (gm : RuleGroupManager) (r : Rule) (ctx : Context) :
    (r.shouldExecute now = false ∨ gm.shouldExecuteRule r = false ∨ r.condition = none ∨
      ∃ c, r.condition = some c ∧ c.eval wd ctx = .ok false) ∨
    (∃ c ex, r.shouldExecute now = true ∧ gm.shouldExecuteRule r = true ∧
      r.condition = some c ∧ c.eval wd ctx = .error ex) ∨
    (∃ c, r.shouldExecute now = true ∧ gm.shouldExecuteRule r = true ∧
      r.condition = some c ∧ c.eval wd ctx = .ok true) := by
  cases h1 : r.shouldExecute now
  · exact Or.inl (Or.inl rfl)
  cases h2 : gm.shouldExecuteRule r
  · exact Or.inl (Or.inr (Or.inl rfl))
  cases hc : r.condition with
  | none => exact Or.inl (Or.inr (Or.inr (Or.inl rfl)))
  | some c =>
    cases he : c.eval wd ctx with
    | error ex => exact Or.inr (Or.inl ⟨c, ex, rfl, rfl, rfl, he⟩)
    | ok b =>
      cases b
      · exact Or.inl (Or.inr (Or.inr (Or.inr ⟨c, rfl, he⟩)))
      · exact Or.inr (Or.inr ⟨c, rfl, rfl, rfl, he⟩)

theorem runActions_log_rule (acts : List (String × ActionFn)) (idx : Nat)
    (steps : List ActionStep) (ctx : Context) :
    ∀ ev ∈ (runActions acts idx steps ctx).2.1, ev.rule = idx := by
  induction steps generalizing ctx with
  | nil => simp [runActions]
  | cons step rest ih =>
    intro ev hev
    rw [runActions] at hev
    cases hf : findAction step.name acts with
    | none =>
      simp only [hf, List.mem_cons] at hev
      rcases hev with rfl | hev
      · rfl
      · exact ih _ ev hev
    | some fn =>
      simp only [hf] at hev
      split at hev
      · simp only [List.mem_singleton] at hev
        rw [hev]
        rfl
      · simp only [List.mem_cons] at hev
        rcases hev with rfl | hev
        · rfl
        · exact ih _ ev hev

theorem tickFrom_rules_length (now : Nat) (wd : Int) (acts : List (String × ActionFn))
    (gm : RuleGroupManager) (idx : Nat) (rules : List Rule) (ctx : Context) :
    (tickFrom now wd acts gm idx rules ctx).rules.length = rules.length := by
  induction rules generalizing idx ctx with
  | nil => simp [tickFrom]
  | cons r rest ih =>
    rcases guard_cases now wd gm r ctx with h | ⟨c, ex, h1, h2, hc, he⟩ | ⟨c, h1, h2, hc, he⟩
    · rw [tickFrom_cons_skip now wd acts gm idx r rest ctx h]; simp [ih]
    · rw [tickFrom_cons_raise now wd acts gm idx r rest ctx c ex h1 h2 hc he]
    · cases hret : (runActions acts idx r.actions ctx).2.2
      · rw [tickFrom_cons_fire now wd acts gm idx r rest ctx c h1 h2 hc he hret]; simp [ih]
      · rw [tickFrom_cons_thrown now wd acts gm idx r rest ctx c h1 h2 hc he hret]

theorem tickFrom_log_rule (now : Nat) (wd : Int) (acts : List (String × ActionFn))
    (gm : RuleGroupManager) (idx : Nat) (rules : List Rule) (ctx : Context) :
    ∀ ev ∈ (tickFrom now wd acts gm idx rules ctx).log,
      idx ≤ ev.rule ∧ ev.rule < idx + rules.length := by
  induction rules generalizing idx ctx with
  | nil => simp [tickFrom]
  | cons r rest ih =>
    intro ev hev
    rcases guard_cases now wd gm r ctx with h | ⟨c, ex, h1, h2, hc, he⟩ | ⟨c, h1, h2, hc, he⟩
    · rw [tickFrom_cons_skip now wd acts gm idx r rest ctx h] at hev
      have := ih (idx + 1) ctx ev hev
      simp only [List.length_cons]
      omega
    · rw [tickFrom_cons_raise now wd acts gm idx r rest ctx c ex h1 h2 hc he] at hev
      simp at hev
    · cases hret : (runActions acts idx r.actions ctx).2.2
      · rw [tickFrom_cons_fire now wd acts gm idx r rest ctx c h1 h2 hc he hret] at hev
        simp only [List.mem_append] at hev
        simp only [List.length_cons]
        rcases hev with hev | hev
        · have := runActions_log_rule acts idx r.actions ctx ev hev
          omega
        · have := ih (idx + 1) _ ev hev
          omega
      · rw [tickFrom_cons_thrown now wd acts gm idx r rest ctx c h1 h2 hc he hret] at hev
        simp only [List.length_cons]
        have := runActions_log_rule acts idx r.actions ctx ev hev
        omega

/-- The loop on a list split in two: the second part is run from the context the first part
leaves, unless an exception ended the first part. -/
theorem tickFrom_append (now : Nat) (wd : Int) (acts : List (String × ActionFn))
    (gm : RuleGroupManager) (idx : Nat) (pre rest : List Rule) (ctx : Context) :
    tickFrom now wd acts gm idx (pre ++ rest) ctx =
      match (tickFrom now wd acts gm idx pre ctx).raised with
      | none =>
          { rules := (tickFrom now wd acts gm idx pre ctx).rules ++
              (tickFrom now wd acts gm (idx + pre.length) rest
                (tickFrom now wd acts gm idx pre ctx).ctx).rules,
            ctx := (tickFrom now wd acts gm (idx + pre.length) rest
                (tickFrom now wd acts gm idx pre ctx).ctx).ctx,
            log := (tickFrom now wd acts gm idx pre ctx).log ++
              (tickFrom now wd acts gm (idx + pre.length) rest
                (tickFrom now wd acts gm idx pre ctx).ctx).log,
            raised := (tickFrom now wd acts gm (idx + pre.length) rest
                (tickFrom now wd acts gm idx pre ctx).ctx).raised }
      | some ex =>
          { rules := (tickFrom now wd acts gm idx pre ctx).rules ++ rest,
            ctx := (tickFrom now wd acts gm idx pre ctx).ctx,
            log := (tickFrom now wd acts gm idx pre ctx).log,
            raised := some ex } := by
  induction pre generalizing idx ctx with
  | nil => simp [tickFrom]
  | cons r pre ih =>
    rw [List.cons_append]
    rcases guard_cases now wd gm r ctx with h | ⟨c, ex, h1, h2, hc, he⟩ | ⟨c, h1, h2, hc, he⟩
    · rw [tickFrom_cons_skip now wd acts gm idx r (pre ++ rest) ctx h,
        tickFrom_cons_skip now wd acts gm idx r pre ctx h, ih]
      simp only [List.length_cons, Nat.add_assoc, Nat.add_comm 1]
      cases (tickFrom now wd acts gm (idx + 1) pre ctx).raised <;> simp
    · rw [tickFrom_cons_raise now wd acts gm idx r (pre ++ rest) ctx c ex h1 h2 hc he,
        tickFrom_cons_raise now wd acts gm idx r pre ctx c ex h1 h2 hc he]
      simp
    · cases hret : (runActions acts idx r.actions ctx).2.2
      · rw [tickFrom_cons_fire now wd acts gm idx r (pre ++ rest) ctx c h1 h2 hc he hret,
          tickFrom_cons_fire now wd acts gm idx r pre ctx c h1 h2 hc he hret, ih]
        simp only [List.length_cons, Nat.add_assoc, Nat.add_comm 1]
        cases (tickFrom now wd acts gm (idx + 1) pre
          (runActions acts idx r.actions ctx).1).raised <;> simp
      · rw [tickFrom_cons_thrown now wd acts gm idx r (pre ++ rest) ctx c h1 h2 hc he hret,
          tickFrom_cons_thrown now wd acts gm idx r pre ctx c h1 h2 hc he hret]
        simp

theorem split_at {α : Type} (l : List α) (i : Nat) (a : α) (h : l[i]? = some a) :
    l = l.take i ++ a :: l.drop (i + 1) ∧ (l.take i).length = i := by
  obtain ⟨hi, ha⟩ := List.getElem?_eq_some.mp h
  constructor
  · conv_lhs => rw [← List.take_append_drop i l]
    rw [List.drop_eq_getElem_cons hi, ha]
  · simp [List.length_take]; omega

theorem elapsed_eq (r : Rule) (now : Nat) (hnow : now < 2 ^ 64) (hmono : r.last_fire ≤ now) :
    r.elapsed now = now - r.last_fire := by
  unfold Rule.elapsed
  have h1 : r.last_fire % 2 ^ 64 = r.last_fire := Nat.mod_eq_of_lt (by omega)
  rw [h1]
  have h2 : now + 2 ^ 64 - r.last_fire = (now - r.last_fire) + 2 ^ 64 := by omega
  rw [h2, Nat.add_mod_right]
  exact Nat.mod_eq_of_lt (by omega)

/-- A tick that does not come to position `i` leaves the rule there alone. -/
theorem tick_unreached (e : Engine) (now : Nat) (wd : Int) (ctx : Context)
    (i : Nat) (r : Rule) (hr : e.rules_[i]? = some r) (hun : ¬ e.reaches now wd ctx i) :
    (∀ ev ∈ (e.tickResult now wd ctx).log, ev.rule ≠ i) ∧
      (e.tick now wd ctx).rules_[i]? = some r := by
  obtain ⟨hsplit, hlen⟩ := split_at e.rules_ i r hr
  have hpl := tickFrom_rules_length now wd e.actions_ e.group_manager_ 0 (e.rules_.take i) ctx
  have hplog := tickFrom_log_rule now wd e.actions_ e.group_manager_ 0 (e.rules_.take i) ctx
  have key : e.tickResult now wd ctx =
      tickFrom now wd e.actions_ e.group_manager_ 0
        (e.rules_.take i ++ r :: e.rules_.drop (i + 1)) ctx := by
    unfold tickResult; rw [← hsplit]
  unfold tick
  rw [key, tickFrom_append]
  rw [hlen] at hpl hplog
  unfold reaches at hun
  cases hraised : (tickFrom now wd e.actions_ e.group_manager_ 0 (e.rules_.take i) ctx).raised with
  | none => exact absurd hraised hun
  | some ex =>
    simp only
    constructor
    · intro ev hev
      have := hplog ev hev
      omega
    · rw [List.getElem?_append_right (by omega), hpl]; simp

/-- A tick skips the rule at position `i` when a guard or the condition says so. -/
theorem tick_skipped (e : Engine) (now : Nat) (wd : Int) (ctx : Context)
    (i : Nat) (r : Rule) (hr : e.rules_[i]? = some r)
    (hskip : r.shouldExecute now = false ∨ e.group_manager_.shouldExecuteRule r = false ∨
      r.condition = none ∨
      ∃ c, r.condition = some c ∧ c.eval wd (e.ctxAt now wd ctx i) = .ok false) :
    (∀ ev ∈ (e.tickResult now wd ctx).log, ev.rule ≠ i) ∧
      (e.tick now wd ctx).rules_[i]? = some r := by
  by_cases hreach : e.reaches now wd ctx i
  swap
  · exact tick_unreached e now wd ctx i r hr hreach
  obtain ⟨hsplit, hlen⟩ := split_at e.rules_ i r hr
  have hpl := tickFrom_rules_length now wd e.actions_ e.group_manager_ 0 (e.rules_.take i) ctx
  have hplog := tickFrom_log_rule now wd e.actions_ e.group_manager_ 0 (e.rules_.take i) ctx
  have hqlog := tickFrom_log_rule now wd e.actions_ e.group_manager_ (i + 1)
    (e.rules_.drop (i + 1)) (e.ctxAt now wd ctx i)
  have key : e.tickResult now wd ctx =
      tickFrom now wd e.actions_ e.group_manager_ 0
        (e.rules_.take i ++ r :: e.rules_.drop (i + 1)) ctx := by
    unfold tickResult; rw [← hsplit]
  unfold tick
  rw [key, tickFrom_append]
  rw [hlen] at hpl hplog
  unfold reaches at hreach
  rw [hreach]
  simp only [hlen, Nat.zero_add]
  rw [show (tickFrom now wd e.actions_ e.group_manager_ 0 (e.rules_.take i) ctx).ctx =
    e.ctxAt now wd ctx i from rfl]
  rw [tickFrom_cons_skip now wd e.actions_ e.group_manager_ i r _ _ hskip]
  constructor
  · intro ev hev
    simp only [List.mem_append] at hev
    rcases hev with hev | hev
    · have := hplog ev hev
      omega
    · have := hqlog ev hev
      omega
  · rw [List.getElem?_append_right (by omega), hpl]; simp

theorem runActions_steps (acts : List (String × ActionFn)) (idx : Nat)
    (steps : List ActionStep) (ctx : Context)
    (hret : (runActions acts idx steps ctx).2.2 = false) :
    List.Forall₂
      (fun step ev =>
        match findAction step.name acts with
        | some _ => ∃ thrown, ev = Event.invoked idx step.name step.params thrown ∧
            thrown ≠ some .other
        | none => ev = Event.unknown_action idx step.name)
      steps (runActions acts idx steps ctx).2.1 := by
  induction steps generalizing ctx with
  | nil => simp [runActions]
  | cons step rest ih =>
    rw [runActions] at hret ⊢
    cases hf : findAction step.name acts with
    | none =>
      simp only [hf] at hret ⊢
      refine List.Forall₂.cons ?_ (ih _ hret)
      simp [hf]
    | some fn =>
      simp only [hf] at hret ⊢
      cases hout : (fn step.params ctx).2 with
      | none =>
        simp only [hout] at hret ⊢
        refine List.Forall₂.cons ?_ (ih _ hret)
        simp only [hf]
        exact ⟨_, rfl, by simp⟩
      | some th =>
        cases th with
        | exception what =>
          simp only [hout] at hret ⊢
          refine List.Forall₂.cons ?_ (ih _ hret)
          simp only [hf]
          exact ⟨_, rfl, by simp⟩
        | other =>
          simp only [hout] at hret
          cases hret

/-- Claim C1. In `Engine::tick` at time `now` (a `uint64_t`, not before `r.last_fire`), for the
rule `r` at any position `i` of the rule list: if `r` is disabled, or `now - r.last_fire` is
below `r.throttle_ms`, or `r` has a group and that group is disabled, or `r` has no condition,
or its condition evaluates to false on the context the tick evaluates it on, then no event
of the tick belongs to `r` (no action of `r` is invoked) and the tick leaves `r` as it was, in
particular `last_fire` and `disabled`. -/
theorem tick_guard_blocks_rule (e : Engine) (now : Nat) (wd : Int) (ctx : Context)
    (i : Nat) (r : Rule) (hr : e.rules_[i]? = some r)
    (hnow : now < 2 ^ 64) (hmono : r.last_fire ≤ now)
    (hguard : r.disabled = true ∨ now - r.last_fire < r.throttle_ms ∨
      (r.group ≠ "" ∧ e.group_manager_.isGroupEnabled r.group = false) ∨
      r.condition = none ∨
      ∃ c, r.condition = some c ∧ c.eval wd (e.ctxAt now wd ctx i) = .ok false) :
    (∀ ev ∈ (e.tickResult now wd ctx).log, ev.rule ≠ i) ∧
      (∃ r1, (e.tick now wd ctx).rules_[i]? = some r1 ∧ r1 = r ∧
        r1.last_fire = r.last_fire ∧ r1.disabled = r.disabled) := by
  have hskip : r.shouldExecute now = false ∨ e.group_manager_.shouldExecuteRule r = false ∨
      r.condition = none ∨
      ∃ c, r.condition = some c ∧ c.eval wd (e.ctxAt now wd ctx i) = .ok false := by
    rcases hguard with h | h | ⟨hg, h⟩ | h | h
    · left; simp [Rule.shouldExecute, h]
    · left
      rw [← elapsed_eq r now hnow hmono] at h
      simp [Rule.shouldExecute, h]
    · right; left; simp [RuleGroupManager.shouldExecuteRule, hg, h]
    · right; right; left; exact h
    · right; right; right; exact h
  obtain ⟨hlog, hrule⟩ := tick_skipped e now wd ctx i r hr hskip
  exact ⟨hlog, r, hrule, rfl, rfl, rfl⟩

/-- Claim C1 at scenario S2: the rule with `throttle_ms = 1000` and `last_fire = 0` at a tick
at time 100. -/
theorem tick_guard_blocks_rule_witness :
    Demo.throttleEngine.rules_[0]? = some Demo.throttleRule ∧
      (100 : Nat) < 2 ^ 64 ∧ Demo.throttleRule.last_fire ≤ 100 ∧
      100 - Demo.throttleRule.last_fire < Demo.throttleRule.throttle_ms ∧
      ((∀ ev ∈ (Demo.throttleEngine.tickResult 100 0 Demo.ctxTest).log, ev.rule ≠ 0) ∧
        (∃ r1, (Demo.throttleEngine.tick 100 0 Demo.ctxTest).rules_[0]? = some r1 ∧
          r1 = Demo.throttleRule ∧ r1.last_fire = Demo.throttleRule.last_fire ∧
          r1.disabled = Demo.throttleRule.disabled)) :=
  ⟨rfl, by decide, by decide, by decide,
    tick_guard_blocks_rule Demo.throttleEngine 100 0 Demo.ctxTest 0 Demo.throttleRule rfl
      (by decide) (by decide) (Or.inr (Or.inl (by decide)))⟩

end Engine

/-! ### The rule list stays sorted -/

namespace PriorityManager

theorem strLt_iff (a b : String) : strLt a b = true ↔ a < b := by
  unfold strLt
  rw [decide_eq_true_iff]
  exact String.lt_iff_toList_lt.symm

theorem strLt_eq_false_iff (a b : String) : strLt a b = false ↔ b ≤ a := by
  rw [← not_lt, ← strLt_iff]
  simp

theorem notAfter_iff (a b : Rule) : notAfter a b ↔ a.inOrder b := by
  unfold notAfter Rule.lt Rule.inOrder
  by_cases hp : b.priority = a.priority
  · simp [hp, strLt_eq_false_iff]
  · have hp2 : ¬ a.priority = b.priority := fun h => hp h.symm
    simp [hp, hp2]
    omega

instance : IsTotal Rule notAfter where
  total a b := by
    rw [notAfter_iff, notAfter_iff]
    unfold Rule.inOrder
    rcases lt_trichotomy a.priority b.priority with h | h | h
    · exact Or.inl (Or.inl h)
    · rcases le_total a.id b.id with h2 | h2
      · exact Or.inl (Or.inr ⟨h, h2⟩)
      · exact Or.inr (Or.inr ⟨h.symm, h2⟩)
    · exact Or.inr (Or.inl h)

instance : IsTrans Rule notAfter where
  trans a b c := by
    rw [notAfter_iff, notAfter_iff, notAfter_iff]
    unfold Rule.inOrder
    rintro (h1 | ⟨h1, h1s⟩) (h2 | ⟨h2, h2s⟩)
    · exact Or.inl (lt_trans h1 h2)
    · exact Or.inl (h2 ▸ h1)
    · exact Or.inl (h1 ▸ h2)
    · exact Or.inr ⟨h1.trans h2, le_trans h1s h2s⟩

theorem sortRules_sorted (rules : List Rule) : (sortRules rules).Pairwise Rule.inOrder := by
  have h : (sortRules rules).Pairwise notAfter := List.sorted_insertionSort notAfter rules
  exact h.imp (fun hab => (notAfter_iff _ _).mp hab)

theorem sortRules_perm (rules : List Rule) : (sortRules rules).Perm rules :=
  List.perm_insertionSort notAfter rules

theorem normalizePriority_range (p : Int) :
    0 ≤ normalizePriority p ∧ normalizePriority p ≤ 1000 := by
  unfold normalizePriority
  split
  · omega
  · split <;> omega

end PriorityManager

theorem updateFirst_map {β : Type} (g : Rule → β) (rule_id : String) (f : Rule → Rule)
    (hg : ∀ r, g (f r) = g r) (rules : List Rule) :
    (updateFirst rule_id f rules).map g = rules.map g := by
  induction rules with
  | nil => rfl
  | cons r rs ih =>
    unfold updateFirst
    split
    · simp [hg]
    · simp [ih]

theorem mem_updateFirst (rule_id : String) (f : Rule → Rule) (rules : List Rule) (r : Rule)
    (h : r ∈ updateFirst rule_id f rules) :
    r ∈ rules ∨ ∃ r0 ∈ rules, r0.id = rule_id ∧ r = f r0 := by
  induction rules with
  | nil => simp [updateFirst] at h
  | cons x xs ih =>
    unfold updateFirst at h
    split at h
    · rename_i hx
      rcases List.mem_cons.mp h with h | h
      · exact Or.inr ⟨x, List.mem_cons_self _ _, hx, h⟩
      · exact Or.inl (List.mem_cons_of_mem _ h)
    · rcases List.mem_cons.mp h with h | h
      · exact Or.inl (h ▸ List.mem_cons_self _ _)
      · rcases ih h with h | ⟨r0, h0, hid, h⟩
        · exact Or.inl (List.mem_cons_of_mem _ h)
        · exact Or.inr ⟨r0, List.mem_cons_of_mem _ h0, hid, h⟩

namespace Engine

theorem tickFrom_rules_map {β : Type} (g : Rule → β)
    (hg : ∀ r t, g (Rule.updateLastFire r t) = g r)
    (now : Nat) (wd : Int) (acts : List (String × ActionFn))
    (gm : RuleGroupManager) (idx : Nat) (rules : List Rule) (ctx : Context) :
    (tickFrom now wd acts gm idx rules ctx).rules.map g = rules.map g := by
  induction rules generalizing idx ctx with
  | nil => simp [tickFrom]
  | cons r rest ih =>
    rcases guard_cases now wd gm r ctx with h | ⟨c, ex, h1, h2, hc, he⟩ | ⟨c, h1, h2, hc, he⟩
    · rw [tickFrom_cons_skip now wd acts gm idx r rest ctx h]; simp [ih]
    · rw [tickFrom_cons_raise now wd acts gm idx r rest ctx c ex h1 h2 hc he]
    · cases hret : (runActions acts idx r.actions ctx).2.2
      · rw [tickFrom_cons_fire now wd acts gm idx r rest ctx c h1 h2 hc he hret]
        simp [ih, hg]
      · rw [tickFrom_cons_thrown now wd acts gm idx r rest ctx c h1 h2 hc he hret]

/-- Sortedness depends on the priorities and ids only. -/
theorem pairwise_of_map_key (l1 l2 : List Rule)
    (h : l1.map (fun r => (r.priority, r.id)) = l2.map (fun r => (r.priority, r.id)))
    (hs : l2.Pairwise Rule.inOrder) : l1.Pairwise Rule.inOrder := by
  have e1 : ∀ l : List Rule, l.Pairwise Rule.inOrder ↔
      (l.map (fun r => (r.priority, r.id))).Pairwise
        (fun a b : Int × String => a.1 < b.1 ∨ (a.1 = b.1 ∧ a.2 ≤ b.2)) := by
    intro l
    rw [List.pairwise_map]
    rfl
  rw [e1, h, ← e1]
  exact hs

theorem range_of_map_key (l1 l2 : List Rule)
    (h : l1.map (fun r => (r.priority, r.id)) = l2.map (fun r => (r.priority, r.id)))
    (hs : ∀ r ∈ l2, 0 ≤ r.priority ∧ r.priority ≤ 1000) :
    ∀ r ∈ l1, 0 ≤ r.priority ∧ r.priority ≤ 1000 := by
  intro r hr
  have hm : (r.priority, r.id) ∈ l1.map (fun r => (r.priority, r.id)) :=
    List.mem_map_of_mem _ hr
  rw [h] at hm
  obtain ⟨r2, hr2, heq⟩ := List.mem_map.mp hm
  have hp : r2.priority = r.priority := congrArg Prod.fst heq
  rw [← hp]
  exact hs r2 hr2

theorem parseRule_priority (j : Json) (r : Rule) (h : parseRule j = .ok r) :
    0 ≤ r.priority ∧ r.priority ≤ 1000 := by
  unfold parseRule at h
  simp only [bind, Except.bind, pure, Except.pure] at h
  repeat' split at h
  all_goals first
    | (cases h; exact PriorityManager.normalizePriority_range _)
    | cases h

theorem loadRules_priority (js : List Json) (acc out : List Rule) (ex : Option Raised)
    (h : loadRules js acc = (out, ex))
    (hacc : ∀ r ∈ acc, 0 ≤ r.priority ∧ r.priority ≤ 1000) :
    ∀ r ∈ out, 0 ≤ r.priority ∧ r.priority ≤ 1000 := by
  induction js generalizing acc with
  | nil =>
    simp only [loadRules, Prod.mk.injEq] at h
    rw [← h.1]; exact hacc
  | cons j rest ih =>
    unfold loadRules at h
    cases hp : parseRule j with
    | error e =>
      rw [hp] at h
      simp only [Prod.mk.injEq] at h
      rw [← h.1]; exact hacc
    | ok rule =>
      rw [hp] at h
      refine ih (acc ++ [rule]) h ?_
      intro r hr
      rcases List.mem_append.mp hr with hr | hr
      · exact hacc r hr
      · rw [List.mem_singleton.mp hr]; exact parseRule_priority j rule hp

theorem load_rules (e0 : Engine) (cfg : Json) (h : (e0.load cfg).2 = none) :
    (e0.load cfg).1.rules_ = PriorityManager.sortRules (parsedRules cfg) := by
  unfold load parsedRules at *
  split at h
  · rename_i rules hl
    simp only [hl]
    rcases hlr : loadRules rules [] with ⟨parsed, ex⟩
    rw [hlr] at h
    cases ex with
    | none => rfl
    | some ex => simp at h
  · rfl

theorem parsedRules_priority (cfg : Json) :
    ∀ r ∈ parsedRules cfg, 0 ≤ r.priority ∧ r.priority ≤ 1000 := by
  unfold parsedRules
  split
  · rename_i rules _
    exact loadRules_priority rules [] _ _ rfl (by simp)
  · simp

/-- One call keeps the rule list sorted, a rearrangement of the configured rules, and the
priorities in range. -/
theorem call_invariant (parsed : List Rule) (e : Engine) (c : Call)
    (h : e.rules_.Pairwise Rule.inOrder ∧
      (e.rules_.map Rule.config).Perm (parsed.map Rule.config) ∧
      ∀ r ∈ e.rules_, 0 ≤ r.priority ∧ r.priority ≤ 1000) :
    (e.call c).rules_.Pairwise Rule.inOrder ∧
      ((e.call c).rules_.map Rule.config).Perm (parsed.map Rule.config) ∧
      ∀ r ∈ (e.call c).rules_, 0 ≤ r.priority ∧ r.priority ≤ 1000 := by
  obtain ⟨hs, hp, hr⟩ := h
  cases c with
  | set_rule_priority rule_id priority =>
    show (PriorityManager.setRulePriority e.rules_ rule_id priority).Pairwise Rule.inOrder ∧
      ((PriorityManager.setRulePriority e.rules_ rule_id priority).map Rule.config).Perm
        (parsed.map Rule.config) ∧
      ∀ r ∈ PriorityManager.setRulePriority e.rules_ rule_id priority,
        0 ≤ r.priority ∧ r.priority ≤ 1000
    unfold PriorityManager.setRulePriority
    split
    · refine ⟨PriorityManager.sortRules_sorted _, ?_, ?_⟩
      · refine ((PriorityManager.sortRules_perm _).map Rule.config).trans ?_
        rw [updateFirst_map Rule.config rule_id
          (fun r => { r with priority := PriorityManager.normalizePriority priority })
          (fun r => rfl)]
        exact hp
      · intro r hmem
        have hmem2 := (PriorityManager.sortRules_perm _).mem_iff.mp hmem
        rcases mem_updateFirst _ _ _ _ hmem2 with h1 | ⟨r0, _, _, h1⟩
        · exact hr r h1
        · rw [h1]; exact PriorityManager.normalizePriority_range priority
    · exact ⟨hs, hp, hr⟩
  | enable_rule rule_id =>
    show (updateFirst rule_id Rule.enable e.rules_).Pairwise Rule.inOrder ∧
      ((updateFirst rule_id Rule.enable e.rules_).map Rule.config).Perm
        (parsed.map Rule.config) ∧
      ∀ r ∈ updateFirst rule_id Rule.enable e.rules_, 0 ≤ r.priority ∧ r.priority ≤ 1000
    have hk := updateFirst_map (fun r => (r.priority, r.id)) rule_id Rule.enable
      (fun r => rfl) e.rules_
    refine ⟨pairwise_of_map_key _ _ hk hs, ?_, range_of_map_key _ _ hk hr⟩
    rw [updateFirst_map Rule.config rule_id Rule.enable (fun r => rfl)]
    exact hp
  | disable_rule rule_id =>
    show (updateFirst rule_id Rule.disable e.rules_).Pairwise Rule.inOrder ∧
      ((updateFirst rule_id Rule.disable e.rules_).map Rule.config).Perm
        (parsed.map Rule.config) ∧
      ∀ r ∈ updateFirst rule_id Rule.disable e.rules_, 0 ≤ r.priority ∧ r.priority ≤ 1000
    have hk := updateFirst_map (fun r => (r.priority, r.id)) rule_id Rule.disable
      (fun r => rfl) e.rules_
    refine ⟨pairwise_of_map_key _ _ hk hs, ?_, range_of_map_key _ _ hk hr⟩
    rw [updateFirst_map Rule.config rule_id Rule.disable (fun r => rfl)]
    exact hp
  | enable_rule_group group_name => exact ⟨hs, hp, hr⟩
  | disable_rule_group group_name => exact ⟨hs, hp, hr⟩
  | tick now wd ctx =>
    show (e.tickResult now wd ctx).rules.Pairwise Rule.inOrder ∧
      ((e.tickResult now wd ctx).rules.map Rule.config).Perm (parsed.map Rule.config) ∧
      ∀ r ∈ (e.tickResult now wd ctx).rules, 0 ≤ r.priority ∧ r.priority ≤ 1000
    have hk := tickFrom_rules_map (fun r => (r.priority, r.id)) (fun r t => rfl)
      now wd e.actions_ e.group_manager_ 0 e.rules_ ctx
    refine ⟨pairwise_of_map_key _ _ hk hs, ?_, range_of_map_key _ _ hk hr⟩
    unfold tickResult
    rw [tickFrom_rules_map Rule.config (fun r t => rfl)]
    exact hp

theorem calls_invariant (parsed : List Rule) (cs : List Call) (e : Engine)
    (h : e.rules_.Pairwise Rule.inOrder ∧
      (e.rules_.map Rule.config).Perm (parsed.map Rule.config) ∧
      ∀ r ∈ e.rules_, 0 ≤ r.priority ∧ r.priority ≤ 1000) :
    (e.calls cs).rules_.Pairwise Rule.inOrder ∧
      ((e.calls cs).rules_.map Rule.config).Perm (parsed.map Rule.config) ∧
      ∀ r ∈ (e.calls cs).rules_, 0 ≤ r.priority ∧ r.priority ≤ 1000 := by
  induction cs generalizing e with
  | nil => exact h
  | cons c rest ih => exact ih (e.call c) (call_invariant parsed e c h)

/-! ### Claim C3 -/

/-- Claim C3. After a successful `Engine::load(cfg)` the rule list is the sorted rearrangement
of the rules parsed from `cfg`; and after any further sequence of `set_rule_priority`,
`enable_rule`, `disable_rule`, `enable_rule_group`, `disable_rule_group` and `tick` calls it is
in non-decreasing priority order with ties in the order of the ids, it holds the configured
rules rearranged (each with the id, condition, actions, mode, throttle and group parsed from
`cfg`), and every priority lies in 0..1000. -/
theorem rule_list_sorted_permutation (e0 : Engine) (cfg : Json) (cs : List Call)
    (hload : (e0.load cfg).2 = none) :
    (e0.load cfg).1.rules_.Perm (parsedRules cfg) ∧
      ((e0.load cfg).1.calls cs).rules_.Pairwise Rule.inOrder ∧
      (((e0.load cfg).1.calls cs).rules_.map Rule.config).Perm
        ((parsedRules cfg).map Rule.config) ∧
      ∀ r ∈ ((e0.load cfg).1.calls cs).rules_, 0 ≤ r.priority ∧ r.priority ≤ 1000 := by
  have hrules := load_rules e0 cfg hload
  refine ⟨hrules ▸ PriorityManager.sortRules_perm _, ?_⟩
  apply calls_invariant
  rw [hrules]
  refine ⟨PriorityManager.sortRules_sorted _, (PriorityManager.sortRules_perm _).map _, ?_⟩
  intro r hmem
  exact parsedRules_priority cfg r ((PriorityManager.sortRules_perm _).mem_iff.mp hmem)

/-- Claim C3 at scenario S3: the priorities 300, 100, 200 of the configuration are visited
as 100, 200, 300, also after a tick, a change of priority and a group call. -/
theorem rule_list_sorted_permutation_witness :
    (Demo.engine0.load Demo.priorityCfg).2 = none ∧
      (parsedRules Demo.priorityCfg).map (fun r => r.priority) = [300, 100, 200] ∧
      Demo.priorityEngine.rules_.map (fun r => r.priority) = [100, 200, 300] ∧
      (Demo.priorityEngine.tickResult 5 0 Demo.ctxTest).log =
        [Event.invoked 0 "test_action" (Demo.message "p100") none,
         Event.invoked 1 "test_action" (Demo.message "p200") none,
         Event.invoked 2 "test_action" (Demo.message "p300") none] ∧
      (Demo.priorityEngine.calls
          [Call.tick 5 0 Demo.ctxTest, Call.set_rule_priority "a" (-4),
           Call.disable_rule_group "g"]).rules_.map (fun r => (r.id, r.priority)) =
        [("a", 0), ("b", 100), ("c", 200)] ∧
      ((Demo.engine0.load Demo.priorityCfg).1.rules_.Perm (parsedRules Demo.priorityCfg) ∧
        ((Demo.engine0.load Demo.priorityCfg).1.calls
          [Call.tick 5 0 Demo.ctxTest, Call.set_rule_priority "a" (-4),
           Call.disable_rule_group "g"]).rules_.Pairwise Rule.inOrder ∧
        (((Demo.engine0.load Demo.priorityCfg).1.calls
          [Call.tick 5 0 Demo.ctxTest, Call.set_rule_priority "a" (-4),
           Call.disable_rule_group "g"]).rules_.map Rule.config).Perm
          ((parsedRules Demo.priorityCfg).map Rule.config) ∧
        ∀ r ∈ ((Demo.engine0.load Demo.priorityCfg).1.calls
          [Call.tick 5 0 Demo.ctxTest, Call.set_rule_priority "a" (-4),
           Call.disable_rule_group "g"]).rules_, 0 ≤ r.priority ∧ r.priority ≤ 1000) :=
  ⟨rfl, rfl, rfl, rfl, rfl,
    rule_list_sorted_permutation Demo.engine0 Demo.priorityCfg
      [Call.tick 5 0 Demo.ctxTest, Call.set_rule_priority "a" (-4),
       Call.disable_rule_group "g"] rfl⟩

end Engine

namespace Engine

/-! ### Claim C4 -/

/-- Claim C4, as stated, fails: for the freshly loaded repeat rule of scenario S2
(`throttle_ms = 1000`, `last_fire = 0`) and a context that satisfies its condition, the tick
at time 100 invokes nothing, so the actions are not invoked exactly once at time 100. -/
theorem throttle_fresh_rule_counterexample :
    Demo.throttleEngine.rules_ = [Demo.throttleRule] ∧
      Demo.condTest.eval 0 Demo.ctxTest = .ok true ∧
      Demo.throttleEngine.tickLogs [(100, 0, Demo.ctxTest), (800, 0, Demo.ctxTest)] = [[], []] ∧
      ¬ ((Demo.throttleEngine.tickResult 100 0 Demo.ctxTest).log.filter
          Event.isInvoked).length = 1 :=
  ⟨rfl, rfl, rfl, by decide⟩

/-- Claim C4 as amended. For an engine whose only rule is a repeat rule with
`throttle_ms = 1000`, `last_fire = 0`, not disabled, passing the group check, and contexts
that satisfy its condition: ticks at times 100 and 800 invoke nothing, both are skipped by
the throttle (the initial `last_fire = 0` counts as a time stamp); ticks at times 1000 and
1800 run the action steps exactly once, at the tick at time 1000, and the tick at time 1800
is skipped by the throttle. The second part is for action steps that the tick at time
1000 runs to their end, none being left by an exception that `tick` does not catch. -/
theorem throttle_fresh_rule (e : Engine) (r : Rule) (c : Condition) (wd1 wd2 : Int)
    (ctx1 ctx2 : Context) (hrules : e.rules_ = [r])
    (hmode : r.mode = .REPEAT) (hthr : r.throttle_ms = 1000) (hlast : r.last_fire = 0)
    (hdis : r.disabled = false) (hgroup : e.group_manager_.shouldExecuteRule r = true)
    (hc : r.condition = some c) (he1 : c.eval wd1 ctx1 = .ok true) :
    e.tickLogs [(100, wd1, ctx1), (800, wd2, ctx2)] = [[], []] ∧
      ((runActions e.actions_ 0 r.actions ctx1).2.2 = false →
        e.tickLogs [(1000, wd1, ctx1), (1800, wd2, ctx2)] =
          [(runActions e.actions_ 0 r.actions ctx1).2.1, []] ∧
        (runActions e.actions_ 0 r.actions ctx1).2.1.length = r.actions.length) := by
  have hskip : ∀ t : Nat, t < 1000 → r.shouldExecute t = false := by
    intro t ht
    have hel : r.elapsed t = t := by
      rw [elapsed_eq r t (by omega) (by omega), hlast]; rfl
    simp [Rule.shouldExecute, hdis, hel, hthr, ht]
  have hrun : r.shouldExecute 1000 = true := by
    have hel : r.elapsed 1000 = 1000 := by
      rw [elapsed_eq r 1000 (by norm_num) (by omega), hlast]
    simp [Rule.shouldExecute, hdis, hel, hthr]
  have hafter : (r.updateLastFire 1000).shouldExecute 1800 = false := by
    have hel : (r.updateLastFire 1000).elapsed 1800 = 800 := by
      rw [elapsed_eq _ 1800 (by norm_num) (by simp [Rule.updateLastFire])]
      simp [Rule.updateLastFire]
    have hd : (r.updateLastFire 1000).disabled = false := by
      simp [Rule.updateLastFire, hmode, hdis]
    have ht : (r.updateLastFire 1000).throttle_ms = 1000 := hthr
    unfold Rule.shouldExecute
    rw [hd, hel, ht]
    rfl
  have hgroup2 : e.group_manager_.shouldExecuteRule (r.updateLastFire 1000) = true := hgroup
  refine ⟨?_, fun hret => ⟨?_, ?_⟩⟩
  · simp only [tickLogs, tick, tickResult, hrules]
    rw [tickFrom_cons_skip _ _ _ _ _ _ _ _ (Or.inl (hskip 100 (by norm_num)))]
    simp only [tickFrom_nil]
    rw [tickFrom_cons_skip _ _ _ _ _ _ _ _ (Or.inl (hskip 800 (by norm_num)))]
    simp only [tickFrom_nil]
  · simp only [tickLogs, tick, tickResult, hrules]
    rw [tickFrom_cons_fire _ _ _ _ _ _ _ _ c hrun hgroup hc he1 hret]
    simp only [tickFrom_nil, List.append_nil]
    rw [tickFrom_cons_skip _ _ _ _ _ _ _ _ (Or.inl hafter)]
    simp only [tickFrom_nil]
  · exact (runActions_steps e.actions_ 0 r.actions ctx1 hret).length_eq.symm

/-- Why the second part of claim C4 as amended asks for steps that run to their end: with
an action step that throws a value outside `std::exception`, the tick at time 1000 is left
before `updateLastFire`, `last_fire` stays 0, and the tick at time 1800 is not skipped by
the throttle: the action is invoked in both ticks. -/
theorem throttle_thrown_rule_fires_again :
    Demo.abortThrottleEngine.rules_.map
        (fun r => (r.id, r.mode, r.throttle_ms, r.last_fire, r.disabled)) =
          [("r1", RuleMode.REPEAT, 1000, 0, false)] ∧
      Demo.abortThrottleEngine.tickLogs [(1000, 0, Demo.ctxTest), (1800, 0, Demo.ctxTest)] =
        [[Event.invoked 0 "abort" (Demo.message "throttled rule") (some .other)],
         [Event.invoked 0 "abort" (Demo.message "throttled rule") (some .other)]] :=
  ⟨rfl, rfl⟩

/-- Claim C4 as amended, at scenario S2. -/
theorem throttle_fresh_rule_witness :
    Demo.throttleEngine.rules_ = [Demo.throttleRule] ∧
      Demo.condTest.eval 0 Demo.ctxTest = .ok true ∧
      (Demo.throttleEngine.tickLogs [(100, 0, Demo.ctxTest), (800, 0, Demo.ctxTest)] =
          [[], []] ∧
        Demo.throttleEngine.tickLogs [(1000, 0, Demo.ctxTest), (1800, 0, Demo.ctxTest)] =
          [(runActions Demo.throttleEngine.actions_ 0 Demo.throttleRule.actions
            Demo.ctxTest).2.1, []] ∧
        (runActions Demo.throttleEngine.actions_ 0 Demo.throttleRule.actions
            Demo.ctxTest).2.1.length = Demo.throttleRule.actions.length) :=
  have h := throttle_fresh_rule Demo.throttleEngine Demo.throttleRule Demo.condTest 0 0
    Demo.ctxTest Demo.ctxTest rfl rfl rfl rfl rfl rfl rfl rfl
  ⟨rfl, rfl, h.1, (h.2 rfl).1, (h.2 rfl).2⟩

end Engine

namespace Engine

/-! ### Claim C5 -/

end Engine

namespace Engine

/-! ### Claim C5 over sequences of calls -/

end Engine

namespace Engine

end Engine

namespace RuleGroupManager

theorem find_assign (m : List (String × Bool)) (n g : String) (s : Bool) :
    find g (assign m n s) = if n = g then some s else find g m := by
  induction m with
  | nil => simp [assign, find]
  | cons kv rest ih =>
    obtain ⟨k, v⟩ := kv
    unfold assign
    by_cases hk : k = n
    · subst hk
      by_cases hg : k = g
      · simp [find, hg]
      · simp [find, hg]
    · by_cases hg : k = g
      · subst hg
        have hn : ¬ n = k := fun h => hk h.symm
        simp [find, hk, hn]
      · simp only [hk, if_false, find, hg]
        exact ih

theorem isGroupEnabled_enableGroup (m : RuleGroupManager) (n g : String) :
    (m.enableGroup n).isGroupEnabled g = if n = g then true else m.isGroupEnabled g := by
  unfold isGroupEnabled enableGroup
  simp only [find_assign]
  by_cases hn : n = g <;> simp [hn]

theorem isGroupEnabled_disableGroup (m : RuleGroupManager) (n g : String) :
    (m.disableGroup n).isGroupEnabled g = if n = g then false else m.isGroupEnabled g := by
  unfold isGroupEnabled disableGroup
  simp only [find_assign]
  by_cases hn : n = g <;> simp [hn]

end RuleGroupManager

namespace Engine

/-! ### Claim C6 -/

theorem load_group_manager (e0 : Engine) (cfg : Json) (g : String) :
    (e0.load cfg).1.group_manager_.isGroupEnabled g = true := by
  unfold load
  split
  · split <;> rfl
  · rfl

/-- The state of a group after a sequence of calls: what the most recent group call naming it
asked for, and the state before the calls when none named it. -/
theorem isGroupEnabled_calls (cs : List Call) (e : Engine) (g : String) :
    (e.calls cs).group_manager_.isGroupEnabled g =
      match Call.lastGroupState g cs with
      | some s => s
      | none => e.group_manager_.isGroupEnabled g := by
  induction cs generalizing e with
  | nil => rfl
  | cons c rest ih =>
    simp only [calls, Call.lastGroupState]
    rw [ih (e.call c)]
    cases hrest : Call.lastGroupState g rest with
    | some s => rfl
    | none =>
      cases c with
      | set_rule_priority rule_id priority => rfl
      | enable_rule rule_id => rfl
      | disable_rule rule_id => rfl
      | enable_rule_group n =>
        show (e.group_manager_.enableGroup n).isGroupEnabled g = _
        rw [RuleGroupManager.isGroupEnabled_enableGroup]
        by_cases hn : n = g <;> simp [hn]
      | disable_rule_group n =>
        show (e.group_manager_.disableGroup n).isGroupEnabled g = _
        rw [RuleGroupManager.isGroupEnabled_disableGroup]
        by_cases hn : n = g <;> simp [hn]
      | tick now wd ctx => rfl

/-- Claim C6. After `load` and any sequence of calls, the group check of `tick`
(`shouldExecuteRule`) turns a rule down iff the rule has a non-empty group and the most
recent group call naming that group was `disable_rule_group`, so a group never named counts
as enabled; a rule turned down by the group check has no action invoked and is left as it
was. In scenario S4 the two satisfied rules of group `safety` invoke nothing after
`disable_rule_group("safety")` and both fire after `enable_rule_group("safety")`. -/
theorem group_check_follows_last_call :
    (∀ (e0 : Engine) (cfg : Json) (cs : List Call) (r : Rule),
        ((e0.load cfg).1.calls cs).group_manager_.shouldExecuteRule r = false ↔
          (r.group ≠ "" ∧ Call.lastGroupState r.group cs = some false)) ∧
      (∀ (e : Engine) (now : Nat) (wd : Int) (ctx : Context) (i : Nat) (r : Rule),
        e.rules_[i]? = some r → e.group_manager_.shouldExecuteRule r = false →
        (∀ ev ∈ (e.tickResult now wd ctx).log, ev.rule ≠ i) ∧
          (e.tick now wd ctx).rules_[i]? = some r) ∧
      ((Demo.groupEngine.calls [Call.disable_rule_group "safety"]).tickResult 5 0
          Demo.ctxTest).log = [] ∧
      ((Demo.groupEngine.calls
          [Call.disable_rule_group "safety", Call.tick 5 0 Demo.ctxTest,
           Call.enable_rule_group "safety"]).tickResult 6 0 Demo.ctxTest).log =
        [Event.invoked 0 "test_action" (Demo.message "first") none,
         Event.invoked 1 "test_action" (Demo.message "second") none] := by
  refine ⟨?_, ?_, rfl, rfl⟩
  · intro e0 cfg cs r
    unfold RuleGroupManager.shouldExecuteRule
    by_cases hg : r.group = ""
    · simp [hg]
    · simp only [hg, if_false, ne_eq, not_false_eq_true, true_and]
      rw [isGroupEnabled_calls, load_group_manager]
      cases Call.lastGroupState r.group cs with
      | none => simp
      | some s => cases s <;> simp
  · intro e now wd ctx i r hr hgroup
    exact tick_skipped e now wd ctx i r hr (Or.inr (Or.inl hgroup))

/-- Claim C6 at scenario S4: a rule of group `safety` after the calls disable, tick,
enable, disable. -/
theorem group_check_follows_last_call_witness :
    Demo.groupEngine.rules_[0]? = some Demo.safetyRule ∧
      Call.lastGroupState "safety"
        [Call.disable_rule_group "safety", Call.tick 5 0 Demo.ctxTest,
         Call.enable_rule_group "safety", Call.disable_rule_group "safety"] = some false ∧
      RuleGroupManager.shouldExecuteRule
        ((Demo.engine0.load Demo.groupCfg).1.calls
          [Call.disable_rule_group "safety", Call.tick 5 0 Demo.ctxTest,
           Call.enable_rule_group "safety", Call.disable_rule_group "safety"]).group_manager_
        Demo.safetyRule = false :=
  ⟨rfl, rfl,
    (group_check_follows_last_call.1 Demo.engine0 Demo.groupCfg
      [Call.disable_rule_group "safety", Call.tick 5 0 Demo.ctxTest,
       Call.enable_rule_group "safety", Call.disable_rule_group "safety"]
      Demo.safetyRule).mpr ⟨by decide, rfl⟩⟩

end Engine

/-! ### Claims C7 and C8 -/

/-- Claim C7 fails on the code. The expression `avg_last_n(temp, 5)` in the context
`temp = 45`: the first argument evaluates to the number 45, `get<string>()` raises
`type_error`, and nothing catches it: `ExprNode::evaluate` raises, `Condition::eval`
raises, and `Engine::tick` ends with the exception before the rule that follows (whose
condition is true) is looked at. -/
theorem evaluation_error_leaves_tick :
    ExpressionParser.parse Demo.avgExpr = .ok Demo.avgNode ∧
      Demo.avgNode.evaluate 0 Demo.ctxTemp = .error .type_error_302 ∧
      (Engine.parseCondition (.obj [("expression", Demo.avgExpr)])).bind
          (Condition.eval 0 Demo.ctxTemp) = .error .type_error_302 ∧
      (Demo.avgEngine.tickResult 5 0 Demo.ctxTemp).raised = some .type_error_302 ∧
      (Demo.avgEngine.tickResult 5 0 Demo.ctxTemp).log = [] ∧
      Demo.avgEngine.rules_.map (fun r => r.id) = ["avg", "later"] ∧
      Demo.condTest.eval 0 Demo.ctxTemp = .ok true :=
  ⟨rfl, rfl, rfl, rfl, rfl, rfl, rfl⟩

/-- Claim C8 fails on the code. A number or boolean literal is stored as its text
(`expr.dump()`) and `evaluate` returns that text as a JSON string: the literal 10 evaluates
to the string `"10"`, never to the number. So `(temp + 10) > 50` with `temp = 45` adds a
number and a string, which gives null, and `null > 50` is false: the condition of rule
`math_test` is false and its action is not invoked, against the expectation
`(45 + 10) > 50 = true` of the test. -/
theorem literal_evaluates_to_its_text :
    (∀ (i : Int) (wd : Int) (ctx : Context),
        (ExpressionParser.parse (.int i)).bind (ExprNode.evaluate wd ctx) =
          .ok (.str (toString i))) ∧
      (∀ (b : Bool) (wd : Int) (ctx : Context),
        (ExpressionParser.parse (.bool b)).bind (ExprNode.evaluate wd ctx) =
          .ok (.str (if b then "true" else "false"))) ∧
      (∀ (q : ℚ) (wd : Int) (ctx : Context),
        (ExpressionParser.parse (.float q)).bind (ExprNode.evaluate wd ctx) =
          .ok (.str (Json.dumpFloat q))) ∧
      (∀ (s : String) (i : Int), Json.beq (.str s) (.int i) = false) ∧
      (∀ (s : String) (q : ℚ), Json.beq (.str s) (.float q) = false) ∧
      (∀ (s : String) (b : Bool), Json.beq (.str s) (.bool b) = false) ∧
      (ExpressionParser.parse (.int 10)).bind (ExprNode.evaluate 0 Demo.ctxTemp) =
        .ok (.str "10") ∧
      ExpressionParser.parse Demo.mathExpr = .ok Demo.mathNode ∧
      Demo.mathNode.evaluate 0 Demo.ctxTemp = .ok (.bool false) ∧
      (Engine.parseCondition (.obj [("expression", Demo.mathExpr)])).bind
          (Condition.eval 0 Demo.ctxTemp) = .ok false ∧
      (Demo.mathEngine.tickResult 5 0 Demo.ctxTemp).log = [] := by
  refine ⟨fun i wd ctx => rfl, fun b wd ctx => ?_, fun q wd ctx => rfl,
    fun s i => rfl, fun s q => rfl, fun s b => rfl, rfl, rfl, rfl, rfl, rfl⟩
  cases b <;> rfl

/-! ### Claim C9 -/

theorem ltBoth_cross_type (a b : Json) (h : a.typeOrder ≠ b.typeOrder) :
    Json.ltBoth a b = (decide (a.typeOrder < b.typeOrder), decide (b.typeOrder < a.typeOrder)) := by
  cases a <;> cases b <;> simp [Json.ltBoth, Json.typeOrder] at h ⊢

theorem beq_null_iff (b : Json) : Json.beq .null b = true ↔ b = .null := by
  cases b <;> simp [Json.beq]

/-- Claim C9, as stated, fails: null and the number 40 have different types, yet
`Eval::cmp(null, "<", 40)` is true, and the Simple condition `k < 40` is true in the empty
context, which has no key `k`. -/
theorem cross_type_comparison_counterexample :
    Json.sameType .null (.int 40) = false ∧
      Eval.cmp .null "<" (.int 40) = true ∧
      Context.has [] "k" = false ∧
      (Engine.parseCondition
          (.obj [("left", .str "k"), ("op", .str "<"), ("right", .int 40)])).bind
        (Condition.eval 0 []) = .ok true :=
  ⟨rfl, rfl, rfl, rfl⟩

/-- Claim C9 as amended. For values `a` and `b` of different JSON types (the number kinds
count as one type) `Eval::cmp` with `<`, `<=`, `>`, `>=` follows the order of the types of
the JSON library, null, boolean, number, object, array, string: `a < b` and `a <= b` hold iff
the type of `a` comes before the type of `b`, `a > b` and `a >= b` iff it comes after. Null
equals only null. The Simple condition `k < 40` evaluates to true in every context that
has no key `k`. -/
theorem cross_type_comparison (a b : Json) (h : a.typeOrder ≠ b.typeOrder) :
    Eval.cmp a "<" b = decide (a.typeOrder < b.typeOrder) ∧
      Eval.cmp a "<=" b = decide (a.typeOrder < b.typeOrder) ∧
      Eval.cmp a ">" b = decide (b.typeOrder < a.typeOrder) ∧
      Eval.cmp a ">=" b = decide (b.typeOrder < a.typeOrder) ∧
      (∀ v : Json, Eval.cmp .null "==" v = true ↔ v = .null) ∧
      (∀ (k : String) (wd : Int) (ctx : Context), ctx.has k = false →
        (Engine.parseCondition
            (.obj [("left", .str k), ("op", .str "<"), ("right", .int 40)])).bind
          (Condition.eval wd ctx) = .ok true) := by
  have h1 := ltBoth_cross_type a b h
  have h2 := ltBoth_cross_type b a (fun e => h e.symm)
  have hlt : a.typeOrder < b.typeOrder ∨ b.typeOrder < a.typeOrder := by omega
  refine ⟨?_, ?_, ?_, ?_, ?_, ?_⟩
  · simp [Eval.cmp, Json.lt, h1]
  · simp only [Eval.cmp, Json.le, Json.lt, h2]
    simp
    rcases hlt with hlt | hlt <;> simp [hlt] <;> omega
  · simp [Eval.cmp, Json.gt, Json.le, Json.lt, h2]
  · simp only [Eval.cmp, Json.ge, Json.lt, h1]
    simp
    rcases hlt with hlt | hlt <;> simp [hlt] <;> omega
  · intro v
    simp only [Eval.cmp]
    simpa using beq_null_iff v
  · intro k wd ctx hk
    have hget : Context.get ctx k = .null := by
      unfold Context.has at hk
      unfold Context.get
      cases hl : Json.lookup k ctx with
      | none => rfl
      | some v => rw [hl] at hk; simp at hk
    have hparse : Engine.parseCondition
        (.obj [("left", .str k), ("op", .str "<"), ("right", .int 40)]) =
        .ok (.mk k "<" (.int 40) [] [] none false) := by
      simp [Engine.parseCondition, Json.lookup, Json.getString, Json.valueString,
        Json.atKey, Json.fields, bind, Except.bind, pure, Except.pure]
    rw [hparse]
    show Condition.eval wd ctx (.mk k "<" (.int 40) [] [] none false) = .ok true
    simp [Condition.eval, hget, Eval.cmp, Json.lt, Json.ltBoth, Json.typeOrder]

/-- Claim C9 as amended, at null and the number 40. -/
theorem cross_type_comparison_witness :
    Json.typeOrder .null ≠ Json.typeOrder (.int 40) ∧
      (Eval.cmp .null "<" (.int 40) = decide (Json.typeOrder .null < Json.typeOrder (.int 40)) ∧
        Eval.cmp .null "<=" (.int 40) =
          decide (Json.typeOrder .null < Json.typeOrder (.int 40)) ∧
        Eval.cmp .null ">" (.int 40) = decide (Json.typeOrder (.int 40) < Json.typeOrder .null) ∧
        Eval.cmp .null ">=" (.int 40) =
          decide (Json.typeOrder (.int 40) < Json.typeOrder .null) ∧
        (∀ v : Json, Eval.cmp .null "==" v = true ↔ v = .null) ∧
        (∀ (k : String) (wd : Int) (ctx : Context), ctx.has k = false →
          (Engine.parseCondition
              (.obj [("left", .str k), ("op", .str "<"), ("right", .int 40)])).bind
            (Condition.eval wd ctx) = .ok true)) :=
  ⟨by decide, cross_type_comparison .null (.int 40) (by decide)⟩

/-! ### Claim C10 -/

namespace Condition

theorem evalAll_true_iff (wd : Int) (ctx : Context) (l : List Condition) :
    evalAll wd ctx l = .ok true ↔ ∀ s ∈ l, eval wd ctx s = .ok true := by
  induction l with
  | nil => simp [evalAll]
  | cons c cs ih =>
    rw [evalAll]
    cases hc : eval wd ctx c with
    | error ex => simp [bind, Except.bind, hc]
    | ok b =>
      cases b
      · simp [bind, Except.bind, pure, Except.pure, hc]
      · simp [bind, Except.bind, hc, ih]

theorem evalAny_true_iff (wd : Int) (ctx : Context) (l : List Condition)
    (hno : ∀ s ∈ l, ∃ b, eval wd ctx s = .ok b) :
    evalAny wd ctx l = .ok true ↔ ∃ s ∈ l, eval wd ctx s = .ok true := by
  induction l with
  | nil => simp [evalAny]
  | cons c cs ih =>
    rw [evalAny]
    obtain ⟨b, hb⟩ := hno c (List.mem_cons_self _ _)
    have ih2 := ih (fun s hs => hno s (List.mem_cons_of_mem _ hs))
    cases b
    · simp [bind, Except.bind, hb, ih2]
    · simp [bind, Except.bind, pure, Except.pure, hb]

theorem eval_all_list (wd : Int) (ctx : Context) (l : List Condition) :
    eval wd ctx (.mk "" "" .null l [] none false) =
      if l.isEmpty then .ok false else evalAll wd ctx l := by
  cases l with
  | nil => simp [eval, Eval.cmp]
  | cons c cs => simp [eval]

theorem eval_any_list (wd : Int) (ctx : Context) (l : List Condition) :
    eval wd ctx (.mk "" "" .null [] l none false) =
      if l.isEmpty then .ok false else evalAny wd ctx l := by
  cases l with
  | nil => simp [eval, Eval.cmp]
  | cons c cs => simp [eval]

end Condition

namespace Engine

theorem parseCondition_all (cs : List Json) (subs : List Condition)
    (h : parseConditions cs = .ok subs) :
    parseCondition (.obj [("all", .arr cs)]) = .ok (.mk "" "" .null subs [] none false) := by
  simp [parseCondition, parseSubs, Json.lookup, Json.is_array, h, bind, Except.bind, pure,
    Except.pure]

theorem parseCondition_any (cs : List Json) (subs : List Condition)
    (h : parseConditions cs = .ok subs) :
    parseCondition (.obj [("any", .arr cs)]) = .ok (.mk "" "" .null [] subs none false) := by
  simp [parseCondition, parseSubs, Json.lookup, Json.is_array, h, bind, Except.bind, pure,
    Except.pure]

/-- Claim C10, refuted for `any`. Of the two sub-conditions `avg_last_n(temp, 5)` and
`test == "true"` the second evaluates to true in the context `temp = 45`, `test = "true"`,
so the claim asks for true. The evaluation of the first calls `get<string>()` on the number
45, the unchecked conversion of `avg_last_n`; the library raises `type_error` 302, nothing
catches it, and the evaluation of the condition parsed from `any` is left by the exception:
it does not evaluate to true. -/
theorem any_with_raising_member_counterexample :
    parseConditions [.obj [("expression", Demo.avgExpr)], Demo.whenTest] =
        .ok [.mk "" "" .null [] [] (some Demo.avgNode) true, Demo.condTest] ∧
      Demo.condTest.eval 0 Demo.ctxTemp = .ok true ∧
      (parseCondition
          (.obj [("any", .arr [.obj [("expression", Demo.avgExpr)], Demo.whenTest])])).bind
        (Condition.eval 0 Demo.ctxTemp) = .error .type_error_302 :=
  ⟨rfl, rfl, rfl⟩

/-- The conditions `all` and `any` apart from the defect: for every context and every list
`cs` of sub-conditions (parsed into `subs`), the condition parsed from `all` evaluates to
true iff `cs` is non-empty and every sub-condition evaluates to true; the condition parsed
from `any` evaluates to true iff some sub-condition evaluates to true when every
sub-condition evaluates; both evaluate to false for the empty list. -/
theorem all_any_conditions (wd : Int) (ctx : Context) (cs : List Json) (subs : List Condition)
    (h : parseConditions cs = .ok subs) :
    (∃ c, parseCondition (.obj [("all", .arr cs)]) = .ok c ∧
        (c.eval wd ctx = .ok true ↔ cs ≠ [] ∧ ∀ s ∈ subs, s.eval wd ctx = .ok true) ∧
        (cs = [] → c.eval wd ctx = .ok false)) ∧
      (∃ c, parseCondition (.obj [("any", .arr cs)]) = .ok c ∧
        ((∀ s ∈ subs, ∃ b, s.eval wd ctx = .ok b) →
          (c.eval wd ctx = .ok true ↔ ∃ s ∈ subs, s.eval wd ctx = .ok true)) ∧
        (cs = [] → c.eval wd ctx = .ok false)) := by
  have hnil : cs = [] ↔ subs = [] := by
    cases cs with
    | nil =>
      simp only [parseConditions, Except.ok.injEq] at h
      simp [← h]
    | cons j rest =>
      rw [parseConditions] at h
      cases hj : parseCondition j with
      | error ex => simp [bind, Except.bind, hj] at h
      | ok c =>
        cases hr : parseConditions rest with
        | error ex => simp [bind, Except.bind, hj, hr] at h
        | ok l =>
          simp [bind, Except.bind, pure, Except.pure, hj, hr] at h
          simp [← h]
  constructor
  · refine ⟨_, parseCondition_all cs subs h, ?_, ?_⟩
    · rw [Condition.eval_all_list]
      by_cases hs : subs = []
      · have : cs = [] := hnil.mpr hs
        simp [hs, this]
      · have : cs ≠ [] := fun hc => hs (hnil.mp hc)
        have he : subs.isEmpty = false := by
          cases subs with
          | nil => exact absurd rfl hs
          | cons x xs => rfl
        simp only [he, ne_eq, this, not_false_eq_true, true_and]
        exact Condition.evalAll_true_iff wd ctx subs
    · intro hc
      rw [Condition.eval_all_list, hnil.mp hc]
      rfl
  · refine ⟨_, parseCondition_any cs subs h, ?_, ?_⟩
    · intro hno
      rw [Condition.eval_any_list]
      by_cases hs : subs = []
      · simp [hs]
      · have he : subs.isEmpty = false := by
          cases subs with
          | nil => exact absurd rfl hs
          | cons x xs => rfl
        simp only [he]
        exact Condition.evalAny_true_iff wd ctx subs hno
    · intro hc
      rw [Condition.eval_any_list, hnil.mp hc]
      rfl

/-- The conditions `all` and `any` at the two sub-conditions of
test_basic_functionality.cpp, `test_var == "value2"` and `counter >= 3`. -/
theorem all_any_conditions_witness :
    parseConditions
        [.obj [("left", .str "test_var"), ("op", .str "=="), ("right", .str "value2")],
         .obj [("left", .str "counter"), ("op", .str ">="), ("right", .int 3)]] =
        .ok [.mk "test_var" "==" (.str "value2") [] [] none false,
             .mk "counter" ">=" (.int 3) [] [] none false] ∧
      ((∃ c, parseCondition (.obj [("all", .arr
            [.obj [("left", .str "test_var"), ("op", .str "=="), ("right", .str "value2")],
             .obj [("left", .str "counter"), ("op", .str ">="), ("right", .int 3)]])]) = .ok c ∧
          (c.eval 0 [("test_var", .str "value2"), ("counter", .int 5)] = .ok true ↔
            [Json.obj [("left", .str "test_var"), ("op", .str "=="), ("right", .str "value2")],
             .obj [("left", .str "counter"), ("op", .str ">="), ("right", .int 3)]] ≠ [] ∧
            ∀ s ∈ [Condition.mk "test_var" "==" (.str "value2") [] [] none false,
                .mk "counter" ">=" (.int 3) [] [] none false],
              s.eval 0 [("test_var", .str "value2"), ("counter", .int 5)] = .ok true) ∧
          ([Json.obj [("left", .str "test_var"), ("op", .str "=="), ("right", .str "value2")],
             .obj [("left", .str "counter"), ("op", .str ">="), ("right", .int 3)]] = [] →
            c.eval 0 [("test_var", .str "value2"), ("counter", .int 5)] = .ok false)) ∧
        (∃ c, parseCondition (.obj [("any", .arr
            [.obj [("left", .str "test_var"), ("op", .str "=="), ("right", .str "value2")],
             .obj [("left", .str "counter"), ("op", .str ">="), ("right", .int 3)]])]) = .ok c ∧
          ((∀ s ∈ [Condition.mk "test_var" "==" (.str "value2") [] [] none false,
                .mk "counter" ">=" (.int 3) [] [] none false],
              ∃ b, s.eval 0 [("test_var", .str "value2"), ("counter", .int 5)] = .ok b) →
            (c.eval 0 [("test_var", .str "value2"), ("counter", .int 5)] = .ok true ↔
              ∃ s ∈ [Condition.mk "test_var" "==" (.str "value2") [] [] none false,
                  .mk "counter" ">=" (.int 3) [] [] none false],
                s.eval 0 [("test_var", .str "value2"), ("counter", .int 5)] = .ok true)) ∧
          ([Json.obj [("left", .str "test_var"), ("op", .str "=="), ("right", .str "value2")],
             .obj [("left", .str "counter"), ("op", .str ">="), ("right", .int 3)]] = [] →
            c.eval 0 [("test_var", .str "value2"), ("counter", .int 5)] = .ok false))) :=
  ⟨rfl, all_any_conditions 0 [("test_var", .str "value2"), ("counter", .int 5)] _ _ rfl⟩

end Engine

/-! ### Claim C11 -/

/-- Claim C11, as stated, fails: the expression `temp` evaluates to the non-zero number 45 in
the context `temp = 45`, which is truthy in the words of the specification, but the
condition built from it evaluates to false. -/
theorem expression_condition_counterexample :
    ExpressionParser.parse (.str "temp") = .ok (.mk .EXPR_VAR "temp" "" "" []) ∧
      ExprNode.evaluate 0 Demo.ctxTemp (.mk .EXPR_VAR "temp" "" "" []) = .ok (.int 45) ∧
      truthySpec (.int 45) = true ∧
      (Engine.parseCondition (.obj [("expression", .str "temp")])).bind
        (Condition.eval 0 Demo.ctxTemp) = .ok false :=
  ⟨rfl, rfl, by decide, rfl⟩

/-- Claim C11 as amended. For a condition built from `when.expression`, `Condition::eval` is
true iff the value of the expression is the boolean true: the boolean false and every value
that is not a boolean (null, every number, every string, array and object) give false. -/
theorem expression_condition (expr : Json) (node : ExprNode) (wd : Int) (ctx : Context)
    (v : Json) (hparse : ExpressionParser.parse expr = .ok node)
    (hval : node.evaluate wd ctx = .ok v) :
    ∃ c, Engine.parseCondition (.obj [("expression", expr)]) = .ok c ∧
      c.eval wd ctx = .ok (v.is_boolean && v.getBool) ∧
      (c.eval wd ctx = .ok true ↔ v = .bool true) ∧
      (v.is_boolean = false → c.eval wd ctx = .ok false) := by
  refine ⟨.mk "" "" .null [] [] (some node) true, ?_, ?_, ?_, ?_⟩
  · simp [Engine.parseCondition, Json.lookup, hparse, bind, Except.bind, pure, Except.pure]
  · simp only [Condition.eval, hval, bind, Except.bind, pure, Except.pure]
    cases v <;> simp [Json.is_boolean, Json.getBool]
  · simp only [Condition.eval, hval, bind, Except.bind, pure, Except.pure]
    cases v <;> simp [Json.is_boolean, Json.getBool]
  · intro hb
    simp only [Condition.eval, hval, bind, Except.bind, pure, Except.pure]
    simp [hb]

/-- Claim C11 as amended, at the expression `temp` in the context `temp = 45`. -/
theorem expression_condition_witness :
    ExpressionParser.parse (.str "temp") = .ok (.mk .EXPR_VAR "temp" "" "" []) ∧
      ExprNode.evaluate 0 Demo.ctxTemp (.mk .EXPR_VAR "temp" "" "" []) = .ok (.int 45) ∧
      ∃ c, Engine.parseCondition (.obj [("expression", .str "temp")]) = .ok c ∧
        c.eval 0 Demo.ctxTemp = .ok ((Json.int 45).is_boolean && (Json.int 45).getBool) ∧
        (c.eval 0 Demo.ctxTemp = .ok true ↔ Json.int 45 = .bool true) ∧
        ((Json.int 45).is_boolean = false → c.eval 0 Demo.ctxTemp = .ok false) :=
  ⟨rfl, rfl,
    expression_condition (.str "temp") (.mk .EXPR_VAR "temp" "" "" []) 0 Demo.ctxTemp
      (.int 45) rfl rfl⟩

/-! ### Claim C12 -/

/-- Claim C12, as stated, fails: the empty string is falsy in the words of the
specification, but `Eval::logical_and("", true)` is true; the same with the empty array and
the empty object, and with `logical_or` against false. -/
theorem logical_operators_counterexample :
    truthySpec (.str "") = false ∧
      Eval.logical_and (.str "") (.bool true) = .bool true ∧
      Eval.logical_and (.arr []) (.bool true) = .bool true ∧
      Eval.logical_and (.obj []) (.bool true) = .bool true ∧
      Eval.logical_or (.str "") (.bool false) = .bool true :=
  ⟨by decide, rfl, rfl, rfl, rfl⟩

/-- Claim C12 as amended. For all values `a` and `b`, `logical_and(a, b)` is the boolean
`truthy(a) AND truthy(b)` and `logical_or(a, b)` is `truthy(a) OR truthy(b)`, where
`truthy(v)` (`Eval.toBool`) is false exactly when `v` is null, false or the number 0; every
string, array and object, empty or not, is truthy. -/
theorem logical_operators (a b : Json) :
    Eval.logical_and a b = .bool (Eval.toBool a && Eval.toBool b) ∧
      Eval.logical_or a b = .bool (Eval.toBool a || Eval.toBool b) ∧
      (∀ v : Json, Eval.toBool v = false ↔
        (v = .null ∨ v = .bool false ∨ v = .int 0 ∨ v = .float 0)) ∧
      (∀ s : String, Eval.toBool (.str s) = true) ∧
      (∀ xs : List Json, Eval.toBool (.arr xs) = true) ∧
      (∀ kvs : List (String × Json), Eval.toBool (.obj kvs) = true) := by
  refine ⟨rfl, rfl, ?_, fun s => rfl, fun xs => rfl, fun kvs => rfl⟩
  intro v
  cases v <;> simp [Eval.toBool, Json.is_boolean, Json.is_number, Json.is_null, Json.getBool,
    Json.getDouble]

/-! ### Claim C13 -/

/-- Claim C13, as stated, fails for more arguments: `contains` with three arguments, in a
context where `status` holds a text with `error` in it and `word = "error"`, evaluates to
the boolean true, not to null; the third argument is ignored. -/
theorem function_arity_counterexample :
    aritySpec "contains" = some 2 ∧
      ExpressionParser.parse
          (.obj [("args", .arr [.str "status", .str "word", .str "extra"]),
                 ("func", .str "contains")]) =
        .ok (.mk .EXPR_FUNC "" "" "contains"
          [.mk .EXPR_VAR "status" "" "" [], .mk .EXPR_VAR "word" "" "" [],
           .mk .EXPR_VAR "extra" "" "" []]) ∧
      ExprNode.evaluate 0 [("status", .str "system error"), ("word", .str "error")]
          (.mk .EXPR_FUNC "" "" "contains"
            [.mk .EXPR_VAR "status" "" "" [], .mk .EXPR_VAR "word" "" "" [],
             .mk .EXPR_VAR "extra" "" "" []]) = .ok (.bool true) :=
  ⟨rfl, rfl, rfl⟩

/-- Claim C13 as amended. For every recognised function with its listed number `n` of
arguments (contains, starts_with, ends_with, avg_last_n, max_last_n, trend: 2;
time_between: 3; day_of_week: 1), a Func node carrying fewer than `n` arguments evaluates
to null in every context, and a Func node carrying more evaluates exactly like the node
with its first `n` arguments only: the extra arguments are ignored. -/
theorem function_arity (wd : Int) (ctx : Context) (value op func_name : String) (n : Nat)
    (args : List ExprNode) (hn : aritySpec func_name = some n) :
    (args.length < n →
        ExprNode.evaluate wd ctx (.mk .EXPR_FUNC value op func_name args) = .ok .null) ∧
      ExprNode.evaluate wd ctx (.mk .EXPR_FUNC value op func_name args) =
        ExprNode.evaluate wd ctx (.mk .EXPR_FUNC value op func_name (args.take n)) := by
  unfold aritySpec at hn
  split at hn
  · rename_i hf; subst hf; cases hn
    rcases args with _ | ⟨a, _ | ⟨b, rest⟩⟩
    · exact ⟨fun _ => rfl, rfl⟩
    · exact ⟨fun _ => rfl, rfl⟩
    · exact ⟨fun h => absurd h (by simp), by delta ExprNode.evaluate; rfl⟩
  split at hn
  · rename_i hf; subst hf; cases hn
    rcases args with _ | ⟨a, _ | ⟨b, rest⟩⟩
    · exact ⟨fun _ => rfl, rfl⟩
    · exact ⟨fun _ => rfl, rfl⟩
    · exact ⟨fun h => absurd h (by simp), by delta ExprNode.evaluate; rfl⟩
  split at hn
  · rename_i hf; subst hf; cases hn
    rcases args with _ | ⟨a, _ | ⟨b, rest⟩⟩
    · exact ⟨fun _ => rfl, rfl⟩
    · exact ⟨fun _ => rfl, rfl⟩
    · exact ⟨fun h => absurd h (by simp), by delta ExprNode.evaluate; rfl⟩
  split at hn
  · rename_i hf; subst hf; cases hn
    rcases args with _ | ⟨a, _ | ⟨b, _ | ⟨c, rest⟩⟩⟩
    · exact ⟨fun _ => rfl, rfl⟩
    · exact ⟨fun _ => rfl, rfl⟩
    · exact ⟨fun _ => rfl, rfl⟩
    · exact ⟨fun h => absurd h (by simp), by delta ExprNode.evaluate; rfl⟩
  split at hn
  · rename_i hf; subst hf; cases hn
    rcases args with _ | ⟨a, rest⟩
    · exact ⟨fun _ => rfl, rfl⟩
    · exact ⟨fun h => absurd h (by simp), by delta ExprNode.evaluate; rfl⟩
  split at hn
  · rename_i hf; subst hf; cases hn
    rcases args with _ | ⟨a, _ | ⟨b, rest⟩⟩
    · exact ⟨fun _ => rfl, rfl⟩
    · exact ⟨fun _ => rfl, rfl⟩
    · exact ⟨fun h => absurd h (by simp), by delta ExprNode.evaluate; rfl⟩
  split at hn
  · rename_i hf; subst hf; cases hn
    rcases args with _ | ⟨a, _ | ⟨b, rest⟩⟩
    · exact ⟨fun _ => rfl, rfl⟩
    · exact ⟨fun _ => rfl, rfl⟩
    · exact ⟨fun h => absurd h (by simp), by delta ExprNode.evaluate; rfl⟩
  split at hn
  · rename_i hf; subst hf; cases hn
    rcases args with _ | ⟨a, _ | ⟨b, rest⟩⟩
    · exact ⟨fun _ => rfl, rfl⟩
    · exact ⟨fun _ => rfl, rfl⟩
    · exact ⟨fun h => absurd h (by simp), by delta ExprNode.evaluate; rfl⟩
  · cases hn

/-- Claim C13 as amended, at `time_between` with two arguments (null) and `contains` with
three (as with two). -/
theorem function_arity_witness :
    aritySpec "time_between" = some 3 ∧
      (([ExprNode.mk .EXPR_VAR "a" "" "" [], .mk .EXPR_VAR "b" "" "" []].length < 3 →
          ExprNode.evaluate 0 [] (.mk .EXPR_FUNC "" "" "time_between"
            [.mk .EXPR_VAR "a" "" "" [], .mk .EXPR_VAR "b" "" "" []]) = .ok .null) ∧
        ExprNode.evaluate 0 [] (.mk .EXPR_FUNC "" "" "time_between"
            [.mk .EXPR_VAR "a" "" "" [], .mk .EXPR_VAR "b" "" "" []]) =
          ExprNode.evaluate 0 [] (.mk .EXPR_FUNC "" "" "time_between"
            ([ExprNode.mk .EXPR_VAR "a" "" "" [], .mk .EXPR_VAR "b" "" "" []].take 3))) ∧
      ExprNode.evaluate 0 [] (.mk .EXPR_FUNC "" "" "time_between"
            [.mk .EXPR_VAR "a" "" "" [], .mk .EXPR_VAR "b" "" "" []]) = .ok .null :=
  ⟨rfl,
    function_arity 0 [] "" "" "time_between" 3
      [.mk .EXPR_VAR "a" "" "" [], .mk .EXPR_VAR "b" "" "" []] rfl,
    rfl⟩

/-! ### Behaviour trees: the record of ticks -/

theorem ticksAt_append (p : List Nat) (a b : List BTTick) :
    BTRun.ticksAt p (a ++ b) = BTRun.ticksAt p a ++ BTRun.ticksAt p b := by
  simp [BTRun.ticksAt, List.filterMap_append]

theorem ticksAt_nil_under (i : Nat) (ticks : List BTTick) :
    BTRun.ticksAt [] (BTRun.under i ticks) = [] := by
  induction ticks with
  | nil => rfl
  | cons t rest ih =>
      simp only [BTRun.ticksAt, BTRun.under, List.map_cons, List.filterMap_cons] at ih ⊢
      simp [ih]

theorem ticksAt_cons_under (i : Nat) (p : List Nat) (ticks : List BTTick) :
    BTRun.ticksAt (i :: p) (BTRun.under i ticks) = BTRun.ticksAt p ticks := by
  induction ticks with
  | nil => rfl
  | cons t rest ih =>
      simp only [BTRun.ticksAt, BTRun.under, List.map_cons, List.filterMap_cons] at ih ⊢
      by_cases h : t.1 = p <;> simp [h, ih]

theorem childTicks_append (a b : List BTTick) :
    BTRun.childTicks (a ++ b) = BTRun.childTicks a ++ BTRun.childTicks b := by
  simp [BTRun.childTicks, List.filterMap_append]

theorem childTicks_under (i : Nat) (ticks : List BTTick) :
    BTRun.childTicks (BTRun.under i ticks) =
      (BTRun.ticksAt [] ticks).map (fun s => (i, s)) := by
  induction ticks with
  | nil => rfl
  | cons t rest ih =>
      obtain ⟨p, s⟩ := t
      simp only [BTRun.childTicks, BTRun.ticksAt, BTRun.under, List.map_cons,
        List.filterMap_cons] at ih ⊢
      cases p with
      | nil => simp [ih]
      | cons j q => simp [ih]

theorem ticksAt_returned (st : BTStatus) (node : BTNode) (ctx : Context)
    (ticks : List BTTick) (h : BTRun.ticksAt [] ticks = []) :
    BTRun.ticksAt [] (BTRun.returned st node ctx ticks).ticks = [st] := by
  show BTRun.ticksAt [] (ticks ++ [([], st)]) = [st]
  rw [ticksAt_append, h]
  rfl

theorem ticksAt_finish (status : Option BTStatus) (node : BTNode) (ctx : Context)
    (ticks : List BTTick) (h : BTRun.ticksAt [] ticks = []) :
    BTRun.ticksAt [] (BTRun.finish status node ctx ticks).ticks = status.toList ∧
      (BTRun.finish status node ctx ticks).status = status := by
  cases status with
  | none => exact ⟨h, rfl⟩
  | some st => exact ⟨ticksAt_returned st node ctx ticks h, rfl⟩

theorem sequenceLoop_own (exec : BTNode → Context → BTRun) (cs : List BTNode)
    (ctx : Context) (i : Nat) :
    BTRun.ticksAt [] (BTNode.sequenceLoop exec cs ctx i).ticks = [] := by
  induction cs generalizing ctx i with
  | nil => rfl
  | cons c rest ih =>
      simp only [BTNode.sequenceLoop]
      split <;> simp [ticksAt_append, ticksAt_nil_under, ih]

theorem selectorLoop_own (exec : BTNode → Context → BTRun) (cs : List BTNode)
    (ctx : Context) (i : Nat) :
    BTRun.ticksAt [] (BTNode.selectorLoop exec cs ctx i).ticks = [] := by
  induction cs generalizing ctx i with
  | nil => rfl
  | cons c rest ih =>
      simp only [BTNode.selectorLoop]
      split <;> simp [ticksAt_append, ticksAt_nil_under, ih]

theorem parallelLoop_own (exec : BTNode → Context → BTRun) (cs : List BTNode)
    (ctx : Context) (i : Nat) :
    BTRun.ticksAt [] (BTNode.parallelLoop exec cs ctx i).ticks = [] := by
  induction cs generalizing ctx i with
  | nil => rfl
  | cons c rest ih =>
      simp only [BTNode.parallelLoop]
      split <;> simp [ticksAt_append, ticksAt_nil_under, ih]

theorem repeaterLoop_own (exec : BTNode → Context → BTRun) (n : Int) (steps : Nat)
    (cnt : Int) (c : BTNode) (ctx : Context) :
    BTRun.ticksAt [] (BTNode.repeaterLoop exec n steps cnt c ctx).ticks = [] := by
  induction steps generalizing cnt c ctx with
  | zero => simp only [BTNode.repeaterLoop]; split <;> rfl
  | succ k ih =>
      simp only [BTNode.repeaterLoop]
      split
      · split <;> simp [ticksAt_append, ticksAt_nil_under, ih]
      · rfl

theorem untilFailLoop_own (exec : BTNode → Context → BTRun) (steps : Nat)
    (c : BTNode) (ctx : Context) :
    BTRun.ticksAt [] (BTNode.untilFailLoop exec steps c ctx).ticks = [] := by
  induction steps generalizing c ctx with
  | zero => rfl
  | succ k ih =>
      simp only [BTNode.untilFailLoop]
      split <;> simp [ticksAt_append, ticksAt_nil_under, ih]

theorem untilSuccessLoop_own (exec : BTNode → Context → BTRun) (steps : Nat)
    (c : BTNode) (ctx : Context) :
    BTRun.ticksAt [] (BTNode.untilSuccessLoop exec steps c ctx).ticks = [] := by
  induction steps generalizing c ctx with
  | zero => rfl
  | succ k ih =>
      simp only [BTNode.untilSuccessLoop]
      split <;> simp [ticksAt_append, ticksAt_nil_under, ih]

/-! ### Behaviour trees: `execute`, one node class at a time -/

theorem execute_sequence (fuel : Nat) (name : String) (cs : List BTNode) (ctx : Context) :
    BTNode.execute (fuel + 1) (.sequence name cs) ctx =
      BTRun.finish (BTNode.sequenceLoop (BTNode.execute fuel) cs ctx 0).status
        (.sequence name (BTNode.sequenceLoop (BTNode.execute fuel) cs ctx 0).children)
        (BTNode.sequenceLoop (BTNode.execute fuel) cs ctx 0).ctx
        (BTNode.sequenceLoop (BTNode.execute fuel) cs ctx 0).ticks := rfl

theorem execute_selector (fuel : Nat) (name : String) (cs : List BTNode) (ctx : Context) :
    BTNode.execute (fuel + 1) (.selector name cs) ctx =
      BTRun.finish (BTNode.selectorLoop (BTNode.execute fuel) cs ctx 0).status
        (.selector name (BTNode.selectorLoop (BTNode.execute fuel) cs ctx 0).children)
        (BTNode.selectorLoop (BTNode.execute fuel) cs ctx 0).ctx
        (BTNode.selectorLoop (BTNode.execute fuel) cs ctx 0).ticks := rfl

theorem execute_parallel (fuel : Nat) (name : String) (policy : BTParallel.Policy)
    (c : BTNode) (cs : List BTNode) (ctx : Context) :
    BTNode.execute (fuel + 1) (.parallel name policy (c :: cs)) ctx =
      BTRun.finish
        (if (BTNode.parallelLoop (BTNode.execute fuel) (c :: cs) ctx 0).complete then
          some (BTParallel.policyStatus policy
            ((BTNode.parallelLoop (BTNode.execute fuel) (c :: cs) ctx 0).results.count
              .SUCCESS)
            ((BTNode.parallelLoop (BTNode.execute fuel) (c :: cs) ctx 0).results.count
              .FAILURE)
            ((BTNode.parallelLoop (BTNode.execute fuel) (c :: cs) ctx 0).results.count
              .RUNNING))
        else none)
        (.parallel name policy
          (BTNode.parallelLoop (BTNode.execute fuel) (c :: cs) ctx 0).children)
        (BTNode.parallelLoop (BTNode.execute fuel) (c :: cs) ctx 0).ctx
        (BTNode.parallelLoop (BTNode.execute fuel) (c :: cs) ctx 0).ticks := rfl

theorem execute_repeater (fuel : Nat) (name : String) (n cnt : Int) (c : BTNode)
    (ctx : Context) (hn : n ≠ -1) :
    BTNode.execute (fuel + 1) (.repeater name n cnt (some c)) ctx =
      BTRun.finish (BTNode.repeaterLoop (BTNode.execute fuel) n fuel cnt c ctx).status
        (.repeater name n (BTNode.repeaterLoop (BTNode.execute fuel) n fuel cnt c ctx).count
          (some (BTNode.repeaterLoop (BTNode.execute fuel) n fuel cnt c ctx).child))
        (BTNode.repeaterLoop (BTNode.execute fuel) n fuel cnt c ctx).ctx
        (BTNode.repeaterLoop (BTNode.execute fuel) n fuel cnt c ctx).ticks := by
  rw [BTNode.execute.eq_def]
  dsimp only
  rw [if_neg hn]

theorem execute_until_fail (fuel : Nat) (name : String) (c : BTNode) (ctx : Context) :
    BTNode.execute (fuel + 1) (.until_fail name (some c)) ctx =
      BTRun.finish (BTNode.untilFailLoop (BTNode.execute fuel) fuel c ctx).status
        (.until_fail name (some (BTNode.untilFailLoop (BTNode.execute fuel) fuel c ctx).child))
        (BTNode.untilFailLoop (BTNode.execute fuel) fuel c ctx).ctx
        (BTNode.untilFailLoop (BTNode.execute fuel) fuel c ctx).ticks := rfl

theorem execute_until_success (fuel : Nat) (name : String) (c : BTNode) (ctx : Context) :
    BTNode.execute (fuel + 1) (.until_success name (some c)) ctx =
      BTRun.finish (BTNode.untilSuccessLoop (BTNode.execute fuel) fuel c ctx).status
        (.until_success name
          (some (BTNode.untilSuccessLoop (BTNode.execute fuel) fuel c ctx).child))
        (BTNode.untilSuccessLoop (BTNode.execute fuel) fuel c ctx).ctx
        (BTNode.untilSuccessLoop (BTNode.execute fuel) fuel c ctx).ticks := rfl

/-- Every call of `execute` records its own return, once and last: the ticks at the empty
path are the status returned, and none when the call has not returned. -/
theorem execute_own (fuel : Nat) (node : BTNode) (ctx : Context) :
    BTRun.ticksAt [] (BTNode.execute fuel node ctx).ticks =
      (BTNode.execute fuel node ctx).status.toList := by
  cases fuel with
  | zero => rfl
  | succ k =>
      cases node with
      | action name f params =>
          cases f with
          | none => rfl
          | some f =>
              rw [BTNode.execute.eq_def]
              dsimp only
              split <;> rfl
      | condition name f params =>
          cases f with
          | none => rfl
          | some f =>
              rw [BTNode.execute.eq_def]
              dsimp only
              split <;> rfl
      | sequence name cs =>
          rw [execute_sequence]
          have h := ticksAt_finish (BTNode.sequenceLoop (BTNode.execute k) cs ctx 0).status
            (.sequence name (BTNode.sequenceLoop (BTNode.execute k) cs ctx 0).children)
            (BTNode.sequenceLoop (BTNode.execute k) cs ctx 0).ctx _
            (sequenceLoop_own (BTNode.execute k) cs ctx 0)
          rw [h.1, h.2]
      | selector name cs =>
          rw [execute_selector]
          have h := ticksAt_finish (BTNode.selectorLoop (BTNode.execute k) cs ctx 0).status
            (.selector name (BTNode.selectorLoop (BTNode.execute k) cs ctx 0).children)
            (BTNode.selectorLoop (BTNode.execute k) cs ctx 0).ctx _
            (selectorLoop_own (BTNode.execute k) cs ctx 0)
          rw [h.1, h.2]
      | parallel name policy cs =>
          cases cs with
          | nil => rfl
          | cons c rest =>
              rw [execute_parallel]
              have h := ticksAt_finish
                (if (BTNode.parallelLoop (BTNode.execute k) (c :: rest) ctx 0).complete then
                  some (BTParallel.policyStatus policy
                    ((BTNode.parallelLoop (BTNode.execute k) (c :: rest) ctx 0).results.count
                      .SUCCESS)
                    ((BTNode.parallelLoop (BTNode.execute k) (c :: rest) ctx 0).results.count
                      .FAILURE)
                    ((BTNode.parallelLoop (BTNode.execute k) (c :: rest) ctx 0).results.count
                      .RUNNING))
                else none)
                (.parallel name policy
                  (BTNode.parallelLoop (BTNode.execute k) (c :: rest) ctx 0).children)
                (BTNode.parallelLoop (BTNode.execute k) (c :: rest) ctx 0).ctx _
                (parallelLoop_own (BTNode.execute k) (c :: rest) ctx 0)
              rw [h.1, h.2]
      | inverter name child =>
          cases child with
          | none => rfl
          | some c =>
              have h := ticksAt_finish ((BTNode.execute k c ctx).status.map BTNode.invert)
                (.inverter name (some (BTNode.execute k c ctx).node))
                (BTNode.execute k c ctx).ctx _
                (ticksAt_nil_under 0 (BTNode.execute k c ctx).ticks)
              exact h.1.trans (congrArg Option.toList h.2.symm)
      | repeater name n cnt child =>
          cases child with
          | none => rfl
          | some c =>
              by_cases hn : n = -1
              · subst hn
                rw [BTNode.execute.eq_def]
                dsimp only
                rw [if_pos rfl]
                split
                · exact ticksAt_returned _ _ _ _ (ticksAt_nil_under 0 _)
                · exact ticksAt_returned _ _ _ _ (ticksAt_nil_under 0 _)
                · exact ticksAt_nil_under 0 _
              · rw [execute_repeater k name n cnt c ctx hn]
                have h := ticksAt_finish
                  (BTNode.repeaterLoop (BTNode.execute k) n k cnt c ctx).status
                  (.repeater name n
                    (BTNode.repeaterLoop (BTNode.execute k) n k cnt c ctx).count
                    (some (BTNode.repeaterLoop (BTNode.execute k) n k cnt c ctx).child))
                  (BTNode.repeaterLoop (BTNode.execute k) n k cnt c ctx).ctx _
                  (repeaterLoop_own (BTNode.execute k) n k cnt c ctx)
                rw [h.1, h.2]
      | until_fail name child =>
          cases child with
          | none => rfl
          | some c =>
              rw [execute_until_fail]
              have h := ticksAt_finish
                (BTNode.untilFailLoop (BTNode.execute k) k c ctx).status
                (.until_fail name
                  (some (BTNode.untilFailLoop (BTNode.execute k) k c ctx).child))
                (BTNode.untilFailLoop (BTNode.execute k) k c ctx).ctx _
                (untilFailLoop_own (BTNode.execute k) k c ctx)
              rw [h.1, h.2]
      | until_success name child =>
          cases child with
          | none => rfl
          | some c =>
              rw [execute_until_success]
              have h := ticksAt_finish
                (BTNode.untilSuccessLoop (BTNode.execute k) k c ctx).status
                (.until_success name
                  (some (BTNode.untilSuccessLoop (BTNode.execute k) k c ctx).child))
                (BTNode.untilSuccessLoop (BTNode.execute k) k c ctx).ctx _
                (untilSuccessLoop_own (BTNode.execute k) k c ctx)
              rw [h.1, h.2]

/-! ### Behaviour trees: the loops of the sequence and of the selector -/

theorem range_shift (i k : Nat) (st : BTStatus) :
    (i, st) :: (List.range k).map (fun j => (i + 1 + j, st)) =
      (List.range (k + 1)).map (fun j => (i + j, st)) := by
  rw [List.range_succ_eq_map, List.map_cons, List.map_map]
  congr 1
  apply List.map_congr_left
  intro j _
  simp only [Function.comp, Nat.succ_eq_add_one]
  congr 1
  omega

theorem childTicks_child (exec : BTNode → Context → BTRun)
    (hown : ∀ c ctx, BTRun.ticksAt [] (exec c ctx).ticks = (exec c ctx).status.toList)
    (c : BTNode) (ctx : Context) (i : Nat) (st : BTStatus)
    (h : (exec c ctx).status = some st) :
    BTRun.childTicks (BTRun.under i (exec c ctx).ticks) = [(i, st)] := by
  rw [childTicks_under, hown, h]
  rfl

theorem sequenceLoop_spec (exec : BTNode → Context → BTRun)
    (hown : ∀ c ctx, BTRun.ticksAt [] (exec c ctx).ticks = (exec c ctx).status.toList)
    (cs : List BTNode) (ctx : Context) (i : Nat)
    (hret : ∀ c ∈ cs, ∀ ctx1, (exec c ctx1).status ≠ none) :
    ∃ st k, (BTNode.sequenceLoop exec cs ctx i).status = some st ∧
      ((st = .SUCCESS ∧ k = cs.length ∧
          BTRun.childTicks (BTNode.sequenceLoop exec cs ctx i).ticks =
            (List.range k).map (fun j => (i + j, BTStatus.SUCCESS))) ∨
        (st ≠ .SUCCESS ∧ k < cs.length ∧
          BTRun.childTicks (BTNode.sequenceLoop exec cs ctx i).ticks =
            (List.range k).map (fun j => (i + j, BTStatus.SUCCESS)) ++ [(i + k, st)])) := by
  induction cs generalizing ctx i with
  | nil => exact ⟨.SUCCESS, 0, rfl, Or.inl ⟨rfl, rfl, rfl⟩⟩
  | cons c rest ih =>
      have hc := hret c (List.mem_cons_self _ _) ctx
      simp only [BTNode.sequenceLoop]
      split
      · rename_i hs
        obtain ⟨st, k, h1, h2⟩ := ih (exec c ctx).ctx (i + 1)
          (fun d hd => hret d (List.mem_cons_of_mem _ hd))
        refine ⟨st, k + 1, h1, ?_⟩
        simp only [childTicks_append, childTicks_child exec hown c ctx i _ hs]
        rcases h2 with ⟨e1, e2, e3⟩ | ⟨e1, e2, e3⟩
        · left
          refine ⟨e1, by simp [e2], ?_⟩
          rw [e3]
          exact range_shift i k .SUCCESS
        · right
          refine ⟨e1, by simpa using e2, ?_⟩
          rw [e3, ← range_shift i k .SUCCESS]
          simp [Nat.add_assoc, Nat.add_comm 1 k]
      · rename_i hs
        refine ⟨.FAILURE, 0, rfl, Or.inr ⟨by decide, by simp, ?_⟩⟩
        simp [childTicks_child exec hown c ctx i _ hs]
      · rename_i hs
        refine ⟨.RUNNING, 0, rfl, Or.inr ⟨by decide, by simp, ?_⟩⟩
        simp [childTicks_child exec hown c ctx i _ hs]
      · rename_i hs
        exact absurd hs hc

theorem selectorLoop_spec (exec : BTNode → Context → BTRun)
    (hown : ∀ c ctx, BTRun.ticksAt [] (exec c ctx).ticks = (exec c ctx).status.toList)
    (cs : List BTNode) (ctx : Context) (i : Nat)
    (hret : ∀ c ∈ cs, ∀ ctx1, (exec c ctx1).status ≠ none) :
    ∃ st k, (BTNode.selectorLoop exec cs ctx i).status = some st ∧
      ((st = .FAILURE ∧ k = cs.length ∧
          BTRun.childTicks (BTNode.selectorLoop exec cs ctx i).ticks =
            (List.range k).map (fun j => (i + j, BTStatus.FAILURE))) ∨
        (st ≠ .FAILURE ∧ k < cs.length ∧
          BTRun.childTicks (BTNode.selectorLoop exec cs ctx i).ticks =
            (List.range k).map (fun j => (i + j, BTStatus.FAILURE)) ++ [(i + k, st)])) := by
  induction cs generalizing ctx i with
  | nil => exact ⟨.FAILURE, 0, rfl, Or.inl ⟨rfl, rfl, rfl⟩⟩
  | cons c rest ih =>
      have hc := hret c (List.mem_cons_self _ _) ctx
      simp only [BTNode.selectorLoop]
      split
      · rename_i hs
        refine ⟨.SUCCESS, 0, rfl, Or.inr ⟨by decide, by simp, ?_⟩⟩
        simp [childTicks_child exec hown c ctx i _ hs]
      · rename_i hs
        refine ⟨.RUNNING, 0, rfl, Or.inr ⟨by decide, by simp, ?_⟩⟩
        simp [childTicks_child exec hown c ctx i _ hs]
      · rename_i hs
        obtain ⟨st, k, h1, h2⟩ := ih (exec c ctx).ctx (i + 1)
          (fun d hd => hret d (List.mem_cons_of_mem _ hd))
        refine ⟨st, k + 1, h1, ?_⟩
        simp only [childTicks_append, childTicks_child exec hown c ctx i _ hs]
        rcases h2 with ⟨e1, e2, e3⟩ | ⟨e1, e2, e3⟩
        · left
          refine ⟨e1, by simp [e2], ?_⟩
          rw [e3]
          exact range_shift i k .FAILURE
        · right
          refine ⟨e1, by simpa using e2, ?_⟩
          rw [e3, ← range_shift i k .FAILURE]
          simp [Nat.add_assoc, Nat.add_comm 1 k]
      · rename_i hs
        exact absurd hs hc

theorem childTicks_finish (status : Option BTStatus) (node : BTNode) (ctx : Context)
    (ticks : List BTTick) :
    BTRun.childTicks (BTRun.finish status node ctx ticks).ticks = BTRun.childTicks ticks := by
  cases status with
  | none => rfl
  | some st =>
      show BTRun.childTicks (ticks ++ [([], st)]) = _
      rw [childTicks_append]
      simp [BTRun.childTicks]

theorem status_finish (status : Option BTStatus) (node : BTNode) (ctx : Context)
    (ticks : List BTTick) : (BTRun.finish status node ctx ticks).status = status := by
  cases status <;> rfl

/-! ### Claim C14 -/

/-- Claim C14. For every list of children that return when executed, `BTSequence::execute`
returns, with a status `st` and a number `k` such that either `st` is Success, `k` is the
number of children and the children ticked are, in order, each child once with status
Success; or `st` is Failure or Running, the child at index `k` exists, and the children
ticked are, in order, the children before `k` once each with status Success and then the
child at `k` with status `st`: no later child is ticked. -/
theorem sequence_stops_at_first_non_success (fuel : Nat) (name : String)
    (children : List BTNode) (ctx : Context)
    (hret : ∀ c ∈ children, ∀ ctx1, (BTNode.execute fuel c ctx1).status ≠ none) :
    ∃ st k, (BTNode.execute (fuel + 1) (.sequence name children) ctx).status = some st ∧
      ((st = .SUCCESS ∧ k = children.length ∧
          BTRun.childTicks (BTNode.execute (fuel + 1) (.sequence name children) ctx).ticks =
            (List.range k).map (fun j => (j, BTStatus.SUCCESS))) ∨
        (st ≠ .SUCCESS ∧ k < children.length ∧
          BTRun.childTicks (BTNode.execute (fuel + 1) (.sequence name children) ctx).ticks =
            (List.range k).map (fun j => (j, BTStatus.SUCCESS)) ++ [(k, st)])) := by
  obtain ⟨st, k, h1, h2⟩ :=
    sequenceLoop_spec (BTNode.execute fuel) (execute_own fuel) children ctx 0 hret
  refine ⟨st, k, ?_, ?_⟩
  · rw [execute_sequence, status_finish]
    exact h1
  · rw [execute_sequence, childTicks_finish]
    simpa using h2

/-- Claim C14 on the sequence of four actions that return Success, Success, Failure,
Success (the tree of `Demo.sequenceDoc`): the call returns Failure and ticks exactly the
first three children, in order. -/
theorem sequence_stops_at_first_non_success_witness :
    BTParser.parse Demo.sequenceDoc = .ok (some Demo.sequenceTree) ∧
      (BTNode.execute 2 Demo.sequenceTree []).status = some .FAILURE ∧
      BTRun.childTicks (BTNode.execute 2 Demo.sequenceTree []).ticks =
        [(0, .SUCCESS), (1, .SUCCESS), (2, .FAILURE)] ∧
      ∃ st k, (BTNode.execute 2 Demo.sequenceTree []).status = some st ∧
        ((st = .SUCCESS ∧ k = 4 ∧
            BTRun.childTicks (BTNode.execute 2 Demo.sequenceTree []).ticks =
              (List.range k).map (fun j => (j, BTStatus.SUCCESS))) ∨
          (st ≠ .SUCCESS ∧ k < 4 ∧
            BTRun.childTicks (BTNode.execute 2 Demo.sequenceTree []).ticks =
              (List.range k).map (fun j => (j, BTStatus.SUCCESS)) ++ [(k, st)])) :=
  ⟨rfl, rfl, rfl,
    sequence_stops_at_first_non_success 1 "sequence"
      [Demo.act "print", Demo.act "print", Demo.act "fail", Demo.act "print"] []
      (by
        intro c hc ctx1 h
        simp only [List.mem_cons, List.mem_singleton, List.not_mem_nil, or_false] at hc
        rcases hc with rfl | rfl | rfl | rfl <;> cases h)⟩

/-! ### Claim C15 -/

/-- Claim C15. For every list of children that return when executed, `BTSelector::execute`
returns, with a status `st` and a number `k` such that either `st` is Failure, `k` is the
number of children and the children ticked are, in order, each child once with status
Failure; or `st` is Success or Running, the child at index `k` exists, and the children
ticked are, in order, the children before `k` once each with status Failure and then the
child at `k` with status `st`: no later child is ticked. -/
theorem selector_stops_at_first_non_failure (fuel : Nat) (name : String)
    (children : List BTNode) (ctx : Context)
    (hret : ∀ c ∈ children, ∀ ctx1, (BTNode.execute fuel c ctx1).status ≠ none) :
    ∃ st k, (BTNode.execute (fuel + 1) (.selector name children) ctx).status = some st ∧
      ((st = .FAILURE ∧ k = children.length ∧
          BTRun.childTicks (BTNode.execute (fuel + 1) (.selector name children) ctx).ticks =
            (List.range k).map (fun j => (j, BTStatus.FAILURE))) ∨
        (st ≠ .FAILURE ∧ k < children.length ∧
          BTRun.childTicks (BTNode.execute (fuel + 1) (.selector name children) ctx).ticks =
            (List.range k).map (fun j => (j, BTStatus.FAILURE)) ++ [(k, st)])) := by
  obtain ⟨st, k, h1, h2⟩ :=
    selectorLoop_spec (BTNode.execute fuel) (execute_own fuel) children ctx 0 hret
  refine ⟨st, k, ?_, ?_⟩
  · rw [execute_selector, status_finish]
    exact h1
  · rw [execute_selector, childTicks_finish]
    simpa using h2

/-- Claim C15 on the selector of four actions that return Failure, Failure, Success,
Failure (the tree of `Demo.selectorDoc`): the call returns Success and ticks exactly the
first three children, in order. -/
theorem selector_stops_at_first_non_failure_witness :
    BTParser.parse Demo.selectorDoc = .ok (some Demo.selectorTree) ∧
      (BTNode.execute 2 Demo.selectorTree []).status = some .SUCCESS ∧
      BTRun.childTicks (BTNode.execute 2 Demo.selectorTree []).ticks =
        [(0, .FAILURE), (1, .FAILURE), (2, .SUCCESS)] ∧
      ∃ st k, (BTNode.execute 2 Demo.selectorTree []).status = some st ∧
        ((st = .FAILURE ∧ k = 4 ∧
            BTRun.childTicks (BTNode.execute 2 Demo.selectorTree []).ticks =
              (List.range k).map (fun j => (j, BTStatus.FAILURE))) ∨
          (st ≠ .FAILURE ∧ k < 4 ∧
            BTRun.childTicks (BTNode.execute 2 Demo.selectorTree []).ticks =
              (List.range k).map (fun j => (j, BTStatus.FAILURE)) ++ [(k, st)])) :=
  ⟨rfl, rfl, rfl,
    selector_stops_at_first_non_failure 1 "selector"
      [Demo.act "fail", Demo.act "fail", Demo.act "print", Demo.act "fail"] []
      (by
        intro c hc ctx1 h
        simp only [List.mem_cons, List.mem_singleton, List.not_mem_nil, or_false] at hc
        rcases hc with rfl | rfl | rfl | rfl <;> cases h)⟩

/-! ### Claim C16 -/

theorem parallelLoop_spec (exec : BTNode → Context → BTRun)
    (hown : ∀ c ctx, BTRun.ticksAt [] (exec c ctx).ticks = (exec c ctx).status.toList)
    (cs : List BTNode) (ctx : Context) (i : Nat)
    (hret : ∀ c ∈ cs, ∀ ctx1, (exec c ctx1).status ≠ none) :
    (BTNode.parallelLoop exec cs ctx i).complete = true ∧
      (BTNode.parallelLoop exec cs ctx i).results.length = cs.length ∧
      BTRun.childTicks (BTNode.parallelLoop exec cs ctx i).ticks =
        (BTNode.parallelLoop exec cs ctx i).results.enumFrom i := by
  induction cs generalizing ctx i with
  | nil => exact ⟨rfl, rfl, rfl⟩
  | cons c rest ih =>
      have hc := hret c (List.mem_cons_self _ _) ctx
      simp only [BTNode.parallelLoop]
      split
      · rename_i st hs
        obtain ⟨h1, h2, h3⟩ := ih (exec c ctx).ctx (i + 1)
          (fun d hd => hret d (List.mem_cons_of_mem _ hd))
        refine ⟨h1, by simp [h2], ?_⟩
        simp only [childTicks_append, childTicks_child exec hown c ctx i _ hs, h3,
          List.enumFrom_cons]
        rfl
      · rename_i hs
        exact absurd hs hc

theorem policyStatus_eq_statusSpec (policy : BTParallel.Policy) (results : List BTStatus) :
    BTParallel.policyStatus policy (results.count .SUCCESS) (results.count .FAILURE)
        (results.count .RUNNING) =
      BTParallel.statusSpec policy results := by
  cases policy <;>
    simp [BTParallel.policyStatus, BTParallel.statusSpec, List.count_pos_iff]

/-- Claim C16, as stated, fails on the empty list of children: the parallel node that the
parser builds from `Demo.parallelDoc` (default policy `SUCCEED_ON_ONE`, no child) returns
Success, where the rule of the claim gives Failure, no child having returned Success or
Running. -/
theorem parallel_status_counterexample :
    BTParser.parse Demo.parallelDoc = .ok (some Demo.parallelTree) ∧
      (BTNode.execute 1 Demo.parallelTree []).status = some .SUCCESS ∧
      BTRun.childTicks (BTNode.execute 1 Demo.parallelTree []).ticks = [] ∧
      BTParallel.statusSpec .SUCCEED_ON_ONE [] = .FAILURE :=
  ⟨rfl, rfl, rfl, by decide⟩

/-- Claim C16 as amended. `BTParallel::execute` on an empty list of children returns
Success under every policy. On a non-empty list of children that return when executed, it
ticks each child exactly once, in order, and returns: under `SUCCEED_ON_ONE` and
`FAIL_ON_ALL`, Success if any child returned Success, else Running if any returned
Running, else Failure; under `SUCCEED_ON_ALL` and `FAIL_ON_ONE`, Failure if any child
returned Failure, else Running if any returned Running, else Success. -/
theorem parallel_status (fuel : Nat) (name : String) (policy : BTParallel.Policy)
    (children : List BTNode) (ctx : Context)
    (hret : ∀ c ∈ children, ∀ ctx1, (BTNode.execute fuel c ctx1).status ≠ none) :
    (children = [] →
        (BTNode.execute (fuel + 1) (.parallel name policy children) ctx).status =
            some .SUCCESS ∧
          (BTNode.execute (fuel + 1) (.parallel name policy children) ctx).ticks =
            [([], .SUCCESS)]) ∧
      (children ≠ [] →
        ∃ results : List BTStatus, results.length = children.length ∧
          BTRun.childTicks
              (BTNode.execute (fuel + 1) (.parallel name policy children) ctx).ticks =
            results.enum ∧
          (BTNode.execute (fuel + 1) (.parallel name policy children) ctx).status =
            some (BTParallel.statusSpec policy results)) := by
  constructor
  · intro h
    subst h
    exact ⟨rfl, rfl⟩
  · intro h
    cases children with
    | nil => exact absurd rfl h
    | cons c rest =>
        obtain ⟨h1, h2, h3⟩ :=
          parallelLoop_spec (BTNode.execute fuel) (execute_own fuel) (c :: rest) ctx 0 hret
        refine ⟨(BTNode.parallelLoop (BTNode.execute fuel) (c :: rest) ctx 0).results,
          h2, ?_, ?_⟩
        · rw [execute_parallel, childTicks_finish]
          exact h3
        · rw [execute_parallel, status_finish, if_pos h1, policyStatus_eq_statusSpec]

/-- Claim C16 as amended, on three actions that return Failure, Running and Success under
the policy `FAIL_ON_ALL`: every child is ticked once and the node returns Success. -/
theorem parallel_status_witness :
    BTRun.childTicks (BTNode.execute 2 (.parallel "p" .FAIL_ON_ALL
        [Demo.act "fail", Demo.act "running", Demo.act "print"]) []).ticks =
        [(0, .FAILURE), (1, .RUNNING), (2, .SUCCESS)] ∧
      (BTNode.execute 2 (.parallel "p" .FAIL_ON_ALL
        [Demo.act "fail", Demo.act "running", Demo.act "print"]) []).status =
        some .SUCCESS ∧
      ∃ results : List BTStatus, results.length = 3 ∧
        BTRun.childTicks (BTNode.execute 2 (.parallel "p" .FAIL_ON_ALL
            [Demo.act "fail", Demo.act "running", Demo.act "print"]) []).ticks =
          results.enum ∧
        (BTNode.execute 2 (.parallel "p" .FAIL_ON_ALL
            [Demo.act "fail", Demo.act "running", Demo.act "print"]) []).status =
          some (BTParallel.statusSpec .FAIL_ON_ALL results) :=
  ⟨rfl, rfl,
    (parallel_status 1 "p" .FAIL_ON_ALL
      [Demo.act "fail", Demo.act "running", Demo.act "print"] []
      (by
        intro c hc ctx1 h
        simp only [List.mem_cons, List.mem_singleton, List.not_mem_nil, or_false] at hc
        rcases hc with rfl | rfl | rfl <;> cases h)).2 (by simp)⟩

/-! ### Claim C17 -/

theorem ticksAt_child (exec : BTNode → Context → BTRun)
    (hown : ∀ c ctx, BTRun.ticksAt [] (exec c ctx).ticks = (exec c ctx).status.toList)
    (c : BTNode) (ctx : Context) (st : BTStatus) (h : (exec c ctx).status = some st) :
    BTRun.ticksAt [0] (BTRun.under 0 (exec c ctx).ticks) = [st] := by
  rw [ticksAt_cons_under, hown, h]
  rfl

theorem untilFailLoop_unbounded (exec : BTNode → Context → BTRun)
    (hown : ∀ c ctx, BTRun.ticksAt [] (exec c ctx).ticks = (exec c ctx).status.toList)
    (P : BTNode → Prop)
    (hS : ∀ c ctx, P c → (exec c ctx).status = some .SUCCESS ∧ P (exec c ctx).node.reset)
    (steps : Nat) (c : BTNode) (ctx : Context) (hP : P c) :
    (BTNode.untilFailLoop exec steps c ctx).status = none ∧
      BTRun.ticksAt [0] (BTNode.untilFailLoop exec steps c ctx).ticks =
        List.replicate steps .SUCCESS := by
  induction steps generalizing c ctx with
  | zero => exact ⟨rfl, rfl⟩
  | succ k ih =>
      obtain ⟨h1, h2⟩ := hS c ctx hP
      obtain ⟨i1, i2⟩ := ih (exec c ctx).node.reset (exec c ctx).ctx h2
      simp only [BTNode.untilFailLoop]
      split
      · rename_i hs; rw [h1] at hs; cases hs
      · rename_i hs; rw [h1] at hs; cases hs
      · refine ⟨i1, ?_⟩
        simp only [ticksAt_append, ticksAt_child exec hown c ctx _ h1, i2]
        rfl
      · rename_i hs; rw [h1] at hs; cases hs

theorem untilSuccessLoop_unbounded (exec : BTNode → Context → BTRun)
    (hown : ∀ c ctx, BTRun.ticksAt [] (exec c ctx).ticks = (exec c ctx).status.toList)
    (P : BTNode → Prop)
    (hS : ∀ c ctx, P c → (exec c ctx).status = some .FAILURE ∧ P (exec c ctx).node.reset)
    (steps : Nat) (c : BTNode) (ctx : Context) (hP : P c) :
    (BTNode.untilSuccessLoop exec steps c ctx).status = none ∧
      BTRun.ticksAt [0] (BTNode.untilSuccessLoop exec steps c ctx).ticks =
        List.replicate steps .FAILURE := by
  induction steps generalizing c ctx with
  | zero => exact ⟨rfl, rfl⟩
  | succ k ih =>
      obtain ⟨h1, h2⟩ := hS c ctx hP
      obtain ⟨i1, i2⟩ := ih (exec c ctx).node.reset (exec c ctx).ctx h2
      simp only [BTNode.untilSuccessLoop]
      split
      · rename_i hs; rw [h1] at hs; cases hs
      · rename_i hs; rw [h1] at hs; cases hs
      · refine ⟨i1, ?_⟩
        simp only [ticksAt_append, ticksAt_child exec hown c ctx _ h1, i2]
        rfl
      · rename_i hs; rw [h1] at hs; cases hs

theorem ticksAt_finish_child (status : Option BTStatus) (node : BTNode) (ctx : Context)
    (ticks : List BTTick) (i : Nat) (p : List Nat) :
    BTRun.ticksAt (i :: p) (BTRun.finish status node ctx ticks).ticks =
      BTRun.ticksAt (i :: p) ticks := by
  cases status with
  | none => rfl
  | some st =>
      show BTRun.ticksAt (i :: p) (ticks ++ [([], st)]) = _
      rw [ticksAt_append]
      simp [BTRun.ticksAt]

theorem until_fail_unbounded (P : BTNode → Prop) (fuel : Nat) (name : String)
    (child : BTNode) (ctx : Context) (hP : P child)
    (hS : ∀ c ctx1, P c → (BTNode.execute fuel c ctx1).status = some .SUCCESS ∧
      P (BTNode.execute fuel c ctx1).node.reset) :
    (BTNode.execute (fuel + 1) (.until_fail name (some child)) ctx).status = none ∧
      BTRun.ticksAt [0] (BTNode.execute (fuel + 1) (.until_fail name (some child)) ctx).ticks =
        List.replicate fuel .SUCCESS := by
  obtain ⟨h1, h2⟩ :=
    untilFailLoop_unbounded (BTNode.execute fuel) (execute_own fuel) P hS fuel child ctx hP
  rw [execute_until_fail, status_finish, ticksAt_finish_child]
  exact ⟨h1, h2⟩

theorem until_success_unbounded (P : BTNode → Prop) (fuel : Nat) (name : String)
    (child : BTNode) (ctx : Context) (hP : P child)
    (hS : ∀ c ctx1, P c → (BTNode.execute fuel c ctx1).status = some .FAILURE ∧
      P (BTNode.execute fuel c ctx1).node.reset) :
    (BTNode.execute (fuel + 1) (.until_success name (some child)) ctx).status = none ∧
      BTRun.ticksAt [0]
          (BTNode.execute (fuel + 1) (.until_success name (some child)) ctx).ticks =
        List.replicate fuel .FAILURE := by
  obtain ⟨h1, h2⟩ :=
    untilSuccessLoop_unbounded (BTNode.execute fuel) (execute_own fuel) P hS fuel child ctx
      hP
  rw [execute_until_success, status_finish, ticksAt_finish_child]
  exact ⟨h1, h2⟩

theorem act_print_always (fuel : Nat) (c : BTNode) (ctx1 : Context)
    (h : c = Demo.act "print") :
    (BTNode.execute (fuel + 1) c ctx1).status = some .SUCCESS ∧
      (BTNode.execute (fuel + 1) c ctx1).node.reset = Demo.act "print" := by
  subst h
  exact ⟨rfl, rfl⟩

theorem act_fail_always (fuel : Nat) (c : BTNode) (ctx1 : Context)
    (h : c = Demo.act "fail") :
    (BTNode.execute (fuel + 1) c ctx1).status = some .FAILURE ∧
      (BTNode.execute (fuel + 1) c ctx1).node.reset = Demo.act "fail" := by
  subst h
  exact ⟨rfl, rfl⟩

/-- Claim C17, as stated, fails: the code has no cap of 1024 iterations. On the trees that
the parser builds from `Demo.untilFailDoc` (an action that always returns Success under
`until_fail`) and `Demo.untilSuccessDoc` (an action that always returns Failure under
`until_success`), a call of `execute` followed for 1025 iterations of the loop has ticked
the child 1025 times and has not returned. -/
theorem until_loops_cap_counterexample :
    BTParser.parse Demo.untilFailDoc = .ok (some Demo.untilFailTree) ∧
      BTParser.parse Demo.untilSuccessDoc = .ok (some Demo.untilSuccessTree) ∧
      (BTNode.execute 1026 Demo.untilFailTree []).status = none ∧
      (BTRun.ticksAt [0] (BTNode.execute 1026 Demo.untilFailTree []).ticks).length = 1025 ∧
      (BTNode.execute 1026 Demo.untilSuccessTree []).status = none ∧
      (BTRun.ticksAt [0] (BTNode.execute 1026 Demo.untilSuccessTree []).ticks).length =
        1025 := by
  have hf := until_fail_unbounded (fun c => c = Demo.act "print") 1025 "until_fail"
    (Demo.act "print") [] rfl (fun c ctx1 h => act_print_always 1024 c ctx1 h)
  have hs := until_success_unbounded (fun c => c = Demo.act "fail") 1025 "until_success"
    (Demo.act "fail") [] rfl (fun c ctx1 h => act_fail_always 1024 c ctx1 h)
  refine ⟨rfl, rfl, hf.1, ?_, hs.1, ?_⟩
  · exact (congrArg List.length hf.2).trans (List.length_replicate _ _)
  · exact (congrArg List.length hs.2).trans (List.length_replicate _ _)

/-- Claim C17 as amended. `BTUntilFail::execute` and `BTUntilSuccess::execute` loop with
no cap on the iterations. For every child that, through all the states it takes (`P`),
returns Success on every tick, a call of `execute` on the `until_fail` node does not
return: followed for any number `fuel` of iterations, it has ticked the child `fuel`
times, each tick returning Success, and is still in its loop. The same holds for an
`until_success` node whose child returns Failure on every tick. -/
theorem until_loops_do_not_return (P : BTNode → Prop) (fuel : Nat) (name : String)
    (child : BTNode) (ctx : Context) (hP : P child) :
    ((∀ c ctx1, P c → (BTNode.execute fuel c ctx1).status = some .SUCCESS ∧
          P (BTNode.execute fuel c ctx1).node.reset) →
        (BTNode.execute (fuel + 1) (.until_fail name (some child)) ctx).status = none ∧
          BTRun.ticksAt [0]
              (BTNode.execute (fuel + 1) (.until_fail name (some child)) ctx).ticks =
            List.replicate fuel .SUCCESS) ∧
      ((∀ c ctx1, P c → (BTNode.execute fuel c ctx1).status = some .FAILURE ∧
          P (BTNode.execute fuel c ctx1).node.reset) →
        (BTNode.execute (fuel + 1) (.until_success name (some child)) ctx).status = none ∧
          BTRun.ticksAt [0]
              (BTNode.execute (fuel + 1) (.until_success name (some child)) ctx).ticks =
            List.replicate fuel .FAILURE) :=
  ⟨until_fail_unbounded P fuel name child ctx hP,
    until_success_unbounded P fuel name child ctx hP⟩

/-- Claim C17 as amended, on the trees of `Demo.untilFailDoc` and `Demo.untilSuccessDoc`
followed for 2000 iterations: 2000 child ticks and no return. -/
theorem until_loops_do_not_return_witness :
    ((BTNode.execute 2001 Demo.untilFailTree []).status = none ∧
        BTRun.ticksAt [0] (BTNode.execute 2001 Demo.untilFailTree []).ticks =
          List.replicate 2000 .SUCCESS) ∧
      ((BTNode.execute 2001 Demo.untilSuccessTree []).status = none ∧
        BTRun.ticksAt [0] (BTNode.execute 2001 Demo.untilSuccessTree []).ticks =
          List.replicate 2000 .FAILURE) :=
  ⟨(until_loops_do_not_return (fun c => c = Demo.act "print") 2000 "until_fail"
      (Demo.act "print") [] rfl).1 (fun c ctx1 h => act_print_always 1999 c ctx1 h),
    (until_loops_do_not_return (fun c => c = Demo.act "fail") 2000 "until_success"
      (Demo.act "fail") [] rfl).2 (fun c ctx1 h => act_fail_always 1999 c ctx1 h)⟩

/-! ### Claim C18 -/

theorem execute_action_of_status (k : Nat) (name : String) (f : ActionFunction)
    (params : Json) (ctx : Context) (st : BTStatus) (h : (f ctx).2 = some st) :
    BTNode.execute (k + 1) (.action name (some f) params) ctx =
      BTRun.returned st (.action name (some f) params) (f ctx).1 [] := by
  rw [BTNode.execute.eq_def]
  dsimp only
  generalize f ctx = x at h
  obtain ⟨c, s⟩ := x
  simp only at h
  subst h
  rfl

theorem execute_two_actions (k : Nat) (name an bn : String) (fa fb : ActionFunction)
    (pa pb : Json) (ha : ∀ ctx, (fa ctx).2 = some .SUCCESS)
    (hb : ∀ ctx, (fb ctx).2 = some .SUCCESS) (ctx : Context) :
    BTNode.execute (k + 2) (.sequence name [.action an (some fa) pa, .action bn (some fb) pb])
        ctx =
      ⟨some .SUCCESS, .sequence name [.action an (some fa) pa, .action bn (some fb) pb],
        (fb (fa ctx).1).1, [([0], .SUCCESS), ([1], .SUCCESS), ([], .SUCCESS)]⟩ := by
  rw [execute_sequence]
  simp only [BTNode.sequenceLoop, execute_action_of_status k _ _ _ _ _ (ha _),
    execute_action_of_status k _ _ _ _ _ (hb _), BTRun.returned]
  rfl


theorem repeaterLoop_done (exec : BTNode → Context → BTRun) (n : Int) (steps : Nat)
    (cnt : Int) (c : BTNode) (ctx : Context) (h : ¬ cnt < n) :
    BTNode.repeaterLoop exec n steps cnt c ctx = ⟨some .SUCCESS, cnt, c, ctx, []⟩ := by
  cases steps <;> simp only [BTNode.repeaterLoop, if_neg h]

theorem repeaterLoop_success (exec : BTNode → Context → BTRun) (n : Int) (steps : Nat)
    (cnt : Int) (c : BTNode) (ctx : Context) (h : cnt < n)
    (hs : (exec c ctx).status = some .SUCCESS) :
    BTNode.repeaterLoop exec n (steps + 1) cnt c ctx =
      ⟨(BTNode.repeaterLoop exec n steps (cnt + 1) (exec c ctx).node.reset
          (exec c ctx).ctx).status,
        (BTNode.repeaterLoop exec n steps (cnt + 1) (exec c ctx).node.reset
          (exec c ctx).ctx).count,
        (BTNode.repeaterLoop exec n steps (cnt + 1) (exec c ctx).node.reset
          (exec c ctx).ctx).child,
        (BTNode.repeaterLoop exec n steps (cnt + 1) (exec c ctx).node.reset
          (exec c ctx).ctx).ctx,
        BTRun.under 0 (exec c ctx).ticks ++
          (BTNode.repeaterLoop exec n steps (cnt + 1) (exec c ctx).node.reset
            (exec c ctx).ctx).ticks⟩ := by
  simp only [BTNode.repeaterLoop, if_pos h]
  split
  · rfl
  · rename_i h2; rw [hs] at h2; cases h2
  · rename_i h2; rw [hs] at h2; cases h2
  · rename_i h2; rw [hs] at h2; cases h2

theorem repeaterLoop_stop (exec : BTNode → Context → BTRun) (n : Int) (steps : Nat)
    (cnt : Int) (c : BTNode) (ctx : Context) (st : BTStatus) (h : cnt < n)
    (hs : (exec c ctx).status = some st) (hne : st ≠ .SUCCESS) :
    BTNode.repeaterLoop exec n (steps + 1) cnt c ctx =
      ⟨some st, cnt, (exec c ctx).node, (exec c ctx).ctx,
        BTRun.under 0 (exec c ctx).ticks⟩ := by
  simp only [BTNode.repeaterLoop, if_pos h]
  split
  · rename_i h2; rw [hs] at h2; cases h2; exact absurd rfl hne
  · rename_i h2; rw [hs] at h2; cases h2; rfl
  · rename_i h2; rw [hs] at h2; cases h2; rfl
  · rename_i h2; rw [hs] at h2; cases h2

theorem repeat_first_call (fa fb : ActionFunction)
    (ha : ∀ ctx, (fa ctx).2 = some .SUCCESS) (hb : ∀ ctx, (fb ctx).2 = some .SUCCESS)
    (fuel : Nat) (ctx : Context) :
    ∃ ctx1, BTNode.execute (fuel + 4) (Demo.repeatTree fa fb) ctx =
      ⟨some .SUCCESS,
        .repeater "repeater" 3 3 (some (.sequence "sequence"
          [.action "action_a" (some fa) (.obj []), .action "action_b" (some fb) (.obj [])])),
        ctx1,
        [([0, 0], .SUCCESS), ([0, 1], .SUCCESS), ([0], .SUCCESS),
         ([0, 0], .SUCCESS), ([0, 1], .SUCCESS), ([0], .SUCCESS),
         ([0, 0], .SUCCESS), ([0, 1], .SUCCESS), ([0], .SUCCESS), ([], .SUCCESS)]⟩ := by
  refine ⟨(fb (fa (fb (fa (fb (fa ctx).1).1).1).1).1).1, ?_⟩
  unfold Demo.repeatTree
  rw [execute_repeater _ _ _ _ _ _ (by decide)]
  have e := execute_two_actions (fuel + 1) "sequence" "action_a" "action_b" fa fb
    (.obj []) (.obj []) ha hb
  have hr : (BTNode.sequence "sequence" [.action "action_a" (some fa) (.obj []),
      .action "action_b" (some fb) (.obj [])]).reset =
      .sequence "sequence" [.action "action_a" (some fa) (.obj []),
        .action "action_b" (some fb) (.obj [])] := rfl
  rw [repeaterLoop_success _ _ _ _ _ _ (by decide) (by rw [e])]
  simp only [e, hr]
  rw [repeaterLoop_success _ _ _ _ _ _ (by decide) (by rw [e])]
  simp only [e, hr]
  rw [repeaterLoop_success _ _ _ _ _ _ (by decide) (by rw [e])]
  simp only [e, hr]
  rw [repeaterLoop_done _ _ _ _ _ _ (by decide)]
  rfl

theorem repeat_later_call (fa fb : ActionFunction) (fuel : Nat) (ctx : Context) :
    BTNode.execute (fuel + 1) (.repeater "repeater" 3 3 (some (.sequence "sequence"
        [.action "action_a" (some fa) (.obj []), .action "action_b" (some fb) (.obj [])])))
        ctx =
      ⟨some .SUCCESS,
        .repeater "repeater" 3 3 (some (.sequence "sequence"
          [.action "action_a" (some fa) (.obj []), .action "action_b" (some fb) (.obj [])])),
        ctx, [([], .SUCCESS)]⟩ := by
  rw [execute_repeater _ _ _ _ _ _ (by decide)]
  rw [repeaterLoop_done _ _ _ _ _ _ (by decide)]
  rfl


/-- Claim C18. For the tree `repeater(n = 3, sequence(action_a, action_b))` whose two
actions return Success in every context, four consecutive calls of `execute` on the
repeater (each on any context) all return, the fourth with Success; over the four calls
the sequence returns three times, each time Success, and each action is invoked three
times, six invocations in all. -/
theorem repeater_runs_sequence_three_times (action_a action_b : ActionFunction)
    (ha : ∀ ctx, (action_a ctx).2 = some .SUCCESS)
    (hb : ∀ ctx, (action_b ctx).2 = some .SUCCESS)
    (fuel : Nat) (c1 c2 c3 c4 : Context) :
    (BTNode.executeAll (fuel + 4) (Demo.repeatTree action_a action_b)
        [c1, c2, c3, c4]).map (fun r => r.status) =
        [some .SUCCESS, some .SUCCESS, some .SUCCESS, some .SUCCESS] ∧
      (BTNode.executeAll (fuel + 4) (Demo.repeatTree action_a action_b)
        [c1, c2, c3, c4]).flatMap (fun r => BTRun.ticksAt [0] r.ticks) =
        [.SUCCESS, .SUCCESS, .SUCCESS] ∧
      (BTNode.executeAll (fuel + 4) (Demo.repeatTree action_a action_b)
        [c1, c2, c3, c4]).flatMap (fun r => BTRun.ticksAt [0, 0] r.ticks) =
        [.SUCCESS, .SUCCESS, .SUCCESS] ∧
      (BTNode.executeAll (fuel + 4) (Demo.repeatTree action_a action_b)
        [c1, c2, c3, c4]).flatMap (fun r => BTRun.ticksAt [0, 1] r.ticks) =
        [.SUCCESS, .SUCCESS, .SUCCESS] ∧
      ((BTNode.executeAll (fuel + 4) (Demo.repeatTree action_a action_b)
        [c1, c2, c3, c4]).flatMap (fun r =>
          BTRun.ticksAt [0, 0] r.ticks ++ BTRun.ticksAt [0, 1] r.ticks)).length = 6 := by
  obtain ⟨ctx1, h1⟩ := repeat_first_call action_a action_b ha hb fuel c1
  have h2 := repeat_later_call action_a action_b (fuel + 3)
  simp only [BTNode.executeAll, h1, h2]
  exact ⟨rfl, rfl, rfl, rfl, rfl⟩

/-- Claim C18 with both actions the `print` action of the parser, on empty contexts. -/
theorem repeater_runs_sequence_three_times_witness :
    (BTNode.executeAll 4
        (Demo.repeatTree (BTParser.createDefaultAction "print" (.obj []))
          (BTParser.createDefaultAction "print" (.obj [])))
        [[], [], [], []]).map (fun r => r.status) =
        [some .SUCCESS, some .SUCCESS, some .SUCCESS, some .SUCCESS] ∧
      ((BTNode.executeAll 4
        (Demo.repeatTree (BTParser.createDefaultAction "print" (.obj []))
          (BTParser.createDefaultAction "print" (.obj [])))
        [[], [], [], []]).flatMap (fun r =>
          BTRun.ticksAt [0, 0] r.ticks ++ BTRun.ticksAt [0, 1] r.ticks)).length = 6 :=
  ⟨(repeater_runs_sequence_three_times (BTParser.createDefaultAction "print" (.obj []))
      (BTParser.createDefaultAction "print" (.obj [])) (fun _ => rfl) (fun _ => rfl) 0
      [] [] [] []).1,
    (repeater_runs_sequence_three_times (BTParser.createDefaultAction "print" (.obj []))
      (BTParser.createDefaultAction "print" (.obj [])) (fun _ => rfl) (fun _ => rfl) 0
      [] [] [] []).2.2.2.2⟩

/-! ### Claim C19 -/

theorem node_finish (status : Option BTStatus) (node : BTNode) (ctx : Context)
    (ticks : List BTTick) : (BTRun.finish status node ctx ticks).node = node := by
  cases status <;> rfl

theorem length_eq_counts (sts : List BTStatus) :
    sts.length = sts.count .SUCCESS + (sts.count .RUNNING + sts.count .FAILURE) := by
  induction sts with
  | nil => rfl
  | cons s rest ih =>
      cases s <;> simp [List.count_cons, ih] <;> omega

theorem repeaterLoop_spec (exec : BTNode → Context → BTRun)
    (hown : ∀ c ctx, BTRun.ticksAt [] (exec c ctx).ticks = (exec c ctx).status.toList)
    (P : BTNode → Prop)
    (hS : ∀ c ctx, P c → (exec c ctx).status ≠ none ∧ P (exec c ctx).node ∧
      P (exec c ctx).node.reset)
    (n : Int) (steps : Nat) (cnt : Int) (c : BTNode) (ctx : Context) (hP : P c)
    (hle : cnt ≤ n) (hsteps : n - cnt ≤ steps) :
    (BTNode.repeaterLoop exec n steps cnt c ctx).status ≠ none ∧
      P (BTNode.repeaterLoop exec n steps cnt c ctx).child ∧
      (BTNode.repeaterLoop exec n steps cnt c ctx).count ≤ n ∧
      (BTNode.repeaterLoop exec n steps cnt c ctx).count =
        cnt + ((BTRun.ticksAt [0]
          (BTNode.repeaterLoop exec n steps cnt c ctx).ticks).count .SUCCESS : Nat) := by
  induction steps generalizing cnt c ctx with
  | zero =>
      have h : ¬ cnt < n := by
        simp only [Nat.cast_zero] at hsteps
        omega
      rw [repeaterLoop_done exec n 0 cnt c ctx h]
      exact ⟨by simp, hP, hle, by simp [BTRun.ticksAt]⟩
  | succ k ih =>
      by_cases h : cnt < n
      · obtain ⟨h1, h2, h3⟩ := hS c ctx hP
        cases hst : (exec c ctx).status with
        | none => exact absurd hst h1
        | some st =>
            by_cases hs : st = .SUCCESS
            · subst hs
              rw [repeaterLoop_success exec n k cnt c ctx h hst]
              obtain ⟨i1, i2, i3, i4⟩ := ih (cnt + 1) (exec c ctx).node.reset
                (exec c ctx).ctx h3 (by omega) (by push_cast at hsteps ⊢; omega)
              refine ⟨i1, i2, i3, ?_⟩
              simp only [ticksAt_append, ticksAt_child exec hown c ctx _ hst]
              rw [i4]
              simp only [List.singleton_append, List.count_cons_self]
              push_cast
              omega
            · rw [repeaterLoop_stop exec n k cnt c ctx st h hst hs]
              refine ⟨by simp, h2, hle, ?_⟩
              simp only [ticksAt_child exec hown c ctx _ hst]
              rw [List.count_singleton]
              have : (st == BTStatus.SUCCESS) = false := by simpa using hs
              simp [this]
      · rw [repeaterLoop_done exec n (k + 1) cnt c ctx h]
        exact ⟨by simp, hP, hle, by simp [BTRun.ticksAt]⟩


theorem repeater_series (P : BTNode → Prop) (fuel : Nat) (n : Int) (hfuel : n ≤ fuel)
    (name : String)
    (hS : ∀ c ctx1, P c → (BTNode.execute fuel c ctx1).status ≠ none ∧
      P (BTNode.execute fuel c ctx1).node ∧ P (BTNode.execute fuel c ctx1).node.reset)
    (ctxs : List Context) (cnt : Int) (c : BTNode) (hP : P c) (h0 : 0 ≤ cnt)
    (hle : cnt ≤ n) :
    (∀ r ∈ BTNode.executeAll (fuel + 1) (.repeater name n cnt (some c)) ctxs,
        r.status ≠ none) ∧
      cnt + (((BTNode.executeAll (fuel + 1) (.repeater name n cnt (some c)) ctxs).flatMap
        (fun r => BTRun.ticksAt [0] r.ticks)).count .SUCCESS : Nat) ≤ n ∧
      (∀ pre r post,
        BTNode.executeAll (fuel + 1) (.repeater name n cnt (some c)) ctxs =
          pre ++ r :: post →
        cnt + ((pre.flatMap (fun r => BTRun.ticksAt [0] r.ticks)).count .SUCCESS : Nat) =
          n →
        r.status = some .SUCCESS ∧ r.ticks = [([], .SUCCESS)]) := by
  have hn : n ≠ -1 := by omega
  induction ctxs generalizing cnt c with
  | nil =>
      refine ⟨by simp [BTNode.executeAll], by simpa [BTNode.executeAll] using hle, ?_⟩
      intro pre r post h
      simp [BTNode.executeAll] at h
  | cons ctx rest ih =>
      obtain ⟨l1, l2, l3, l4⟩ := repeaterLoop_spec (BTNode.execute fuel)
        (execute_own fuel) P hS n fuel cnt c ctx hP hle (by omega)
      have hrun := execute_repeater fuel name n cnt c ctx hn
      have hnode : (BTNode.execute (fuel + 1) (.repeater name n cnt (some c)) ctx).node =
          .repeater name n (BTNode.repeaterLoop (BTNode.execute fuel) n fuel cnt c ctx).count
            (some (BTNode.repeaterLoop (BTNode.execute fuel) n fuel cnt c ctx).child) := by
        rw [hrun, node_finish]
      have hstat : (BTNode.execute (fuel + 1) (.repeater name n cnt (some c)) ctx).status =
          (BTNode.repeaterLoop (BTNode.execute fuel) n fuel cnt c ctx).status := by
        rw [hrun, status_finish]
      have hticks : BTRun.ticksAt [0]
          (BTNode.execute (fuel + 1) (.repeater name n cnt (some c)) ctx).ticks =
          BTRun.ticksAt [0]
            (BTNode.repeaterLoop (BTNode.execute fuel) n fuel cnt c ctx).ticks := by
        rw [hrun, ticksAt_finish_child]
      obtain ⟨j1, j2, j3⟩ := ih
        (BTNode.repeaterLoop (BTNode.execute fuel) n fuel cnt c ctx).count
        (BTNode.repeaterLoop (BTNode.execute fuel) n fuel cnt c ctx).child l2
        (by omega) l3
      simp only [BTNode.executeAll, hnode]
      refine ⟨?_, ?_, ?_⟩
      · intro r hr
        rcases List.mem_cons.1 hr with rfl | hr
        · rw [hstat]; exact l1
        · exact j1 r hr
      · simp only [List.flatMap_cons, List.count_append, hticks]
        push_cast
        omega
      · intro pre r post hsplit hcount
        cases pre with
        | nil =>
            simp only [List.nil_append, List.cons.injEq] at hsplit
            obtain ⟨hr, _⟩ := hsplit
            subst hr
            have hd : ¬ cnt < n := by
              simp only [List.flatMap_nil, List.count_nil, Nat.cast_zero] at hcount
              omega
            rw [hrun, repeaterLoop_done _ _ _ _ _ _ hd]
            exact ⟨rfl, rfl⟩
        | cons p pre1 =>
            simp only [List.cons_append, List.cons.injEq] at hsplit
            obtain ⟨hp, hrest⟩ := hsplit
            subst hp
            apply j3 pre1 r post hrest
            simp only [List.flatMap_cons, List.count_append, hticks] at hcount
            push_cast at hcount
            omega

/-- Claim C19. For every `BTRepeater` with `repeat_count = n ≥ 0` and every child whose
`execute` returns in all the states it takes (`P`), in a series of calls of `execute` on
the repeater that starts with `current_count = 0` and has no reset in between: every call
returns; the child is ticked at most `n + k` times, `k` being the number of those ticks
that returned Running or Failure; and a call made once the child has returned Success `n`
times returns Success without ticking the child. -/
theorem repeater_ticks_child_at_most (P : BTNode → Prop) (fuel : Nat) (n : Int)
    (hn : 0 ≤ n) (hfuel : n ≤ fuel) (name : String) (child : BTNode) (hP : P child)
    (hS : ∀ c ctx1, P c → (BTNode.execute fuel c ctx1).status ≠ none ∧
      P (BTNode.execute fuel c ctx1).node ∧ P (BTNode.execute fuel c ctx1).node.reset)
    (ctxs : List Context) :
    (∀ r ∈ BTNode.executeAll (fuel + 1) (.repeater name n 0 (some child)) ctxs,
        r.status ≠ none) ∧
      ((((BTNode.executeAll (fuel + 1) (.repeater name n 0 (some child)) ctxs).flatMap
          (fun r => BTRun.ticksAt [0] r.ticks)).length : Nat) : Int) ≤
        n + ((((BTNode.executeAll (fuel + 1) (.repeater name n 0 (some child)) ctxs).flatMap
            (fun r => BTRun.ticksAt [0] r.ticks)).count .RUNNING +
          ((BTNode.executeAll (fuel + 1) (.repeater name n 0 (some child)) ctxs).flatMap
            (fun r => BTRun.ticksAt [0] r.ticks)).count .FAILURE : Nat) : Int) ∧
      (∀ pre r post,
        BTNode.executeAll (fuel + 1) (.repeater name n 0 (some child)) ctxs =
          pre ++ r :: post →
        (((pre.flatMap (fun r => BTRun.ticksAt [0] r.ticks)).count .SUCCESS : Nat) : Int) =
          n →
        r.status = some .SUCCESS ∧ r.ticks = [([], .SUCCESS)]) := by
  obtain ⟨h1, h2, h3⟩ :=
    repeater_series P fuel n hfuel name hS ctxs 0 child hP (le_refl 0) hn
  refine ⟨h1, ?_, ?_⟩
  · rw [length_eq_counts]
    push_cast
    omega
  · intro pre r post hsplit hcount
    exact h3 pre r post hsplit (by omega)


/-- Claim C19 on a repeater with `repeat_count = 2` over the `print` action of the parser,
called twice: both calls return, the child is ticked twice in all (no tick returned
Running or Failure), and the second call returns Success without a tick of the child. -/
theorem repeater_ticks_child_at_most_witness :
    (BTNode.executeAll 3 (.repeater "r" 2 0 (some (Demo.act "print"))) [[], []]).map
        (fun r => r.ticks) =
        [[([0], .SUCCESS), ([0], .SUCCESS), ([], .SUCCESS)], [([], .SUCCESS)]] ∧
      (∀ r ∈ BTNode.executeAll 3 (.repeater "r" 2 0 (some (Demo.act "print"))) [[], []],
        r.status ≠ none) ∧
      ((((BTNode.executeAll 3 (.repeater "r" 2 0 (some (Demo.act "print")))
          [[], []]).flatMap (fun r => BTRun.ticksAt [0] r.ticks)).length : Nat) : Int) ≤
        2 + ((((BTNode.executeAll 3 (.repeater "r" 2 0 (some (Demo.act "print")))
            [[], []]).flatMap (fun r => BTRun.ticksAt [0] r.ticks)).count .RUNNING +
          ((BTNode.executeAll 3 (.repeater "r" 2 0 (some (Demo.act "print")))
            [[], []]).flatMap (fun r => BTRun.ticksAt [0] r.ticks)).count .FAILURE : Nat) :
          Int) :=
  ⟨rfl,
    (repeater_ticks_child_at_most (fun c => c = Demo.act "print") 2 2 (by decide)
      (by decide) "r" (Demo.act "print") rfl
      (fun c ctx1 h => by
        subst h
        exact ⟨fun h => (by cases h), rfl, rfl⟩)
      [[], []]).1,
    (repeater_ticks_child_at_most (fun c => c = Demo.act "print") 2 2 (by decide)
      (by decide) "r" (Demo.act "print") rfl
      (fun c ctx1 h => by
        subst h
        exact ⟨fun h => (by cases h), rfl, rfl⟩)
      [[], []]).2.1⟩

/-! ### Claim C20 -/

/-- Claim C20 at the tree that the parser builds from `Demo.resetDoc`, an inverter over a
repeater of two repetitions of an action that returns Success. One call of `execute`
leaves the repeater with `current_count = 2`; `reset()` on the root leaves it at 2, not
at 0, because `BTNode::reset` walks `children` and a decorator keeps its child in `child`;
the next call of `execute` therefore does not tick the action at all. -/
theorem reset_misses_child_of_decorator :
    BTParser.parse Demo.resetDoc = .ok (some Demo.resetTree) ∧
      Demo.resetTree.counts = [0] ∧
      (BTNode.execute 4 Demo.resetTree []).status = some .FAILURE ∧
      BTRun.ticksAt [0, 0] (BTNode.execute 4 Demo.resetTree []).ticks =
        [.SUCCESS, .SUCCESS] ∧
      (BTNode.execute 4 Demo.resetTree []).node.counts = [2] ∧
      (BTNode.execute 4 Demo.resetTree []).node.reset.counts = [2] ∧
      BTRun.ticksAt [0, 0]
        (BTNode.execute 4 (BTNode.execute 4 Demo.resetTree []).node.reset []).ticks = [] :=
  ⟨rfl, rfl, rfl, rfl, rfl, rfl, rfl⟩

/-! ### Claim C21 -/

/-- Claim C21 at a function registered under the name `custom` that returns Failure and
writes to the context, and a tree whose root is the action `custom`. Registered before
`loadTree`, as the tests do, the function reaches no executor (the manager holds none
yet); registered after `loadTree`, it is stored in the executor. In both cases executing
the tree returns Success and leaves the context untouched: the node runs the default
function of the parser, not the registered one. Likewise the condition `blocked`,
registered as always false, gives Success. -/
theorem registered_function_is_not_invoked :
    Demo.customAction [] = ([("moved", .bool true)], some .FAILURE) ∧
      BTManager.new.registerAction "custom" Demo.customAction = BTManager.new ∧
      Demo.loadAndExecute (fun m => m.registerAction "custom" Demo.customAction)
          (fun m => m) Demo.customDoc [] = .ok (true, some .SUCCESS, []) ∧
      Demo.loadAndExecute (fun m => m)
          (fun m => m.registerAction "custom" Demo.customAction) Demo.customDoc [] =
        .ok (true, some .SUCCESS, []) ∧
      Demo.loadAndExecute (fun m => m.registerCondition "blocked" Demo.blocked)
          (fun m => m.registerCondition "blocked" Demo.blocked) Demo.blockedDoc [] =
        .ok (true, some .SUCCESS, []) :=
  ⟨rfl, rfl, rfl, rfl, rfl⟩

/-! ### Claim C22 -/

theorem parseNode_obj (kvs : List (String × Json)) :
    BTParser.parseNode (.obj kvs) =
      (
      match Json.lookup "type" kvs with
      | none => .ok none
      | some typeJson => do
          let type ← typeJson.getString
          let _ ← Json.valueString (.obj kvs) "name" ""
          let _ ← Json.valueString (.obj kvs) "description" ""
          if type = "action" then do
            let n ← BTParser.parseAction (.obj kvs)
            pure (some n)
          else if type = "condition" then do
            let n ← BTParser.parseCondition (.obj kvs)
            pure (some n)
          else if type = "sequence" then do
            let name ← Json.valueString (.obj kvs) "name" type
            let children ← BTParser.parseChildren kvs
            pure (some (.sequence name children))
          else if type = "selector" then do
            let name ← Json.valueString (.obj kvs) "name" type
            let children ← BTParser.parseChildren kvs
            pure (some (.selector name children))
          else if type = "parallel" then do
            let name ← Json.valueString (.obj kvs) "name" type
            let policy_str ← Json.valueString (.obj kvs) "policy" "succeed_on_one"
            let children ← BTParser.parseChildren kvs
            pure (some (.parallel name (BTParser.parsePolicy policy_str) children))
          else if type = "inverter" then do
            let name ← Json.valueString (.obj kvs) "name" type
            let child ← BTParser.parseChild kvs
            pure (some (.inverter name child))
          else if type = "repeater" then do
            let name ← Json.valueString (.obj kvs) "name" type
            let repeat_count ← Json.valueInt (.obj kvs) "repeat_count" (-1)
            let child ← BTParser.parseChild kvs
            pure (some (.repeater name repeat_count 0 child))
          else if type = "until_fail" then do
            let name ← Json.valueString (.obj kvs) "name" type
            let child ← BTParser.parseChild kvs
            pure (some (.until_fail name child))
          else if type = "until_success" then do
            let name ← Json.valueString (.obj kvs) "name" type
            let child ← BTParser.parseChild kvs
            pure (some (.until_success name child))
          else pure none) := by
  set_option smartUnfolding false in rfl

theorem valueString_ok (kvs : List (String × Json)) (key dflt : String)
    (h : ∀ v, Json.lookup key kvs = some v → v.is_string = true) :
    ∃ s, Json.valueString (.obj kvs) key dflt = .ok s := by
  show ∃ s, (match Json.lookup key kvs with
    | some v => Json.getString v
    | none => .ok dflt) = .ok s
  cases hl : Json.lookup key kvs with
  | none => exact ⟨_, rfl⟩
  | some v =>
      have hv := h v hl
      cases v <;> simp [Json.is_string] at hv
      exact ⟨_, rfl⟩

theorem parseNode_unknown (kvs : List (String × Json)) (t : String)
    (htype : Json.lookup "type" kvs = some (.str t)) (ht : t ∉ BTParser.nodeTypes)
    (hname : ∀ v, Json.lookup "name" kvs = some v → v.is_string = true)
    (hdesc : ∀ v, Json.lookup "description" kvs = some v → v.is_string = true) :
    BTParser.parseNode (.obj kvs) = .ok none := by
  simp only [BTParser.nodeTypes, List.mem_cons, List.mem_singleton, List.not_mem_nil,
    not_or, or_false] at ht
  obtain ⟨h1, h2, h3, h4, h5, h6, h7, h8, h9⟩ := ht
  obtain ⟨s1, e1⟩ := valueString_ok kvs "name" "" hname
  obtain ⟨s2, e2⟩ := valueString_ok kvs "description" "" hdesc
  rw [parseNode_obj]
  simp [htype, e1, e2, h1, h2, h3, h4, h5, h6, h7, h8, h9, Json.getString, bind,
    Except.bind, pure, Except.pure]


theorem parseEach_cons (x : Json) (xs : List Json) :
    BTParser.parseEach (x :: xs) =
      (do
        let child ← BTParser.parseNode x
        let others ← BTParser.parseEach xs
        pure (child.toList ++ others)) := by
  set_option smartUnfolding false in rfl

theorem parseEach_skip (x : Json) (xs : List Json) (h : BTParser.parseNode x = .ok none) :
    BTParser.parseEach (x :: xs) = BTParser.parseEach xs := by
  rw [parseEach_cons, h]
  cases BTParser.parseEach xs <;> rfl

theorem parse_root (fields : List (String × Json)) (root : Json)
    (h : Json.lookup "root" fields = some root) :
    BTParser.parse (.obj fields) = BTParser.parseNode root := by
  simp [BTParser.parse, Json.is_null, Json.contains, Json.fields, Json.atKey, h, bind,
    Except.bind]

/-- Claim C22, as stated, fails for a node below the root: in `Demo.nestedUnknownDoc` the
only child of the root sequence has the unknown type `teleport`, and in
`Demo.unknownChildDoc` the child of the root inverter has it; `loadTree` returns true for
both and registers the tree without that node. -/
theorem unknown_type_counterexample :
    (BTManager.new.loadTree "t" Demo.nestedUnknownDoc).map
        (fun r => (r.2, r.1.hasTree "t", (r.1.getExecutor "t").map (fun e => e.root_))) =
        .ok (true, true, some (some (.sequence "sequence" []))) ∧
      (BTManager.new.loadTree "t" Demo.unknownChildDoc).map
        (fun r => (r.2, r.1.hasTree "t", (r.1.getExecutor "t").map (fun e => e.root_))) =
        .ok (true, true, some (some (.inverter "inverter" none))) :=
  ⟨rfl, rfl⟩

/-- Claim C22 as amended. For every tree document whose root node has a string `type`
outside the nine recognised kinds (its `name` and `description`, when present, being
strings), `loadTree` returns false and leaves the manager as it is: no tree is registered
under the name. A node with such a type below the root does not make the load fail: the
parser skips it, so it is left out of the children of a composite; a sequence whose only
child is such a node is loaded, with no child, and an inverter over such a node is loaded
without child, and `loadTree` returns true for both. -/
theorem unknown_root_type_is_rejected (m : BTManager) (name : String)
    (fields kvs : List (String × Json)) (t : String)
    (hroot : Json.lookup "root" fields = some (.obj kvs))
    (htype : Json.lookup "type" kvs = some (.str t)) (ht : t ∉ BTParser.nodeTypes)
    (hname : ∀ v, Json.lookup "name" kvs = some v → v.is_string = true)
    (hdesc : ∀ v, Json.lookup "description" kvs = some v → v.is_string = true) :
    m.loadTree name (.obj fields) = .ok (m, false) ∧
      (∀ xs : List Json, BTParser.parseEach (.obj kvs :: xs) = BTParser.parseEach xs) ∧
      m.loadTree name
          (.obj [("root", .obj [("children", .arr [.obj kvs]), ("type", .str "sequence")])]) =
        .ok (⟨mapAssign name (BTExecutor.new.setRoot (some (.sequence "sequence" [])))
          m.trees_⟩, true) ∧
      m.loadTree name
          (.obj [("root", .obj [("child", .obj kvs), ("type", .str "inverter")])]) =
        .ok (⟨mapAssign name (BTExecutor.new.setRoot (some (.inverter "inverter" none)))
          m.trees_⟩, true) := by
  have hnone := parseNode_unknown kvs t htype ht hname hdesc
  refine ⟨?_, fun xs => parseEach_skip _ xs hnone, ?_, ?_⟩
  · unfold BTManager.loadTree
    rw [parse_root fields _ hroot, hnone]
  · have hp : BTParser.parse
        (.obj [("root", .obj [("children", .arr [.obj kvs]), ("type", .str "sequence")])]) =
        .ok (some (.sequence "sequence" [])) := by
      rw [parse_root
        [("root", .obj [("children", .arr [.obj kvs]), ("type", .str "sequence")])]
        (.obj [("children", .arr [.obj kvs]), ("type", .str "sequence")]) rfl,
        parseNode_obj]
      have hc : BTParser.parseChildren
          [("children", Json.arr [.obj kvs]), ("type", .str "sequence")] = .ok [] := by
        show BTParser.parseEach [.obj kvs] = .ok []
        rw [parseEach_skip _ _ hnone]
        rfl
      simp [Json.lookup, Json.getString, Json.valueString, hc, bind, Except.bind, pure,
        Except.pure]
    unfold BTManager.loadTree
    rw [hp]
  · have hp : BTParser.parse
        (.obj [("root", .obj [("child", .obj kvs), ("type", .str "inverter")])]) =
        .ok (some (.inverter "inverter" none)) := by
      rw [parse_root
        [("root", .obj [("child", .obj kvs), ("type", .str "inverter")])]
        (.obj [("child", .obj kvs), ("type", .str "inverter")]) rfl,
        parseNode_obj]
      have hc : BTParser.parseChild
          [("child", Json.obj kvs), ("type", .str "inverter")] = .ok none := by
        show BTParser.parseNode (.obj kvs) = .ok none
        exact hnone
      simp [Json.lookup, Json.getString, Json.valueString, hc, bind, Except.bind, pure,
        Except.pure]
    unfold BTManager.loadTree
    rw [hp]

/-- Claim C22 as amended, at a document whose root has the unknown type `teleport`, on a
manager that holds the tree of `Demo.sequenceDoc` under another name. -/
theorem unknown_root_type_is_rejected_witness :
    (⟨[("patrol", BTExecutor.new.setRoot (some Demo.sequenceTree))]⟩ : BTManager).loadTree
        "t" (.obj [("root", .obj [("type", .str "teleport")])]) =
      .ok (⟨[("patrol", BTExecutor.new.setRoot (some Demo.sequenceTree))]⟩, false) :=
  (unknown_root_type_is_rejected ⟨[("patrol", BTExecutor.new.setRoot (some Demo.sequenceTree))]⟩
    "t" [("root", .obj [("type", .str "teleport")])] [("type", .str "teleport")] "teleport"
    rfl rfl (by decide) (by intro v h; cases h) (by intro v h; cases h)).1

/-! ### Claim C23 -/

theorem mapFind_mapAssign_same {α : Type} (key : String) (value : α)
    (l : List (String × α)) : mapFind key (mapAssign key value l) = some value := by
  induction l with
  | nil => simp [mapAssign, mapFind]
  | cons p rest ih =>
      obtain ⟨k, v⟩ := p
      by_cases h : k = key
      · simp [mapAssign, mapFind, h]
      · simp [mapAssign, mapFind, h, ih]

theorem mapFind_mapAssign_other {α : Type} (key other : String) (value : α)
    (l : List (String × α)) (hne : other ≠ key) :
    mapFind other (mapAssign key value l) = mapFind other l := by
  induction l with
  | nil => simp [mapAssign, mapFind, Ne.symm hne]
  | cons p rest ih =>
      obtain ⟨k, v⟩ := p
      by_cases h : k = key
      · subst h
        simp [mapAssign, mapFind, Ne.symm hne]
      · by_cases h2 : k = other
        · subst h2
          simp [mapAssign, mapFind, h]
        · simp [mapAssign, mapFind, h, h2, ih]

/-- Claim C23, as stated, fails: on the manager `Demo.executedOnce`, which holds a tree
under the name `t` with one execution counted, `loadTree("t", ...)` with the document of
another tree returns true and replaces the executor: the root is the new tree and the
statistics are back at 0. -/
theorem load_existing_name_counterexample :
    Demo.executedOnce.hasTree "t" = true ∧
      (Demo.executedOnce.getExecutor "t").map
          (fun e => (e.root_, e.execution_count_, e.failure_count_)) =
        some (some Demo.sequenceTree, 1, 1) ∧
      (Demo.executedOnce.loadTree "t" Demo.selectorDoc).map
          (fun r => (r.2, (r.1.getExecutor "t").map
            (fun e => (e.root_, e.execution_count_, e.failure_count_)))) =
        .ok (true, some (some Demo.selectorTree, 0, 0)) :=
  ⟨rfl, rfl, rfl⟩

/-- Claim C23 as amended. `loadTree(name, json)` on a name under which a tree is already
loaded does not reject the call. When the document parses to a tree it returns true and
the name then holds a new executor over that tree (status Failure, not paused, statistics
0, nothing registered); the trees under other names stay as they are. When the document
parses to no tree it returns false and leaves the manager, with the existing tree, its
executor state and its statistics, unchanged. -/
theorem load_existing_name_replaces (m : BTManager) (name : String) (treeJson : Json)
    (hloaded : m.hasTree name = true) :
    (∃ old, m.getExecutor name = some old) ∧
      (∀ root, BTParser.parse treeJson = .ok (some root) →
        ∃ m1, m.loadTree name treeJson = .ok (m1, true) ∧
          m1.getExecutor name = some (BTExecutor.new.setRoot (some root)) ∧
          ∀ other, other ≠ name → m1.getExecutor other = m.getExecutor other) ∧
      (BTParser.parse treeJson = .ok none → m.loadTree name treeJson = .ok (m, false)) := by
  refine ⟨Option.isSome_iff_exists.1 hloaded, ?_, ?_⟩
  · intro root hp
    refine ⟨⟨mapAssign name (BTExecutor.new.setRoot (some root)) m.trees_⟩, ?_,
      mapFind_mapAssign_same _ _ _, fun other hne => mapFind_mapAssign_other _ _ _ _ hne⟩
    unfold BTManager.loadTree
    rw [hp]
  · intro hp
    unfold BTManager.loadTree
    rw [hp]

/-- Claim C23 as amended, on `Demo.executedOnce` and the document of the selector tree. -/
theorem load_existing_name_replaces_witness :
    ∃ m1, Demo.executedOnce.loadTree "t" Demo.selectorDoc = .ok (m1, true) ∧
      m1.getExecutor "t" = some (BTExecutor.new.setRoot (some Demo.selectorTree)) ∧
      ∀ other, other ≠ "t" → m1.getExecutor other = Demo.executedOnce.getExecutor other :=
  (load_existing_name_replaces Demo.executedOnce "t" Demo.selectorDoc rfl).2.1
    Demo.selectorTree rfl

/-! ### Claim C24 -/

theorem execute_counts (fuel : Nat) (e : BTExecutor) (ctx : Context)
    (h : e.execution_count_ = e.success_count_ + e.failure_count_ + e.running_count_) :
    (e.execute fuel ctx).self.execution_count_ =
      (e.execute fuel ctx).self.success_count_ + (e.execute fuel ctx).self.failure_count_ +
        (e.execute fuel ctx).self.running_count_ := by
  unfold BTExecutor.execute
  cases hr : e.root_ with
  | none => simpa using h
  | some root =>
      simp only
      by_cases hp : e.is_paused_ = true
      · simpa [hp] using h
      · simp only [hp]
        cases hs : (BTNode.execute fuel root ctx).status with
        | none => simpa using h
        | some st =>
            cases st <;> simp [BTExecutor.updateStats, h] <;> omega

theorem step_counts (fuel : Nat) (e : BTExecutor) (op : BTExecutor.Op)
    (h : e.execution_count_ = e.success_count_ + e.failure_count_ + e.running_count_) :
    (e.step fuel op).execution_count_ =
      (e.step fuel op).success_count_ + (e.step fuel op).failure_count_ +
        (e.step fuel op).running_count_ := by
  cases op with
  | execute ctx => exact execute_counts fuel e ctx h
  | pause => exact h
  | resume => exact h
  | stop => exact h
  | reset => exact h
  | setRoot root => exact h
  | registerAction name func => exact h
  | registerCondition name func => exact h

theorem steps_counts (fuel : Nat) (ops : List BTExecutor.Op) (e : BTExecutor)
    (h : e.execution_count_ = e.success_count_ + e.failure_count_ + e.running_count_) :
    (e.steps fuel ops).execution_count_ =
      (e.steps fuel ops).success_count_ + (e.steps fuel ops).failure_count_ +
        (e.steps fuel ops).running_count_ := by
  induction ops generalizing e with
  | nil => exact h
  | cons op rest ih => exact ih (e.step fuel op) (step_counts fuel e op h)


/-- Claim C24, as stated, fails on the status returned while paused: on the executor
`Demo.stoppedThenPaused` the last unpaused execution returned Success, `stop()` then set
the cached status to Failure, and `execute` while paused returns Failure. -/
theorem paused_status_counterexample :
    ((BTExecutor.new.setRoot (some (Demo.act "print"))).execute 2 []).status =
        some .SUCCESS ∧
      Demo.stoppedThenPaused.is_paused_ = true ∧
      Demo.stoppedThenPaused.execution_count_ = 1 ∧
      (Demo.stoppedThenPaused.execute 2 []).status = some .FAILURE :=
  ⟨rfl, rfl, rfl, rfl⟩

/-- Claim C24 as amended. On an executor with a root: while it is paused, `execute`
returns the member `current_status_`, does not tick the root and leaves the executor, its
four counters included, and the context unchanged. When it is not paused and the root
returns `st`, `execute` returns `st`, ticks the root exactly once, stores `st` in
`current_status_` and adds one to `execution_count_` and to the counter of `st` only.
`current_status_` is kept by `pause()` and `resume()` and set to Failure by `stop()` and
`reset()`, so it is the status of the last unpaused execution unless one of these two was
called since. After every series of calls on a new executor,
`execution_count_ = success_count_ + failure_count_ + running_count_`. -/
theorem paused_execute_returns_cached_status (fuel : Nat) (e : BTExecutor) (root : BTNode)
    (ctx : Context) (hroot : e.root_ = some root) :
    (e.is_paused_ = true → e.execute fuel ctx = ⟨some e.current_status_, e, ctx, []⟩) ∧
      (∀ st, e.is_paused_ = false → (BTNode.execute fuel root ctx).status = some st →
        (e.execute fuel ctx).status = some st ∧
          (e.execute fuel ctx).ticks = (BTNode.execute fuel root ctx).ticks ∧
          BTRun.ticksAt [] (e.execute fuel ctx).ticks = [st] ∧
          (e.execute fuel ctx).self.current_status_ = st ∧
          (e.execute fuel ctx).self.execution_count_ = e.execution_count_ + 1 ∧
          (e.execute fuel ctx).self.success_count_ =
            e.success_count_ + (if st = .SUCCESS then 1 else 0) ∧
          (e.execute fuel ctx).self.failure_count_ =
            e.failure_count_ + (if st = .FAILURE then 1 else 0) ∧
          (e.execute fuel ctx).self.running_count_ =
            e.running_count_ + (if st = .RUNNING then 1 else 0)) ∧
      (e.pause.current_status_ = e.current_status_ ∧
        e.resume.current_status_ = e.current_status_ ∧
        e.stop.current_status_ = .FAILURE ∧ e.reset.current_status_ = .FAILURE) ∧
      (∀ ops : List BTExecutor.Op,
        (BTExecutor.new.steps fuel ops).execution_count_ =
          (BTExecutor.new.steps fuel ops).success_count_ +
            (BTExecutor.new.steps fuel ops).failure_count_ +
            (BTExecutor.new.steps fuel ops).running_count_) := by
  refine ⟨?_, ?_, ⟨rfl, rfl, rfl, rfl⟩, fun ops => steps_counts fuel ops _ rfl⟩
  · intro hp
    unfold BTExecutor.execute
    rw [hroot]
    simp [hp]
  · intro st hp hs
    have hown := execute_own fuel root ctx
    rw [hs] at hown
    unfold BTExecutor.execute
    rw [hroot]
    simp only [hp, hs]
    refine ⟨rfl, rfl, hown, ?_⟩
    cases st <;> simp [BTExecutor.updateStats]

/-- Claim C24 as amended, on an executor over the `print` action: paused after one
execution it returns the cached Success with no tick; resumed, it ticks the root once
and counts the execution. -/
theorem paused_execute_returns_cached_status_witness :
    (BTExecutor.steps 2 (BTExecutor.new.setRoot (some (Demo.act "print")))
        [.execute [], .pause]).execute 2 [] =
        ⟨some .SUCCESS,
          BTExecutor.steps 2 (BTExecutor.new.setRoot (some (Demo.act "print")))
            [.execute [], .pause], [], []⟩ ∧
      ((BTExecutor.new.setRoot (some (Demo.act "print"))).execute 2 []).status =
        some .SUCCESS ∧
      ((BTExecutor.new.setRoot (some (Demo.act "print"))).execute 2 []).self.execution_count_ =
        0 + 1 :=
  ⟨(paused_execute_returns_cached_status 2
      (BTExecutor.steps 2 (BTExecutor.new.setRoot (some (Demo.act "print")))
        [.execute [], .pause]) (Demo.act "print") [] rfl).1 rfl,
    ((paused_execute_returns_cached_status 2
      (BTExecutor.new.setRoot (some (Demo.act "print"))) (Demo.act "print") [] rfl).2.1
        .SUCCESS rfl rfl).1,
    ((paused_execute_returns_cached_status 2
      (BTExecutor.new.setRoot (some (Demo.act "print"))) (Demo.act "print") [] rfl).2.1
        .SUCCESS rfl rfl).2.2.2.2.1⟩

/-! ### Claim C25 -/

theorem minutes_add (clock : Clock) (a b : Int) :
    clock.minutes (a + b) = clock.minutes a + clock.minutes b := by
  unfold Clock.minutes
  ring

theorem minutes_pos (clock : Clock) (h : 0 < clock.ticksPerMs) (n : Nat) :
    0 < clock.minutes ((n : Int) + 1) := by
  unfold Clock.minutes
  have : (0 : Int) < (n : Int) + 1 := by omega
  positivity

theorem nextMatchLoop_spec (clock : Clock) (h : 0 < clock.ticksPerMs)
    (cron : CronParser.CronExpression) (start end_ : TimePoint) (n : Nat)
    (current : TimePoint) (hend : end_ = current + clock.minutes n) :
    ((∃ k : Nat, k < n ∧ CronParser.matches clock cron (current + clock.minutes k) = true) →
        ∃ k0 : Nat, k0 < n ∧
          CronParser.nextMatchLoop clock cron start end_ n current =
            current + clock.minutes k0 ∧
          CronParser.matches clock cron (current + clock.minutes k0) = true ∧
          ∀ j : Nat, j < k0 →
            CronParser.matches clock cron (current + clock.minutes j) = false) ∧
      ((∀ k : Nat, k < n →
          CronParser.matches clock cron (current + clock.minutes k) = false) →
        CronParser.nextMatchLoop clock cron start end_ n current = start) := by
  induction n generalizing current with
  | zero =>
      refine ⟨?_, fun _ => rfl⟩
      rintro ⟨k, hk, _⟩
      omega
  | succ n ih =>
      have hlt : current < end_ := by
        have hp := minutes_pos clock h n
        have e : ((n + 1 : Nat) : Int) = (n : Int) + 1 := by push_cast; rfl
        rw [hend, e]
        linarith
      have hz : current + clock.minutes (0 : Nat) = current := by
        simp [Clock.minutes]
      have hshift : ∀ k : Nat, current + clock.minutes 1 + clock.minutes k =
          current + clock.minutes ((k + 1 : Nat) : Int) := by
        intro k
        push_cast
        rw [minutes_add]
        ring
      have hend1 : end_ = current + clock.minutes 1 + clock.minutes n := by
        rw [hend, hshift]
      obtain ⟨ih1, ih2⟩ := ih (current + clock.minutes 1) hend1
      simp only [CronParser.nextMatchLoop, if_pos hlt]
      by_cases hm : CronParser.matches clock cron current = true
      · simp only [hm, if_true]
        refine ⟨fun _ => ⟨0, by omega, hz.symm, by rw [hz]; exact hm, ?_⟩, ?_⟩
        · intro j hj
          omega
        · intro hall
          have := hall 0 (by omega)
          rw [hz, hm] at this
          cases this
      · have hm1 : CronParser.matches clock cron current = false := by simpa using hm
        simp only [hm1]
        constructor
        · rintro ⟨k, hk, hk2⟩
          cases k with
          | zero =>
              rw [hz, hm1] at hk2
              cases hk2
          | succ k =>
              obtain ⟨k0, a1, a2, a3, a4⟩ := ih1 ⟨k, by omega, by rw [hshift]; exact hk2⟩
              refine ⟨k0 + 1, by omega, ?_, ?_, ?_⟩
              · simpa [hshift] using a2
              · rw [← hshift]; exact a3
              · intro j hj
                cases j with
                | zero => rw [hz]; exact hm1
                | succ j =>
                    rw [← hshift]
                    exact a4 j (by omega)
        · intro hall
          simpa using ih2 (fun k hk => by rw [hshift]; exact hall (k + 1) (by omega))

/-- Claim C25. On a platform whose clock ticks, for every cron expression `cron` with
`valid = true` and every time `t`: if some time `t + k` minutes with `0 ≤ k < 525600`
matches, `nextMatch(cron, t)` is `t + k0` minutes for the least such `k0`, and it
matches; if none does, `nextMatch` returns `t`. -/
theorem nextMatch_is_least_match (clock : Clock) (cron : CronParser.CronExpression)
    (t : TimePoint) (hticks : 0 < clock.ticksPerMs) (hvalid : cron.valid = true) :
    ((∃ k : Nat, k < 525600 ∧ CronParser.matches clock cron (t + clock.minutes k) = true) →
        ∃ k0 : Nat, k0 < 525600 ∧
          CronParser.nextMatch clock cron t = t + clock.minutes k0 ∧
          CronParser.matches clock cron (CronParser.nextMatch clock cron t) = true ∧
          ∀ j : Nat, j < k0 → CronParser.matches clock cron (t + clock.minutes j) = false) ∧
      ((∀ k : Nat, k < 525600 →
          CronParser.matches clock cron (t + clock.minutes k) = false) →
        CronParser.nextMatch clock cron t = t) := by
  have hend : t + clock.hours (24 * 365) = t + clock.minutes ((24 * 365 * 60 : Nat) : Int) := by
    unfold Clock.hours Clock.minutes
    push_cast
    ring
  obtain ⟨h1, h2⟩ := nextMatchLoop_spec clock hticks cron t (t + clock.hours (24 * 365))
    (24 * 365 * 60) t hend
  have hn : CronParser.nextMatch clock cron t =
      CronParser.nextMatchLoop clock cron t (t + clock.hours (24 * 365)) (24 * 365 * 60) t := by
    simp [CronParser.nextMatch, hvalid]
  constructor
  · intro hex
    obtain ⟨k0, a1, a2, a3, a4⟩ := h1 hex
    refine ⟨k0, a1, hn.trans a2, ?_, a4⟩
    rw [hn, a2]
    exact a3
  · intro hall
    rw [hn]
    exact h2 hall

theorem parse_weekdays9 : CronParser.parse "0 9 * * 1-5" = Demo.weekdays9 := by decide

theorem to_time_t_minutes (s : Int) (j : Int) :
    Demo.clock.to_time_t (Demo.atSecond s + Demo.clock.minutes j) = s + 60 * j := by
  have e : Demo.atSecond s + Demo.clock.minutes j = (s + 60 * j) * (1000 * 1000000) := by
    simp only [Demo.atSecond, Demo.clock, Clock.minutes]
    ring
  unfold Clock.to_time_t
  rw [e]
  exact Int.mul_tdiv_cancel _ (by decide)

theorem weekdays9_matches (s : Int) (j : Int) :
    CronParser.matches Demo.clock Demo.weekdays9 (Demo.atSecond s + Demo.clock.minutes j) = true ↔
      ((s + 60 * j) % 86400 / 60 % 60 = 0 ∧ (s + 60 * j) % 86400 / 3600 = 9 ∧
        1 ≤ ((s + 60 * j) / 86400 + 4) % 7 ∧ ((s + 60 * j) / 86400 + 4) % 7 ≤ 5) := by
  simp only [CronParser.matches, CronParser.toTm, to_time_t_minutes]
  simp only [Demo.weekdays9, CronParser.fieldMatches, Demo.clock, Demo.utcTime]
  simp
  omega

theorem weekdays9_first (j : Nat) (hj : j < 2820) :
    CronParser.matches Demo.clock Demo.weekdays9
      (Demo.atSecond Demo.saturday10 + Demo.clock.minutes j) = false := by
  rw [Bool.eq_false_iff]
  intro h
  rw [weekdays9_matches] at h
  simp only [Demo.saturday10] at h
  omega

/-- Claim C25 on the expression `0 9 * * 1-5` and Saturday 2024-01-06 10:00, on a platform
in the zone UTC: the next match is Monday 2024-01-08 09:00, 2820 minutes later. -/
theorem nextMatch_is_least_match_witness :
    CronParser.parse "0 9 * * 1-5" = Demo.weekdays9 ∧
      CronParser.nextMatch Demo.clock (CronParser.parse "0 9 * * 1-5")
          (Demo.atSecond Demo.saturday10) = Demo.atSecond Demo.monday9 ∧
      CronParser.matches Demo.clock (CronParser.parse "0 9 * * 1-5")
          (Demo.atSecond Demo.monday9) = true := by
  have hm : CronParser.matches Demo.clock Demo.weekdays9
      (Demo.atSecond Demo.saturday10 + Demo.clock.minutes ((2820 : Nat) : Int)) = true := by
    rw [weekdays9_matches]
    decide
  obtain ⟨k0, _, a2, a3, a4⟩ :=
    (nextMatch_is_least_match Demo.clock Demo.weekdays9 (Demo.atSecond Demo.saturday10)
      (by decide) rfl).1 ⟨2820, by decide, hm⟩
  have hk : k0 = 2820 := by
    rcases Nat.lt_trichotomy k0 2820 with hlt | heq | hgt
    · rw [a2, weekdays9_first k0 hlt] at a3
      cases a3
    · exact heq
    · rw [a4 2820 hgt] at hm
      cases hm
  subst hk
  have ht : Demo.atSecond Demo.saturday10 + Demo.clock.minutes ((2820 : Nat) : Int) =
      Demo.atSecond Demo.monday9 := by decide
  rw [parse_weekdays9]
  refine ⟨rfl, a2.trans ht, ?_⟩
  rw [← ht]
  exact hm

/-! ### Claim C26 -/

/-- Claim C26 at the expression `30 14 * * 0` of the tests and Sunday 2024-01-07 14:30 on
a platform in the zone UTC. The weekday field `0` parses to the value 0, while `matches`
looks a Sunday up as 7: the expression does not match that Sunday at 14:30, where the
same expression with weekday field `7` does; indeed it matches no time at all, on any
platform. -/
theorem weekday_zero_never_matches :
    (CronParser.parse "30 14 * * 0").valid = true ∧
      (CronParser.parse "30 14 * * 0").weekday.values = [0] ∧
      (CronParser.parse "30 14 * * 7").weekday.values = [7] ∧
      Demo.utcTime Demo.sunday1430 =
        { tm_sec := 0, tm_min := 30, tm_hour := 14, tm_mday := 7, tm_mon := 0,
          tm_year := 124, tm_wday := 0 } ∧
      CronParser.matches Demo.clock (CronParser.parse "30 14 * * 0")
          (Demo.atSecond Demo.sunday1430) = false ∧
      CronParser.matches Demo.clock (CronParser.parse "30 14 * * 7")
          (Demo.atSecond Demo.sunday1430) = true ∧
      ∀ (clock : Clock) (time : TimePoint),
        CronParser.matches clock (CronParser.parse "30 14 * * 0") time = false := by
  have hp : CronParser.parse "30 14 * * 0" =
      { minute := { values := [30] }, hour := { values := [14] },
        day := { isWildcard := true }, month := { isWildcard := true },
        weekday := { values := [0] }, original := "30 14 * * 0", valid := true } := by
    decide
  refine ⟨by decide, by decide, by decide, by decide, by decide, by decide, ?_⟩
  intro clock time
  rw [hp]
  simp only [CronParser.matches, CronParser.fieldMatches]
  by_cases h : (CronParser.toTm clock time).tm_wday = 0
  · simp [h]
  · simp [h]

/-! ### Claim C27 -/

/-- Claim C27 at expressions of five fields with an out-of-range value, a reversed range,
a zero step and a non-numeric field: `parse` returns `valid = true` for each, the field
in question having an empty list of values. For every expression, `valid` is true exactly
when the expression has five fields: `parseField` catches every conversion error itself
and returns normally, so the `catch` of `parse` that sets `valid = false` is never
reached. -/
theorem five_fields_are_always_valid :
    ((CronParser.parse "99 * * * *").valid = true ∧
        (CronParser.parse "99 * * * *").minute = { values := [] }) ∧
      ((CronParser.parse "5-1 * * * *").valid = true ∧
        (CronParser.parse "5-1 * * * *").minute = { values := [], isRange := true }) ∧
      ((CronParser.parse "*/0 * * * *").valid = true ∧
        (CronParser.parse "*/0 * * * *").minute = { values := [] }) ∧
      ((CronParser.parse "abc * * * *").valid = true ∧
        (CronParser.parse "abc * * * *").minute = { values := [] }) ∧
      CronParser.isValid "a b c d e" = true ∧
      ∀ expression : String,
        (CronParser.parse expression).valid = true ↔
          (CronParser.fields expression).length = 5 := by
  refine ⟨by decide, by decide, by decide, by decide, by decide, ?_⟩
  intro expression
  unfold CronParser.parse
  rcases CronParser.fields expression with
    _ | ⟨a, _ | ⟨b, _ | ⟨c, _ | ⟨d, _ | ⟨e, _ | ⟨f, rest⟩⟩⟩⟩⟩⟩ <;> simp

/-! ### Claim C28 -/

theorem not_lt_decide (a b : Int) : (!decide (a < b)) = decide (b ≤ a) := by
  by_cases h : a < b
  · rw [decide_eq_true h, decide_eq_false (not_le.2 h)]
    rfl
  · rw [decide_eq_false h, decide_eq_true (not_lt.1 h)]
    rfl

theorem sliding_step (clock : Clock) (lim : FrequencyLimiter) (identifier : String)
    (data : FrequencyLimiter.IdentifierData) (now stamp : TimePoint)
    (hfind : mapFind identifier lim.identifierData_ = some data)
    (hs : data.config.strategy = .SLIDING_WINDOW) :
    (FrequencyLimiter.checkLimit clock lim now stamp identifier).2.allowed =
        decide ((((data.requests.map (fun r => r.timestamp)).filter
          (fun s => decide (now - clock.milliseconds data.config.windowMs ≤ s))).length : Int)
            < data.config.maxRequests) ∧
      ∃ data1, mapFind identifier
          (FrequencyLimiter.checkLimit clock lim now stamp identifier).1.identifierData_ =
            some data1 ∧
        data1.config = data.config ∧
        data1.requests.map (fun r => r.timestamp) =
          (data.requests.map (fun r => r.timestamp)).filter
              (fun s => decide (now - clock.milliseconds data.config.windowMs ≤ s)) ++
            (if (FrequencyLimiter.checkLimit clock lim now stamp identifier).2.allowed then
              [stamp] else []) := by
  have hclean : ((FrequencyLimiter.cleanupExpiredRequests clock data now).requests.map
      (fun r => r.timestamp)) =
      (data.requests.map (fun r => r.timestamp)).filter
        (fun s => decide (now - clock.milliseconds data.config.windowMs ≤ s)) := by
    simp only [FrequencyLimiter.cleanupExpiredRequests, List.filter_map]
    congr 1
    apply List.filter_congr
    intro r _
    exact not_lt_decide _ _
  have hcount : FrequencyLimiter.currentRequests clock
      (FrequencyLimiter.cleanupExpiredRequests clock data now) now =
      (((data.requests.map (fun r => r.timestamp)).filter
        (fun s => decide (now - clock.milliseconds data.config.windowMs ≤ s))).length : Int) := by
    rw [← hclean]
    simp only [FrequencyLimiter.currentRequests, FrequencyLimiter.cleanupExpiredRequests,
      List.filter_filter, List.length_map]
    congr 2
    apply List.filter_congr
    intro r _
    rw [not_lt_decide]
    by_cases h : now - clock.milliseconds data.config.windowMs ≤ r.timestamp
    · simp [h]
    · simp [h]
  have hallowed : (FrequencyLimiter.checkSlidingWindow clock
      (FrequencyLimiter.cleanupExpiredRequests clock data now) now).allowed =
      decide (FrequencyLimiter.currentRequests clock
        (FrequencyLimiter.cleanupExpiredRequests clock data now) now <
          data.config.maxRequests) := by
    unfold FrequencyLimiter.checkSlidingWindow
    split <;> rfl
  have hcfg : (FrequencyLimiter.cleanupExpiredRequests clock data now).config.strategy =
      .SLIDING_WINDOW := hs
  constructor
  · simp only [FrequencyLimiter.checkLimit, hfind, hcfg, hallowed, hcount]
  · simp only [FrequencyLimiter.checkLimit, hfind, hcfg, hallowed, hcount,
      mapFind_mapAssign_same]
    refine ⟨_, rfl, ?_, ?_⟩
    · split <;> rfl
    · split
      · simp [hclean]
      · simp [hclean]


theorem mem_readings (c : TimePoint × TimePoint) (cs : List (TimePoint × TimePoint))
    (h : c ∈ cs) :
    c.1 ∈ FrequencyLimiter.readings cs ∧ c.2 ∈ FrequencyLimiter.readings cs := by
  simp only [FrequencyLimiter.readings, List.mem_flatMap]
  exact ⟨⟨c, h, by simp⟩, ⟨c, h, by simp⟩⟩

theorem readings_cons (now stamp : TimePoint) (rest : List (TimePoint × TimePoint)) :
    FrequencyLimiter.readings ((now, stamp) :: rest) =
      now :: stamp :: FrequencyLimiter.readings rest := by
  simp [FrequencyLimiter.readings]

theorem filter_window (hist : List TimePoint) (cut lo now : Int) (hcut : cut ≤ lo)
    (hle : ∀ s ∈ hist, s ≤ now) :
    (hist.filter (fun s => decide (cut ≤ s))).filter (fun s => decide (lo ≤ s)) =
      hist.filter (fun s => decide (lo ≤ s ∧ s ≤ now)) := by
  rw [List.filter_filter]
  apply List.filter_congr
  intro s hs
  have h1 := hle s hs
  by_cases h : lo ≤ s
  · have h2 : cut ≤ s := le_trans hcut h
    simp [h, h1, h2]
  · simp [h]

theorem filter_cut (hist : List TimePoint) (cut lo : Int) (hcut : cut ≤ lo) :
    (hist.filter (fun s => decide (cut ≤ s))).filter (fun s => decide (lo ≤ s)) =
      hist.filter (fun s => decide (lo ≤ s)) := by
  rw [List.filter_filter]
  apply List.filter_congr
  intro s _
  by_cases h : lo ≤ s
  · have h2 : cut ≤ s := le_trans hcut h
    simp [h, h2]
  · simp [h]

theorem sliding_refines (clock : Clock) (identifier : String) (m w : Int)
    (hW : 0 ≤ clock.milliseconds w) (cs : List (TimePoint × TimePoint)) :
    ∀ (lim : FrequencyLimiter) (hist : List TimePoint) (cut : Int)
      (data : FrequencyLimiter.IdentifierData),
      mapFind identifier lim.identifierData_ = some data →
      data.config = { maxRequests := m, windowMs := w, strategy := .SLIDING_WINDOW } →
      data.requests.map (fun r => r.timestamp) = hist.filter (fun s => decide (cut ≤ s)) →
      (∀ c ∈ cs, cut ≤ c.1 - clock.milliseconds w) →
      (∀ s ∈ hist, ∀ c ∈ cs, s ≤ c.1) →
      List.Pairwise (fun a b => a ≤ b) (FrequencyLimiter.readings cs) →
      (FrequencyLimiter.checkAll clock identifier lim cs).map (fun r => r.allowed) =
        FrequencyLimiter.slidingSpec m (clock.milliseconds w) hist cs := by
  induction cs with
  | nil => intros; rfl
  | cons c rest ih =>
      obtain ⟨now, stamp⟩ := c
      intro lim hist cut data hfind hcfg hreq hcut hhist hmono
      rw [readings_cons, List.pairwise_cons, List.pairwise_cons] at hmono
      obtain ⟨hnow, hstamp, hrest⟩ := hmono
      have hs : data.config.strategy = .SLIDING_WINDOW := by rw [hcfg]
      obtain ⟨ha, data1, hfind1, hcfg1, hreq1⟩ :=
        sliding_step clock lim identifier data now stamp hfind hs
      have hw : data.config.windowMs = w := by rw [hcfg]
      have hm : data.config.maxRequests = m := by rw [hcfg]
      rw [hw, hreq] at ha hreq1
      rw [hm] at ha
      have hc0 := hcut (now, stamp) (List.mem_cons_self _ _)
      have hle : ∀ s ∈ hist, s ≤ now := fun s hs =>
        hhist s hs (now, stamp) (List.mem_cons_self _ _)
      rw [filter_window hist cut _ now hc0 hle] at ha
      rw [filter_cut hist cut _ hc0] at hreq1
      have hnext : ∀ c ∈ rest, now - clock.milliseconds w ≤ c.1 - clock.milliseconds w := by
        intro c hc
        have := hnow c.1 (List.mem_cons_of_mem _ (mem_readings c rest hc).1)
        linarith
      simp only [FrequencyLimiter.checkAll, List.map_cons, FrequencyLimiter.slidingSpec]
      by_cases hb : ((hist.filter
          (fun s => decide (now - clock.milliseconds w ≤ s ∧ s ≤ now))).length : Int) < m
      · rw [decide_eq_true hb] at ha
        rw [if_pos hb, ha]
        congr 1
        rw [ha] at hreq1
        apply ih _ (hist ++ [stamp]) (now - clock.milliseconds w) data1 hfind1
          (hcfg1.trans hcfg) _ hnext _ hrest
        · have h1 : now - clock.milliseconds w ≤ stamp := by
            have := hnow stamp (List.mem_cons_self _ _)
            linarith
          have hf : List.filter (fun s => decide (now - clock.milliseconds w ≤ s)) [stamp] =
              [stamp] := by
            simp only [List.filter_cons, List.filter_nil, decide_eq_true h1, if_true]
          rw [hreq1, List.filter_append, hf]
          rfl
        · intro s hs c hc
          rcases List.mem_append.1 hs with h | h
          · exact hhist s h c (List.mem_cons_of_mem _ hc)
          · rw [List.mem_singleton] at h
            subst h
            exact hstamp c.1 (mem_readings c rest hc).1
      · rw [decide_eq_false hb] at ha
        rw [if_neg hb, ha]
        congr 1
        rw [ha] at hreq1
        apply ih _ hist (now - clock.milliseconds w) data1 hfind1 (hcfg1.trans hcfg) _ hnext
          _ hrest
        · simpa using hreq1
        · intro s hs c hc
          exact hhist s hs c (List.mem_cons_of_mem _ hc)


theorem filter_length_mono {α : Type} (l : List α) (p q : α → Bool)
    (h : ∀ x ∈ l, p x = true → q x = true) : (l.filter p).length ≤ (l.filter q).length := by
  induction l with
  | nil => simp
  | cons a rest ih =>
      have ih1 := ih (fun x hx => h x (List.mem_cons_of_mem _ hx))
      have ha := h a (List.mem_cons_self _ _)
      by_cases hp : p a = true
      · simp [List.filter_cons, hp, ha hp, ih1]
      · by_cases hq : q a = true
        · simp [List.filter_cons, hp, hq]
          omega
        · simp [List.filter_cons, hp, hq, ih1]

theorem allowedStamps_nil (rs : List Bool) : FrequencyLimiter.allowedStamps rs [] = [] := by
  cases rs with
  | nil => rfl
  | cons b rest => cases b <;> rfl

theorem sliding_bound (m W : Int) (calls : List (TimePoint × TimePoint)) :
    ∀ (hist : List TimePoint) (cut : Int),
      ((hist.filter (fun s => decide (cut ≤ s))).length : Int) ≤ m →
      (∀ c ∈ calls, cut ≤ c.1 - W) →
      (∀ s ∈ hist, ∀ c ∈ calls, s ≤ c.1) →
      List.Pairwise (fun a b => a ≤ b) (FrequencyLimiter.readings calls) →
      ∀ pre now stamp post, calls = pre ++ (now, stamp) :: post →
        (((hist ++ FrequencyLimiter.allowedStamps
            (FrequencyLimiter.slidingSpec m W hist calls) (pre ++ [(now, stamp)])).filter
          (fun s => decide (now - W ≤ s ∧ s ≤ now))).length : Int) ≤ m := by
  induction calls with
  | nil =>
      intro hist cut _ _ _ _ pre now stamp post h
      simp at h
  | cons c rest ih =>
      obtain ⟨n1, s1⟩ := c
      intro hist cut hq hcut hhist hmono pre now stamp post hsplit
      rw [readings_cons, List.pairwise_cons, List.pairwise_cons] at hmono
      obtain ⟨hnow, hstamp, hrest⟩ := hmono
      have hc0 : cut ≤ n1 - W := hcut (n1, s1) (List.mem_cons_self _ _)
      have hle : ∀ s ∈ hist, s ≤ n1 := fun s hs =>
        hhist s hs (n1, s1) (List.mem_cons_self _ _)
      have hnext : ∀ c ∈ rest, n1 - W ≤ c.1 - W := by
        intro c hc
        have := hnow c.1 (List.mem_cons_of_mem _ (mem_readings c rest hc).1)
        linarith
      have hwin : hist.filter (fun s => decide (n1 - W ≤ s)) =
          hist.filter (fun s => decide (n1 - W ≤ s ∧ s ≤ n1)) := by
        apply List.filter_congr
        intro s hs
        have := hle s hs
        by_cases h : n1 - W ≤ s <;> simp [h, this]
      have hcutlen : ((hist.filter (fun s => decide (n1 - W ≤ s))).length : Int) ≤ m := by
        have := filter_length_mono hist (fun s => decide (n1 - W ≤ s))
          (fun s => decide (cut ≤ s)) (by
            intro s _ h
            simp only [decide_eq_true_eq] at h ⊢
            linarith)
        exact le_trans (by exact_mod_cast this) hq
      simp only [FrequencyLimiter.slidingSpec]
      by_cases hb : ((hist.filter
          (fun s => decide (n1 - W ≤ s ∧ s ≤ n1))).length : Int) < m
      · rw [if_pos hb]
        cases pre with
        | nil =>
            simp only [List.nil_append, List.cons.injEq, Prod.mk.injEq] at hsplit
            obtain ⟨⟨h1, h2⟩, _⟩ := hsplit
            subst h1 h2
            simp only [List.nil_append, FrequencyLimiter.allowedStamps, allowedStamps_nil,
              List.filter_append]
            have h1 : (List.filter (fun s => decide (n1 - W ≤ s ∧ s ≤ n1)) [s1]).length ≤ 1 :=
              (List.length_filter_le _ _).trans (by simp)
            have h2 : ((List.filter (fun s => decide (n1 - W ≤ s ∧ s ≤ n1)) [s1]).length : Int)
                ≤ 1 := by exact_mod_cast h1
            rw [List.length_append]
            push_cast
            linarith
        | cons p pre1 =>
            simp only [List.cons_append, List.cons.injEq] at hsplit
            obtain ⟨hp, hrest2⟩ := hsplit
            subst hp
            have hq1 : (((hist ++ [s1]).filter (fun s => decide (n1 - W ≤ s))).length : Int)
                ≤ m := by
              rw [List.filter_append, List.length_append, hwin]
              have h1 : (List.filter (fun s => decide (n1 - W ≤ s)) [s1]).length ≤ 1 :=
                (List.length_filter_le _ _).trans (by simp)
              have h2 : ((List.filter (fun s => decide (n1 - W ≤ s)) [s1]).length : Int) ≤ 1 := by
                exact_mod_cast h1
              push_cast
              linarith
            have := ih (hist ++ [s1]) (n1 - W) hq1 hnext (by
              intro s hs c hc
              rcases List.mem_append.1 hs with h | h
              · exact hhist s h c (List.mem_cons_of_mem _ hc)
              · rw [List.mem_singleton] at h
                subst h
                exact hstamp c.1 (mem_readings c rest hc).1) hrest pre1 now stamp post hrest2
            simpa [FrequencyLimiter.allowedStamps, List.append_assoc] using this
      · rw [if_neg hb]
        cases pre with
        | nil =>
            simp only [List.nil_append, List.cons.injEq, Prod.mk.injEq] at hsplit
            obtain ⟨⟨h1, h2⟩, _⟩ := hsplit
            subst h1 h2
            simp only [List.nil_append, FrequencyLimiter.allowedStamps, allowedStamps_nil,
              List.append_nil]
            rw [← hwin]
            exact hcutlen
        | cons p pre1 =>
            simp only [List.cons_append, List.cons.injEq] at hsplit
            obtain ⟨hp, hrest2⟩ := hsplit
            subst hp
            have := ih hist (n1 - W) hcutlen hnext
              (fun s hs c hc => hhist s hs c (List.mem_cons_of_mem _ hc)) hrest pre1 now
              stamp post hrest2
            simpa [FrequencyLimiter.allowedStamps] using this


/-- Claim C28. On a platform whose clock ticks, for an identifier configured (on a new
limiter) with `SLIDING_WINDOW`, `maxRequests = m` and a window `w ≥ 0`, over every series
of `checkLimit` calls whose readings of the clock do not decrease: the results are those
of the rule `slidingSpec`, a call at time `t` being allowed iff fewer than `m` earlier
allowed calls have timestamps in `[t - w, t]`; and when `m ≥ 0`, at every call the allowed
calls up to it with timestamps in that window are at most `m`. -/
theorem sliding_window_allows_below_max (clock : Clock) (identifier : String) (m w : Int)
    (t0 : TimePoint) (calls : List (TimePoint × TimePoint))
    (hticks : 0 < clock.ticksPerMs) (hw : 0 ≤ w)
    (hmono : List.Pairwise (fun a b => a ≤ b) (FrequencyLimiter.readings calls)) :
    (FrequencyLimiter.checkAll clock identifier
        (FrequencyLimiter.setLimit {} t0 identifier
          { maxRequests := m, windowMs := w, strategy := .SLIDING_WINDOW }) calls).map
        (fun r => r.allowed) =
        FrequencyLimiter.slidingSpec m (clock.milliseconds w) [] calls ∧
      (0 ≤ m → ∀ pre now stamp post, calls = pre ++ (now, stamp) :: post →
        (((FrequencyLimiter.allowedStamps
            ((FrequencyLimiter.checkAll clock identifier
              (FrequencyLimiter.setLimit {} t0 identifier
                { maxRequests := m, windowMs := w, strategy := .SLIDING_WINDOW }) calls).map
              (fun r => r.allowed)) (pre ++ [(now, stamp)])).filter
          (fun s => decide (now - clock.milliseconds w ≤ s ∧ s ≤ now))).length : Int) ≤ m) := by
  have hW : 0 ≤ clock.milliseconds w := by
    unfold Clock.milliseconds
    positivity
  have hcut : ∀ c ∈ calls, (match calls with
      | [] => 0
      | c0 :: _ => c0.1 - clock.milliseconds w) ≤ c.1 - clock.milliseconds w := by
    intro c hc
    cases calls with
    | nil => simp at hc
    | cons c0 rest =>
        obtain ⟨now0, stamp0⟩ := c0
        rcases List.mem_cons.1 hc with h | h
        · subst h
          exact le_refl _
        · rw [readings_cons, List.pairwise_cons] at hmono
          have := hmono.1 c.1 (List.mem_cons_of_mem _ (mem_readings c rest h).1)
          show now0 - clock.milliseconds w ≤ c.1 - clock.milliseconds w
          linarith
  have href := sliding_refines clock identifier m w hW calls
    (FrequencyLimiter.setLimit {} t0 identifier
      { maxRequests := m, windowMs := w, strategy := .SLIDING_WINDOW }) [] _
    { config := { maxRequests := m, windowMs := w, strategy := .SLIDING_WINDOW },
      lastCleanup := t0 }
    (by simp [FrequencyLimiter.setLimit, mapFind, mapAssign]) rfl rfl hcut
    (fun s hs => by simp at hs) hmono
  refine ⟨href, ?_⟩
  intro hm pre now stamp post hsplit
  rw [href]
  have := sliding_bound m (clock.milliseconds w) calls [] _ (by simpa using hm) hcut
    (fun s hs => by simp at hs) hmono pre now stamp post hsplit
  simpa using this

/-- Claim C28 on scenario S7: `m = 3`, a window of one second, calls at 0, 100, 200, 300
and 400 ms give allowed, allowed, allowed, denied, denied, and a call at 1100 ms is
allowed. -/
theorem sliding_window_allows_below_max_witness :
    (FrequencyLimiter.checkAll Demo.clock "rule"
        (FrequencyLimiter.setLimit {} 0 "rule"
          { maxRequests := 3, windowMs := 1000, strategy := .SLIDING_WINDOW })
        Demo.rapidCalls).map (fun r => r.allowed) =
        [true, true, true, false, false, true] ∧
      (FrequencyLimiter.checkAll Demo.clock "rule"
        (FrequencyLimiter.setLimit {} 0 "rule"
          { maxRequests := 3, windowMs := 1000, strategy := .SLIDING_WINDOW })
        Demo.rapidCalls).map (fun r => r.allowed) =
        FrequencyLimiter.slidingSpec 3 (Demo.clock.milliseconds 1000) [] Demo.rapidCalls :=
  ⟨by decide,
    (sliding_window_allows_below_max Demo.clock "rule" 3 1000 0 Demo.rapidCalls (by decide)
      (by decide) (by decide)).1⟩

/-! ### Claim C29 -/

theorem token_step (clock : Clock) (lim : FrequencyLimiter) (identifier : String)
    (data : FrequencyLimiter.IdentifierData) (now stamp : TimePoint)
    (hfind : mapFind identifier lim.identifierData_ = some data)
    (hs : data.config.strategy = .TOKEN_BUCKET) :
    (FrequencyLimiter.checkLimit clock lim now stamp identifier).2.allowed =
        decide (min data.config.maxRequests (Json.wrapInt32 (Int.tdiv
          (clock.toMilliseconds (now - data.lastCleanup) * data.config.maxRequests)
          data.config.windowMs)) > 0) ∧
      (FrequencyLimiter.checkLimit clock lim now stamp identifier).2.remainingRequests =
        min data.config.maxRequests (Json.wrapInt32 (Int.tdiv
          (clock.toMilliseconds (now - data.lastCleanup) * data.config.maxRequests)
          data.config.windowMs)) ∧
      ∃ data1, mapFind identifier
          (FrequencyLimiter.checkLimit clock lim now stamp identifier).1.identifierData_ =
            some data1 ∧
        data1.config = data.config ∧ data1.lastCleanup = now := by
  have hcfg : (FrequencyLimiter.cleanupExpiredRequests clock data now).config.strategy =
      .TOKEN_BUCKET := hs
  simp only [FrequencyLimiter.checkLimit, hfind, hcfg, mapFind_mapAssign_same]
  refine ⟨rfl, rfl, _, rfl, ?_, ?_⟩
  · split <;> rfl
  · split <;> rfl

/-- Calls of `checkLimit` at the instant of the previous check, under `TOKEN_BUCKET` with a
non-negative cap: no millisecond has passed, no token is computed, every call is denied. -/
theorem token_same_instant (clock : Clock) (identifier : String) (now : TimePoint)
    (stamps : List TimePoint) :
    ∀ (lim : FrequencyLimiter) (data : FrequencyLimiter.IdentifierData),
      mapFind identifier lim.identifierData_ = some data →
      data.config.strategy = .TOKEN_BUCKET → 0 ≤ data.config.maxRequests →
      data.lastCleanup = now →
      (FrequencyLimiter.checkAll clock identifier lim
        (stamps.map (fun stamp => (now, stamp)))).map (fun r => r.allowed) =
          stamps.map (fun _ => false) := by
  induction stamps with
  | nil => intro lim data _ _ _ _; rfl
  | cons stamp rest ih =>
      intro lim data hfind hs hm hl
      obtain ⟨b1, _, data1, f1, c1, l1⟩ :=
        token_step clock lim identifier data now stamp hfind hs
      simp only [List.map_cons, FrequencyLimiter.checkAll]
      rw [ih _ data1 f1 (c1 ▸ hs) (c1 ▸ hm) l1, b1, hl]
      have hz : clock.toMilliseconds (now - now) = 0 := by
        simp [Clock.toMilliseconds]
      rw [hz, Int.zero_mul, Int.zero_tdiv]
      have h0 : Json.wrapInt32 0 = 0 := by decide
      rw [h0, min_eq_right hm]
      rfl

theorem wrapInt32_of_fits (i : Int) (h0 : 0 ≤ i) (h1 : i < 2 ^ 31) : Json.wrapInt32 i = i := by
  unfold Json.wrapInt32
  omega

/-- Claim C29, as stated, fails for `m = 3`: with a window of one second, configured at
time 0 and checked four times at the same instant five seconds later, only the first call
is allowed; the second and the third are denied, not allowed. -/
theorem token_bucket_counterexample :
    (FrequencyLimiter.checkAll Demo.clock "rule"
        (FrequencyLimiter.setLimit {} 0 "rule"
          { maxRequests := 3, windowMs := 1000, strategy := .TOKEN_BUCKET })
        [(Demo.atMs 5000, Demo.atMs 5000), (Demo.atMs 5000, Demo.atMs 5000),
         (Demo.atMs 5000, Demo.atMs 5000), (Demo.atMs 5000, Demo.atMs 5000)]).map
        (fun r => r.allowed) = [true, false, false, false] := by
  decide

/-- Claim C29 as amended. For an identifier configured with `TOKEN_BUCKET`,
`maxRequests = m ≥ 1` and a window `w > 0`, no balance of tokens is kept: each `checkLimit`
computes `min(m, elapsed * m / w)` from the milliseconds `elapsed` since the previous
check, sets the time of the previous check to now, and allows the call iff the result is
positive. After an idle period of at least `w` since the previous check, the first call
is allowed, with `m` tokens reported (the quotient `elapsed * m / w` being an `int`), and
a further call at the same instant is denied, and so is every one of any number of
further calls at that instant. -/
theorem token_bucket_allows_first_call_only (clock : Clock) (lim : FrequencyLimiter)
    (identifier : String) (data : FrequencyLimiter.IdentifierData)
    (now stamp1 stamp2 : TimePoint)
    (hfind : mapFind identifier lim.identifierData_ = some data)
    (hs : data.config.strategy = .TOKEN_BUCKET)
    (hm : 1 ≤ data.config.maxRequests) (hw : 0 < data.config.windowMs)
    (hidle : data.config.windowMs ≤ clock.toMilliseconds (now - data.lastCleanup))
    (hfit : FrequencyLimiter.tokensToAdd clock data now < 2 ^ 31) :
    (FrequencyLimiter.checkLimit clock lim now stamp1 identifier).2.allowed = true ∧
      (FrequencyLimiter.checkLimit clock lim now stamp1 identifier).2.remainingRequests =
        data.config.maxRequests ∧
      (FrequencyLimiter.checkLimit clock
        (FrequencyLimiter.checkLimit clock lim now stamp1 identifier).1 now stamp2
        identifier).2.allowed = false ∧
      ∀ stamps : List TimePoint,
        (FrequencyLimiter.checkAll clock identifier
          (FrequencyLimiter.checkLimit clock lim now stamp1 identifier).1
          (stamps.map (fun stamp => (now, stamp)))).map (fun r => r.allowed) =
            stamps.map (fun _ => false) := by
  obtain ⟨a1, a2, data1, f1, c1, l1⟩ := token_step clock lim identifier data now stamp1 hfind hs
  have hge : data.config.maxRequests ≤ Int.tdiv
      (clock.toMilliseconds (now - data.lastCleanup) * data.config.maxRequests)
      data.config.windowMs := by
    have hnn : 0 ≤ clock.toMilliseconds (now - data.lastCleanup) * data.config.maxRequests := by
      have : 0 ≤ clock.toMilliseconds (now - data.lastCleanup) := by linarith
      exact mul_nonneg this (by linarith)
    rw [Int.tdiv_eq_ediv hnn (le_of_lt hw)]
    apply Int.le_ediv_of_mul_le hw
    rw [mul_comm]
    exact mul_le_mul_of_nonneg_right hidle (by linarith)
  have hpos : 0 ≤ FrequencyLimiter.tokensToAdd clock data now :=
    le_trans (by linarith) hge
  have hwrap := wrapInt32_of_fits _ hpos hfit
  unfold FrequencyLimiter.tokensToAdd at hwrap
  rw [hwrap, min_eq_left hge] at a1 a2
  refine ⟨?_, a2, ?_, ?_⟩
  · rw [a1]
    exact decide_eq_true (by linarith)
  · obtain ⟨b1, _, _⟩ := token_step clock _ identifier data1 now stamp2 f1 (c1 ▸ hs)
    rw [b1, l1]
    have hz : clock.toMilliseconds (now - now) = 0 := by
      simp [Clock.toMilliseconds]
    rw [hz, Int.zero_mul, Int.zero_tdiv]
    have h0 : Json.wrapInt32 0 = 0 := by decide
    rw [h0, c1, min_eq_right (by linarith)]
    decide
  · intro stamps
    exact token_same_instant clock identifier now stamps _ data1 f1 (c1 ▸ hs)
      (c1 ▸ (by linarith)) l1

/-- Claim C29 as amended, for `m = 3` and a window of one second, configured at time 0 and
checked at the same instant five seconds later: twice, and three more times after the
first call. -/
theorem token_bucket_allows_first_call_only_witness :
    (FrequencyLimiter.checkLimit Demo.clock
        (FrequencyLimiter.setLimit {} 0 "rule"
          { maxRequests := 3, windowMs := 1000, strategy := .TOKEN_BUCKET })
        (Demo.atMs 5000) (Demo.atMs 5000) "rule").2.allowed = true ∧
      (FrequencyLimiter.checkLimit Demo.clock
        (FrequencyLimiter.setLimit {} 0 "rule"
          { maxRequests := 3, windowMs := 1000, strategy := .TOKEN_BUCKET })
        (Demo.atMs 5000) (Demo.atMs 5000) "rule").2.remainingRequests = 3 ∧
      (FrequencyLimiter.checkLimit Demo.clock
        (FrequencyLimiter.checkLimit Demo.clock
          (FrequencyLimiter.setLimit {} 0 "rule"
            { maxRequests := 3, windowMs := 1000, strategy := .TOKEN_BUCKET })
          (Demo.atMs 5000) (Demo.atMs 5000) "rule").1
        (Demo.atMs 5000) (Demo.atMs 5000) "rule").2.allowed = false ∧
      (FrequencyLimiter.checkAll Demo.clock "rule"
        (FrequencyLimiter.checkLimit Demo.clock
          (FrequencyLimiter.setLimit {} 0 "rule"
            { maxRequests := 3, windowMs := 1000, strategy := .TOKEN_BUCKET })
          (Demo.atMs 5000) (Demo.atMs 5000) "rule").1
        [(Demo.atMs 5000, Demo.atMs 5000), (Demo.atMs 5000, Demo.atMs 5000),
         (Demo.atMs 5000, Demo.atMs 5000)]).map (fun r => r.allowed) =
          [false, false, false] :=
  have h := token_bucket_allows_first_call_only Demo.clock
    (FrequencyLimiter.setLimit {} 0 "rule"
      { maxRequests := 3, windowMs := 1000, strategy := .TOKEN_BUCKET })
    "rule"
    { config := { maxRequests := 3, windowMs := 1000, strategy := .TOKEN_BUCKET },
      lastCleanup := 0 }
    (Demo.atMs 5000) (Demo.atMs 5000) (Demo.atMs 5000) (by decide) rfl (by decide)
    (by decide) (by decide) (by decide)
  ⟨h.1, h.2.1, h.2.2.1, h.2.2.2 [Demo.atMs 5000, Demo.atMs 5000, Demo.atMs 5000]⟩

/-! ### The arithmetic of `double` -/

/-- The number a finite `double` stands for, over the smaller of two exponents. -/
theorem double_toRat_scaled (s : Bool) (m : Nat) (e f : Int) :
    Double.toRat (.finite s m e) =
      (if s then -1 else 1) * ((m * 2 ^ (e - min e f).toNat : Nat) : ℚ) *
        (2 : ℚ) ^ (min e f) := by
  have h : (2 : ℚ) ^ e = ((2 ^ (e - min e f).toNat : Nat) : ℚ) * (2 : ℚ) ^ (min e f) := by
    have hnn : 0 ≤ e - min e f := by
      have := min_le_left e f
      omega
    rw [Nat.cast_pow, Nat.cast_ofNat, ← zpow_natCast, Int.toNat_of_nonneg hnn,
      ← zpow_add₀ (by norm_num : (2 : ℚ) ≠ 0)]
    congr 1
    omega
  show (if s then -1 else 1) * (m : ℚ) * (2 : ℚ) ^ e = _
  rw [h]
  push_cast
  ring

/-- The operator `<` on finite `double`s is the order of the numbers they stand for. -/
theorem double_lt_finite_iff (s t : Bool) (m n : Nat) (e f : Int) :
    Double.lt (.finite s m e) (.finite t n f) = true ↔
      Double.toRat (.finite s m e) < Double.toRat (.finite t n f) := by
  have hpos : (0 : ℚ) < (2 : ℚ) ^ (min e f) := zpow_pos (by norm_num) _
  have hlt : Double.lt (.finite s m e) (.finite t n f) =
      (match s, t with
      | false, false => decide (m * 2 ^ (e - min e f).toNat < n * 2 ^ (f - min e f).toNat)
      | false, true => false
      | true, false =>
          decide (0 < m * 2 ^ (e - min e f).toNat ∨ 0 < n * 2 ^ (f - min e f).toNat)
      | true, true =>
          decide (n * 2 ^ (f - min e f).toNat < m * 2 ^ (e - min e f).toNat)) := rfl
  rw [hlt, double_toRat_scaled s m e f, double_toRat_scaled t n f e, min_comm f e]
  generalize m * 2 ^ (e - min e f).toNat = a
  generalize n * 2 ^ (f - min e f).toNat = b
  have ha : (0 : ℚ) ≤ (a : ℚ) := Nat.cast_nonneg a
  have hb : (0 : ℚ) ≤ (b : ℚ) := Nat.cast_nonneg b
  cases s <;> cases t
  · simp only [Bool.false_eq_true, if_false, one_mul, decide_eq_true_eq]
    rw [mul_lt_mul_right hpos]
    exact Nat.cast_lt.symm
  · simp only [Bool.false_eq_true, if_false, if_true, one_mul, false_iff, not_lt]
    have h1 : (-1 : ℚ) * (b : ℚ) * (2 : ℚ) ^ (min e f) ≤ 0 := by
      have := mul_nonneg hb (le_of_lt hpos)
      linarith
    have h2 : 0 ≤ (a : ℚ) * (2 : ℚ) ^ (min e f) := mul_nonneg ha (le_of_lt hpos)
    linarith
  · simp only [Bool.false_eq_true, if_false, if_true, one_mul, decide_eq_true_eq]
    constructor
    · intro h
      have h1 : (-1 : ℚ) * (a : ℚ) * (2 : ℚ) ^ (min e f) = -((a : ℚ) * (2 : ℚ) ^ (min e f)) := by
        ring
      rw [h1]
      rcases h with h | h
      · have : (0 : ℚ) < (a : ℚ) := Nat.cast_pos.2 h
        have h2 := mul_pos this hpos
        have h3 := mul_nonneg hb (le_of_lt hpos)
        linarith
      · have : (0 : ℚ) < (b : ℚ) := Nat.cast_pos.2 h
        have h2 := mul_pos this hpos
        have h3 := mul_nonneg ha (le_of_lt hpos)
        linarith
    · intro h
      by_contra hc
      push_neg at hc
      obtain ⟨h1, h2⟩ := hc
      have ha0 : a = 0 := by omega
      have hb0 : b = 0 := by omega
      subst ha0
      subst hb0
      simp at h
  · simp only [if_true, decide_eq_true_eq]
    constructor
    · intro h
      have : (b : ℚ) < (a : ℚ) := Nat.cast_lt.2 h
      have h2 := mul_lt_mul_of_pos_right this hpos
      linarith
    · intro h
      have h2 : (b : ℚ) * (2 : ℚ) ^ (min e f) < (a : ℚ) * (2 : ℚ) ^ (min e f) := by linarith
      exact Nat.cast_lt.1 ((mul_lt_mul_right hpos).1 h2)

set_option maxRecDepth 8000 in
set_option exponentiation.threshold 2200 in
/-- The rounding of quotients to `double`s at known values: 1/10, 2/10, 3/10 and 1/3; the
conversion of 2^53 + 1 and 2^53 + 3, ties that go to the even mantissa, and of the greatest
64-bit integer; a subnormal result, a tie at the least subnormal number, which goes to
zero, and a quotient beyond the greatest `double`. -/
theorem double_round_values :
    Double.ofDecimal 1 1 = .finite false 7205759403792794 (-56) ∧
      Double.ofDecimal 2 1 = .finite false 7205759403792794 (-55) ∧
      Double.ofDecimal 3 1 = .finite false 5404319552844595 (-54) ∧
      Double.div (Double.ofNat 1) (Double.ofNat 3) = .finite false 6004799503160661 (-54) ∧
      Double.ofNat (2 ^ 53 + 1) = .finite false (2 ^ 52) 1 ∧
      Double.ofNat (2 ^ 53 + 3) = .finite false (2 ^ 52 + 2) 1 ∧
      Double.ofNat (2 ^ 64 - 1) = .finite false (2 ^ 53) 11 ∧
      Double.div (.finite false 3 (-1074)) (Double.ofNat 2) = .finite false 2 (-1074) ∧
      Double.div (.finite false 1 (-1074)) (Double.ofNat 2) = .finite false 0 (-1074) ∧
      Double.div (.finite false 1 1023) (.finite false 1 (-1)) = .infinity false ∧
      Double.mul (Double.div (Double.ofNat 1) (Double.ofNat 3)) (Double.ofNat 100) =
        .finite false 4691249611844266 (-47) :=
  ⟨rfl, rfl, rfl, rfl, rfl, rfl, rfl, rfl, rfl, rfl, rfl⟩

/-- A limit is greater than 0 in the comparison of `double`s iff it is a positive number
or plus infinity; "not a number" is not. -/
theorem double_gt_zero_iff (a : Double) :
    Double.gt a (Double.ofNat 0) = true ↔
      (∃ m e, a = .finite false m e ∧ 0 < m) ∨ a = .infinity false := by
  cases a with
  | nan =>
      have h : Double.gt .nan (Double.ofNat 0) = false := rfl
      rw [h]
      simp
  | infinity s =>
      have h : Double.gt (.infinity s) (Double.ofNat 0) = !s := rfl
      rw [h]
      cases s <;> simp
  | finite s m e =>
      cases s
      · have h : Double.gt (.finite false m e) (Double.ofNat 0) =
            decide (0 * 2 ^ ((0 : Int) - min 0 e).toNat < m * 2 ^ (e - min 0 e).toNat) := rfl
        rw [h]
        simp
      · have h : Double.gt (.finite true m e) (Double.ofNat 0) = false := rfl
        rw [h]
        simp


/-! ### Claim C30 -/

/-- Claim C30, as stated, fails on the average execution time and on the error rate.
On `Demo.slowTask`, with the limit `maxExecutionTimeMs = 5` and two executions of 11 ms in
total, the average 5.5 ms exceeds the limit, but `checkLimits` returns true: the code
compares the integer quotient `11 / 2 = 5`. On `Demo.flakyTask`, with the limit
`maxErrorRate = 0.3` and 3 errors in 10 executions, the limit held in the `double` is the
number 5404319552844595 / 2^54, which is less than 3 / 10, so the error rate 3 / 10 exceeds
it, but `checkLimits` returns true: the code compares the quotient rounded to a `double`,
which is the same 5404319552844595 / 2^54. -/
theorem check_limits_counterexample :
    ((mapFind "task" Demo.slowTask.monitoringData_).map
        (fun d => (d.usage.executionCount, d.usage.totalExecutionTimeMs,
          d.limits.maxExecutionTimeMs)) = some (2, 11, 5) ∧
      Demo.slowTask.checkLimits "task" = true ∧
      ResourceMonitor.exceededSpec { maxExecutionTimeMs := 5 }
        { executionCount := 2, totalExecutionTimeMs := 11, lastUpdate := 2, startTime := 0 }) ∧
    ((mapFind "task" Demo.flakyTask.monitoringData_).map
        (fun d => (d.usage.executionCount, d.usage.errorCount, d.limits.maxErrorRate)) =
          some (10, 3, Double.finite false 5404319552844595 (-54)) ∧
      Double.div (Double.ofNat 3) (Double.ofNat 10) =
        Double.finite false 5404319552844595 (-54) ∧
      Demo.flakyTask.checkLimits "task" = true ∧
      ResourceMonitor.exceededSpec
        { maxErrorRate := Double.finite false 5404319552844595 (-54) }
        { executionCount := 10, errorCount := 3, lastUpdate := 1, startTime := 0 }) := by
  refine ⟨⟨by decide, by decide, Or.inr (Or.inr (Or.inr (Or.inl ⟨by decide, by decide, ?_⟩)))⟩,
    by decide, by decide, by decide,
    Or.inr (Or.inr (Or.inr (Or.inr ⟨by decide, by decide, ?_⟩)))⟩
  · norm_num
  · simp only [Double.belowRat, Double.toRat]
    norm_num

/-- Claim C30 as amended. For every monitored identifier with limits `L` and counters `U`,
`checkLimits` returns false iff at least one positive limit is exceeded: memory >
`L.maxMemoryUsage`, or cpu_ms > `L.maxCpuTimeMs`, or executions > `L.maxExecutionCount`, or
(executions > 0 and the error rate as the code computes it in `double` arithmetic, the
quotient of errors and executions, each converted to `double`, rounded to the nearest
`double`, > `L.maxErrorRate` in the comparison of `double`s), or (executions > 0 and the
average execution time rounded down to whole milliseconds, the integer quotient
total_exec_ms / executions, > `L.maxExecutionTimeMs`); a limit that is 0 (for the error
rate, not greater than 0 in the comparison of `double`s) is never considered exceeded. -/
theorem check_limits_false_iff (m : ResourceMonitor) (identifier : String)
    (data : ResourceMonitor.MonitoringData)
    (hfind : mapFind identifier m.monitoringData_ = some data) :
    m.checkLimits identifier = false ↔
      ((0 < data.limits.maxMemoryUsage ∧
          data.usage.memoryUsage > data.limits.maxMemoryUsage) ∨
        (0 < data.limits.maxCpuTimeMs ∧ data.usage.cpuTimeMs > data.limits.maxCpuTimeMs) ∨
        (0 < data.limits.maxExecutionCount ∧
          data.usage.executionCount > data.limits.maxExecutionCount) ∨
        (Double.lt (Double.ofNat 0) data.limits.maxErrorRate = true ∧
          data.usage.executionCount > 0 ∧
          Double.lt data.limits.maxErrorRate
            (Double.div (Double.ofNat data.usage.errorCount)
              (Double.ofNat data.usage.executionCount)) = true) ∨
        (0 < data.limits.maxExecutionTimeMs ∧ data.usage.executionCount > 0 ∧
          data.usage.totalExecutionTimeMs / data.usage.executionCount >
            data.limits.maxExecutionTimeMs)) := by
  unfold ResourceMonitor.checkLimits
  rw [hfind]
  simp only [ResourceMonitor.checkViolations, Double.gt]
  by_cases h1 : data.limits.maxMemoryUsage > 0 ∧
      data.usage.memoryUsage > data.limits.maxMemoryUsage
  · rw [if_pos h1]
    exact ⟨fun _ => Or.inl h1, fun _ => by decide⟩
  rw [if_neg h1]
  by_cases h2 : data.limits.maxCpuTimeMs > 0 ∧
      data.usage.cpuTimeMs > data.limits.maxCpuTimeMs
  · rw [if_pos h2]
    exact ⟨fun _ => Or.inr (Or.inl h2), fun _ => by decide⟩
  rw [if_neg h2]
  by_cases h3 : data.limits.maxExecutionCount > 0 ∧
      data.usage.executionCount > data.limits.maxExecutionCount
  · rw [if_pos h3]
    exact ⟨fun _ => Or.inr (Or.inr (Or.inl h3)), fun _ => by decide⟩
  rw [if_neg h3]
  by_cases h4 : Double.lt (Double.ofNat 0) data.limits.maxErrorRate = true ∧
      data.usage.executionCount > 0 ∧
      Double.lt data.limits.maxErrorRate
        (Double.div (Double.ofNat data.usage.errorCount)
          (Double.ofNat data.usage.executionCount)) = true
  · rw [if_pos h4]
    exact ⟨fun _ => Or.inr (Or.inr (Or.inr (Or.inl h4))), fun _ => by decide⟩
  rw [if_neg h4]
  by_cases h5 : data.limits.maxExecutionTimeMs > 0 ∧ data.usage.executionCount > 0 ∧
      data.usage.totalExecutionTimeMs / data.usage.executionCount >
        data.limits.maxExecutionTimeMs
  · rw [if_pos h5]
    exact ⟨fun _ => Or.inr (Or.inr (Or.inr (Or.inr h5))), fun _ => by decide⟩
  rw [if_neg h5]
  constructor
  · intro h
    exact absurd h (by decide)
  · rintro (h | h | h | h | h)
    · exact absurd h h1
    · exact absurd h h2
    · exact absurd h h3
    · exact absurd h h4
    · exact absurd h h5

/-- Claim C30 as amended, on `Demo.slowTask` (within limits: the integer average 5 does not
exceed 5), on the same task after a third execution of 10 ms (integer average 7), on
`Demo.flakyTask` (within limits: the rounded error rate of 3 in 10 is the limit 0.3 itself)
and on the same task after a fourth failure (4 errors in 11 executions). -/
theorem check_limits_false_iff_witness :
    Demo.slowTask.checkLimits "task" = true ∧
      (Demo.slowTask.recordUsage 3 "task" 0 10 true).checkLimits "task" = false ∧
      ((Demo.slowTask.recordUsage 3 "task" 0 10 true).checkLimits "task" = false ↔
        ((0 < 0 ∧ 0 > 0) ∨ (0 < 0 ∧ 21 > 0) ∨ (0 < 0 ∧ 3 > 0) ∨
          (Double.lt (Double.ofNat 0) Double.zero = true ∧ 3 > 0 ∧
            Double.lt Double.zero (Double.div (Double.ofNat 0) (Double.ofNat 3)) = true) ∨
          (0 < 5 ∧ 3 > 0 ∧ 21 / 3 > 5))) ∧
      Demo.flakyTask.checkLimits "task" = true ∧
      (Demo.flakyTask.recordUsage 2 "task" 0 1 false).checkLimits "task" = false ∧
      ((Demo.flakyTask.recordUsage 2 "task" 0 1 false).checkLimits "task" = false ↔
        ((0 < 0 ∧ 0 > 0) ∨ (0 < 0 ∧ 11 > 0) ∨ (0 < 0 ∧ 11 > 0) ∨
          (Double.lt (Double.ofNat 0) (Double.ofDecimal 3 1) = true ∧ 11 > 0 ∧
            Double.lt (Double.ofDecimal 3 1)
              (Double.div (Double.ofNat 4) (Double.ofNat 11)) = true) ∨
          (0 < 0 ∧ 11 > 0 ∧ 11 / 11 > 0))) :=
  ⟨by decide, by decide,
    check_limits_false_iff (Demo.slowTask.recordUsage 3 "task" 0 10 true) "task"
      { usage := { memoryUsage := 0, cpuTimeMs := 21, executionCount := 3, errorCount := 0,
                   totalExecutionTimeMs := 21, lastUpdate := 3, startTime := 0 },
        limits := { maxExecutionTimeMs := 5 }, createdTime := 0 }
      (by decide),
    by decide, by decide,
    check_limits_false_iff (Demo.flakyTask.recordUsage 2 "task" 0 1 false) "task"
      { usage := { memoryUsage := 0, cpuTimeMs := 11, executionCount := 11, errorCount := 4,
                   totalExecutionTimeMs := 11, lastUpdate := 2, startTime := 0 },
        limits := { maxErrorRate := Double.ofDecimal 3 1 }, createdTime := 0 }
      (by decide)⟩

/-! ### Loading a configuration: what a call of `Engine::load` leaves -/

namespace Engine

theorem parseRule_fresh (j : Json) (r : Rule) (h : parseRule j = .ok r) :
    r.last_fire = 0 ∧ r.disabled = false := by
  unfold parseRule at h
  simp only [bind, Except.bind, pure, Except.pure] at h
  repeat' split at h
  all_goals first
    | (cases h; exact ⟨rfl, rfl⟩)
    | cases h

/-- What the loop of `load` has pushed: the rules given at its start and then, in order, the
rules parsed from the entries before the first entry that does not parse. -/
theorem loadRules_spec (js : List Json) :
    ∀ acc : List Rule, ∃ pre rs,
      (loadRules js acc).1 = acc ++ rs ∧
      List.Forall₂ (fun j r => parseRule j = .ok r) pre rs ∧
      (((loadRules js acc).2 = none ∧ js = pre) ∨
        ∃ bad post ex, (loadRules js acc).2 = some ex ∧ js = pre ++ bad :: post ∧
          parseRule bad = .error ex) := by
  induction js with
  | nil =>
      intro acc
      exact ⟨[], [], by simp [loadRules], List.Forall₂.nil, Or.inl ⟨rfl, rfl⟩⟩
  | cons j rest ih =>
      intro acc
      cases hp : parseRule j with
      | error ex =>
          refine ⟨[], [], ?_, List.Forall₂.nil, Or.inr ⟨j, rest, ex, ?_, rfl, hp⟩⟩
          · simp [loadRules, hp]
          · simp [loadRules, hp]
      | ok rule =>
          obtain ⟨pre, rs, h1, h2, h3⟩ := ih (acc ++ [rule])
          have e : loadRules (j :: rest) acc = loadRules rest (acc ++ [rule]) := by
            simp [loadRules, hp]
          refine ⟨j :: pre, rule :: rs, ?_, List.Forall₂.cons hp h2, ?_⟩
          · rw [e, h1]
            simp
          · rw [e]
            rcases h3 with ⟨h3, h4⟩ | ⟨bad, post, ex, h3, h4, h5⟩
            · exact Or.inl ⟨h3, by rw [h4]⟩
            · exact Or.inr ⟨bad, post, ex, h3, by rw [h4]; rfl, h5⟩

theorem parsedRules_fresh (cfg : Json) :
    ∀ r ∈ parsedRules cfg, r.last_fire = 0 ∧ r.disabled = false := by
  unfold parsedRules
  split
  · rename_i rules _
    obtain ⟨pre, rs, h1, h2, -⟩ := loadRules_spec rules []
    rw [h1]
    intro r hr
    simp only [List.nil_append] at hr
    clear h1
    induction h2 with
    | nil => cases hr
    | cons hjr _ ih =>
        rcases List.mem_cons.1 hr with h | h
        · rw [h]
          exact parseRule_fresh _ _ hjr
        · exact ih h
  · simp

/-- The rule list after `load`: the parsed rules, sorted when no entry failed. -/
theorem load_rules_cases (e0 : Engine) (cfg : Json) :
    ((e0.load cfg).2 = none ∧
        (e0.load cfg).1.rules_ = PriorityManager.sortRules (parsedRules cfg)) ∨
      ((∃ ex, (e0.load cfg).2 = some ex) ∧ (e0.load cfg).1.rules_ = parsedRules cfg) := by
  unfold load parsedRules
  split
  · rename_i rules hl
    rcases hlr : loadRules rules [] with ⟨parsed, ex⟩
    cases ex with
    | none => exact Or.inl ⟨rfl, rfl⟩
    | some ex => exact Or.inr ⟨⟨ex, rfl⟩, rfl⟩
  · exact Or.inl ⟨rfl, rfl⟩

theorem load_frame (e0 : Engine) (cfg : Json) :
    (e0.load cfg).1.group_manager_ = {} ∧ (e0.load cfg).1.actions_ = e0.actions_ := by
  unfold load
  split
  · split <;> exact ⟨rfl, rfl⟩
  · exact ⟨rfl, rfl⟩

theorem load_independent (e e1 : Engine) (cfg : Json) :
    (e.load cfg).1.rules_ = (e1.load cfg).1.rules_ ∧ (e.load cfg).2 = (e1.load cfg).2 := by
  unfold load
  split
  · split <;> exact ⟨rfl, rfl⟩
  · exact ⟨rfl, rfl⟩

end Engine

/-- Claim C37, counterexample. The engine of scenario S4 with the group `safety` disabled
holds the rules `g1` and `g2`. Loading a configuration whose second rule has a number as
`id` raises the type error of the library; after the failed call the rule list holds the
one rule parsed before the failing entry and the group `safety` is enabled: the state
before the call is not retained. -/
theorem failed_load_counterexample :
    (Demo.safetyOffEngine.load Demo.badIdCfg).2 = some .type_error_302 ∧
      Demo.safetyOffEngine.rules_.map (fun r => r.id) = ["g1", "g2"] ∧
      (Demo.safetyOffEngine.load Demo.badIdCfg).1.rules_.map (fun r => r.id) = ["z"] ∧
      Demo.safetyOffEngine.group_manager_.isGroupEnabled "safety" = false ∧
      (Demo.safetyOffEngine.load Demo.badIdCfg).1.group_manager_.isGroupEnabled "safety" =
        true :=
  ⟨rfl, rfl, rfl, rfl, rfl⟩

/-- Claim C37 as amended. If `Engine::load(cfg)` is left by an exception raised while
parsing, the state before the call is not retained: the member `rules` of `cfg` is an
array, the exception is the one raised by the first entry `bad` that does not parse, the
rule list after the call holds the rules parsed from the entries before `bad`, in the
order of the configuration, the group manager is a new one, so every group is enabled, and
the registered actions are as before. -/
theorem failed_load_keeps_parsed_prefix (e : Engine) (cfg : Json) (ex : Raised)
    (h : (e.load cfg).2 = some ex) :
    (∃ rules pre bad post, Json.lookup "rules" cfg.fields = some (.arr rules) ∧
        rules = pre ++ bad :: post ∧ Engine.parseRule bad = .error ex ∧
        List.Forall₂ (fun j r => Engine.parseRule j = .ok r) pre (e.load cfg).1.rules_) ∧
      (e.load cfg).1.group_manager_ = {} ∧
      (∀ g, (e.load cfg).1.group_manager_.isGroupEnabled g = true) ∧
      (e.load cfg).1.actions_ = e.actions_ := by
  refine ⟨?_, (Engine.load_frame e cfg).1, Engine.load_group_manager e cfg,
    (Engine.load_frame e cfg).2⟩
  unfold Engine.load at h ⊢
  split at h
  · rename_i rules hl
    obtain ⟨pre, rs, h1, h2, h3⟩ := Engine.loadRules_spec rules []
    simp only [hl]
    rcases hlr : Engine.loadRules rules [] with ⟨parsed, raised⟩
    rw [hlr] at h h1 h3
    simp only [List.nil_append] at h1
    rcases h3 with ⟨h3, _⟩ | ⟨bad, post, ex1, h3, h4, h5⟩
    · simp only at h3
      subst h3
      simp at h
    · simp only at h3
      subst h3
      simp only [Option.some.injEq] at h
      subst h
      refine ⟨rules, pre, bad, post, rfl, h4, h5, ?_⟩
      rw [show parsed = rs from h1]
      exact h2
  · simp at h

theorem failed_load_keeps_parsed_prefix_witness :
    (∃ rules pre bad post,
        Json.lookup "rules" Demo.badIdCfg.fields = some (.arr rules) ∧
        rules = pre ++ bad :: post ∧ Engine.parseRule bad = .error .type_error_302 ∧
        List.Forall₂ (fun j r => Engine.parseRule j = .ok r) pre
          (Demo.safetyOffEngine.load Demo.badIdCfg).1.rules_) ∧
      (Demo.safetyOffEngine.load Demo.badIdCfg).1.group_manager_ = {} ∧
      (∀ g, (Demo.safetyOffEngine.load Demo.badIdCfg).1.group_manager_.isGroupEnabled g =
        true) ∧
      (Demo.safetyOffEngine.load Demo.badIdCfg).1.actions_ = Demo.safetyOffEngine.actions_ :=
  failed_load_keeps_parsed_prefix Demo.safetyOffEngine Demo.badIdCfg .type_error_302 rfl

/-- Claim C38. The state that `load(cfg)` leaves is a function of `cfg` alone: two engines
in any states get the same rule list, in the same order, the same group manager and the same
exception, if any; every rule has `last_fire = 0` and `disabled = false` and every group is
enabled; and a second `load(cfg)` gives the rule list of the first. -/
theorem load_depends_on_cfg_alone (e e1 : Engine) (cfg : Json) :
    (e.load cfg).1.rules_ = (e1.load cfg).1.rules_ ∧
      (e.load cfg).1.group_manager_ = (e1.load cfg).1.group_manager_ ∧
      (e.load cfg).2 = (e1.load cfg).2 ∧
      (∀ r ∈ (e.load cfg).1.rules_, r.last_fire = 0 ∧ r.disabled = false) ∧
      (∀ g, (e.load cfg).1.group_manager_.isGroupEnabled g = true) ∧
      ((e.load cfg).1.load cfg).1.rules_ = (e.load cfg).1.rules_ ∧
      (∀ r ∈ ((e.load cfg).1.load cfg).1.rules_, r.last_fire = 0) := by
  have hfresh : ∀ e2 : Engine, ∀ r ∈ (e2.load cfg).1.rules_,
      r.last_fire = 0 ∧ r.disabled = false := by
    intro e2 r hr
    rcases Engine.load_rules_cases e2 cfg with ⟨_, h⟩ | ⟨_, h⟩
    · rw [h] at hr
      exact Engine.parsedRules_fresh cfg r ((PriorityManager.sortRules_perm _).mem_iff.1 hr)
    · rw [h] at hr
      exact Engine.parsedRules_fresh cfg r hr
  refine ⟨(Engine.load_independent e e1 cfg).1, ?_, (Engine.load_independent e e1 cfg).2,
    hfresh e, Engine.load_group_manager e cfg,
    (Engine.load_independent (e.load cfg).1 e cfg).1,
    fun r hr => (hfresh (e.load cfg).1 r hr).1⟩
  rw [(Engine.load_frame e cfg).1, (Engine.load_frame e1 cfg).1]

/-! ### The window strategies of the limiter, call by call -/

theorem window_step (clock : Clock) (lim : FrequencyLimiter) (identifier : String)
    (data : FrequencyLimiter.IdentifierData) (now stamp : TimePoint)
    (hfind : mapFind identifier lim.identifierData_ = some data)
    (hs : data.config.strategy ≠ .TOKEN_BUCKET) :
    (FrequencyLimiter.checkLimit clock lim now stamp identifier).2.allowed =
        decide (((data.requests.filter (fun r =>
          decide (now - clock.milliseconds data.config.windowMs ≤ r.timestamp))).length : Int)
            < data.config.maxRequests) ∧
      ∃ data1, mapFind identifier
          (FrequencyLimiter.checkLimit clock lim now stamp identifier).1.identifierData_ =
            some data1 ∧
        data1.config = data.config ∧
        data1.requests =
          data.requests.filter (fun r =>
              decide (now - clock.milliseconds data.config.windowMs ≤ r.timestamp)) ++
            (if (FrequencyLimiter.checkLimit clock lim now stamp identifier).2.allowed then
              [⟨stamp, identifier⟩] else []) := by
  have hclean : (FrequencyLimiter.cleanupExpiredRequests clock data now).requests =
      data.requests.filter (fun r =>
        decide (now - clock.milliseconds data.config.windowMs ≤ r.timestamp)) := by
    simp only [FrequencyLimiter.cleanupExpiredRequests]
    apply List.filter_congr
    intro r _
    exact not_lt_decide _ _
  have hcount : FrequencyLimiter.currentRequests clock
      (FrequencyLimiter.cleanupExpiredRequests clock data now) now =
      ((data.requests.filter (fun r =>
        decide (now - clock.milliseconds data.config.windowMs ≤ r.timestamp))).length : Int) := by
    rw [← hclean]
    simp only [FrequencyLimiter.currentRequests, FrequencyLimiter.cleanupExpiredRequests,
      List.filter_filter]
    congr 2
    apply List.filter_congr
    intro r _
    rw [not_lt_decide]
    by_cases h : now - clock.milliseconds data.config.windowMs ≤ r.timestamp
    · simp [h]
    · simp [h]
  have hsliding : (FrequencyLimiter.checkSlidingWindow clock
      (FrequencyLimiter.cleanupExpiredRequests clock data now) now).allowed =
      decide (FrequencyLimiter.currentRequests clock
        (FrequencyLimiter.cleanupExpiredRequests clock data now) now <
          data.config.maxRequests) := by
    unfold FrequencyLimiter.checkSlidingWindow
    split <;> rfl
  have hfixed : (FrequencyLimiter.checkFixedWindow clock
      (FrequencyLimiter.cleanupExpiredRequests clock data now) now).allowed =
      decide (FrequencyLimiter.currentRequests clock
        (FrequencyLimiter.cleanupExpiredRequests clock data now) now <
          data.config.maxRequests) := rfl
  cases hst : data.config.strategy with
  | TOKEN_BUCKET => exact absurd hst hs
  | SLIDING_WINDOW =>
      have hcfg : (FrequencyLimiter.cleanupExpiredRequests clock data now).config.strategy =
          .SLIDING_WINDOW := hst
      constructor
      · simp only [FrequencyLimiter.checkLimit, hfind, hcfg, hsliding, hcount]
      · simp only [FrequencyLimiter.checkLimit, hfind, hcfg, hsliding, hcount,
          mapFind_mapAssign_same]
        refine ⟨_, rfl, ?_, ?_⟩
        · split <;> rfl
        · split
          · simp [hclean]
          · simp [hclean]
  | FIXED_WINDOW =>
      have hcfg : (FrequencyLimiter.cleanupExpiredRequests clock data now).config.strategy =
          .FIXED_WINDOW := hst
      constructor
      · simp only [FrequencyLimiter.checkLimit, hfind, hcfg, hfixed, hcount]
      · simp only [FrequencyLimiter.checkLimit, hfind, hcfg, hfixed, hcount,
          mapFind_mapAssign_same]
        refine ⟨_, rfl, ?_, ?_⟩
        · split <;> rfl
        · split
          · simp [hclean]
          · simp [hclean]

/-- What every call of `checkLimit` for a configured identifier does to `stats_`. -/
theorem checkLimit_stats (clock : Clock) (lim : FrequencyLimiter) (identifier : String)
    (data : FrequencyLimiter.IdentifierData) (now stamp : TimePoint)
    (hfind : mapFind identifier lim.identifierData_ = some data) :
    (FrequencyLimiter.checkLimit clock lim now stamp identifier).1.stats_.totalRequests =
        lim.stats_.totalRequests + 1 ∧
      (FrequencyLimiter.checkLimit clock lim now stamp identifier).1.stats_.blockedRequests =
        if (FrequencyLimiter.checkLimit clock lim now stamp identifier).2.allowed then
          lim.stats_.blockedRequests
        else lim.stats_.blockedRequests + 1 := by
  simp [FrequencyLimiter.checkLimit, hfind, FrequencyLimiter.updateStats]

/-- A series of calls that all fall into one window, on an identifier with room for them:
every call is allowed and every call adds its record. -/
theorem window_run (clock : Clock) (identifier : String)
    (calls : List (TimePoint × TimePoint)) :
    ∀ (lim : FrequencyLimiter) (data : FrequencyLimiter.IdentifierData),
      mapFind identifier lim.identifierData_ = some data →
      data.config.strategy ≠ .TOKEN_BUCKET →
      (∀ r ∈ data.requests, ∀ c ∈ calls,
        c.1 - clock.milliseconds data.config.windowMs ≤ r.timestamp) →
      (∀ c ∈ calls, ∀ d ∈ calls, c.1 - clock.milliseconds data.config.windowMs ≤ d.2) →
      (data.requests.length : Int) + calls.length ≤ data.config.maxRequests →
      (∀ r ∈ (FrequencyLimiter.getStatusAll clock identifier lim calls).2, r.allowed = true) ∧
        ∃ data1, mapFind identifier
            (FrequencyLimiter.getStatusAll clock identifier lim calls).1.identifierData_ =
              some data1 ∧
          data1.config = data.config ∧
          data1.requests =
            data.requests ++ calls.map (fun c => ⟨c.2, identifier⟩) := by
  induction calls with
  | nil =>
      intro lim data hfind _ _ _ _
      exact ⟨by simp [FrequencyLimiter.getStatusAll],
        data, by simpa [FrequencyLimiter.getStatusAll] using hfind, rfl, by simp⟩
  | cons c rest ih =>
      intro lim data hfind hs hold hnew hroom
      obtain ⟨now, stamp⟩ := c
      obtain ⟨hall, data1, hf1, hc1, hr1⟩ := window_step clock lim identifier data now stamp hfind hs
      have hkeep : data.requests.filter (fun r =>
          decide (now - clock.milliseconds data.config.windowMs ≤ r.timestamp)) =
          data.requests := by
        apply List.filter_eq_self.2
        intro r hr
        exact decide_eq_true (hold r hr (now, stamp) (List.mem_cons_self _ _))
      rw [hkeep] at hall hr1
      have hlen : (data.requests.length : Int) < data.config.maxRequests := by
        simp only [List.length_cons, Nat.cast_add, Nat.cast_one] at hroom
        omega
      have hallow : (FrequencyLimiter.checkLimit clock lim now stamp identifier).2.allowed =
          true := by
        rw [hall]
        exact decide_eq_true hlen
      rw [hallow] at hr1
      simp only [if_true] at hr1
      have hstep := ih (FrequencyLimiter.checkLimit clock lim now stamp identifier).1 data1 hf1
        (by rw [hc1]; exact hs)
        (by
          intro r hr d hd
          rw [hc1]
          rw [hr1] at hr
          rcases List.mem_append.1 hr with h | h
          · exact hold r h d (List.mem_cons_of_mem _ hd)
          · simp only [List.mem_singleton] at h
            rw [h]
            exact hnew d (List.mem_cons_of_mem _ hd) (now, stamp) (List.mem_cons_self _ _))
        (by
          intro a ha d hd
          rw [hc1]
          exact hnew a (List.mem_cons_of_mem _ ha) d (List.mem_cons_of_mem _ hd))
        (by
          rw [hc1, hr1]
          simp only [List.length_append, List.length_cons, List.length_nil, Nat.cast_add,
            Nat.cast_one] at hroom ⊢
          omega)
      obtain ⟨hrest, data2, hf2, hc2, hr2⟩ := hstep
      refine ⟨?_, data2, ?_, by rw [hc2, hc1], ?_⟩
      · intro r hr
        simp only [FrequencyLimiter.getStatusAll, FrequencyLimiter.getStatus,
          List.mem_cons] at hr
        rcases hr with h | h
        · rw [h]
          exact hallow
        · exact hrest r h
      · simpa [FrequencyLimiter.getStatusAll, FrequencyLimiter.getStatus] using hf2
      · rw [hr2, hr1]
        simp

/-- The record that a call of `checkLimit` for a configured identifier adds, under every
strategy: the requests left by the cleanup, and the new record when the call is allowed. -/
theorem checkLimit_requests (clock : Clock) (lim : FrequencyLimiter) (identifier : String)
    (data : FrequencyLimiter.IdentifierData) (now stamp : TimePoint)
    (hfind : mapFind identifier lim.identifierData_ = some data) :
    ∃ data1, mapFind identifier
        (FrequencyLimiter.checkLimit clock lim now stamp identifier).1.identifierData_ =
          some data1 ∧
      data1.requests =
        (FrequencyLimiter.cleanupExpiredRequests clock data now).requests ++
          (if (FrequencyLimiter.checkLimit clock lim now stamp identifier).2.allowed then
            [⟨stamp, identifier⟩] else []) := by
  simp only [FrequencyLimiter.checkLimit, hfind, mapFind_mapAssign_same]
  refine ⟨_, rfl, ?_⟩
  cases hst : (FrequencyLimiter.cleanupExpiredRequests clock data now).config.strategy <;>
    simp only [FrequencyLimiter.checkTokenBucket] <;> split <;> simp

/-- Claim C39. `getStatus(id)` is `checkLimit(id)`: the same result and the same limiter
afterwards. For a configured identifier the call adds a request record exactly when its
result is allowed, and it adds one to `totalRequests`, and one to `blockedRequests` when
the result is denied. So on an identifier newly configured with `maxRequests = m` under one
of the two window strategies, `m` calls of `getStatus` that fall into one window are all
allowed and use up the quota: a call of `tryAcquire` in the same window is denied. -/
theorem getStatus_consumes_quota (clock : Clock) (lim : FrequencyLimiter)
    (identifier : String) (now stamp : TimePoint) :
    FrequencyLimiter.getStatus clock lim now stamp identifier =
        FrequencyLimiter.checkLimit clock lim now stamp identifier ∧
      (∀ data, mapFind identifier lim.identifierData_ = some data →
        (∃ data1, mapFind identifier
            (FrequencyLimiter.getStatus clock lim now stamp identifier).1.identifierData_ =
              some data1 ∧
          data1.requests =
            (FrequencyLimiter.cleanupExpiredRequests clock data now).requests ++
              (if (FrequencyLimiter.getStatus clock lim now stamp identifier).2.allowed then
                [⟨stamp, identifier⟩] else [])) ∧
        (FrequencyLimiter.getStatus clock lim now stamp identifier).1.stats_.totalRequests =
          lim.stats_.totalRequests + 1 ∧
        (FrequencyLimiter.getStatus clock lim now stamp identifier).1.stats_.blockedRequests =
          if (FrequencyLimiter.getStatus clock lim now stamp identifier).2.allowed then
            lim.stats_.blockedRequests
          else lim.stats_.blockedRequests + 1) ∧
      (∀ (m w : Int) (strategy : FrequencyLimiter.Strategy) (t0 : TimePoint)
          (calls : List (TimePoint × TimePoint)) (now1 stamp1 : TimePoint),
        mapFind identifier lim.identifierData_ = none →
        strategy ≠ .TOKEN_BUCKET →
        (calls.length : Int) = m →
        (∀ c ∈ calls ++ [(now1, stamp1)], ∀ d ∈ calls,
          c.1 - clock.milliseconds w ≤ d.2) →
        (∀ r ∈ (FrequencyLimiter.getStatusAll clock identifier
            (lim.setLimit t0 identifier
              { maxRequests := m, windowMs := w, strategy := strategy }) calls).2,
          r.allowed = true) ∧
        (FrequencyLimiter.tryAcquire clock
          (FrequencyLimiter.getStatusAll clock identifier
            (lim.setLimit t0 identifier
              { maxRequests := m, windowMs := w, strategy := strategy }) calls).1
          now1 stamp1 identifier).2 = false) := by
  refine ⟨rfl, ?_, ?_⟩
  · intro data hfind
    exact ⟨checkLimit_requests clock lim identifier data now stamp hfind,
      checkLimit_stats clock lim identifier data now stamp hfind⟩
  · intro m w strategy t0 calls now1 stamp1 hfresh hs hlen hwin
    have hfind : mapFind identifier
        (lim.setLimit t0 identifier
          { maxRequests := m, windowMs := w, strategy := strategy }).identifierData_ =
        some { config := { maxRequests := m, windowMs := w, strategy := strategy },
               requests := [], lastCleanup := t0 } := by
      simp only [FrequencyLimiter.setLimit, hfresh, mapFind_mapAssign_same]
    obtain ⟨hall, data1, hf1, hc1, hr1⟩ := window_run clock identifier calls _ _ hfind hs
      (by intro r hr; cases hr)
      (fun c hc d hd => hwin c (List.mem_append_left _ hc) d hd)
      (by simp only [List.length_nil, Nat.cast_zero, zero_add]; omega)
    refine ⟨hall, ?_⟩
    have hs1 : data1.config.strategy ≠ .TOKEN_BUCKET := by rw [hc1]; exact hs
    obtain ⟨hallowed, -⟩ := window_step clock _ identifier data1 now1 stamp1 hf1 hs1
    unfold FrequencyLimiter.tryAcquire
    rw [hallowed]
    apply decide_eq_false
    have hkeep : data1.requests.filter (fun r =>
        decide (now1 - clock.milliseconds data1.config.windowMs ≤ r.timestamp)) =
        data1.requests := by
      apply List.filter_eq_self.2
      intro r hr
      rw [hr1] at hr
      simp only [List.nil_append, List.mem_map] at hr
      obtain ⟨d, hd, hrd⟩ := hr
      rw [hc1, ← hrd]
      exact decide_eq_true
        (hwin (now1, stamp1) (List.mem_append_right _ (List.mem_singleton_self _)) d hd)
    rw [hkeep, hr1, hc1]
    simp only [List.nil_append, List.length_map]
    omega

theorem getStatus_consumes_quota_witness :
    (∀ r ∈ (FrequencyLimiter.getStatusAll Demo.clock "task"
        (({} : FrequencyLimiter).setLimit 0 "task"
          { maxRequests := 3, windowMs := 1000, strategy := .FIXED_WINDOW })
        Demo.threeCalls).2,
      r.allowed = true) ∧
    (FrequencyLimiter.tryAcquire Demo.clock
      (FrequencyLimiter.getStatusAll Demo.clock "task"
        (({} : FrequencyLimiter).setLimit 0 "task"
          { maxRequests := 3, windowMs := 1000, strategy := .FIXED_WINDOW })
        Demo.threeCalls).1
      (Demo.atMs 1300) (Demo.atMs 1300) "task").2 = false :=
  (getStatus_consumes_quota Demo.clock {} "task" 0 0).2.2 3 1000 .FIXED_WINDOW 0
    Demo.threeCalls (Demo.atMs 1300) (Demo.atMs 1300) rfl (by decide) rfl (by decide)

/-! ### The worker of the timer manager -/

namespace TimerManager

/-- The calls of `executeTimer` of a pass: one for every due timer, in the order of
`timers_`, whatever the callbacks do. -/
theorem executeDue_executed {C W : Type} (call : C → W → W × Bool) (clock : Clock)
    (now : TimePoint) (readings : Nat → TimePoint × TimePoint)
    (timers : List (TimerInfo C)) :
    ∀ (count : Nat) (world : W),
      (executeDue call clock now readings count timers world).2.2 =
        (timers.filter (isDue now)).map (fun timer => timer.id) := by
  induction timers with
  | nil => intro count world; rfl
  | cons timer rest ih =>
      intro count world
      cases h : isDue now timer
      · simp [executeDue, h, ih]
      · simp [executeDue, h, ih]

theorem workerPass_executed {C W : Type} (call : C → W → W × Bool) (clock : Clock)
    (m : TimerManager C) (world : W) (now : TimePoint)
    (readings : Nat → TimePoint × TimePoint) :
    (workerPass call clock m world now readings).executed =
      (m.timers_.filter (isDue now)).map (fun timer => timer.id) :=
  executeDue_executed call clock now readings m.timers_ 0 world

end TimerManager

/-- Claim C32, counterexample. Timer `a` is created first and is due at 200 ms; timer `b`
is created second and is due at 100 ms. In the pass at 300 ms both are pending and due, and
the worker executes `a` before `b`: the callbacks are called in this order, against the
order of the due times. -/
theorem worker_order_counterexample :
    (Demo.twoTimers.getTimerInfo "a").map (fun t => (t.status, t.nextExecution)) =
        some (.PENDING, Demo.atMs 200) ∧
      (Demo.twoTimers.getTimerInfo "b").map (fun t => (t.status, t.nextExecution)) =
        some (.PENDING, Demo.atMs 100) ∧
      (TimerManager.workerPass Demo.note Demo.clock Demo.twoTimers [] (Demo.atMs 300)
        (Demo.readingsAt 300)).executed = ["a", "b"] ∧
      (TimerManager.workerPass Demo.note Demo.clock Demo.twoTimers [] (Demo.atMs 300)
        (Demo.readingsAt 300)).world = ["a", "b"] :=
  ⟨rfl, rfl, rfl, rfl⟩

/-- Claim C32 as amended. In one pass of the worker of the timer manager, the pending
timers whose `nextExecution` is not after the reading `now` of the pass are executed in the
order in which they stand in `timers_`, which is the order of their creation; neither the
due times nor the ids are compared. -/
theorem worker_executes_in_vector_order {C W : Type} (call : C → W → W × Bool)
    (clock : Clock) (m : TimerManager C) (world : W) (now : TimePoint)
    (readings : Nat → TimePoint × TimePoint) :
    (TimerManager.workerPass call clock m world now readings).executed =
      (m.timers_.filter (fun timer =>
        decide (timer.status = .PENDING) && decide (timer.nextExecution ≤ now))).map
          (fun timer => timer.id) :=
  TimerManager.workerPass_executed call clock m world now readings

/-! ### Cron timers at a matching time -/

theorem hours_pos (clock : Clock) (h : 0 < clock.ticksPerMs) : 0 < clock.hours (24 * 365) := by
  unfold Clock.hours
  positivity

theorem nextMatchLoop_hit (clock : Clock) (cron : CronParser.CronExpression)
    (start end_ current : TimePoint) (n : Nat) (hlt : current < end_)
    (hm : CronParser.matches clock cron current = true) :
    CronParser.nextMatchLoop clock cron start end_ (n + 1) current = current := by
  simp only [CronParser.nextMatchLoop, hlt, hm, if_true]

theorem nextMatch_of_matches (clock : Clock) (h : 0 < clock.ticksPerMs)
    (cron : CronParser.CronExpression) (t : TimePoint)
    (hm : CronParser.matches clock cron t = true) : CronParser.nextMatch clock cron t = t := by
  have hv : cron.valid = true := by
    cases hc : cron.valid
    · simp [CronParser.matches, hc] at hm
    · rfl
  have hlt : t < t + clock.hours (24 * 365) := by
    have := hours_pos clock h
    linarith
  unfold CronParser.nextMatch
  simp only [hv, Bool.not_true, Bool.false_eq_true, if_false]
  exact nextMatchLoop_hit clock cron t _ t 525599 hlt hm

/-- Claim C40. On a platform whose clock ticks, a time `t` that matches a cron expression
is its own next match: `nextMatch(c, t) = t` (an expression that matches is valid). So when
`executeTimer` runs a cron timer whose callback is not left by an exception, and the
reading of the clock in `calculateNextExecution` matches the expression of the timer, the
timer is `PENDING` again with `nextExecution` equal to that reading: it is due at every
later reading, and a pass of the worker that finds it in `timers_` executes it again, also
within the same matching minute. -/
theorem cron_timer_is_due_again (clock : Clock) (hclock : 0 < clock.ticksPerMs) :
    (∀ (cron : CronParser.CronExpression) (t : TimePoint),
        CronParser.matches clock cron t = true →
        cron.valid = true ∧ CronParser.nextMatch clock cron t = t) ∧
      (∀ (C W : Type) (call : C → W → W × Bool) (timer : TimerInfo C) (world : W)
          (started finished : TimePoint),
        timer.type = .CRON →
        (∀ callback, timer.callback = some callback → (call callback world).2 = false) →
        CronParser.matches clock (CronParser.parse timer.cronExpression) finished = true →
        (TimerManager.executeTimer call clock timer world started finished).1.status =
            .PENDING ∧
          (TimerManager.executeTimer call clock timer world started finished).1.nextExecution =
            finished ∧
          (TimerManager.executeTimer call clock timer world started finished).1.id =
            timer.id ∧
          ∀ (now : TimePoint) (m : TimerManager C) (world1 : W)
              (readings : Nat → TimePoint × TimePoint),
            finished ≤ now →
            (TimerManager.executeTimer call clock timer world started finished).1 ∈
              m.timers_ →
            timer.id ∈ (TimerManager.workerPass call clock m world1 now readings).executed) := by
  refine ⟨fun cron t hm => ⟨?_, nextMatch_of_matches clock hclock cron t hm⟩, ?_⟩
  · cases hc : cron.valid
    · simp [CronParser.matches, hc] at hm
    · rfl
  · intro C W call timer world started finished htype hquiet hm
    have hout : (match timer.callback with
        | some callback => call callback world
        | none => (world, false)).2 = false := by
      cases hcb : timer.callback with
      | none => rfl
      | some callback => exact hquiet callback hcb
    have hnext := nextMatch_of_matches clock hclock _ finished hm
    have hres : (TimerManager.executeTimer call clock timer world started finished).1 =
        { timer with status := .PENDING, lastExecuted := started,
                     executedCount := timer.executedCount + 1, nextExecution := finished } := by
      simp only [TimerManager.executeTimer, hout, htype,
        TimerManager.calculateNextExecution, hnext]
      rfl
    rw [hres]
    refine ⟨rfl, rfl, rfl, ?_⟩
    intro now m world1 readings hle hmem
    rw [TimerManager.workerPass_executed]
    exact List.mem_map.2 ⟨_, List.mem_filter.2 ⟨hmem, by
      simp only [TimerManager.isDue, decide_eq_true hle]
      rfl⟩, rfl⟩

theorem cron_timer_is_due_again_witness :
    (TimerManager.executeTimer Demo.note Demo.clock Demo.cronTimer []
        (Demo.atSecond Demo.monday9) (Demo.atSecond (Demo.monday9 + 1))).1.status =
        .PENDING ∧
      (TimerManager.executeTimer Demo.note Demo.clock Demo.cronTimer []
        (Demo.atSecond Demo.monday9) (Demo.atSecond (Demo.monday9 + 1))).1.nextExecution =
        Demo.atSecond (Demo.monday9 + 1) :=
  ⟨((cron_timer_is_due_again Demo.clock (by decide)).2 Demo.Noted (List String) Demo.note
      Demo.cronTimer [] (Demo.atSecond Demo.monday9) (Demo.atSecond (Demo.monday9 + 1)) rfl
      (fun _ h => by cases h; rfl) (by decide)).1,
    ((cron_timer_is_due_again Demo.clock (by decide)).2 Demo.Noted (List String) Demo.note
      Demo.cronTimer [] (Demo.atSecond Demo.monday9) (Demo.atSecond (Demo.monday9 + 1)) rfl
      (fun _ h => by cases h; rfl) (by decide)).2.1⟩

/-! ### Repeat timers under the worker -/

namespace TimerManager

theorem executeTimer_id {C W : Type} (call : C → W → W × Bool) (clock : Clock)
    (timer : TimerInfo C) (world : W) (started finished : TimePoint) :
    (executeTimer call clock timer world started finished).1.id = timer.id := by
  unfold executeTimer
  dsimp only
  split
  · rfl
  · split
    · rfl
    · split <;> rfl
    · rfl

/-- A call of `executeTimer` on a repeat timer whose callback returns. -/
theorem executeTimer_repeat {C W : Type} (call : C → W → W × Bool) (clock : Clock)
    (timer : TimerInfo C) (world : W) (started finished : TimePoint)
    (htype : timer.type = .REPEAT)
    (hquiet : ∀ callback, timer.callback = some callback → (call callback world).2 = false) :
    (executeTimer call clock timer world started finished).1 =
      if timer.repeatCount = -1 ∨ timer.executedCount + 1 < timer.repeatCount then
        { timer with status := .PENDING, lastExecuted := started,
                     executedCount := timer.executedCount + 1,
                     nextExecution := finished + clock.milliseconds timer.interval }
      else
        { timer with status := .COMPLETED, lastExecuted := started,
                     executedCount := timer.executedCount + 1 } := by
  have hout : (match timer.callback with
      | some callback => call callback world
      | none => (world, false)).2 = false := by
    cases hcb : timer.callback with
    | none => rfl
    | some callback => exact hquiet callback hcb
  simp only [executeTimer, hout, htype, calculateNextExecution, Bool.false_eq_true, if_false]
  by_cases hc : timer.repeatCount = -1 ∨ timer.executedCount + 1 < timer.repeatCount
  · rw [if_pos hc, if_pos hc]
  · rw [if_neg hc, if_neg hc]

/-- A call of `executeTimer` on a timer whose callback is left by an exception. -/
theorem executeTimer_raised {C W : Type} (call : C → W → W × Bool) (clock : Clock)
    (timer : TimerInfo C) (world : W) (started finished : TimePoint) (callback : C)
    (hcb : timer.callback = some callback) (hraised : (call callback world).2 = true) :
    (executeTimer call clock timer world started finished).1 =
      { timer with status := .ERROR, lastExecuted := started } := by
  simp only [executeTimer, hcb, hraised, if_true]

theorem executeDue_ids {C W : Type} (call : C → W → W × Bool) (clock : Clock)
    (now : TimePoint) (readings : Nat → TimePoint × TimePoint)
    (timers : List (TimerInfo C)) :
    ∀ (count : Nat) (world : W),
      (executeDue call clock now readings count timers world).1.map (fun x => x.id) =
        timers.map (fun x => x.id) := by
  induction timers with
  | nil => intro count world; rfl
  | cons timer rest ih =>
      intro count world
      cases h : isDue now timer
      · simp [executeDue, h, ih]
      · simp [executeDue, h, ih, executeTimer_id]

theorem executeDue_append {C W : Type} (call : C → W → W × Bool) (clock : Clock)
    (now : TimePoint) (readings : Nat → TimePoint × TimePoint)
    (a b : List (TimerInfo C)) :
    ∀ (count : Nat) (world : W),
      (executeDue call clock now readings count (a ++ b) world).1 =
        (executeDue call clock now readings count a world).1 ++
          (executeDue call clock now readings (count + (a.filter (isDue now)).length) b
            (executeDue call clock now readings count a world).2.1).1 := by
  induction a with
  | nil => intro count world; simp [executeDue]
  | cons timer rest ih =>
      intro count world
      cases h : isDue now timer
      · simp [executeDue, h, ih]
      · simp [executeDue, h, ih, Nat.add_assoc, Nat.add_comm 1]

theorem sweep_ids {C : Type} (timers : List (TimerInfo C)) (id : String)
    (h : id ∉ timers.map (fun x => x.id)) : id ∉ (sweep timers).map (fun x => x.id) := by
  intro hmem
  apply h
  obtain ⟨x, hx, hid⟩ := List.mem_map.1 hmem
  exact List.mem_map.2 ⟨x, (List.mem_filter.1 hx).1, hid⟩

theorem count_executed {C : Type} (now : TimePoint) (id : String)
    (pre post : List (TimerInfo C)) (timer : TimerInfo C)
    (hpre : id ∉ pre.map (fun x => x.id)) (hpost : id ∉ post.map (fun x => x.id))
    (hid : timer.id = id) :
    (((pre ++ timer :: post).filter (isDue now)).map (fun x => x.id)).count id =
      if isDue now timer then 1 else 0 := by
  have h1 : ((pre.filter (isDue now)).map (fun x => x.id)).count id = 0 := by
    apply List.count_eq_zero.2
    intro hmem
    apply hpre
    obtain ⟨x, hx, hxid⟩ := List.mem_map.1 hmem
    exact List.mem_map.2 ⟨x, (List.mem_filter.1 hx).1, hxid⟩
  have h2 : ((post.filter (isDue now)).map (fun x => x.id)).count id = 0 := by
    apply List.count_eq_zero.2
    intro hmem
    apply hpost
    obtain ⟨x, hx, hxid⟩ := List.mem_map.1 hmem
    exact List.mem_map.2 ⟨x, (List.mem_filter.1 hx).1, hxid⟩
  rw [List.filter_append, List.map_append, List.count_append, h1, zero_add]
  cases h : isDue now timer
  · simp [List.filter_cons, h, h2]
  · simp [List.filter_cons, h, h2, hid]

end TimerManager

namespace TimerManager

theorem sweep_append {C : Type} (a b : List (TimerInfo C)) :
    sweep (a ++ b) = sweep a ++ sweep b := by
  simp [sweep]

theorem sweep_cons_pending {C : Type} (timer : TimerInfo C) (rest : List (TimerInfo C))
    (h : timer.status = .PENDING) : sweep (timer :: rest) = timer :: sweep rest := by
  simp [sweep, List.filter_cons, h]

theorem sweep_cons_completed {C : Type} (timer : TimerInfo C) (rest : List (TimerInfo C))
    (h : timer.status = .COMPLETED) : sweep (timer :: rest) = sweep rest := by
  simp [sweep, List.filter_cons, h]

/-- The timers after the two loops of a pass, around one timer of `timers_`. -/
theorem pass_timers {C W : Type} (call : C → W → W × Bool) (clock : Clock)
    (now : TimePoint) (readings : Nat → TimePoint × TimePoint)
    (pre post : List (TimerInfo C)) (timer : TimerInfo C) (world : W) :
    ∃ pre1 post1 world1 started finished,
      (executeDue call clock now readings 0 (pre ++ timer :: post) world).1 =
        pre1 ++ (if isDue now timer then
            (executeTimer call clock timer world1 started finished).1 else timer) :: post1 ∧
      pre1.map (fun x => x.id) = pre.map (fun x => x.id) ∧
      post1.map (fun x => x.id) = post.map (fun x => x.id) := by
  rw [executeDue_append]
  cases h : isDue now timer
  · exact ⟨_, _, world, 0, 0, by simp only [executeDue, h]; rfl,
      executeDue_ids _ _ _ _ _ _ _, executeDue_ids _ _ _ _ _ _ _⟩
  · exact ⟨_, _, _, _, _, by simp only [executeDue, h]; rfl,
      executeDue_ids _ _ _ _ _ _ _, executeDue_ids _ _ _ _ _ _ _⟩

/-- One pass of the worker over a pending repeat timer with cap `n` and `k < n`
executions, whose callback returns: the timer is not executed and stays as it is, or it is
executed once and stays pending with `k + 1 < n` executions, or it is executed once for
the `n`-th time and the sweep of the pass removes it. -/
theorem workerPass_repeating {C W : Type} (call : C → W → W × Bool) (clock : Clock)
    (id : String) (callback : C) (n k : Int)
    (hquiet : ∀ world, (call callback world).2 = false) (hn : 1 ≤ n)
    (m : TimerManager C) (hrep : m.repeating id callback n k) (hk : k < n)
    (world : W) (now : TimePoint) (readings : Nat → TimePoint × TimePoint) :
    ((workerPass call clock m world now readings).executed.count id = 0 ∧
        (workerPass call clock m world now readings).manager.repeating id callback n k) ∨
      ((workerPass call clock m world now readings).executed.count id = 1 ∧ k + 1 < n ∧
        (workerPass call clock m world now readings).manager.repeating id callback n
          (k + 1)) ∨
      ((workerPass call clock m world now readings).executed.count id = 1 ∧ k + 1 = n ∧
        id ∉ (workerPass call clock m world now readings).manager.timers_.map
          (fun x => x.id)) := by
  obtain ⟨pre, timer, post, hm, hpre, hpost, hid, htype, hstatus, hcb, hrc, hec⟩ := hrep
  obtain ⟨pre1, post1, world1, started, finished, htimers, hpre1, hpost1⟩ :=
    pass_timers call clock now readings pre post timer world
  have hcount := count_executed now id pre post timer hpre hpost hid
  have hexec : (workerPass call clock m world now readings).executed.count id =
      if isDue now timer then 1 else 0 := by
    rw [workerPass_executed, hm]
    exact hcount
  have hman : (workerPass call clock m world now readings).manager.timers_ =
      sweep (pre1 ++ (if isDue now timer then
        (executeTimer call clock timer world1 started finished).1 else timer) :: post1) := by
    rw [← htimers, ← hm]
    rfl
  have hpre2 : id ∉ (sweep pre1).map (fun x => x.id) :=
    sweep_ids pre1 id (by rw [hpre1]; exact hpre)
  have hpost2 : id ∉ (sweep post1).map (fun x => x.id) :=
    sweep_ids post1 id (by rw [hpost1]; exact hpost)
  cases hdue : isDue now timer
  · left
    rw [hdue] at hexec hman
    simp only [Bool.false_eq_true, if_false] at hexec hman
    refine ⟨hexec, sweep pre1, timer, sweep post1, ?_, hpre2, hpost2, hid,
      htype, hstatus, hcb, hrc, hec⟩
    rw [hman, sweep_append, sweep_cons_pending _ _ hstatus]
  · right
    rw [hdue] at hexec hman
    simp only [if_true] at hexec hman
    have hrun := executeTimer_repeat call clock timer world1 started finished htype
      (fun c hc => by
        rw [hcb] at hc
        cases hc
        exact hquiet world1)
    by_cases hmore : k + 1 < n
    · left
      have hcond : timer.repeatCount = -1 ∨ timer.executedCount + 1 < timer.repeatCount := by
        right
        rw [hrc, hec]
        exact hmore
      rw [if_pos hcond] at hrun
      refine ⟨hexec, hmore, sweep pre1,
        (executeTimer call clock timer world1 started finished).1, sweep post1, ?_, hpre2,
        hpost2, ?_⟩
      · rw [hman, sweep_append, sweep_cons_pending _ _ (by rw [hrun])]
      · rw [hrun]
        exact ⟨hid, htype, rfl, hcb, hrc, by simp only [hec]⟩
    · right
      have hcond : ¬ (timer.repeatCount = -1 ∨
          timer.executedCount + 1 < timer.repeatCount) := by
        rw [hrc, hec]
        intro h
        rcases h with h | h
        · omega
        · exact hmore h
      rw [if_neg hcond] at hrun
      refine ⟨hexec, by omega, ?_⟩
      rw [hman, sweep_append, hrun, sweep_cons_completed _ _ rfl, List.map_append]
      intro hmem
      rcases List.mem_append.1 hmem with h | h
      · exact hpre2 h
      · exact hpost2 h

/-- A pass of the worker on a manager without a timer `id`: none is executed and none
appears. -/
theorem workerPass_absent {C W : Type} (call : C → W → W × Bool) (clock : Clock)
    (id : String) (m : TimerManager C) (h : id ∉ m.timers_.map (fun x => x.id))
    (world : W) (now : TimePoint) (readings : Nat → TimePoint × TimePoint) :
    (workerPass call clock m world now readings).executed.count id = 0 ∧
      id ∉ (workerPass call clock m world now readings).manager.timers_.map
        (fun x => x.id) := by
  constructor
  · rw [workerPass_executed]
    apply List.count_eq_zero.2
    intro hmem
    apply h
    obtain ⟨x, hx, hxid⟩ := List.mem_map.1 hmem
    exact List.mem_map.2 ⟨x, (List.mem_filter.1 hx).1, hxid⟩
  · apply sweep_ids
    show id ∉ (executeDue call clock now readings 0 m.timers_ world).1.map (fun x => x.id)
    rw [executeDue_ids]
    exact h

end TimerManager

namespace TimerManager

theorem workerPasses_absent {C W : Type} (call : C → W → W × Bool) (clock : Clock)
    (id : String) (passes : List (TimePoint × (Nat → TimePoint × TimePoint))) :
    ∀ (m : TimerManager C) (world : W), id ∉ m.timers_.map (fun x => x.id) →
      (workerPasses call clock m world passes).executed.count id = 0 ∧
        id ∉ (workerPasses call clock m world passes).manager.timers_.map
          (fun x => x.id) := by
  induction passes with
  | nil => intro m world h; exact ⟨rfl, h⟩
  | cons p rest ih =>
      intro m world h
      obtain ⟨now, readings⟩ := p
      obtain ⟨h1, h2⟩ := workerPass_absent call clock id m h world now readings
      obtain ⟨h3, h4⟩ := ih _ (workerPass call clock m world now readings).world h2
      refine ⟨?_, h4⟩
      simp only [workerPasses, List.count_append, h1, h3]

/-- A series of passes of the worker over a pending repeat timer with cap `n` and `k < n`
executions, whose callback returns: the timer is pending with fewer than `n` executions,
those before and those of the passes, or the sweep has removed it and the executions are
`n`. -/
theorem workerPasses_repeating {C W : Type} (call : C → W → W × Bool) (clock : Clock)
    (id : String) (callback : C) (n : Int)
    (hquiet : ∀ world, (call callback world).2 = false) (hn : 1 ≤ n)
    (passes : List (TimePoint × (Nat → TimePoint × TimePoint))) :
    ∀ (m : TimerManager C) (world : W) (k : Int), m.repeating id callback n k → k < n →
      ((workerPasses call clock m world passes).manager.repeating id callback n
            (k + ((workerPasses call clock m world passes).executed.count id : Int)) ∧
          k + ((workerPasses call clock m world passes).executed.count id : Int) < n) ∨
        (id ∉ (workerPasses call clock m world passes).manager.timers_.map
            (fun x => x.id) ∧
          k + ((workerPasses call clock m world passes).executed.count id : Int) = n) := by
  induction passes with
  | nil =>
      intro m world k hrep hk
      left
      simp only [workerPasses, List.count_nil, Nat.cast_zero, add_zero]
      exact ⟨hrep, hk⟩
  | cons p rest ih =>
      intro m world k hrep hk
      obtain ⟨now, readings⟩ := p
      simp only [workerPasses, List.count_append, Nat.cast_add]
      rcases workerPass_repeating call clock id callback n k hquiet hn m hrep hk world now
        readings with ⟨h0, hr⟩ | ⟨h1, hlt, hr⟩ | ⟨h1, heq, hgone⟩
      · rw [h0]
        simpa using ih _ (workerPass call clock m world now readings).world k hr hk
      · rw [h1]
        have := ih _ (workerPass call clock m world now readings).world (k + 1) hr hlt
        simpa [add_assoc] using this
      · rw [h1]
        obtain ⟨h3, h4⟩ := workerPasses_absent call clock id rest _
          (workerPass call clock m world now readings).world hgone
        right
        rw [h3]
        exact ⟨h4, by simpa using heq⟩

theorem repeating_getTimerInfo {C : Type} (m : TimerManager C) (id : String)
    (callback : C) (n k : Int) (h : m.repeating id callback n k) :
    ∃ timer, m.getTimerInfo id = some timer ∧ timer.status = .PENDING ∧
      timer.executedCount = k := by
  obtain ⟨pre, timer, post, hm, hpre, _, hid, _, hstatus, _, _, hec⟩ := h
  refine ⟨timer, ?_, hstatus, hec⟩
  unfold getTimerInfo
  rw [hm, List.find?_append]
  have hnone : pre.find? (fun timer => decide (timer.id = id)) = none := by
    apply List.find?_eq_none.2
    intro x hx hxid
    exact hpre (List.mem_map.2 ⟨x, hx, of_decide_eq_true hxid⟩)
  rw [hnone]
  simp [List.find?_cons, hid]

theorem absent_iff_hasTimer {C : Type} (m : TimerManager C) (id : String) :
    id ∉ m.timers_.map (fun x => x.id) ↔ m.hasTimer id = false := by
  unfold hasTimer getTimerInfo
  have e : ∀ o : Option (TimerInfo C), o.isSome = false ↔ o = none := by
    intro o
    cases o <;> simp
  rw [e, List.find?_eq_none]
  constructor
  · intro h x hx hxid
    exact h (List.mem_map.2 ⟨x, hx, of_decide_eq_true hxid⟩)
  · intro h hmem
    obtain ⟨x, hx, hxid⟩ := List.mem_map.1 hmem
    exact h x hx (decide_eq_true hxid)

theorem createRepeatTimer_repeating {C : Type} (clock : Clock) (m : TimerManager C)
    (now : TimePoint) (id : String) (interval : Int) (callback : C) (n : Int)
    (h : m.hasTimer id = false) :
    (createRepeatTimer clock m now id interval (some callback) n).2 = true ∧
      (createRepeatTimer clock m now id interval (some callback) n).1.repeating id
        callback n 0 := by
  simp only [createRepeatTimer, h, Bool.false_eq_true, if_false, true_and]
  exact ⟨m.timers_, _, [], rfl, (absent_iff_hasTimer m id).2 h, by simp, rfl, rfl, rfl,
    rfl, rfl, rfl⟩

end TimerManager

namespace TimerManager

/-- The timers after the two loops of a pass, around one timer of `timers_`, with the
readings of the clock of its call of `executeTimer`. -/
theorem pass_timers_at {C W : Type} (call : C → W → W × Bool) (clock : Clock)
    (now : TimePoint) (readings : Nat → TimePoint × TimePoint)
    (pre post : List (TimerInfo C)) (timer : TimerInfo C) (world : W) :
    ∃ pre1 post1 world1 c,
      (executeDue call clock now readings 0 (pre ++ timer :: post) world).1 =
        pre1 ++ (if isDue now timer then
            (executeTimer call clock timer world1 (readings c).1 (readings c).2).1
          else timer) :: post1 ∧
      pre1.map (fun x => x.id) = pre.map (fun x => x.id) ∧
      post1.map (fun x => x.id) = post.map (fun x => x.id) := by
  rw [executeDue_append]
  cases h : isDue now timer
  · exact ⟨_, _, world, 0, by simp only [executeDue, h]; rfl,
      executeDue_ids _ _ _ _ _ _ _, executeDue_ids _ _ _ _ _ _ _⟩
  · exact ⟨_, _, _, _, by simp only [executeDue, h]; rfl,
      executeDue_ids _ _ _ _ _ _ _, executeDue_ids _ _ _ _ _ _ _⟩

theorem repeatingDue_repeating {C : Type} (m : TimerManager C) (id : String) (callback : C)
    (n k interval : Int) (next : TimePoint) (h : m.repeatingDue id callback n k interval next) :
    m.repeating id callback n k := by
  obtain ⟨pre, timer, post, hm, hpre, hpost, hid, htype, hstatus, hcb, hrc, hec, -, -⟩ := h
  exact ⟨pre, timer, post, hm, hpre, hpost, hid, htype, hstatus, hcb, hrc, hec⟩

/-- One pass of the worker over a pending repeat timer with cap `n`, `k < n` executions
and the due time `next`, whose callback returns. A pass at or after `next` executes the
timer once: it stays pending with `k + 1 < n` executions and is due at the interval after
the reading of the clock that follows the callback, or this was the `n`-th execution and
the sweep of the pass removes it. A pass before `next` leaves the timer as it is. -/
theorem workerPass_repeatingDue {C W : Type} (call : C → W → W × Bool) (clock : Clock)
    (id : String) (callback : C) (n k interval : Int) (next : TimePoint)
    (hquiet : ∀ world, (call callback world).2 = false) (hn : 1 ≤ n)
    (m : TimerManager C) (hrep : m.repeatingDue id callback n k interval next) (hk : k < n)
    (world : W) (now : TimePoint) (readings : Nat → TimePoint × TimePoint) :
    (next ≤ now →
      (workerPass call clock m world now readings).executed.count id = 1 ∧
        ((k + 1 < n ∧ ∃ c,
            (workerPass call clock m world now readings).manager.repeatingDue id callback n
              (k + 1) interval ((readings c).2 + clock.milliseconds interval)) ∨
          (k + 1 = n ∧
            id ∉ (workerPass call clock m world now readings).manager.timers_.map
              (fun x => x.id)))) ∧
      (now < next →
        (workerPass call clock m world now readings).executed.count id = 0 ∧
          (workerPass call clock m world now readings).manager.repeatingDue id callback n k
            interval next) := by
  obtain ⟨pre, timer, post, hm, hpre, hpost, hid, htype, hstatus, hcb, hrc, hec, hiv, hnext⟩ :=
    hrep
  obtain ⟨pre1, post1, world1, c, htimers, hpre1, hpost1⟩ :=
    pass_timers_at call clock now readings pre post timer world
  have hcount := count_executed now id pre post timer hpre hpost hid
  have hexec : (workerPass call clock m world now readings).executed.count id =
      if isDue now timer then 1 else 0 := by
    rw [workerPass_executed, hm]
    exact hcount
  have hman : (workerPass call clock m world now readings).manager.timers_ =
      sweep (pre1 ++ (if isDue now timer then
        (executeTimer call clock timer world1 (readings c).1 (readings c).2).1
          else timer) :: post1) := by
    rw [← htimers, ← hm]
    rfl
  have hpre2 : id ∉ (sweep pre1).map (fun x => x.id) :=
    sweep_ids pre1 id (by rw [hpre1]; exact hpre)
  have hpost2 : id ∉ (sweep post1).map (fun x => x.id) :=
    sweep_ids post1 id (by rw [hpost1]; exact hpost)
  constructor
  · intro hle
    have hdue : isDue now timer = true := by
      simp [isDue, hstatus, hnext, hle]
    rw [hdue] at hexec hman
    simp only [if_true] at hexec hman
    have hrun := executeTimer_repeat call clock timer world1 (readings c).1 (readings c).2
      htype
      (fun cb hc => by
        rw [hcb] at hc
        cases hc
        exact hquiet world1)
    refine ⟨hexec, ?_⟩
    by_cases hmore : k + 1 < n
    · left
      have hcond : timer.repeatCount = -1 ∨ timer.executedCount + 1 < timer.repeatCount := by
        right
        rw [hrc, hec]
        exact hmore
      rw [if_pos hcond] at hrun
      refine ⟨hmore, c, sweep pre1,
        (executeTimer call clock timer world1 (readings c).1 (readings c).2).1, sweep post1,
        ?_, hpre2, hpost2, ?_⟩
      · rw [hman, sweep_append, sweep_cons_pending _ _ (by rw [hrun])]
      · rw [hrun]
        exact ⟨hid, htype, rfl, hcb, hrc, by simp only [hec], hiv, by simp only [hiv]⟩
    · right
      have hcond : ¬ (timer.repeatCount = -1 ∨
          timer.executedCount + 1 < timer.repeatCount) := by
        rw [hrc, hec]
        intro h
        rcases h with h | h
        · omega
        · exact hmore h
      rw [if_neg hcond] at hrun
      refine ⟨by omega, ?_⟩
      rw [hman, sweep_append, hrun, sweep_cons_completed _ _ rfl, List.map_append]
      intro hmem
      rcases List.mem_append.1 hmem with h | h
      · exact hpre2 h
      · exact hpost2 h
  · intro hlt
    have hdue : isDue now timer = false := by
      simp [isDue, hstatus, hnext, hlt]
    rw [hdue] at hexec hman
    simp only [Bool.false_eq_true, if_false] at hexec hman
    refine ⟨hexec, sweep pre1, timer, sweep post1, ?_, hpre2, hpost2, hid,
      htype, hstatus, hcb, hrc, hec, hiv, hnext⟩
    rw [hman, sweep_append, sweep_cons_pending _ _ hstatus]

/-- A series of passes of the worker over a pending repeat timer with cap `n`, `k < n`
executions and the due time `next`, whose callback returns: when `d` of the passes come
with the timer due, the timer is executed `d` times, or `n - k` times if that is less. -/
theorem workerPasses_duePasses {C W : Type} (call : C → W → W × Bool) (clock : Clock)
    (id : String) (callback : C) (n interval : Int)
    (hquiet : ∀ world, (call callback world).2 = false) (hn : 1 ≤ n)
    (passes : List (TimePoint × (Nat → TimePoint × TimePoint))) :
    ∀ (m : TimerManager C) (world : W) (k : Int) (next : TimePoint) (d : Nat),
      m.repeatingDue id callback n k interval next → k < n →
      duePasses clock interval next passes d →
      ((workerPasses call clock m world passes).executed.count id : Int) =
        min (d : Int) (n - k) := by
  induction passes with
  | nil =>
      intro m world k next d _ hk hd
      have hd0 : d = 0 := hd
      subst hd0
      simp only [workerPasses, List.count_nil, Nat.cast_zero]
      rw [min_eq_left (by omega)]
  | cons p rest ih =>
      intro m world k next d hrep hk hd
      obtain ⟨now, readings⟩ := p
      simp only [workerPasses, List.count_append, Nat.cast_add]
      obtain ⟨hdue, hidle⟩ := workerPass_repeatingDue call clock id callback n k interval
        next hquiet hn m hrep hk world now readings
      by_cases hle : next ≤ now
      · have hd2 : ∃ e, d = e + 1 ∧
            ∀ c, duePasses clock interval ((readings c).2 + clock.milliseconds interval)
              rest e := by
          have := hd
          simp only [duePasses, if_pos hle] at this
          exact this
        obtain ⟨e, hde, hrest⟩ := hd2
        subst hde
        obtain ⟨h1, hcase⟩ := hdue hle
        rw [h1]
        rcases hcase with ⟨hlt, c, hr⟩ | ⟨heq, hgone⟩
        · rw [ih _ (workerPass call clock m world now readings).world (k + 1) _ e hr hlt
            (hrest c)]
          push_cast
          rcases le_total (e : Int) (n - (k + 1)) with h | h
          · rw [min_eq_left h, min_eq_left (by omega)]
            omega
          · rw [min_eq_right h, min_eq_right (by omega)]
            omega
        · obtain ⟨h3, -⟩ := workerPasses_absent call clock id rest _
            (workerPass call clock m world now readings).world hgone
          rw [h3]
          push_cast
          rw [min_eq_right (by omega)]
          omega
      · have hlt : now < next := lt_of_not_le hle
        have hd2 : duePasses clock interval next rest d := by
          have := hd
          simp only [duePasses, if_neg hle] at this
          exact this
        obtain ⟨h0, hr⟩ := hidle hlt
        rw [h0, ih _ (workerPass call clock m world now readings).world k next d hr hk hd2]
        simp

theorem createRepeatTimer_repeatingDue {C : Type} (clock : Clock) (m : TimerManager C)
    (now : TimePoint) (id : String) (interval : Int) (callback : C) (n : Int)
    (h : m.hasTimer id = false) :
    (createRepeatTimer clock m now id interval (some callback) n).1.repeatingDue id
      callback n 0 interval (now + clock.milliseconds interval) := by
  simp only [createRepeatTimer, h, Bool.false_eq_true, if_false]
  exact ⟨m.timers_, _, [], rfl, (absent_iff_hasTimer m id).2 h, by simp, rfl, rfl, rfl,
    rfl, rfl, rfl, rfl, rfl⟩

/-- A call of `executeTimer` runs the callback of the timer once on the world and leaves
the world as the callback leaves it. -/
theorem executeTimer_world {C W : Type} (call : C → W → W × Bool) (clock : Clock)
    (timer : TimerInfo C) (world : W) (started finished : TimePoint) :
    (executeTimer call clock timer world started finished).2 =
      match timer.callback with
      | some callback => (call callback world).1
      | none => world := by
  unfold executeTimer
  dsimp only
  cases hcb : timer.callback with
  | none =>
      simp only [Bool.false_eq_true, if_false]
      cases timer.type
      · rfl
      · dsimp only
        split <;> rfl
      · rfl
  | some callback =>
      dsimp only
      cases (call callback world).2
      · simp only [Bool.false_eq_true, if_false]
        cases timer.type
        · rfl
        · dsimp only
          split <;> rfl
        · rfl
      · rfl

end TimerManager

/-- Claim C33. A repeat timer is created under a new id with cap `n ≥ 1` and a callback
that is never left by an exception, and only passes of the worker follow (the timer is not
cancelled). Then after every series of passes the callback has been called at most `n`
times, and either the timer is in the manager, `PENDING`, with `executedCount` equal to the
number of calls, which is below `n`, or the calls are exactly `n` and the timer is gone:
the pass of the `n`-th call set it `COMPLETED` and its sweep removed it. The calls do come:
when `d` passes of the series come with the timer due (first at the interval after the
creation, then at the interval after the reading of the clock that follows its last call),
the worker has called `executeTimer` on the timer exactly `d` times, or exactly `n` times
if `d` is not less than `n`, and in that case the timer is gone; every call of
`executeTimer` runs the callback once and leaves the world as the callback leaves it, and
a pass executes every pending timer that is due. A repeat timer with
`repeatCount = -1` whose callback returns is `PENDING` after the call, with
`nextExecution` the reading of the clock after the callback plus the interval; one with a
cap that the call reaches is `COMPLETED` after it and the sweep erases it. A timer
whose callback is left by an exception is set to `ERROR`; every other due timer of the
pass is executed all the same, with the outcome of its own call of `executeTimer`. -/
theorem repeat_timer_runs_to_its_cap {C W : Type} (call : C → W → W × Bool)
    (clock : Clock) :
    (∀ (m0 : TimerManager C) (t0 : TimePoint) (id : String) (interval : Int)
        (callback : C) (n : Int) (passes : List (TimePoint × (Nat → TimePoint × TimePoint)))
        (world : W),
        1 ≤ n → m0.hasTimer id = false → (∀ w, (call callback w).2 = false) →
        (TimerManager.createRepeatTimer clock m0 t0 id interval (some callback) n).2 = true ∧
          (((TimerManager.workerPasses call clock
            (TimerManager.createRepeatTimer clock m0 t0 id interval (some callback) n).1
            world passes).executed.count id : Int) ≤ n) ∧
          ((∃ timer, (TimerManager.workerPasses call clock
                (TimerManager.createRepeatTimer clock m0 t0 id interval (some callback) n).1
                world passes).manager.getTimerInfo id = some timer ∧
              timer.status = .PENDING ∧
              timer.executedCount = ((TimerManager.workerPasses call clock
                (TimerManager.createRepeatTimer clock m0 t0 id interval (some callback) n).1
                world passes).executed.count id : Int) ∧
              timer.executedCount < n) ∨
            ((TimerManager.workerPasses call clock
                (TimerManager.createRepeatTimer clock m0 t0 id interval (some callback) n).1
                world passes).manager.hasTimer id = false ∧
              ((TimerManager.workerPasses call clock
                (TimerManager.createRepeatTimer clock m0 t0 id interval (some callback) n).1
                world passes).executed.count id : Int) = n))) ∧
      (∀ (m0 : TimerManager C) (t0 : TimePoint) (id : String) (interval : Int)
        (callback : C) (n : Int) (passes : List (TimePoint × (Nat → TimePoint × TimePoint)))
        (world : W) (d : Nat),
        1 ≤ n → m0.hasTimer id = false → (∀ w, (call callback w).2 = false) →
        TimerManager.duePasses clock interval (t0 + clock.milliseconds interval) passes d →
        ((TimerManager.workerPasses call clock
            (TimerManager.createRepeatTimer clock m0 t0 id interval (some callback) n).1
            world passes).executed.count id : Int) = min (d : Int) n ∧
          (n ≤ (d : Int) →
            ((TimerManager.workerPasses call clock
                (TimerManager.createRepeatTimer clock m0 t0 id interval (some callback) n).1
                world passes).executed.count id : Int) = n ∧
              (TimerManager.workerPasses call clock
                (TimerManager.createRepeatTimer clock m0 t0 id interval (some callback) n).1
                world passes).manager.hasTimer id = false)) ∧
      (∀ (timer : TimerInfo C) (world : W) (started finished : TimePoint),
        (TimerManager.executeTimer call clock timer world started finished).2 =
          match timer.callback with
          | some callback => (call callback world).1
          | none => world) ∧
      (∀ (m : TimerManager C) (world : W) (now : TimePoint)
          (readings : Nat → TimePoint × TimePoint) (timer : TimerInfo C),
        timer ∈ m.timers_ → timer.status = .PENDING → timer.nextExecution ≤ now →
        timer.id ∈ (TimerManager.workerPass call clock m world now readings).executed) ∧
      (∀ (timer : TimerInfo C) (world : W) (started finished : TimePoint),
        timer.type = .REPEAT → timer.repeatCount = -1 →
        (∀ callback, timer.callback = some callback → (call callback world).2 = false) →
        (TimerManager.executeTimer call clock timer world started finished).1.status =
            .PENDING ∧
          (TimerManager.executeTimer call clock timer world started finished).1.nextExecution =
            finished + clock.milliseconds timer.interval) ∧
      (∀ (timer : TimerInfo C) (world : W) (started finished : TimePoint),
        timer.type = .REPEAT → timer.repeatCount ≠ -1 →
        timer.repeatCount ≤ timer.executedCount + 1 →
        (∀ callback, timer.callback = some callback → (call callback world).2 = false) →
        (TimerManager.executeTimer call clock timer world started finished).1.status =
            .COMPLETED ∧
          TimerManager.sweep
            [(TimerManager.executeTimer call clock timer world started finished).1] = []) ∧
      (∀ (timer : TimerInfo C) (world : W) (started finished : TimePoint) (callback : C),
        timer.callback = some callback → (call callback world).2 = true →
        (TimerManager.executeTimer call clock timer world started finished).1.status =
            .ERROR ∧
          (TimerManager.executeTimer call clock timer world started finished).1.executedCount =
            timer.executedCount) ∧
      (∀ (m : TimerManager C) (world : W) (now : TimePoint)
          (readings : Nat → TimePoint × TimePoint) (pre post : List (TimerInfo C))
          (timer : TimerInfo C),
        m.timers_ = pre ++ timer :: post → TimerManager.isDue now timer = true →
        ∃ pre1 post1 world1 started finished,
          (TimerManager.workerPass call clock m world now readings).manager.timers_ =
            TimerManager.sweep (pre1 ++
              (TimerManager.executeTimer call clock timer world1 started finished).1 ::
                post1) ∧
          pre1.map (fun x => x.id) = pre.map (fun x => x.id) ∧
          post1.map (fun x => x.id) = post.map (fun x => x.id)) := by
  refine ⟨?_, ?_, ?_, ?_, ?_, ?_, ?_, ?_⟩
  · intro m0 t0 id interval callback n passes world hn hfresh hquiet
    obtain ⟨hcreated, hrep⟩ :=
      TimerManager.createRepeatTimer_repeating clock m0 t0 id interval callback n hfresh
    refine ⟨hcreated, ?_⟩
    rcases TimerManager.workerPasses_repeating call clock id callback n hquiet hn passes _
      world 0 hrep (by omega) with ⟨hr, hlt⟩ | ⟨hgone, heq⟩
    · rw [zero_add] at hr hlt
      obtain ⟨timer, hget, hstatus, hec⟩ :=
        TimerManager.repeating_getTimerInfo _ id callback n _ hr
      exact ⟨le_of_lt hlt, Or.inl ⟨timer, hget, hstatus, hec, by rw [hec]; exact hlt⟩⟩
    · rw [zero_add] at heq
      exact ⟨le_of_eq heq, Or.inr ⟨(TimerManager.absent_iff_hasTimer _ id).1 hgone, heq⟩⟩
  · intro m0 t0 id interval callback n passes world d hn hfresh hquiet hdue
    have hcount := TimerManager.workerPasses_duePasses call clock id callback n interval
      hquiet hn passes _ world 0 _ d
      (TimerManager.createRepeatTimer_repeatingDue clock m0 t0 id interval callback n hfresh)
      (by omega) hdue
    rw [sub_zero] at hcount
    refine ⟨hcount, fun hnd => ?_⟩
    have hfull : ((TimerManager.workerPasses call clock
        (TimerManager.createRepeatTimer clock m0 t0 id interval (some callback) n).1
        world passes).executed.count id : Int) = n := by
      rw [hcount]
      exact min_eq_right hnd
    refine ⟨hfull, ?_⟩
    rcases TimerManager.workerPasses_repeating call clock id callback n hquiet hn passes _
      world 0 (TimerManager.createRepeatTimer_repeating clock m0 t0 id interval callback n
        hfresh).2 (by omega) with ⟨_, hlt⟩ | ⟨hgone, _⟩
    · rw [zero_add] at hlt
      omega
    · exact (TimerManager.absent_iff_hasTimer _ id).1 hgone
  · intro timer world started finished
    exact TimerManager.executeTimer_world call clock timer world started finished
  · intro m world now readings timer hmem hstatus hdue
    rw [TimerManager.workerPass_executed]
    exact List.mem_map.2 ⟨timer, List.mem_filter.2 ⟨hmem, by
      simp [TimerManager.isDue, hstatus, hdue]⟩, rfl⟩
  · intro timer world started finished htype hrc hquiet
    rw [TimerManager.executeTimer_repeat call clock timer world started finished htype hquiet,
      if_pos (Or.inl hrc)]
    exact ⟨rfl, rfl⟩
  · intro timer world started finished htype hrc hcap hquiet
    have hcond : ¬ (timer.repeatCount = -1 ∨
        timer.executedCount + 1 < timer.repeatCount) := by
      intro h
      rcases h with h | h
      · exact hrc h
      · omega
    rw [TimerManager.executeTimer_repeat call clock timer world started finished htype hquiet,
      if_neg hcond]
    exact ⟨rfl, TimerManager.sweep_cons_completed _ [] rfl⟩
  · intro timer world started finished callback hcb hraised
    rw [TimerManager.executeTimer_raised call clock timer world started finished callback hcb
      hraised]
    exact ⟨rfl, rfl⟩
  · intro m world now readings pre post timer hm hdue
    obtain ⟨pre1, post1, world1, started, finished, htimers, hpre1, hpost1⟩ :=
      TimerManager.pass_timers call clock now readings pre post timer world
    rw [hdue] at htimers
    simp only [if_true] at htimers
    refine ⟨pre1, post1, world1, started, finished, ?_, hpre1, hpost1⟩
    rw [← htimers, ← hm]
    rfl

/-- Claim C33 on the timers `bad` and `tick`, both due at 100 ms, and the passes at 100 ms,
200 ms and 300 ms, all three at or after the due time of `tick`: `tick`, with cap 2, is
executed in the first two passes, after the call of `bad` that is left by an exception, and
is gone afterwards, while `bad` stays with the status `ERROR`. Of the passes at 50 ms,
100 ms, 150 ms and 200 ms two come with `tick` due, those at 100 ms and at 200 ms, and
`tick` is executed in these two. -/
theorem repeat_timer_runs_to_its_cap_witness :
    (TimerManager.workerPasses Demo.note Demo.clock Demo.repeatTimers []
        Demo.threePasses).executed = ["bad", "tick", "tick"] ∧
      (TimerManager.workerPasses Demo.note Demo.clock Demo.repeatTimers []
        Demo.threePasses).world = ["bad", "tick", "tick"] ∧
      ((TimerManager.workerPasses Demo.note Demo.clock Demo.repeatTimers []
        Demo.threePasses).manager.timers_.map (fun timer => (timer.id, timer.status))) =
          [("bad", TimerStatus.ERROR)] ∧
      (((TimerManager.workerPasses Demo.note Demo.clock Demo.repeatTimers []
          Demo.threePasses).executed.count "tick" : Int) = min ((3 : Nat) : Int) 2 ∧
        ((2 : Int) ≤ ((3 : Nat) : Int) →
          ((TimerManager.workerPasses Demo.note Demo.clock Demo.repeatTimers []
              Demo.threePasses).executed.count "tick" : Int) = 2 ∧
            (TimerManager.workerPasses Demo.note Demo.clock Demo.repeatTimers []
              Demo.threePasses).manager.hasTimer "tick" = false)) ∧
      (TimerManager.workerPasses Demo.note Demo.clock Demo.repeatTimers []
        Demo.idlePasses).executed = ["bad", "tick", "tick"] ∧
      (((TimerManager.workerPasses Demo.note Demo.clock Demo.repeatTimers []
          Demo.idlePasses).executed.count "tick" : Int) = min ((2 : Nat) : Int) 2 ∧
        ((2 : Int) ≤ ((2 : Nat) : Int) →
          ((TimerManager.workerPasses Demo.note Demo.clock Demo.repeatTimers []
              Demo.idlePasses).executed.count "tick" : Int) = 2 ∧
            (TimerManager.workerPasses Demo.note Demo.clock Demo.repeatTimers []
              Demo.idlePasses).manager.hasTimer "tick" = false)) :=
  ⟨by decide, by decide, by decide,
    (repeat_timer_runs_to_its_cap Demo.note Demo.clock).2.1
      ((TimerManager.createOnceTimer Demo.clock {} 0 "bad" 100 (some ("bad", true))).1)
      0 "tick" 100 ("tick", false) 2 Demo.threePasses [] 3 (by decide) rfl (fun _ => rfl)
      ⟨2, rfl, fun _ => ⟨1, rfl, fun _ => ⟨0, rfl, fun _ => rfl⟩⟩⟩,
    by decide,
    (repeat_timer_runs_to_its_cap Demo.note Demo.clock).2.1
      ((TimerManager.createOnceTimer Demo.clock {} 0 "bad" 100 (some ("bad", true))).1)
      0 "tick" 100 ("tick", false) 2 Demo.idlePasses [] 2 (by decide) rfl (fun _ => rfl)
      ⟨1, rfl, fun _ => ⟨0, rfl, fun _ => rfl⟩⟩⟩

/-! ### The tasks of the scheduler -/

theorem mapAssign_length {α : Type} (key : String) (value old : α) (l : List (String × α))
    (h : mapFind key l = some old) : (mapAssign key value l).length = l.length := by
  induction l with
  | nil => simp [mapFind] at h
  | cons p rest ih =>
      obtain ⟨k, v⟩ := p
      by_cases hk : k = key
      · simp [mapAssign, hk]
      · simp only [mapFind, hk, if_false] at h
        simp [mapAssign, hk, ih h]

namespace Scheduler

theorem countTask_total (stats : SchedulerStats) (task : TaskInfo) :
    (countTask stats task).totalTasks = stats.totalTasks := by
  unfold countTask
  cases task.status <;> rfl

theorem foldl_countTask_total (tasks : List (String × TaskInfo)) :
    ∀ stats : SchedulerStats,
      (tasks.foldl (fun acc pair => countTask acc pair.2) stats).totalTasks =
        stats.totalTasks := by
  induction tasks with
  | nil => intro stats; rfl
  | cons p rest ih =>
      intro stats
      rw [List.foldl_cons, ih, countTask_total]

theorem getStats_totalTasks {U : Type} (s : Scheduler U) :
    s.getStats.totalTasks = (s.tasks_.length : Int) := by
  unfold getStats
  dsimp only
  split
  · exact foldl_countTask_total s.tasks_ _
  · exact foldl_countTask_total s.tasks_ _

theorem countTask_cancelled (stats : SchedulerStats) (task : TaskInfo) :
    (countTask stats task).cancelledTasks =
      stats.cancelledTasks + (if task.status = .CANCELLED then 1 else 0) := by
  unfold countTask
  cases task.status <;> simp

theorem foldl_countTask_cancelled (tasks : List (String × TaskInfo)) :
    ∀ stats : SchedulerStats,
      (tasks.foldl (fun acc pair => countTask acc pair.2) stats).cancelledTasks =
        stats.cancelledTasks +
          (((tasks.map (fun pair => pair.2)).filter
            (fun task => decide (task.status = .CANCELLED))).length : Int) := by
  induction tasks with
  | nil => intro stats; simp
  | cons p rest ih =>
      intro stats
      rw [List.foldl_cons, ih, countTask_cancelled]
      by_cases h : p.2.status = .CANCELLED
      · simp [List.filter_cons, h]
        omega
      · simp [List.filter_cons, h]

/-- The counter `cancelledTasks` of `getStats` is the number of tasks with the status
`CANCELLED`. -/
theorem getStats_cancelledTasks {U : Type} (s : Scheduler U) :
    s.getStats.cancelledTasks =
      ((s.getAllTasks.filter (fun task => decide (task.status = .CANCELLED))).length :
        Int) := by
  unfold getStats getAllTasks
  dsimp only
  split
  · rw [show ∀ (st : SchedulerStats) (q : Double),
        ({ st with successRate := q } : SchedulerStats).cancelledTasks = st.cancelledTasks
        from fun _ _ => rfl, foldl_countTask_cancelled]
    simp
  · rw [foldl_countTask_cancelled]
    simp

theorem updateTaskStatus_tasks {U : Type} (s : Scheduler U) (taskId : String)
    (status : TaskStatus) :
    (s.updateTaskStatus taskId status).getTaskInfo taskId =
        (s.getTaskInfo taskId).map (fun t => { t with status := status }) ∧
      (∀ other, other ≠ taskId →
        (s.updateTaskStatus taskId status).getTaskInfo other = s.getTaskInfo other) ∧
      (s.updateTaskStatus taskId status).tasks_.length = s.tasks_.length := by
  unfold updateTaskStatus getTaskInfo
  cases h : mapFind taskId s.tasks_ with
  | none => simp [h]
  | some task =>
      refine ⟨by simp [mapFind_mapAssign_same], fun other hne => ?_, ?_⟩
      · exact mapFind_mapAssign_other _ _ _ _ hne
      · exact mapAssign_length _ _ _ _ h

end Scheduler

theorem getTimerInfo_cancelFirst {C : Type} (id : String) (timers : List (TimerInfo C))
    (timer : TimerInfo C)
    (h : timers.find? (fun x => decide (x.id = id)) = some timer) :
    (TimerManager.cancelFirst id timers).find? (fun x => decide (x.id = id)) =
      some { timer with status := .CANCELLED } := by
  induction timers with
  | nil => simp at h
  | cons x rest ih =>
      by_cases hx : x.id = id
      · simp only [List.find?_cons, hx, decide_True, Option.some.injEq] at h
        subst h
        simp [TimerManager.cancelFirst, hx]
      · simp only [List.find?_cons, hx, decide_False] at h
        simp [TimerManager.cancelFirst, hx, ih h]

/-- Claim C34, counterexample. The scheduler holds the repeat task `t`. The call
`cancelTask("t")` returns true; afterwards `getTaskInfo("t")` returns the task, with the
status `CANCELLED`, `getAllTasks` still contains it and `totalTasks` is 1 as before. -/
theorem cancel_task_counterexample :
    ((Demo.taskScheduler true).cancelTask "t").2 = true ∧
      (((Demo.taskScheduler true).cancelTask "t").1.getTaskInfo "t").map
          (fun t => t.status) = some .CANCELLED ∧
      ((Demo.taskScheduler true).cancelTask "t").1.getAllTasks.map (fun t => t.config.id) =
        ["t"] ∧
      (Demo.taskScheduler true).getStats.totalTasks = 1 ∧
      ((Demo.taskScheduler true).cancelTask "t").1.getStats.totalTasks = 1 :=
  ⟨rfl, rfl, rfl, rfl, rfl⟩

/-- Claim C34 as amended. After `Scheduler::cancelTask(id)` returns true the task is not
removed from the scheduler: the timer of the id has the status `CANCELLED`;
`getTaskInfo(id)` returns what it returned before, a task having now the status
`CANCELLED`; the other tasks are as before, `getAllTasks` has as many entries as before
and `getStats().totalTasks` is unchanged; `getStats().cancelledTasks` is the number of
tasks that now have the status `CANCELLED`, the cancelled one among them. -/
theorem cancel_task_keeps_the_task {U : Type} (s : Scheduler U) (taskId : String)
    (h : (s.cancelTask taskId).2 = true) :
    ((s.cancelTask taskId).1.timerManager_.getTimerInfo taskId).map (fun t => t.status) =
        some .CANCELLED ∧
      (s.cancelTask taskId).1.getTaskInfo taskId =
        (s.getTaskInfo taskId).map (fun t => { t with status := .CANCELLED }) ∧
      (∀ other, other ≠ taskId →
        (s.cancelTask taskId).1.getTaskInfo other = s.getTaskInfo other) ∧
      (s.cancelTask taskId).1.getAllTasks.length = s.getAllTasks.length ∧
      (s.cancelTask taskId).1.getStats.totalTasks = s.getStats.totalTasks ∧
      (s.cancelTask taskId).1.getStats.cancelledTasks =
        (((s.cancelTask taskId).1.getAllTasks.filter
          (fun task => decide (task.status = .CANCELLED))).length : Int) := by
  have hc : (s.timerManager_.cancelTimer taskId).2 = true := by
    unfold Scheduler.cancelTask at h
    split at h
    · assumption
    · cases h
  have hs : (s.cancelTask taskId).1 =
      ({ s with timerManager_ := (s.timerManager_.cancelTimer taskId).1 } :
        Scheduler U).updateTaskStatus taskId .CANCELLED := by
    simp only [Scheduler.cancelTask, hc, if_true]
  have h6 := Scheduler.getStats_cancelledTasks (s.cancelTask taskId).1
  rw [hs] at h6 ⊢
  obtain ⟨h1, h2, h3⟩ := Scheduler.updateTaskStatus_tasks
    ({ s with timerManager_ := (s.timerManager_.cancelTimer taskId).1 } : Scheduler U)
    taskId .CANCELLED
  refine ⟨?_, h1, h2, ?_, ?_, h6⟩
  · have ht : (({ s with timerManager_ := (s.timerManager_.cancelTimer taskId).1 } :
        Scheduler U).updateTaskStatus taskId .CANCELLED).timerManager_ =
        (s.timerManager_.cancelTimer taskId).1 := by
      unfold Scheduler.updateTaskStatus
      split <;> rfl
    rw [ht]
    unfold TimerManager.cancelTimer at hc ⊢
    cases hf : s.timerManager_.timers_.find? (fun timer => decide (timer.id = taskId)) with
    | none => simp [hf] at hc
    | some timer =>
        simp only [hf, TimerManager.getTimerInfo]
        rw [getTimerInfo_cancelFirst taskId _ timer hf]
        rfl
  · simp only [Scheduler.getAllTasks, List.length_map]
    exact h3
  · rw [Scheduler.getStats_totalTasks, Scheduler.getStats_totalTasks, h3]

/-- Claim C34 as amended, on the scheduler that holds the repeat task `t`: after the call
one task is counted as cancelled. -/
theorem cancel_task_keeps_the_task_witness :
    (((Demo.taskScheduler true).cancelTask "t").1.timerManager_.getTimerInfo "t").map
        (fun t => t.status) = some .CANCELLED ∧
      ((Demo.taskScheduler true).cancelTask "t").1.getTaskInfo "t" =
        ((Demo.taskScheduler true).getTaskInfo "t").map
          (fun t => { t with status := .CANCELLED }) ∧
      (∀ other, other ≠ "t" →
        ((Demo.taskScheduler true).cancelTask "t").1.getTaskInfo other =
          (Demo.taskScheduler true).getTaskInfo other) ∧
      ((Demo.taskScheduler true).cancelTask "t").1.getAllTasks.length =
        (Demo.taskScheduler true).getAllTasks.length ∧
      ((Demo.taskScheduler true).cancelTask "t").1.getStats.totalTasks =
        (Demo.taskScheduler true).getStats.totalTasks ∧
      ((Demo.taskScheduler true).cancelTask "t").1.getStats.cancelledTasks =
        ((((Demo.taskScheduler true).cancelTask "t").1.getAllTasks.filter
          (fun task => decide (task.status = .CANCELLED))).length : Int) ∧
      ((Demo.taskScheduler true).cancelTask "t").1.getStats.cancelledTasks = 1 ∧
      (Demo.taskScheduler true).getStats.cancelledTasks = 0 :=
  have h := cancel_task_keeps_the_task (Demo.taskScheduler true) "t" rfl
  ⟨h.1, h.2.1, h.2.2.1, h.2.2.2.1, h.2.2.2.2.1, h.2.2.2.2.2, rfl, rfl⟩

/-- Claim C35. In `Scheduler::executeTask` on a task that exists and is enabled, if
`tryAcquire` of the frequency limiter denies, the call returns at once: the user callback
is not called and the world is as before; the tasks are as before, so the status, the three
counters and `lastError` of the task are unchanged and the denial is not counted as a
failure; the resource monitor and the timers are as before. Only the limiter has changed,
by the call of `tryAcquire`. -/
theorem rate_limited_run_changes_nothing {U : Type} (clock : Clock) (s : Scheduler U)
    (r : Scheduler.RunClock) (taskId : String) (world : U)
    (henabled : (s.getTaskInfo taskId).map (fun t => t.config.enabled) = some true)
    (hdenied : (FrequencyLimiter.tryAcquire clock s.frequencyLimiter_ r.acquire r.stamp
      taskId).2 = false) :
    (Scheduler.executeTask clock s r taskId world).invoked = false ∧
      (Scheduler.executeTask clock s r taskId world).world = world ∧
      (Scheduler.executeTask clock s r taskId world).scheduler.tasks_ = s.tasks_ ∧
      (Scheduler.executeTask clock s r taskId world).scheduler.getTaskInfo taskId =
        s.getTaskInfo taskId ∧
      (Scheduler.executeTask clock s r taskId world).scheduler.getStats = s.getStats ∧
      (Scheduler.executeTask clock s r taskId world).scheduler.resourceMonitor_ =
        s.resourceMonitor_ ∧
      (Scheduler.executeTask clock s r taskId world).scheduler.timerManager_ =
        s.timerManager_ ∧
      (Scheduler.executeTask clock s r taskId world).scheduler.frequencyLimiter_ =
        (FrequencyLimiter.tryAcquire clock s.frequencyLimiter_ r.acquire r.stamp taskId).1 := by
  cases htask : s.getTaskInfo taskId with
  | none => simp [htask] at henabled
  | some task =>
      rw [htask] at henabled
      simp only [Option.map_some', Option.some.injEq] at henabled
      have hrun : Scheduler.executeTask clock s r taskId world =
          ⟨{ s with frequencyLimiter_ :=
              (FrequencyLimiter.tryAcquire clock s.frequencyLimiter_ r.acquire r.stamp
                taskId).1 }, world, false⟩ := by
        simp only [Scheduler.executeTask, htask, henabled, hdenied, Bool.not_true,
          Bool.not_false, Bool.false_eq_true, if_false, if_true]
      rw [hrun]
      exact ⟨rfl, rfl, rfl, htask, rfl, rfl, rfl, rfl⟩

/-- Claim C35 on the task `t`, limited to one execution in a minute: the call at 1 s has
run the callback, and the call at 1.1 s is denied by the limiter and changes nothing but
the limiter. -/
theorem rate_limited_run_changes_nothing_witness :
    (Demo.afterFirstRun.getTaskInfo "t").map
        (fun t => (t.status, t.executionCount, t.successCount, t.failureCount, t.lastError)) =
        some (.PENDING, 1, 1, 0, "") ∧
      (Scheduler.executeTask Demo.clock Demo.afterFirstRun (Demo.runAt 1100) "t"
        ["t"]).invoked = false ∧
      (Scheduler.executeTask Demo.clock Demo.afterFirstRun (Demo.runAt 1100) "t"
        ["t"]).scheduler.tasks_ = Demo.afterFirstRun.tasks_ ∧
      (Scheduler.executeTask Demo.clock Demo.afterFirstRun (Demo.runAt 1100) "t"
        ["t"]).scheduler.resourceMonitor_ = Demo.afterFirstRun.resourceMonitor_ :=
  ⟨rfl,
    (rate_limited_run_changes_nothing Demo.clock Demo.afterFirstRun (Demo.runAt 1100) "t"
      ["t"] rfl rfl).1,
    (rate_limited_run_changes_nothing Demo.clock Demo.afterFirstRun (Demo.runAt 1100) "t"
      ["t"] rfl rfl).2.2.1,
    (rate_limited_run_changes_nothing Demo.clock Demo.afterFirstRun (Demo.runAt 1100) "t"
      ["t"] rfl rfl).2.2.2.2.2.1⟩

/-- Claim C36, counterexample. The callback registered for the task `t` returns false
and is not left by an exception. After the call of `executeTask`, which the limiter and the
resource check let pass, the callback has been called and the task is `FAILED`, with one
execution counted as a failure, not `PENDING`. -/
theorem run_status_counterexample :
    Demo.answer false "t" "target" [] = (["t"], .returned false) ∧
      (Scheduler.executeTask Demo.clock (Demo.taskScheduler false) (Demo.runAt 1000) "t"
        []).invoked = true ∧
      ((Scheduler.executeTask Demo.clock (Demo.taskScheduler false) (Demo.runAt 1000) "t"
        []).scheduler.getTaskInfo "t").map
          (fun t => (t.status, t.config.repeatCount, t.executionCount, t.failureCount)) =
        some (.FAILED, -1, 1, 1) :=
  ⟨rfl, rfl, rfl⟩

/-- Claim C36 as amended. In `Scheduler::executeTask` on an enabled task that the limiter
lets pass: when the resource check denies, the user callback is not called and the task
becomes `FAILED` with `lastError` "Resource limit exceeded", the execution being counted
as a failure. When the resource check passes, the execution is counted and the status after
the run is `FAILED` if no callback is registered for the type of the task, or the callback
was left by an exception, or it returned false; if the callback returned true the task is
`PENDING` again, unless it has a cap (`repeatCount` other than -1) that the counted
executions have reached, in which case it is `COMPLETED`. -/
theorem run_status_after_execution {U : Type} (clock : Clock) (s : Scheduler U)
    (r : Scheduler.RunClock) (taskId : String) (world : U) (task : TaskInfo)
    (htask : s.getTaskInfo taskId = some task) (henabled : task.config.enabled = true)
    (hacquired : (FrequencyLimiter.tryAcquire clock s.frequencyLimiter_ r.acquire r.stamp
      taskId).2 = true) :
    (s.resourceMonitor_.checkLimits taskId = false →
        (Scheduler.executeTask clock s r taskId world).invoked = false ∧
        (Scheduler.executeTask clock s r taskId world).world = world ∧
        (Scheduler.executeTask clock s r taskId world).scheduler.getTaskInfo taskId =
          some { task with status := .FAILED, executionCount := task.executionCount + 1,
                           failureCount := task.failureCount + 1,
                           lastError := "Resource limit exceeded" }) ∧
      (s.resourceMonitor_.checkLimits taskId = true →
        (Scheduler.findCallback task.config.type s.callbacks_ = none →
          (Scheduler.executeTask clock s r taskId world).invoked = false ∧
          (Scheduler.executeTask clock s r taskId world).scheduler.getTaskInfo taskId =
            some { task with status := .FAILED, lastExecution := r.lastExecution,
                             executionCount := task.executionCount + 1,
                             failureCount := task.failureCount + 1,
                             lastError := "No callback registered for task type" }) ∧
        (∀ callback, Scheduler.findCallback task.config.type s.callbacks_ = some callback →
          (Scheduler.executeTask clock s r taskId world).invoked = true ∧
          (Scheduler.executeTask clock s r taskId world).world =
            (callback taskId task.config.targetId world).1 ∧
          ∃ after, (Scheduler.executeTask clock s r taskId world).scheduler.getTaskInfo
              taskId = some after ∧
            after.executionCount = task.executionCount + 1 ∧
            after.status =
              match (callback taskId task.config.targetId world).2 with
              | .returned true =>
                  if task.config.repeatCount = -1 ∨
                      task.executionCount + 1 < task.config.repeatCount then .PENDING
                  else .COMPLETED
              | _ => .FAILED)) := by
  have hfind : mapFind taskId s.tasks_ = some task := htask
  refine ⟨fun hdeny => ?_, fun hpass => ⟨fun hnone => ?_, fun callback hcb => ?_⟩⟩
  · simp [Scheduler.executeTask, htask, henabled, hacquired, hdeny,
      Scheduler.updateTaskStatus, Scheduler.recordTaskExecution, Scheduler.getTaskInfo, hfind,
      mapFind_mapAssign_same]
  · simp [Scheduler.executeTask, htask, henabled, hacquired, hpass,
      Scheduler.updateTaskStatus, Scheduler.setLastExecution,
      Scheduler.recordTaskExecution, Scheduler.runCallback, Scheduler.getTaskInfo, hfind,
      hnone, mapFind_mapAssign_same]
  · rcases hout : callback taskId task.config.targetId world with ⟨world1, outcome⟩
    cases outcome with
    | returned success =>
        cases success
        · simp [Scheduler.executeTask, htask, henabled, hacquired, hpass,
            Scheduler.updateTaskStatus, Scheduler.setLastExecution,
            Scheduler.recordTaskExecution, Scheduler.runCallback, Scheduler.getTaskInfo,
            hfind, hcb, hout, mapFind_mapAssign_same]
        · by_cases hcap : task.config.repeatCount = -1 ∨
              task.executionCount + 1 < task.config.repeatCount
          · simp [Scheduler.executeTask, htask, henabled, hacquired, hpass,
              Scheduler.updateTaskStatus, Scheduler.setLastExecution,
              Scheduler.recordTaskExecution, Scheduler.runCallback, Scheduler.getTaskInfo,
              hfind, hcb, hout, mapFind_mapAssign_same, hcap]
          · simp [Scheduler.executeTask, htask, henabled, hacquired, hpass,
              Scheduler.updateTaskStatus, Scheduler.setLastExecution,
              Scheduler.recordTaskExecution, Scheduler.runCallback, Scheduler.getTaskInfo,
              hfind, hcb, hout, mapFind_mapAssign_same, hcap]
    | raised what =>
        simp [Scheduler.executeTask, htask, henabled, hacquired, hpass,
          Scheduler.updateTaskStatus, Scheduler.setLastExecution,
          Scheduler.recordTaskExecution, Scheduler.runCallback, Scheduler.getTaskInfo,
          hfind, hcb, hout, mapFind_mapAssign_same]
    | raisedOther =>
        simp [Scheduler.executeTask, htask, henabled, hacquired, hpass,
          Scheduler.updateTaskStatus, Scheduler.setLastExecution,
          Scheduler.recordTaskExecution, Scheduler.runCallback, Scheduler.getTaskInfo,
          hfind, hcb, hout, mapFind_mapAssign_same]

/-- Claim C36 on the task `t` with a callback that returns true: the run is counted and
the task, which has no cap, is `PENDING` again. -/
theorem run_status_after_execution_witness :
    (Scheduler.executeTask Demo.clock (Demo.taskScheduler true) (Demo.runAt 1000) "t"
        []).invoked = true ∧
      (Scheduler.executeTask Demo.clock (Demo.taskScheduler true) (Demo.runAt 1000) "t"
        []).world = ["t"] ∧
      ∃ after, (Scheduler.executeTask Demo.clock (Demo.taskScheduler true) (Demo.runAt 1000)
          "t" []).scheduler.getTaskInfo "t" = some after ∧
        after.executionCount = 1 ∧ after.status = .PENDING :=
  ((run_status_after_execution Demo.clock (Demo.taskScheduler true) (Demo.runAt 1000) "t" []
    { config := Demo.repeatTask } rfl rfl rfl).2 rfl).2 (Demo.answer true) rfl

/-! ### The mutex of the resource monitor -/

/-- Claim C31, refuted. `getResourceStatus(id)`, called by a thread that does not own
`mutex_`, returns iff `id` is not monitored. For a monitored identifier the body calls
`checkLimits` while its own `lock_guard` holds `mutex_`, and the `lock_guard` of
`checkLimits` locks the same mutex again in the same thread: the call does not return.
This is so for the monitor of `testResourceMonitor`, which calls `getResourceStatus` after
each `recordUsage`, although `checkLimits` itself returns true there. -/
theorem getResourceStatus_blocks_when_monitored (m : ResourceMonitor) (now : TimePoint)
    (identifier : String) :
    ((ResourceMonitor.getResourceStatus false m now identifier).isSome =
        (mapFind identifier m.monitoringData_).isNone) ∧
      ResourceMonitor.checkLimitsLocking false m identifier =
        some (m.checkLimits identifier) ∧
      Demo.testMonitor.checkLimits "test_task" = true ∧
      ResourceMonitor.getResourceStatus false Demo.testMonitor (Demo.atMs 2) "test_task" =
        none := by
  refine ⟨?_, rfl, ?_, rfl⟩
  · unfold ResourceMonitor.getResourceStatus
    cases mapFind identifier m.monitoringData_ <;> rfl
  · simp [Demo.testMonitor, ResourceMonitor.checkLimits, ResourceMonitor.recordUsage,
      ResourceMonitor.startMonitoring, mapFind, mapAssign, ResourceMonitor.checkViolations]
    decide

end Snipper
